import Mathlib

/-! CasyOS task management (`os_task.c`): a shallow embedding.

The kernel state of `os_task.c` is embedded as a record `Kernel`.
Task control blocks live in memory; a pointer to a TCB is an `Option Nat`
(`none` is `NULL`, `some a` is the TCB at address `a`), and memory is modelled
field by field: `k.tick a` is the `tick` field of the TCB at address `a`,
`k.rdyNextPtr a` its `rdyNextPtr` field, and so on.

A C function whose behaviour is undefined on some input (array index out of
bounds, dereferencing `NULL`) or that does not return (`while(1){}`, a loop
that runs out of fuel) yields `none`.
-/

namespace CasyOS

/-! ## Configuration and data types (`os_cfg.h`, `CasyOS.h`) -/

/-- The number of priority levels, `#define OS_CFG_PRIO_MAX 32`. -/
def OS_CFG_PRIO_MAX : Nat := 32

/-- Task states, `enum OS_TASK_STAT`. -/
inductive OS_TASK_STAT where
  | OS_TASK_RUNNING
  | OS_TASK_READY
  | OS_TASK_DELAY
  | OS_TASK_PEND
  | OS_TASK_STOP
  deriving DecidableEq

/-- Head and tail pointer of one ready FIFO, `struct OS_RDY_LIST`. -/
structure OS_RDY_LIST where
  headPtr : Option Nat
  tailPtr : Option Nat
  deriving DecidableEq

/-- Head and tail pointer of the delta tick list, `struct OS_TICK_LIST`. -/
structure OS_TICK_LIST where
  headPtr : Option Nat
  tailPtr : Option Nat
  deriving DecidableEq

/-- Head and tail pointer of a wait queue, `struct OS_PEND_LIST`. -/
structure OS_PEND_LIST where
  headPtr : Option Nat
  tailPtr : Option Nat
  deriving DecidableEq

/-- The kernel state touched by `os_task.c`: the fields of every TCB
(`struct OS_TASK_HANDLE`, one map per field, indexed by the TCB address) and
the file-level variables `s_OSRdyLists`, `s_OSPrioBitMap`, `s_OSTickList`
and `g_pCurrentTask`. -/
structure Kernel where
  priority : Nat → Nat
  tick : Nat → Nat
  state : Nat → OS_TASK_STAT
  rdyNextPtr : Nat → Option Nat
  rdyPrevPtr : Nat → Option Nat
  tickNextPtr : Nat → Option Nat
  tickPrevPtr : Nat → Option Nat
  pendNextPtr : Nat → Option Nat
  pendPrevPtr : Nat → Option Nat
  s_OSRdyLists : Nat → OS_RDY_LIST
  s_OSPrioBitMap : Nat
  s_OSTickList : OS_TICK_LIST
  g_pCurrentTask : Option Nat

/-! ## Machine arithmetic -/

/-- Addition of two `u64` values. -/
def u64_add (a b : Nat) : Nat := (a + b) % 2 ^ 64

/-- Subtraction of two `u64` values. -/
def u64_sub (a b : Nat) : Nat := (a + (2 ^ 64 - b % 2 ^ 64)) % 2 ^ 64

/-- Number of leading zero bits among the lowest `n` bits of `x`, read from
bit `n - 1` downwards. -/
def clzAux : Nat → Nat → Nat
  | 0, _ => 0
  | n + 1, x => if x.testBit n then 0 else 1 + clzAux n x

/-- The compiler builtin `__builtin_clz` on a 32-bit word: the number of
leading zero bits, counted from bit 31 downwards. -/
def builtin_clz (x : Nat) : Nat := clzAux 32 x

/-! ## Priority bitmap -/

/-- `OS_BitMapInit`: clear the bitmap. -/
def OS_BitMapInit (k : Kernel) : Kernel :=
  { k with s_OSPrioBitMap := 0 }

/-- `OS_BitMapSet`: set bit `31 - prio`; an illegal priority is reported and ignored. -/
def OS_BitMapSet (prio : Nat) (k : Kernel) : Kernel :=
  if OS_CFG_PRIO_MAX ≤ prio then k
  else { k with s_OSPrioBitMap := k.s_OSPrioBitMap ||| ((1 <<< (31 - prio)) % 2 ^ 32) }

/-- `OS_BitMapClr`: clear bit `31 - prio`; an illegal priority is reported and ignored. -/
def OS_BitMapClr (prio : Nat) (k : Kernel) : Kernel :=
  if OS_CFG_PRIO_MAX ≤ prio then k
  else { k with s_OSPrioBitMap :=
          k.s_OSPrioBitMap &&& (((1 <<< (31 - prio)) % 2 ^ 32) ^^^ (2 ^ 32 - 1)) }

/-- `OS_BitMapGetHighest`: spins forever on an empty bitmap (no result),
otherwise the count of leading zeros of the bitmap. -/
def OS_BitMapGetHighest (k : Kernel) : Option Nat :=
  if k.s_OSPrioBitMap = 0 then none else some (builtin_clz k.s_OSPrioBitMap)

/-! ## Ready queues -/

/-- `OS_RdyListInit`: every ready FIFO gets a null head and tail. -/
def OS_RdyListInit (k : Kernel) : Kernel :=
  { k with s_OSRdyLists := fun i =>
      if i < OS_CFG_PRIO_MAX then { headPtr := none, tailPtr := none } else k.s_OSRdyLists i }

/-- `OS_RdyTaskAdd`: append the task to the tail of the ready FIFO of its
priority and set the bitmap bit. -/
def OS_RdyTaskAdd (p_tcb : Option Nat) (k : Kernel) : Option Kernel :=
  match p_tcb with
  | none => some k
  | some t =>
    let prio := k.priority t
    if OS_CFG_PRIO_MAX ≤ prio then none
    else
      let k1 := { k with rdyNextPtr := Function.update k.rdyNextPtr t none }
      let linked : Option Kernel :=
        match (k1.s_OSRdyLists prio).headPtr with
        | none =>
          some { k1 with
            rdyPrevPtr := Function.update k1.rdyPrevPtr t none
            s_OSRdyLists := Function.update k1.s_OSRdyLists prio
              { k1.s_OSRdyLists prio with headPtr := some t } }
        | some _ =>
          match (k1.s_OSRdyLists prio).tailPtr with
          | none => none
          | some tl =>
            some { k1 with
              rdyPrevPtr := Function.update k1.rdyPrevPtr t (some tl)
              rdyNextPtr := Function.update k1.rdyNextPtr tl (some t) }
      linked.map fun k2 =>
        OS_BitMapSet prio { k2 with
          s_OSRdyLists := Function.update k2.s_OSRdyLists prio
            { k2.s_OSRdyLists prio with tailPtr := some t } }

/-- The pointer surgery of `OS_RdyTaskRemove` before the links of the
removed task are cleared: the three cases head, tail and middle node. -/
def OS_RdyTaskRemove_unlink (t prio : Nat) (k : Kernel) : Kernel :=
  match k.rdyPrevPtr t with
  | none =>
    let k1 := { k with
      s_OSRdyLists := Function.update k.s_OSRdyLists prio
        { k.s_OSRdyLists prio with headPtr := k.rdyNextPtr t } }
    match k1.rdyNextPtr t with
    | some n => { k1 with rdyPrevPtr := Function.update k1.rdyPrevPtr n none }
    | none => k1
  | some pv =>
    match k.rdyNextPtr t with
    | none =>
      { k with
        s_OSRdyLists := Function.update k.s_OSRdyLists prio
          { k.s_OSRdyLists prio with tailPtr := some pv }
        rdyNextPtr := Function.update k.rdyNextPtr pv none }
    | some n =>
      { k with
        rdyNextPtr := Function.update k.rdyNextPtr pv (some n)
        rdyPrevPtr := Function.update k.rdyPrevPtr n (some pv) }

/-- `OS_RdyTaskRemove`: unlink the task from the ready FIFO of its priority,
clear its two ready links, and clear the bitmap bit when the FIFO head became
null. -/
def OS_RdyTaskRemove (p_tcb : Option Nat) (k : Kernel) : Option Kernel :=
  match p_tcb with
  | none => some k
  | some t =>
    let prio := k.priority t
    if OS_CFG_PRIO_MAX ≤ prio then none
    else
      let k1 := OS_RdyTaskRemove_unlink t prio k
      let k2 := { k1 with
        rdyNextPtr := Function.update k1.rdyNextPtr t none
        rdyPrevPtr := Function.update k1.rdyPrevPtr t none }
      if (k2.s_OSRdyLists prio).headPtr = none then some (OS_BitMapClr prio k2) else some k2

/-- `OS_UpdateCurrentTask`: the current task becomes the head of the ready
FIFO selected by the bitmap. -/
def OS_UpdateCurrentTask (k : Kernel) : Option Kernel :=
  match OS_BitMapGetHighest k with
  | none => none
  | some prio =>
    if OS_CFG_PRIO_MAX ≤ prio then none
    else some { k with g_pCurrentTask := (k.s_OSRdyLists prio).headPtr }

/-! ## Delta tick list -/

/-- `OS_TickListInit`: empty tick list. -/
def OS_TickListInit (k : Kernel) : Kernel :=
  { k with s_OSTickList := { headPtr := none, tailPtr := none } }

/-- `OSInitTaskSched`, restricted to the state modelled here: the ready
FIFOs, the tick list and the bitmap are initialised. -/
def OSInitTaskSched (k : Kernel) : Kernel :=
  OS_BitMapInit (OS_TickListInit (OS_RdyListInit k))

/-- The walk of `OS_TickTaskInsert` over a non-empty list: `cur` is the node
in front of which the task may be inserted, `prev` its predecessor and
`ticksRemain` the delay left relative to `prev`. One unit of fuel is one
evaluation of the loop condition. -/
def OS_TickTaskInsert_walk (t : Nat) :
    Nat → Nat → Option Nat → Option Nat → Kernel → Option Kernel
  | 0, _, _, _, _ => none
  | _ + 1, ticksRemain, none, p_tcb_prev, k =>
    match p_tcb_prev with
    | none => none
    | some pv =>
      let k1 := { k with
        tick := Function.update k.tick t ticksRemain
        tickPrevPtr := Function.update k.tickPrevPtr t (some pv)
        tickNextPtr := Function.update k.tickNextPtr t none }
      some { k1 with
        tickNextPtr := Function.update k1.tickNextPtr pv (some t)
        s_OSTickList := { k1.s_OSTickList with tailPtr := some t } }
  | fuel + 1, ticksRemain, some cur, _, k =>
    if ticksRemain ≤ k.tick cur then
      match k.tickPrevPtr cur with
      | none =>
        let k1 := { k with
          tick := Function.update k.tick t ticksRemain
          tickPrevPtr := Function.update k.tickPrevPtr t none
          tickNextPtr := Function.update k.tickNextPtr t (some cur) }
        let k2 := { k1 with tick := Function.update k1.tick cur (u64_sub (k1.tick cur) ticksRemain) }
        some { k2 with
          tickPrevPtr := Function.update k2.tickPrevPtr cur (some t)
          s_OSTickList := { headPtr := some t, tailPtr := some cur } }
      | some pv =>
        let k1 := { k with
          tick := Function.update k.tick t ticksRemain
          tickPrevPtr := Function.update k.tickPrevPtr t (some pv)
          tickNextPtr := Function.update k.tickNextPtr t (some cur) }
        let k2 := { k1 with tick := Function.update k1.tick cur (u64_sub (k1.tick cur) ticksRemain) }
        let k3 := { k2 with tickPrevPtr := Function.update k2.tickPrevPtr cur (some t) }
        some { k3 with tickNextPtr := Function.update k3.tickNextPtr pv (some t) }
    else
      OS_TickTaskInsert_walk t fuel (u64_sub ticksRemain (k.tick cur)) (k.tickNextPtr cur)
        (some cur) k

/-- `OS_TickTaskInsert`: a task whose tick field is zero goes to the ready
queue; on an empty list the task becomes the single node with
`tick = time`; otherwise the list is walked. -/
def OS_TickTaskInsert (fuel : Nat) (p_tcb : Option Nat) (time : Nat) (k : Kernel) :
    Option Kernel :=
  match p_tcb with
  | none => some k
  | some t =>
    if k.tick t = 0 then OS_RdyTaskAdd (some t) k
    else
      match k.s_OSTickList.headPtr with
      | none =>
        some { k with
          tick := Function.update k.tick t time
          tickNextPtr := Function.update k.tickNextPtr t none
          tickPrevPtr := Function.update k.tickPrevPtr t none
          s_OSTickList := { headPtr := some t, tailPtr := some t } }
      | some h => OS_TickTaskInsert_walk t fuel time (some h) none k

/-- `OS_TickTaskRemove`: unlink the task from the tick list and hand its
tick to its successor. -/
def OS_TickTaskRemove (p_tcb : Option Nat) (k : Kernel) : Kernel :=
  match p_tcb with
  | none => k
  | some t =>
    match k.tickPrevPtr t with
    | none =>
      match k.tickNextPtr t with
      | none =>
        { k with
          tickPrevPtr := Function.update k.tickPrevPtr t none
          tickNextPtr := Function.update k.tickNextPtr t none
          s_OSTickList := { headPtr := none, tailPtr := none } }
      | some n =>
        let k1 := { k with tickPrevPtr := Function.update k.tickPrevPtr n none }
        let k2 := { k1 with tick := Function.update k1.tick n (u64_add (k1.tick n) (k1.tick t)) }
        let k3 := { k2 with tickPrevPtr := Function.update k2.tickPrevPtr t none }
        { k3 with
          tickNextPtr := Function.update k3.tickNextPtr t none
          s_OSTickList := { k3.s_OSTickList with headPtr := some n } }
    | some pv =>
      let k1 := { k with tickNextPtr := Function.update k.tickNextPtr pv (k.tickNextPtr t) }
      let k2 : Kernel :=
        match k.tickNextPtr t with
        | some n =>
          let k1a := { k1 with tickPrevPtr := Function.update k1.tickPrevPtr n (some pv) }
          { k1a with tick := Function.update k1a.tick n (u64_add (k1a.tick n) (k1a.tick t)) }
        | none => { k1 with s_OSTickList := { k1.s_OSTickList with tailPtr := some pv } }
      { k2 with
        tickPrevPtr := Function.update k2.tickPrevPtr t none
        tickNextPtr := Function.update k2.tickNextPtr t none
        tick := Function.update k2.tick t 0 }

/-- The `while` loop of `OS_TickUpdate`: as long as the head of the tick list
exists and its tick is zero, it is removed from the tick list and added to the
ready queue. One unit of fuel is one evaluation of the loop condition. -/
def OS_TickUpdate_loop : Nat → Option Nat → Kernel → Option Kernel
  | 0, _, _ => none
  | _ + 1, none, k => some k
  | fuel + 1, some h, k =>
    if k.tick h = 0 then
      match OS_RdyTaskAdd (some h) (OS_TickTaskRemove (some h) k) with
      | none => none
      | some k2 => OS_TickUpdate_loop fuel k2.s_OSTickList.headPtr k2
    else some k

/-- `OS_TickUpdate`: nothing on an empty list; otherwise the head tick is
decremented and every head whose tick is zero is moved to the ready queue. -/
def OS_TickUpdate (fuel : Nat) (k : Kernel) : Option Kernel :=
  match k.s_OSTickList.headPtr with
  | none => some k
  | some h =>
    let k1 := { k with tick := Function.update k.tick h (u64_sub (k.tick h) 1) }
    OS_TickUpdate_loop fuel (some h) k1

/-! ## Wait queues

A wait queue lives inside a kernel object and is passed by pointer. The
functions below take the pointed-to `OS_PEND_LIST` (`none` for a `NULL`
pointer) and return its new value next to the new memory. -/

/-- `OS_PendListInit`: both pointers of the wait queue become null. -/
def OS_PendListInit (_p_pend_list : OS_PEND_LIST) : OS_PEND_LIST :=
  { headPtr := none, tailPtr := none }

/-- The `while` loop of `OS_PendListInsert`: advance as long as `cur` exists
and the priority number `prio` of the new task is greater than that of `cur`.
The result is the pair (`p_tcb_prev`, `p_tcb_cur`) at loop exit. One unit of
fuel is one evaluation of the loop condition. -/
def OS_PendListInsert_walk (prio : Nat) :
    Nat → Option Nat → Option Nat → Kernel → Option (Option Nat × Option Nat)
  | 0, _, _, _ => none
  | _ + 1, none, p_tcb_prev, _ => some (p_tcb_prev, none)
  | fuel + 1, some cur, p_tcb_prev, k =>
    if prio > k.priority cur then
      OS_PendListInsert_walk prio fuel (k.pendNextPtr cur) (some cur) k
    else some (p_tcb_prev, some cur)

/-- `OS_PendListInsert`: insert the task into the wait queue in front of the
node at which the walk stopped. -/
def OS_PendListInsert (fuel : Nat) (p_pend_list : Option OS_PEND_LIST) (p_tcb : Option Nat)
    (k : Kernel) : Option (Option OS_PEND_LIST × Kernel) :=
  match p_pend_list, p_tcb with
  | none, _ => some (none, k)
  | some pl, none => some (some pl, k)
  | some pl, some t =>
    match pl.headPtr with
    | none =>
      some (some { headPtr := some t, tailPtr := some t },
        { k with
          pendPrevPtr := Function.update k.pendPrevPtr t none
          pendNextPtr := Function.update k.pendNextPtr t none })
    | some h =>
      match OS_PendListInsert_walk (k.priority t) fuel (some h) none k with
      | none => none
      | some (none, none) => none
      | some (none, some cur) =>
        let k1 := { k with pendPrevPtr := Function.update k.pendPrevPtr cur (some t) }
        let k2 := { k1 with pendPrevPtr := Function.update k1.pendPrevPtr t none }
        some (some { pl with headPtr := some t },
          { k2 with pendNextPtr := Function.update k2.pendNextPtr t (some cur) })
      | some (some pv, none) =>
        let k1 := { k with pendNextPtr := Function.update k.pendNextPtr pv (some t) }
        let k2 := { k1 with pendPrevPtr := Function.update k1.pendPrevPtr t (some pv) }
        some (some { pl with tailPtr := some t },
          { k2 with pendNextPtr := Function.update k2.pendNextPtr t none })
      | some (some pv, some cur) =>
        let k1 := { k with pendNextPtr := Function.update k.pendNextPtr pv (some t) }
        let k2 := { k1 with pendPrevPtr := Function.update k1.pendPrevPtr cur (some t) }
        let k3 := { k2 with pendPrevPtr := Function.update k2.pendPrevPtr t (some pv) }
        some (some pl, { k3 with pendNextPtr := Function.update k3.pendNextPtr t (some cur) })

/-- `OS_PendListRemove`: unlink the task from the wait queue. -/
def OS_PendListRemove (p_pend_list : Option OS_PEND_LIST) (p_tcb : Option Nat) (k : Kernel) :
    Option OS_PEND_LIST × Kernel :=
  match p_pend_list, p_tcb with
  | none, _ => (none, k)
  | some pl, none => (some pl, k)
  | some pl, some t =>
    match k.pendPrevPtr t, k.pendNextPtr t with
    | none, none => (some { headPtr := none, tailPtr := none }, k)
    | none, some n =>
      let k1 := { k with pendPrevPtr := Function.update k.pendPrevPtr n none }
      (some { pl with headPtr := some n },
        { k1 with pendNextPtr := Function.update k1.pendNextPtr t none })
    | some pv, none =>
      let k1 := { k with pendNextPtr := Function.update k.pendNextPtr pv none }
      (some { pl with tailPtr := some pv },
        { k1 with pendPrevPtr := Function.update k1.pendPrevPtr t none })
    | some pv, some n =>
      let k1 := { k with pendNextPtr := Function.update k.pendNextPtr pv (some n) }
      let k2 := { k1 with pendPrevPtr := Function.update k1.pendPrevPtr n (some pv) }
      let k3 := { k2 with pendPrevPtr := Function.update k2.pendPrevPtr t none }
      (some pl, { k3 with pendNextPtr := Function.update k3.pendNextPtr t none })

/-- `OS_PendListGetHighest`: the head of the wait queue, `NULL` for a `NULL`
queue pointer. -/
def OS_PendListGetHighest (p_pend_list : Option OS_PEND_LIST) : Option Nat :=
  match p_pend_list with
  | none => none
  | some pl => pl.headPtr

/-! ## Memory allocator (`os_mem.c`)

The pool is a range of addresses; a pointer is an address (`Nat`), 0 is
`NULL`. A header `OS_MEM_NODE` at address `a` is the pair of cells
`m.memUsedSize a` and `m.memNextNode a`. Cells at different addresses are
independent, as in C for headers that do not overlap. The configuration
macros of the build (`os_cfg.h` of this demo is not part of the sources) and
the address of `s_OSMemoryPool` are parameters. -/

/-- The configuration of the allocator: `OS_MEM_MAX_SIZE`, `OS_MEM_ALIGN`,
`OS_MEM_NODE_SIZE = sizeof(OS_MEM_NODE)` and the address of `s_OSMemoryPool`. -/
structure MemCfg where
  OS_MEM_MAX_SIZE : Nat
  OS_MEM_ALIGN : Nat
  OS_MEM_NODE_SIZE : Nat
  s_OSMemoryPool : Nat

/-- The allocator state: the header cells of the pool and the fields of
`s_OSMemoryDev` (`memoryRdy` is `true` for `OS_MEM_READY`). -/
structure MemState where
  memUsedSize : Nat → Nat
  memNextNode : Nat → Nat
  memoryBase : Nat
  memoryEnd : Nat
  memoryList : Nat
  memoryRdy : Bool

/-- `#define OS_MEM_USED_FLAG 0x80000000`. -/
def OS_MEM_USED_FLAG : Nat := 0x80000000

/-- `#define OS_MEM_SIZE_MASK 0x7FFFFFFF`. -/
def OS_MEM_SIZE_MASK : Nat := 0x7FFFFFFF

/-- Addition of two `u32` values. -/
def u32_add (a b : Nat) : Nat := (a + b) % 2 ^ 32

/-- Subtraction of two `u32` values. -/
def u32_sub (a b : Nat) : Nat := (a + (2 ^ 32 - b % 2 ^ 32)) % 2 ^ 32

/-- The macro `OS_MEM_ALIGN_UP(x) = ((x + (OS_MEM_ALIGN - 1)) & ~(OS_MEM_ALIGN - 1))`
on `u32`. -/
def OS_MEM_ALIGN_UP (cfg : MemCfg) (x : Nat) : Nat :=
  u32_add x ((cfg.OS_MEM_ALIGN - 1) % 2 ^ 32) &&&
    (((cfg.OS_MEM_ALIGN - 1) % 2 ^ 32) ^^^ (2 ^ 32 - 1))

/-- The body of the `if` in the loop of `MallocMemory` (lines 98 to 114): the
free block at `currNode`, of size `blockSize`, is taken for a request of
`reqMemSize` bytes, with or without a split. The result is the returned
address and the new state. -/
def MallocMemory_take (cfg : MemCfg) (reqMemSize currNode blockSize : Nat) (m : MemState) :
    Nat × MemState :=
  if blockSize ≥ u32_add (u32_add reqMemSize cfg.OS_MEM_NODE_SIZE) (cfg.OS_MEM_ALIGN % 2 ^ 32) then
    let newNode := currNode + cfg.OS_MEM_NODE_SIZE + reqMemSize
    let newSize := u32_sub (u32_sub blockSize reqMemSize) cfg.OS_MEM_NODE_SIZE &&& OS_MEM_SIZE_MASK
    let m1 := { m with memUsedSize := Function.update m.memUsedSize newNode newSize }
    let m2 :=
      { m1 with memNextNode := Function.update m1.memNextNode newNode (m1.memNextNode currNode) }
    let m3 := { m2 with memNextNode := Function.update m2.memNextNode currNode newNode }
    let usedWord := reqMemSize ||| OS_MEM_USED_FLAG
    (currNode + cfg.OS_MEM_NODE_SIZE,
      { m3 with memUsedSize := Function.update m3.memUsedSize currNode usedWord })
  else
    let usedWord := m.memUsedSize currNode ||| OS_MEM_USED_FLAG
    (currNode + cfg.OS_MEM_NODE_SIZE,
      { m with memUsedSize := Function.update m.memUsedSize currNode usedWord })

/-- The `while` loop of `MallocMemory`: walk the header list from `currNode`
and take the first block that is free and large enough; `NULL` (0) if the
list ends. One unit of fuel is one evaluation of the loop condition. -/
def MallocMemory_walk (cfg : MemCfg) (reqMemSize : Nat) :
    Nat → Nat → MemState → Option (Nat × MemState)
  | 0, _, _ => none
  | fuel + 1, currNode, m =>
    if currNode = 0 then some (0, m)
    else
      let usedFlag := m.memUsedSize currNode &&& OS_MEM_USED_FLAG
      let blockSize := m.memUsedSize currNode &&& OS_MEM_SIZE_MASK
      if usedFlag = 0 ∧ blockSize ≥ reqMemSize then
        some (MallocMemory_take cfg reqMemSize currNode blockSize m)
      else MallocMemory_walk cfg reqMemSize fuel (m.memNextNode currNode) m

/-- `MallocMemory`: first fit over the header list for the aligned size. -/
def MallocMemory (cfg : MemCfg) (fuel size : Nat) (m : MemState) : Option (Nat × MemState) :=
  MallocMemory_walk cfg (OS_MEM_ALIGN_UP cfg size) fuel m.memoryList m

/-- `OSInitMemory`: the pool bounds are recorded and the pool becomes one
free block behind a single header at the pool base. -/
def OSInitMemory (cfg : MemCfg) (m : MemState) : MemState :=
  { memoryBase := cfg.s_OSMemoryPool
    memoryEnd := cfg.s_OSMemoryPool + cfg.OS_MEM_MAX_SIZE
    memUsedSize := Function.update m.memUsedSize cfg.s_OSMemoryPool
      ((u32_sub (cfg.OS_MEM_MAX_SIZE % 2 ^ 32) cfg.OS_MEM_NODE_SIZE) &&& OS_MEM_SIZE_MASK)
    memNextNode := Function.update m.memNextNode cfg.s_OSMemoryPool 0
    memoryList := cfg.s_OSMemoryPool
    memoryRdy := true }

/-- `OSMalloc`: argument and readiness checks, `MallocMemory`, and the range
check of the returned address. The result is the returned pointer (0 for
`NULL`) and the new state. -/
def OSMalloc (cfg : MemCfg) (fuel size : Nat) (m : MemState) : Option (Nat × MemState) :=
  if size = 0 ∨ size ≥ cfg.OS_MEM_MAX_SIZE then some (0, m)
  else if m.memoryRdy = false then some (0, m)
  else
    match MallocMemory cfg fuel size m with
    | none => none
    | some (ptr, m1) =>
      if ptr = 0 ∨ ptr ≤ m1.memoryBase ∨ ptr ≥ m1.memoryEnd then some (0, m1)
      else some (ptr, m1)

/-- The predecessor search of `OSFree`: advance `prevNode` until it is `NULL`
or its next pointer is `currNode`. One unit of fuel is one evaluation of the
loop condition. -/
def OSFree_findPrev (currNode : Nat) : Nat → Nat → MemState → Option Nat
  | 0, _, _ => none
  | fuel + 1, prevNode, m =>
    if prevNode ≠ 0 ∧ m.memNextNode prevNode ≠ currNode then
      OSFree_findPrev currNode fuel (m.memNextNode prevNode) m
    else some prevNode

/-- The first half of `OSFree` (lines 272 to 281): clear the used flag of
the block and absorb the next header if it exists and is free. -/
def OSFree_mergeNext (cfg : MemCfg) (currNode : Nat) (m : MemState) : MemState :=
  let freeWord := m.memUsedSize currNode &&& OS_MEM_SIZE_MASK
  let m1 := { m with memUsedSize := Function.update m.memUsedSize currNode freeWord }
  let nextNode := m1.memNextNode currNode
  if nextNode ≠ 0 ∧ m1.memUsedSize nextNode &&& OS_MEM_USED_FLAG = 0 then
    let merged := u32_add (u32_add (m1.memUsedSize currNode &&& OS_MEM_SIZE_MASK)
      (m1.memUsedSize nextNode &&& OS_MEM_SIZE_MASK)) cfg.OS_MEM_NODE_SIZE
    let m2 := { m1 with memUsedSize := Function.update m1.memUsedSize currNode merged }
    { m2 with memNextNode := Function.update m2.memNextNode currNode (m2.memNextNode nextNode) }
  else m1

/-- The second half of `OSFree` (lines 289 to 293): the predecessor found by
the search absorbs the block if it exists and is free. -/
def OSFree_mergePrev (cfg : MemCfg) (currNode prevNode : Nat) (m : MemState) : MemState :=
  if prevNode ≠ 0 ∧ m.memUsedSize prevNode &&& OS_MEM_USED_FLAG = 0 then
    let merged := u32_add (u32_add (m.memUsedSize prevNode &&& OS_MEM_SIZE_MASK)
      (m.memUsedSize currNode &&& OS_MEM_SIZE_MASK)) cfg.OS_MEM_NODE_SIZE
    let m1 := { m with memUsedSize := Function.update m.memUsedSize prevNode merged }
    { m1 with memNextNode := Function.update m1.memNextNode prevNode (m1.memNextNode currNode) }
  else m

/-- `OSFree`: nothing for a null pointer; otherwise the header in front of
`ptr` is marked free and merged with its free neighbours. -/
def OSFree (cfg : MemCfg) (fuel ptr : Nat) (m : MemState) : Option MemState :=
  if ptr = 0 then some m
  else
    let currNode := ptr - cfg.OS_MEM_NODE_SIZE
    let m1 := OSFree_mergeNext cfg currNode m
    match OSFree_findPrev currNode fuel m1.memoryList m1 with
    | none => none
    | some prevNode => some (OSFree_mergePrev cfg currNode prevNode m1)

/-- Multiplication of two `u32` values. -/
def u32_mul (a b : Nat) : Nat := (a * b) % 2 ^ 32

/-- The `while` loop of `OSMemoryPerused`: walk the header list from `curr`
and add payload size plus header size of every used header to `used` (a
`u32`). One unit of fuel is one evaluation of the loop condition. -/
def OSMemoryPerused_walk (cfg : MemCfg) : Nat → Nat → Nat → MemState → Option Nat
  | 0, _, _, _ => none
  | fuel + 1, curr, used, m =>
    if curr = 0 then some used
    else if m.memUsedSize curr &&& OS_MEM_USED_FLAG ≠ 0 then
      OSMemoryPerused_walk cfg fuel (m.memNextNode curr)
        (u32_add used
          (u32_add (m.memUsedSize curr &&& OS_MEM_SIZE_MASK) (cfg.OS_MEM_NODE_SIZE % 2 ^ 32))) m
    else OSMemoryPerused_walk cfg fuel (m.memNextNode curr) used m

/-- `OSMemoryPerused`: `(used * 1000) / total` in `u32` arithmetic, returned
as a `u16`; `total` is `memoryEnd - memoryBase`. A division by zero has no
result. -/
def OSMemoryPerused (cfg : MemCfg) (fuel : Nat) (m : MemState) : Option Nat :=
  let total := u32_sub (m.memoryEnd % 2 ^ 32) m.memoryBase
  match OSMemoryPerused_walk cfg fuel m.memoryList 0 m with
  | none => none
  | some used => if total = 0 then none else some ((u32_mul used 1000 / total) % 2 ^ 16)

/-! ## Event-flag groups (`os_flag.c`)

An event-flag group `OS_FLAG` lives at an address; its fields are maps
indexed by that address, like the fields of a TCB. The state `Sys` adds to
`Kernel` the TCB fields and the `OS_FLAG` fields that `os_flag.c` reads and
writes (the `name` field is written once and never read; it is left out).
Flag words, masks and enumeration values are numbers. `OS_ENTER_CRITICAL` and
`OS_EXIT_CRITICAL` have no effect on this state. -/

/-- `OS_OBJ_TYPE_FLAG`, the fifth value of `enum OS_OBJ_TYPE`. -/
def OS_OBJ_TYPE_FLAG : Nat := 4

/-- `OS_FLAG_WAIT_NONE`, the first value of `enum OS_FLAG_PEDN_OPT`. -/
def OS_FLAG_WAIT_NONE : Nat := 0

/-- `OS_FLAG_WAIT_SET_ALL`: wait until all bits of the mask are 1. -/
def OS_FLAG_WAIT_SET_ALL : Nat := 1

/-- `OS_FLAG_WAIT_SET_ANY`: wait until some bit of the mask is 1. -/
def OS_FLAG_WAIT_SET_ANY : Nat := 2

/-- `OS_FLAG_WAIT_CLR_ALL`: wait until all bits of the mask are 0. -/
def OS_FLAG_WAIT_CLR_ALL : Nat := 3

/-- `OS_FLAG_WAIT_CLR_ANY`: wait until some bit of the mask is 0. -/
def OS_FLAG_WAIT_CLR_ANY : Nat := 4

/-- `OS_FLAG_SET`, the first value of `enum OS_FLAG_SET_OPT`. -/
def OS_FLAG_SET : Nat := 0

/-- `OS_FLAG_CLR`, the second value of `enum OS_FLAG_SET_OPT`. -/
def OS_FLAG_CLR : Nat := 1

/-- Bitwise complement of a `u32` value. -/
def u32_not (x : Nat) : Nat := (x % 2 ^ 32) ^^^ (2 ^ 32 - 1)

/-- The kernel state together with what `os_flag.c` touches: the TCB fields
`pendObj` (the address of the object waited for, `none` for `NULL`),
`flagsMaskPendOn` and `flagsPendOpt`, the fields `objType`, `pendList` and
`flags` of every `OS_FLAG` (indexed by its address), and whether a switch has
been requested. -/
structure Sys where
  kernel : Kernel
  pendObj : Nat → Option Nat
  flagsMaskPendOn : Nat → Nat
  flagsPendOpt : Nat → Nat
  objType : Nat → Nat
  pendList : Nat → OS_PEND_LIST
  flags : Nat → Nat
  schedRequested : Bool

/-- `IsFlagsMatch`: 1 if the flag word `flags` satisfies the wait condition
recorded in the TCB `p_tcb`, otherwise 0. -/
def IsFlagsMatch (flags : Nat) (p_tcb : Nat) (s : Sys) : Nat :=
  let mask := s.flagsMaskPendOn p_tcb
  if s.flagsPendOpt p_tcb = OS_FLAG_WAIT_SET_ALL then
    if flags &&& mask = mask then 1 else 0
  else if s.flagsPendOpt p_tcb = OS_FLAG_WAIT_SET_ANY then
    if flags &&& mask ≠ 0 then 1 else 0
  else if s.flagsPendOpt p_tcb = OS_FLAG_WAIT_CLR_ALL then
    if flags &&& mask = 0 then 1 else 0
  else if s.flagsPendOpt p_tcb = OS_FLAG_WAIT_CLR_ANY then
    if flags &&& mask ≠ mask then 1 else 0
  else 0

/-- The body of the loop of `PendListGetHighestMatch` for the waiter `t`:
the new value of `p_best`. -/
def PendListGetHighestMatch_pick (flags : Nat) (s : Sys) (p_best : Option Nat) (t : Nat) :
    Option Nat :=
  if IsFlagsMatch flags t s ≠ 0 then
    match p_best with
    | none => some t
    | some b => if s.kernel.priority t < s.kernel.priority b then some t else some b
  else p_best

/-- The `while` loop of `PendListGetHighestMatch`. One unit of fuel is one
evaluation of the loop condition. -/
def PendListGetHighestMatch_loop (flags : Nat) :
    Nat → Option Nat → Option Nat → Sys → Option (Option Nat)
  | 0, _, _, _ => none
  | _ + 1, none, p_best, _ => some p_best
  | fuel + 1, some t, p_best, s =>
    PendListGetHighestMatch_loop flags fuel (s.kernel.pendNextPtr t)
      (PendListGetHighestMatch_pick flags s p_best t) s

/-- `PendListGetHighestMatch`: the waiter of the queue whose condition is
satisfied by `flags` and whose priority number is smallest (the first such
waiter from the head), `NULL` if there is none. -/
def PendListGetHighestMatch (fuel : Nat) (p_pend_list : Option OS_PEND_LIST) (flags : Nat)
    (s : Sys) : Option (Option Nat) :=
  match p_pend_list with
  | none => some none
  | some pl =>
    if pl.headPtr = none then some none
    else PendListGetHighestMatch_loop flags fuel pl.headPtr none s

/-- Modelled from the spec: `OS_Sched`, whose body is not part of the
sources (`CasyOS.h` declares it: "trigger scheduling, usually by triggering
PendSV"). The yield request sets the pend-service exception pending; the
switch itself happens in the exception handler. -/
def OS_Sched (s : Sys) : Sys := { s with schedRequested := true }

/-- `OSFlagCreate`: the group becomes a flag object with an empty wait queue
and the given flag word. -/
def OSFlagCreate (p_flag : Option Nat) (init_flags : Nat) (s : Sys) : Option Sys :=
  match p_flag with
  | none => none
  | some f =>
    some { s with
      objType := Function.update s.objType f OS_OBJ_TYPE_FLAG
      pendList := Function.update s.pendList f { headPtr := none, tailPtr := none }
      flags := Function.update s.flags f init_flags }

/-- The part of `OSFlagPost` that wakes the waiter `t` (lines 195 to 208). -/
def OSFlagPost_wake (f t : Nat) (s : Sys) : Option Sys :=
  let s1 :=
    if s.flagsPendOpt t = OS_FLAG_WAIT_SET_ALL ∨ s.flagsPendOpt t = OS_FLAG_WAIT_SET_ANY then
      { s with flags := Function.update s.flags f (s.flags f &&& u32_not (s.flagsMaskPendOn t)) }
    else s
  match OS_PendListRemove (some (s1.pendList f)) (some t) s1.kernel with
  | (none, _) => none
  | (some pl, k1) =>
    match OS_RdyTaskAdd (some t) k1 with
    | none => none
    | some k2 =>
      let k3 := { k2 with state := Function.update k2.state t OS_TASK_STAT.OS_TASK_READY }
      some (OS_Sched { s1 with
        kernel := k3
        pendList := Function.update s1.pendList f pl
        pendObj := Function.update s1.pendObj t none })

/-- `OSFlagPost`: set or clear the bits of `mask` in the flag word, then wake
the waiter found by `PendListGetHighestMatch`, if any. -/
def OSFlagPost (fuel : Nat) (p_flag : Option Nat) (mask opt : Nat) (s : Sys) : Option Sys :=
  match p_flag with
  | none => some s
  | some f =>
    if s.objType f ≠ OS_OBJ_TYPE_FLAG then some s
    else
      let curFlags :=
        if opt = OS_FLAG_SET then s.flags f ||| mask else s.flags f &&& u32_not mask
      let s1 := { s with flags := Function.update s.flags f curFlags }
      if (s1.pendList f).headPtr ≠ none then
        match PendListGetHighestMatch fuel (some (s1.pendList f)) curFlags s1 with
        | none => none
        | some none => some s1
        | some (some t) => OSFlagPost_wake f t s1
      else some s1

/-- `OSFlagPend`: record mask and mode in the current task; if the flag word
satisfies the condition, consume and return, otherwise move the current task
from its ready FIFO to the wait queue of the group and request a switch. -/
def OSFlagPend (fuel : Nat) (p_flag : Option Nat) (mask opt : Nat) (s : Sys) : Option Sys :=
  match p_flag with
  | none => some s
  | some f =>
    if s.objType f ≠ OS_OBJ_TYPE_FLAG then some s
    else
      match s.kernel.g_pCurrentTask with
      | none => none
      | some cur =>
        let s1 := { s with
          flagsMaskPendOn := Function.update s.flagsMaskPendOn cur mask
          flagsPendOpt := Function.update s.flagsPendOpt cur opt }
        if IsFlagsMatch (s1.flags f) cur s1 ≠ 0 then
          let s2 :=
            if opt = OS_FLAG_WAIT_SET_ALL ∨ OS_FLAG_WAIT_SET_ANY ≠ 0 then
              { s1 with flags := Function.update s1.flags f (s1.flags f &&& u32_not mask) }
            else s1
          some { s2 with
            flagsMaskPendOn := Function.update s2.flagsMaskPendOn cur 0
            flagsPendOpt := Function.update s2.flagsPendOpt cur OS_FLAG_WAIT_NONE }
        else
          match OS_RdyTaskRemove (some cur) s1.kernel with
          | none => none
          | some k1 =>
            match OS_PendListInsert fuel (some (s1.pendList f)) (some cur) k1 with
            | none => none
            | some (none, _) => none
            | some (some pl, k2) =>
              let k3 := { k2 with state := Function.update k2.state cur OS_TASK_STAT.OS_TASK_PEND }
              some (OS_Sched { s1 with
                kernel := k3
                pendList := Function.update s1.pendList f pl
                pendObj := Function.update s1.pendObj cur (some f) })

/-! ## Global task list (`os_task.c`)

The list of all tasks is singly linked through the `nextPtr` field of the
TCBs. It starts at the global `g_OSTaskListHead`, a TCB of its own that
serves as sentinel ("stores no real task"). -/

/-- The state of the global task list: the address of the global
`g_OSTaskListHead` and the fields `nextPtr` and `func` of every TCB (the
sentinel included), indexed by the TCB address. A `func` value is an address,
0 for `NULL`. -/
structure TaskList where
  g_OSTaskListHead : Nat
  nextPtr : Nat → Option Nat
  func : Nat → Nat

/-- `OS_TaskListInit`: the next pointer of the sentinel is cleared. -/
def OS_TaskListInit (r : TaskList) : TaskList :=
  { r with nextPtr := Function.update r.nextPtr r.g_OSTaskListHead none }

/-- The `while` loop of `OS_TaskListAdd`: advance `pCurrTask` while its next
pointer is not null; the result is the last node. One unit of fuel is one
evaluation of the loop condition. -/
def OS_TaskListAdd_walk : Nat → Nat → TaskList → Option Nat
  | 0, _, _ => none
  | fuel + 1, pCurrTask, r =>
    match r.nextPtr pCurrTask with
    | none => some pCurrTask
    | some n => OS_TaskListAdd_walk fuel n r

/-- `OS_TaskListAdd`: the task is linked behind the last node of the list
and its own next pointer is cleared. -/
def OS_TaskListAdd (fuel : Nat) (p_tcb : Option Nat) (r : TaskList) : Option TaskList :=
  match p_tcb with
  | none => some r
  | some t =>
    match OS_TaskListAdd_walk fuel r.g_OSTaskListHead r with
    | none => none
    | some last =>
      let r1 := { r with nextPtr := Function.update r.nextPtr last (some t) }
      some { r1 with nextPtr := Function.update r1.nextPtr t none }

/-- The `while` loop of `OS_TaskListRemove`. `pPrevTask` is the node whose
successor is tested and `pCurrTask` the second local of the function. When the
successor of `pPrevTask` is the task, it is unlinked and the function returns.
Otherwise the loop body is `pCurrTask = pCurrTask->nextPtr`, which reads
through `pCurrTask` (no result for a null pointer) and leaves `pPrevTask` as it
is. When the successor of `pPrevTask` is null the loop ends and the warning is
printed. One unit of fuel is one evaluation of the loop condition. -/
def OS_TaskListRemove_loop (t : Nat) : Nat → Nat → Option Nat → TaskList → Option TaskList
  | 0, _, _, _ => none
  | fuel + 1, pPrevTask, pCurrTask, r =>
    match r.nextPtr pPrevTask with
    | none => some r
    | some n =>
      if n = t then
        let r1 := { r with nextPtr := Function.update r.nextPtr pPrevTask (r.nextPtr n) }
        some { r1 with nextPtr := Function.update r1.nextPtr n none }
      else
        match pCurrTask with
        | none => none
        | some c => OS_TaskListRemove_loop t fuel pPrevTask (r.nextPtr c) r

/-- `OS_TaskListRemove`. The local `pCurrTask` is not initialised before the
loop reads it: the value it happens to hold on entry is the parameter
`pCurrTask`. -/
def OS_TaskListRemove (fuel : Nat) (p_tcb : Option Nat) (pCurrTask : Option Nat) (r : TaskList) :
    Option TaskList :=
  match p_tcb with
  | none => some r
  | some t => OS_TaskListRemove_loop t fuel r.g_OSTaskListHead pCurrTask r

/-- The `while` loop of the case `OS_TASK_ID_FUNC` of `OSTaskFind`: the first
TCB from `p_tcb` on whose `func` field equals `key`, `NULL` at the end of the
list. One unit of fuel is one evaluation of the loop condition. -/
def OSTaskFind_loop (key : Nat) : Nat → Option Nat → TaskList → Option (Option Nat)
  | 0, _, _ => none
  | _ + 1, none, _ => some none
  | fuel + 1, some p, r =>
    if r.func p = key then some (some p) else OSTaskFind_loop key fuel (r.nextPtr p) r

/-- `OSTaskFind(OS_TASK_ID_FUNC, key)` with `OS_CFG_TASK_FUNC_EN` set, as in
`os_cfg.h`: `p_tcb` starts as `&g_OSTaskListHead`. -/
def OSTaskFind_FUNC (fuel : Nat) (key : Nat) (r : TaskList) : Option (Option Nat) :=
  OSTaskFind_loop key fuel (some r.g_OSTaskListHead) r

/-! ## Moving all waiters to the ready queues -/

/-- The `while` loop of `OS_PendListPopAlltoRdyList`: the successor of the
waiter is read, the waiter is removed from the wait queue and added to the
ready queue, and the walk goes on with the successor. One unit of fuel is one
evaluation of the loop condition. -/
def OS_PendListPopAlltoRdyList_loop :
    Nat → Option Nat → OS_PEND_LIST → Kernel → Option (OS_PEND_LIST × Kernel)
  | 0, _, _, _ => none
  | _ + 1, none, pl, k => some (pl, k)
  | fuel + 1, some t, pl, k =>
    let p_tcb_next := k.pendNextPtr t
    let r := OS_PendListRemove (some pl) (some t) k
    match OS_RdyTaskAdd (some t) r.2 with
    | none => none
    | some k2 => OS_PendListPopAlltoRdyList_loop fuel p_tcb_next (r.1.getD pl) k2

/-- `OS_PendListPopAlltoRdyList`: nothing for a null queue pointer or a queue
whose head and tail are both null; otherwise every waiter is moved to the
ready queue, from the head on. -/
def OS_PendListPopAlltoRdyList (fuel : Nat) (p_pend_list : Option OS_PEND_LIST) (k : Kernel) :
    Option (Option OS_PEND_LIST × Kernel) :=
  match p_pend_list with
  | none => some (none, k)
  | some pl =>
    if pl.headPtr = none ∧ pl.tailPtr = none then some (some pl, k)
    else
      match OS_PendListPopAlltoRdyList_loop fuel pl.headPtr pl k with
      | none => none
      | some (pl2, k2) => some (some pl2, k2)
/-- The naive search of the specification, to be compared with
`PendListGetHighestMatch`: walk the wait queue from `p_tcb` and return the
first task whose wait condition `IsFlagsMatch` is satisfied by `flags`; `NULL`
at the end of the queue. One unit of fuel is one visited pointer. -/
def naiveFirstMatch_loop (flags : Nat) : Nat → Option Nat → Sys → Option (Option Nat)
  | 0, _, _ => none
  | _ + 1, none, _ => some none
  | fuel + 1, some t, s =>
    if IsFlagsMatch flags t s ≠ 0 then some (some t)
    else naiveFirstMatch_loop flags fuel (s.kernel.pendNextPtr t) s

/-- The naive search of the specification on a wait queue: the first waiter
from the head whose wait condition is satisfied by `flags`. -/
def naiveFirstMatch (fuel : Nat) (p_pend_list : Option OS_PEND_LIST) (flags : Nat) (s : Sys) :
    Option (Option Nat) :=
  match p_pend_list with
  | none => some none
  | some pl => naiveFirstMatch_loop flags fuel pl.headPtr s

/-! ## Representation predicates -/

/-- `DSeg nx pv q p l r`: following the forward links `nx` from the pointer
`p` visits exactly the nodes `l`, in order, and then arrives at `r`; the back
link `pv` of each node is its predecessor in `l`, and `q` for the first. -/
def DSeg (nx pv : Nat → Option Nat) : Option Nat → Option Nat → List Nat → Option Nat → Prop
  | _, p, [], r => p = r
  | q, p, a :: l, r => p = some a ∧ pv a = q ∧ DSeg nx pv (some a) (nx a) l r

/-- The last node of `l` as a pointer, or `q` when `l` is empty. -/
def lastPtr (q : Option Nat) : List Nat → Option Nat
  | [] => q
  | a :: l => lastPtr (some a) l

/-- The first node of `l` as a pointer, or `r` when `l` is empty. -/
def firstPtr (l : List Nat) (r : Option Nat) : Option Nat :=
  match l with
  | [] => r
  | a :: _ => some a

/-- The ready FIFO of priority `p` holds the tasks `l`, head to tail: the
links spell out `l`, the tail pointer of a non-empty FIFO is its last task, no
task occurs twice and every member has priority `p`. -/
def RdyFifo (k : Kernel) (p : Nat) (l : List Nat) : Prop :=
  DSeg k.rdyNextPtr k.rdyPrevPtr none (k.s_OSRdyLists p).headPtr l none ∧
  (l ≠ [] → (k.s_OSRdyLists p).tailPtr = lastPtr none l) ∧
  l.Nodup ∧ ∀ t ∈ l, k.priority t = p

/-- The ready FIFOs of `k` hold the tasks `q p`, head to tail, for every
priority `p` below `OS_CFG_PRIO_MAX`. -/
def RdyInv (k : Kernel) (q : Nat → List Nat) : Prop :=
  ∀ p, p < OS_CFG_PRIO_MAX → RdyFifo k p (q p)

/-- The bitmap is a 32-bit word whose bit `31 - p` tells whether `q p` is
non-empty. -/
def BitMapInv (k : Kernel) (q : Nat → List Nat) : Prop :=
  k.s_OSPrioBitMap < 2 ^ 32 ∧
    ∀ p, p < OS_CFG_PRIO_MAX → (k.s_OSPrioBitMap.testBit (31 - p) = true ↔ q p ≠ [])

/-- Only the ready side of the kernel changed between `k` and `k'`: the
priorities, ticks, states, tick and pend links, the tick list and the current
task are the same. -/
def RdyFrame (k k' : Kernel) : Prop :=
  k'.priority = k.priority ∧ k'.tick = k.tick ∧ k'.state = k.state ∧
  k'.tickNextPtr = k.tickNextPtr ∧ k'.tickPrevPtr = k.tickPrevPtr ∧
  k'.pendNextPtr = k.pendNextPtr ∧ k'.pendPrevPtr = k.pendPrevPtr ∧
  k'.s_OSTickList = k.s_OSTickList ∧ k'.g_pCurrentTask = k.g_pCurrentTask

/-- The states reachable from `OSInitTaskSched` by `OS_RdyTaskAdd` of a task
of priority below 32 that is not queued and `OS_RdyTaskRemove` of a queued
task. The second component records, following the words of the
specification, the queued tasks of each priority in the order in which they
were added. -/
inductive RdyReach : Kernel → (Nat → List Nat) → Prop
  | init (k0 : Kernel) : RdyReach (OSInitTaskSched k0) (fun _ => [])
  | add (k k' : Kernel) (q : Nat → List Nat) (t : Nat) :
      RdyReach k q → k.priority t < OS_CFG_PRIO_MAX → t ∉ q (k.priority t) →
      OS_RdyTaskAdd (some t) k = some k' →
      RdyReach k' (Function.update q (k.priority t) (q (k.priority t) ++ [t]))
  | remove (k k' : Kernel) (q : Nat → List Nat) (t : Nat) :
      RdyReach k q → t ∈ q (k.priority t) →
      OS_RdyTaskRemove (some t) k = some k' →
      RdyReach k' (Function.update q (k.priority t) ((q (k.priority t)).erase t))

/-- The absolute remaining ticks of task `t` in the delta list `l`: the sum
of the tick fields from the head of `l` through `t`. -/
def absTicks (tick : Nat → Nat) : List Nat → Nat → Nat
  | [], _ => 0
  | a :: l, t => tick a + (if a = t then 0 else absTicks tick l t)

/-- The tick list of `k` is well formed and holds the tasks `l`, head to
tail: the tick links starting at `s_OSTickList.headPtr` spell out `l` with
consistent back links, no task occurs twice, and the absolute remaining ticks
are `u64` values (the tick fields of `l` add up to less than `2 ^ 64`). The
tail pointer is not constrained: none of the functions modelled here reads
it. -/
def TickListWF (k : Kernel) (l : List Nat) : Prop :=
  DSeg k.tickNextPtr k.tickPrevPtr none k.s_OSTickList.headPtr l none ∧
  l.Nodup ∧ (l.map k.tick).sum < 2 ^ 64

/-- Only the tick side of the kernel changed between `k` and `k'`: the
priorities, states, ready and pend links, the ready FIFOs, the bitmap and the
current task are the same. -/
def TickFrame (k k' : Kernel) : Prop :=
  k'.priority = k.priority ∧ k'.state = k.state ∧
  k'.rdyNextPtr = k.rdyNextPtr ∧ k'.rdyPrevPtr = k.rdyPrevPtr ∧
  k'.pendNextPtr = k.pendNextPtr ∧ k'.pendPrevPtr = k.pendPrevPtr ∧
  k'.s_OSRdyLists = k.s_OSRdyLists ∧ k'.s_OSPrioBitMap = k.s_OSPrioBitMap ∧
  k'.g_pCurrentTask = k.g_pCurrentTask

/-- The ready FIFOs `q` after the tasks `e` have been appended, in this
order, each to the FIFO of its priority. -/
def appendReady (prio : Nat → Nat) (q : Nat → List Nat) (e : List Nat) : Nat → List Nat :=
  fun p => q p ++ e.filter (fun u => prio u = p)

/-- `n` consecutive calls of `OS_TickUpdate`, nothing in between. -/
def OS_TickUpdate_times (fuel : Nat) : Nat → Kernel → Option Kernel
  | 0, k => some k
  | n + 1, k =>
    match OS_TickUpdate fuel k with
    | none => none
    | some k1 => OS_TickUpdate_times fuel n k1

/-- Reading a list off the memory: follow the forward links `nx` from the
pointer `p` until `NULL`, for at most `fuel` nodes. -/
def walk (nx : Nat → Option Nat) : Nat → Option Nat → List Nat
  | 0, _ => []
  | _ + 1, none => []
  | fuel + 1, some a => a :: walk nx fuel (nx a)

/-- The wait queue `pl` holds the tasks `l`, head to tail: the pend links
spell out `l`, the tail pointer of a non-empty queue is its last task and no
task occurs twice. -/
def PendRepr (pl : OS_PEND_LIST) (k : Kernel) (l : List Nat) : Prop :=
  DSeg k.pendNextPtr k.pendPrevPtr none pl.headPtr l none ∧
  (l ≠ [] → pl.tailPtr = lastPtr none l) ∧ l.Nodup

/-- Only the pend links changed between `k` and `k'`. -/
def PendFrame (k k' : Kernel) : Prop :=
  k'.priority = k.priority ∧ k'.tick = k.tick ∧ k'.state = k.state ∧
  k'.rdyNextPtr = k.rdyNextPtr ∧ k'.rdyPrevPtr = k.rdyPrevPtr ∧
  k'.tickNextPtr = k.tickNextPtr ∧ k'.tickPrevPtr = k.tickPrevPtr ∧
  k'.s_OSRdyLists = k.s_OSRdyLists ∧ k'.s_OSPrioBitMap = k.s_OSPrioBitMap ∧
  k'.s_OSTickList = k.s_OSTickList ∧ k'.g_pCurrentTask = k.g_pCurrentTask

/-- The wait queues built from `OS_PendListInit` by `OS_PendListInsert` of a
task that is not in the queue and `OS_PendListRemove` of a task that is in
it. The last component records, following the words of the specification, the
waiters in the order of their arrival. -/
inductive PendReach : OS_PEND_LIST → Kernel → List Nat → Prop
  | init (pl0 : OS_PEND_LIST) (k : Kernel) : PendReach (OS_PendListInit pl0) k []
  | insert (pl pl' : OS_PEND_LIST) (k k' : Kernel) (arr : List Nat) (t fuel : Nat) :
      PendReach pl k arr → t ∉ arr →
      OS_PendListInsert fuel (some pl) (some t) k = some (some pl', k') →
      PendReach pl' k' (arr ++ [t])
  | remove (pl pl' : OS_PEND_LIST) (k k' : Kernel) (arr : List Nat) (t : Nat) :
      PendReach pl k arr → t ∈ arr →
      OS_PendListRemove (some pl) (some t) k = (some pl', k') →
      PendReach pl' k' (arr.erase t)

/-- The packed header word of a block: bits 30..0 hold the payload size `s`,
bit 31 is the used flag. -/
def hdrWord (s : Nat) (u : Bool) : Nat := if u then s + 2 ^ 31 else s

/-- The number of bytes a run of blocks occupies: for each block its header
(`h` bytes) and its payload. A block is a pair (payload size, used flag). -/
def span (h : Nat) (bs : List (Nat × Bool)) : Nat := (bs.map (fun b => h + b.1)).sum

/-- `MemSeg m h p a bs p' a'`: following the next pointers from the pointer `p`
visits headers that lie back to back from address `a` on and carry the sizes
and used flags `bs`; behind the last of them the pointer is `p'` and the
address is `a'`. -/
def MemSeg (m : MemState) (h : Nat) : Nat → Nat → List (Nat × Bool) → Nat → Nat → Prop
  | p, a, [], p', a' => p = p' ∧ a = a'
  | p, a, b :: rest, p', a' =>
    p = a ∧ m.memUsedSize a = hdrWord b.1 b.2 ∧ b.1 < 2 ^ 31 ∧
      MemSeg m h (m.memNextNode a) (a + h + b.1) rest p' a'

/-- What the allocator needs of its configuration: the pool does not contain
address 0 and ends inside the 32-bit address space, the header size is
positive and fits into the pool, sizes fit into 31 bits, and the alignment is
a power of two. -/
def CfgOK (cfg : MemCfg) : Prop :=
  0 < cfg.s_OSMemoryPool ∧ cfg.s_OSMemoryPool + cfg.OS_MEM_MAX_SIZE < 2 ^ 32 ∧
  0 < cfg.OS_MEM_NODE_SIZE ∧ cfg.OS_MEM_NODE_SIZE ≤ cfg.OS_MEM_MAX_SIZE ∧
  cfg.OS_MEM_MAX_SIZE + cfg.OS_MEM_NODE_SIZE + cfg.OS_MEM_ALIGN < 2 ^ 31 ∧
  ∃ a, cfg.OS_MEM_ALIGN = 2 ^ a

/-- The allocator is initialised and its header list is `bs`: the list
starting at `memoryList` consists of headers lying back to back from the pool
base to the pool end, with the sizes and used flags `bs`, and ends in `NULL`. -/
def MemInv (cfg : MemCfg) (m : MemState) (bs : List (Nat × Bool)) : Prop :=
  m.memoryRdy = true ∧ m.memoryBase = cfg.s_OSMemoryPool ∧
  m.memoryEnd = cfg.s_OSMemoryPool + cfg.OS_MEM_MAX_SIZE ∧
  MemSeg m cfg.OS_MEM_NODE_SIZE m.memoryList cfg.s_OSMemoryPool bs 0
    (cfg.s_OSMemoryPool + cfg.OS_MEM_MAX_SIZE)

/-- The headers that stand in the place of a free block of payload `s` after
`MallocMemory_take` took it for the aligned request `req`. -/
def splitBlock (cfg : MemCfg) (req s : Nat) : List (Nat × Bool) :=
  if s ≥ req + cfg.OS_MEM_NODE_SIZE + cfg.OS_MEM_ALIGN then
    [(req, true), (s - req - cfg.OS_MEM_NODE_SIZE, false)]
  else [(s, true)]

/-- The effect of the first merge of `OSFree` on the header list: the freed
block of payload `s` takes in the header behind it when that one is free.
The result is the new payload of the block and the headers behind it. -/
def absorbNext (h s : Nat) (post : List (Nat × Bool)) : Nat × List (Nat × Bool) :=
  match post with
  | (s2, false) :: post2 => (s + s2 + h, post2)
  | _ => (s, post)

/-- The effect of the second merge of `OSFree` on the header list: the
header in front of the freed block (the last of `pre`) takes in the freed
block, of payload `c`, when that header is free. -/
def absorbPrev (h : Nat) (pre : List (Nat × Bool)) (c : Nat) : List (Nat × Bool) :=
  match pre.getLast? with
  | some (s0, false) => pre.dropLast ++ [(s0 + c + h, false)]
  | _ => pre ++ [(c, false)]

/-- The header list after `OSFree` of the used block of payload `s` that
stands between the headers `pre` and `post`. -/
def freedList (h : Nat) (pre : List (Nat × Bool)) (s : Nat) (post : List (Nat × Bool)) :
    List (Nat × Bool) :=
  absorbPrev h pre (absorbNext h s post).1 ++ (absorbNext h s post).2

/-- The bytes in use according to the header list `bs`: the sum of payload
size plus header size over the used headers. -/
def usedBytes (h : Nat) (bs : List (Nat × Bool)) : Nat :=
  ((bs.filter (fun b => b.2)).map (fun b => b.1 + h)).sum

/-- The payload addresses of the used blocks of the run `bs` that starts at
address `a`, in list order. -/
def usedPtrs (h : Nat) : Nat → List (Nat × Bool) → List Nat
  | _, [] => []
  | a, b :: rest => (if b.2 then [a + h] else []) ++ usedPtrs h (a + h + b.1) rest

/-- No two headers that are adjacent in the list are both free. -/
def NoAdjFree (bs : List (Nat × Bool)) : Prop :=
  bs.Chain' (fun x y => x.2 = true ∨ y.2 = true)

/-- The allocator states reachable from `OSInitMemory` by `OSMalloc` and by
`OSFree` of live pointers. The last component records the live pointers: the
non-null results of `OSMalloc` that have not been freed since. -/
inductive MemReach (cfg : MemCfg) : MemState → List Nat → Prop
  | init (m0 : MemState) : MemReach cfg (OSInitMemory cfg m0) []
  | malloc (m m' : MemState) (live : List Nat) (fuel n p : Nat) :
      MemReach cfg m live → OSMalloc cfg fuel n m = some (p, m') →
      MemReach cfg m' (if p = 0 then live else p :: live)
  | free (m m' : MemState) (live : List Nat) (fuel p : Nat) :
      MemReach cfg m live → p ∈ live → OSFree cfg fuel p m = some m' →
      MemReach cfg m' (live.erase p)

/-- The event-flag group at address `f` is well formed in the state `s`: it
is a flag object, its wait queue holds the tasks `l` (head to tail), the
ready FIFOs hold the tasks `q p` and agree with the bitmap, and every waiter
has a priority below `OS_CFG_PRIO_MAX` and is in no ready FIFO. -/
def FlagWF (f : Nat) (s : Sys) (l : List Nat) (q : Nat → List Nat) : Prop :=
  s.objType f = OS_OBJ_TYPE_FLAG ∧
  PendRepr (s.pendList f) s.kernel l ∧ RdyInv s.kernel q ∧ BitMapInv s.kernel q ∧
  ∀ t ∈ l, s.kernel.priority t < OS_CFG_PRIO_MAX ∧ ∀ p, p < OS_CFG_PRIO_MAX → t ∉ q p

/-- The state in which the current task `cur` has recorded the wait mask and
the wait mode, as `OSFlagPend` does before it tests the condition. -/
def recordWait (cur mask opt : Nat) (s : Sys) : Sys :=
  { s with
    flagsMaskPendOn := Function.update s.flagsMaskPendOn cur mask
    flagsPendOpt := Function.update s.flagsPendOpt cur opt }

/-- The flag word after the update of `OSFlagPost`: `flags | mask` for
`OS_FLAG_SET`, otherwise `flags & ~mask`. -/
def postedFlags (flags mask opt : Nat) : Nat :=
  if opt = OS_FLAG_SET then flags ||| mask else flags &&& u32_not mask

/-- The state after a context switch to the task `t`: only `g_pCurrentTask`
changes. (The switch itself is done by the exception handler, outside
`os_flag.c`.) -/
def setCurrent (t : Option Nat) (s : Sys) : Sys :=
  { s with kernel := { s.kernel with g_pCurrentTask := t } }

/-- The states reachable for the event-flag group at address `f`: the group
is created by `OSFlagCreate` in a state whose ready side is consistent and in
which no task waits for `f`; then `OSFlagPend` is called by a current task
that is queued in the ready FIFO of its priority, `OSFlagPost` is called, and
the current task changes, in any order. -/
inductive FlagReach (f : Nat) : Sys → Prop
  | create (s0 s : Sys) (q0 : Nat → List Nat) (init_flags : Nat) :
      RdyInv s0.kernel q0 → BitMapInv s0.kernel q0 → (∀ t, s0.pendObj t ≠ some f) →
      OSFlagCreate (some f) init_flags s0 = some s → FlagReach f s
  | pend (s s' : Sys) (q : Nat → List Nat) (t fuel mask opt : Nat) :
      FlagReach f s → s.kernel.g_pCurrentTask = some t → RdyInv s.kernel q →
      s.kernel.priority t < OS_CFG_PRIO_MAX → t ∈ q (s.kernel.priority t) →
      OSFlagPend fuel (some f) mask opt s = some s' → FlagReach f s'
  | post (s s' : Sys) (fuel mask opt : Nat) :
      FlagReach f s → OSFlagPost fuel (some f) mask opt s = some s' → FlagReach f s'
  | switch (s : Sys) (t : Option Nat) : FlagReach f s → FlagReach f (setCurrent t s)

/-- The states reachable from `OS_TickListInit`, on a kernel whose ready side
is consistent, by `OS_TickTaskInsert` of a task that is not in the tick list,
has a non-zero tick field, a priority below 32 and is in no ready FIFO, with a
delay of at least one tick, by `OS_TickTaskRemove` of a task of the tick list,
and by `OS_TickUpdate`. The second and third components record the tick list,
head to tail, and the ready FIFOs. -/
inductive TickReach : Kernel → List Nat → (Nat → List Nat) → Prop
  | init (k : Kernel) (q : Nat → List Nat) :
      RdyInv k q → BitMapInv k q → TickReach (OS_TickListInit k) [] q
  | insert (k k' : Kernel) (l : List Nat) (q : Nat → List Nat) (t T fuel : Nat) :
      TickReach k l q → t ∉ l → k.tick t ≠ 0 → 1 ≤ T → T < 2 ^ 64 →
      k.priority t < OS_CFG_PRIO_MAX → t ∉ q (k.priority t) →
      OS_TickTaskInsert fuel (some t) T k = some k' →
      TickReach k'
        (l.filter (fun u => absTicks k.tick l u < T) ++
          t :: l.filter (fun u => T ≤ absTicks k.tick l u)) q
  | remove (k : Kernel) (l : List Nat) (q : Nat → List Nat) (t : Nat) :
      TickReach k l q → t ∈ l → TickReach (OS_TickTaskRemove (some t) k) (l.erase t) q
  | update (k k' : Kernel) (l : List Nat) (q : Nat → List Nat) (fuel : Nat) :
      TickReach k l q → OS_TickUpdate fuel k = some k' →
      TickReach k' (l.filter (fun u => 1 < absTicks k.tick l u))
        (appendReady k.priority q (l.filter (fun u => absTicks k.tick l u ≤ 1)))

/-! ## Histories of bitmap calls -/

/-- A history of bitmap calls, oldest first: `(true, p)` is `OS_BitMapSet(p)`
and `(false, p)` is `OS_BitMapClr(p)`. -/
def bitmapOps (ops : List (Bool × Nat)) (k : Kernel) : Kernel :=
  ops.foldl (fun k op => if op.1 then OS_BitMapSet op.2 k else OS_BitMapClr op.2 k) k

/-- In the words of the specification: priority `p` "was set and not
cleared" by the history `ops` when the latest call that names `p` is a set. -/
def setNotCleared (ops : List (Bool × Nat)) (p : Nat) : Bool :=
  match (ops.filter (fun op => op.2 = p)).getLast? with
  | some op => op.1
  | none => false

/-! ## Concrete states used to instantiate the theorems -/

/-- A memory in which the TCB at address `a` has priority `a % 4`, tick 0,
state `STOP` and null links, before `OSInitTaskSched`. -/
def exK0 : Kernel :=
  { priority := fun a => a % 4
    tick := fun _ => 0
    state := fun _ => OS_TASK_STAT.OS_TASK_STOP
    rdyNextPtr := fun _ => none
    rdyPrevPtr := fun _ => none
    tickNextPtr := fun _ => none
    tickPrevPtr := fun _ => none
    pendNextPtr := fun _ => none
    pendPrevPtr := fun _ => none
    s_OSRdyLists := fun _ => { headPtr := some 7, tailPtr := none }
    s_OSPrioBitMap := 12345
    s_OSTickList := { headPtr := none, tailPtr := none }
    g_pCurrentTask := none }

/-- After `OSInitTaskSched` and `OS_RdyTaskAdd` of task 5 (priority 1). -/
def exK1 : Kernel := (OS_RdyTaskAdd (some 5) (OSInitTaskSched exK0)).getD exK0

/-- After adding task 1 (priority 1) as well. -/
def exK2 : Kernel := (OS_RdyTaskAdd (some 1) exK1).getD exK0

/-- After adding task 2 (priority 2) as well. -/
def exK3 : Kernel := (OS_RdyTaskAdd (some 2) exK2).getD exK0

/-- The tasks queued in `exK3`, per priority, in the order added. -/
def exQ3 : Nat → List Nat :=
  Function.update (Function.update (Function.update (fun _ => []) 1 [5]) 1 [5, 1]) 2 [2]

/-- An initialised kernel in which tasks 1, 2 and 3 hold the requested delays
50, 20 and 35 in their tick fields, every other task holds 7, and every task
is in state `DELAY`. The tick list is empty. -/
def exT0 : Kernel :=
  OSInitTaskSched { exK0 with
    tick := fun a => if a = 1 then 50 else if a = 2 then 20 else if a = 3 then 35 else 7
    state := fun _ => OS_TASK_STAT.OS_TASK_DELAY }

/-- After `OS_TickTaskInsert(task 1, 50)`. -/
def exT1 : Kernel := (OS_TickTaskInsert 8 (some 1) 50 exT0).getD exK0

/-- After `OS_TickTaskInsert(task 2, 20)` as well. -/
def exT2 : Kernel := (OS_TickTaskInsert 8 (some 2) 20 exT1).getD exK0

/-- After `OS_TickTaskInsert(task 3, 35)` as well: the tick list is
(2, 3, 1) with tick fields (20, 15, 15). -/
def exT3 : Kernel := (OS_TickTaskInsert 8 (some 3) 35 exT2).getD exK0

/-- A tick list whose single node, task 2, expires at the next tick:
`OS_TickTaskInsert(task 2, 1)` on `exT0`. -/
def exD1 : Kernel := (OS_TickTaskInsert 8 (some 2) 1 exT0).getD exK0

/-- The state `exD1` after one `OS_TickUpdate`. -/
def exD2 : Kernel := (OS_TickUpdate 8 exD1).getD exK0

/-- Two tasks of priority 1 that expire at the same tick: on `exT0`, task 5 and
then task 1 are inserted for one tick each; the tick list is (1, 5) with tick
fields (1, 0). -/
def exE2 : Kernel :=
  (OS_TickTaskInsert 8 (some 1) 1 ((OS_TickTaskInsert 8 (some 5) 1 exT0).getD exK0)).getD exK0

/-- The result of an `OS_PendListInsert` call that returned with a non-null
queue pointer (an empty queue on `exK0` otherwise). -/
def pendResult (r : Option (Option OS_PEND_LIST × Kernel)) : OS_PEND_LIST × Kernel :=
  match r with
  | some (some pl, k) => (pl, k)
  | _ => ({ headPtr := none, tailPtr := none }, exK0)

/-- An initialised wait queue into which task 1 (priority 1) has been inserted. -/
def exP1 : OS_PEND_LIST × Kernel :=
  pendResult (OS_PendListInsert 8 (some (OS_PendListInit { headPtr := some 9, tailPtr := none }))
    (some 1) exK0)

/-- Task 5 (priority 1, like task 1) is inserted after task 1. -/
def exP2 : OS_PEND_LIST × Kernel :=
  pendResult (OS_PendListInsert 8 (some exP1.1) (some 5) exP1.2)

/-- Task 2 (priority 2) is inserted after tasks 1 and 5. -/
def exP3 : OS_PEND_LIST × Kernel :=
  pendResult (OS_PendListInsert 8 (some exP2.1) (some 2) exP2.2)

/-- A pool of 1024 bytes at address `0x20000000`, with 8-byte alignment and
8-byte headers (two 32-bit words). -/
def exMemCfg : MemCfg :=
  { OS_MEM_MAX_SIZE := 1024, OS_MEM_ALIGN := 8, OS_MEM_NODE_SIZE := 8,
    s_OSMemoryPool := 0x20000000 }

/-- The memory before `OSInitMemory`: every cell is zero. -/
def exMem0 : MemState :=
  { memUsedSize := fun _ => 0, memNextNode := fun _ => 0, memoryBase := 0, memoryEnd := 0,
    memoryList := 0, memoryRdy := false }

/-- The result of `OSMalloc(100)` on the freshly initialised pool `exMemCfg`. -/
def exAllocA : Nat × MemState :=
  (OSMalloc exMemCfg 8 100 (OSInitMemory exMemCfg exMem0)).getD (0, exMem0)

/-- The result of `OSMalloc(200)` after `exAllocA`. -/
def exAllocB : Nat × MemState :=
  (OSMalloc exMemCfg 8 200 exAllocA.2).getD (0, exMem0)

/-- The state after `OSFree` of the first block in `exAllocB`: the second
block is in use and lies between two free blocks. -/
def exFreeA : MemState :=
  (OSFree exMemCfg 8 exAllocA.1 exAllocB.2).getD exMem0

/-- The scenario "allocate `a`, `b` and `c` bytes in that order on a freshly
initialised pool, then free the second block and then the first". -/
def allocFreeScenario (cfg : MemCfg) (fuel a b c : Nat) (m0 : MemState) : Option MemState :=
  match OSMalloc cfg fuel a (OSInitMemory cfg m0) with
  | none => none
  | some (pA, mA) =>
    match OSMalloc cfg fuel b mA with
    | none => none
    | some (pB, mB) =>
      match OSMalloc cfg fuel c mB with
      | none => none
      | some (_, mC) =>
        match OSFree cfg fuel pB mC with
        | none => none
        | some mD => OSFree cfg fuel pA mD

/-- The pool of the demo: 20 KiB at address `0x20000000`, with 8-byte
alignment and 8-byte headers. -/
def exMemCfg20k : MemCfg :=
  { OS_MEM_MAX_SIZE := 20 * 1024, OS_MEM_ALIGN := 8, OS_MEM_NODE_SIZE := 8,
    s_OSMemoryPool := 0x20000000 }

/-- A state before any flag group exists: the kernel `exK3` (ready FIFO 1
holds tasks 5 and 1, ready FIFO 2 holds task 2) with task 5 running; no task
waits for an object, and the memory of the flag objects is not initialised. -/
def exS0 : Sys :=
  { kernel := { exK3 with g_pCurrentTask := some 5 }
    pendObj := fun _ => none
    flagsMaskPendOn := fun _ => 0
    flagsPendOpt := fun _ => OS_FLAG_WAIT_NONE
    objType := fun _ => 0
    pendList := fun _ => { headPtr := some 9, tailPtr := none }
    flags := fun _ => 0
    schedRequested := false }

/-- The flag group at address 100 has been created with flag word `0b01`. -/
def exF1 : Sys := (OSFlagCreate (some 100) 1 exS0).getD exS0

/-- Task 5 has called `OSFlagPend(mask 0b11, WAIT_CLR_ANY)` in `exF1`. -/
def exF2 : Sys := (OSFlagPend 8 (some 100) 3 OS_FLAG_WAIT_CLR_ANY exF1).getD exS0

/-- The flag group at address 100 has been created with flag word 0. -/
def exW0 : Sys := (OSFlagCreate (some 100) 0 exS0).getD exS0

/-- Task 5 (priority 1) waits for bit A or bit B (`WAIT_SET_ANY`, mask `0b011`). -/
def exW1 : Sys := (OSFlagPend 8 (some 100) 3 OS_FLAG_WAIT_SET_ANY exW0).getD exS0

/-- Task 1 (priority 1) waits for bits A and B (`WAIT_SET_ALL`, mask `0b011`) as well. -/
def exW2 : Sys :=
  (OSFlagPend 8 (some 100) 3 OS_FLAG_WAIT_SET_ALL (setCurrent (some 1) exW1)).getD exS0

/-- Task 2 (priority 2) waits for bits A, B and C (`WAIT_SET_ALL`, mask `0b111`) as well. -/
def exW3 : Sys :=
  (OSFlagPend 8 (some 100) 7 OS_FLAG_WAIT_SET_ALL (setCurrent (some 2) exW2)).getD exS0

/-- Two waiters: task 5 (priority 1, `WAIT_SET_ANY`, mask `0b0011`) and task 2
(priority 2, `WAIT_SET_ALL`, mask `0b0011`). -/
def exV2 : Sys :=
  (OSFlagPend 8 (some 100) 3 OS_FLAG_WAIT_SET_ALL (setCurrent (some 2) exW1)).getD exS0

/-- The state `exV2` after `OSFlagPost(SET, mask 0b0001)`. -/
def exV3 : Sys := (OSFlagPost 8 (some 100) 1 OS_FLAG_SET exV2).getD exS0

/-- The tasks queued in `exK2`, per priority: tasks 5 and 1 in FIFO 1. -/
def exQ2 : Nat → List Nat :=
  Function.update (Function.update (fun _ => []) 1 [5]) 1 [5, 1]

/-- The state `exK2` after `OS_RdyTaskRemove` of task 9, a task of priority 1
that is in no ready FIFO. -/
def exR9 : Kernel := (OS_RdyTaskRemove (some 9) exK2).getD exK0

/-- The tick list (2, 3, 1) of `exT3` after `OS_TickTaskInsert(task 5, 10)`:
task 5 is inserted in front of the head. -/
def exU4 : Kernel := (OS_TickTaskInsert 8 (some 5) 10 exT3).getD exK0

/-- A memory before `OS_TaskListInit`: the sentinel `g_OSTaskListHead` is at
address 1000, the TCBs at addresses 10 and 20 have the entry functions `0x100`
and `0x200`, every other `func` field (that of the sentinel, a zero-initialised
global, included) is `NULL`, and every next pointer holds a stale value. -/
def exG0 : TaskList :=
  { g_OSTaskListHead := 1000
    nextPtr := fun _ => some 77
    func := fun a => if a = 10 then 0x100 else if a = 20 then 0x200 else 0 }

/-- The empty task list: `exG0` after `OS_TaskListInit`. -/
def exG1 : TaskList := OS_TaskListInit exG0

/-- The task list (10): task 10 has been added. -/
def exG2 : TaskList := (OS_TaskListAdd 8 (some 10) exG1).getD exG0

/-- The task list (10, 20): task 20 has been added as well. -/
def exG3 : TaskList := (OS_TaskListAdd 8 (some 20) exG2).getD exG0

/-- The state after `OS_TickTaskInsert(task 1, 0)` on `exT0`, where the tick
field of task 1 is 50: task 1 is the single node of the tick list, with
tick 0. -/
def exZ1 : Kernel := (OS_TickTaskInsert 8 (some 1) 0 exT0).getD exK0

/-- The state `exZ1` after one `OS_TickUpdate`. -/
def exZ2 : Kernel := (OS_TickUpdate 8 exZ1).getD exK0

/-! ## Bitmap lemmas -/

theorem clzAux_spec (n x : Nat) (hx : x ≠ 0) (hlt : x < 2 ^ n) :
    clzAux n x < n ∧ x.testBit (n - 1 - clzAux n x) = true ∧
      ∀ j, j < clzAux n x → x.testBit (n - 1 - j) = false := by
  induction n with
  | zero => simp at hlt; exact absurd hlt hx
  | succ n ih =>
    unfold clzAux
    by_cases hb : x.testBit n = true
    · simp [hb]
    · simp only [hb, Bool.false_eq_true, if_false]
      have hb' : x.testBit n = false := by simpa using hb
      have hlt' : x < 2 ^ n := by
        apply Nat.lt_pow_two_of_testBit
        intro i hi
        rcases Nat.eq_or_lt_of_le hi with h | h
        · rw [← h]; exact hb'
        · exact Nat.testBit_lt_two_pow
            (lt_of_lt_of_le hlt (Nat.pow_le_pow_right (by norm_num) h))
      obtain ⟨h1, h2, h3⟩ := ih hlt'
      refine ⟨by omega, ?_, ?_⟩
      · have : n + 1 - 1 - (1 + clzAux n x) = n - 1 - clzAux n x := by omega
        rw [this]; exact h2
      · intro j hj
        rcases Nat.eq_zero_or_pos j with h0 | hpos
        · subst h0; simpa using hb'
        · have : n + 1 - 1 - j = n - 1 - (j - 1) := by omega
          rw [this]; exact h3 (j - 1) (by omega)

theorem shift_one_mod (i : Nat) (hi : i < 32) : (1 <<< i) % 2 ^ 32 = 2 ^ i := by
  rw [Nat.one_shiftLeft]
  exact Nat.mod_eq_of_lt (Nat.pow_lt_pow_right (by norm_num) hi)

theorem OS_BitMapSet_testBit (p : Nat) (k : Kernel) (hp : p < OS_CFG_PRIO_MAX) (i : Nat) :
    (OS_BitMapSet p k).s_OSPrioBitMap.testBit i
      = (k.s_OSPrioBitMap.testBit i || decide (31 - p = i)) := by
  unfold OS_CFG_PRIO_MAX at hp
  simp only [OS_BitMapSet, OS_CFG_PRIO_MAX, Nat.not_le.mpr hp, if_false]
  rw [shift_one_mod _ (by omega), Nat.testBit_or, Nat.testBit_two_pow]

theorem OS_BitMapClr_testBit (p : Nat) (k : Kernel) (hp : p < OS_CFG_PRIO_MAX)
    (hk : k.s_OSPrioBitMap < 2 ^ 32) (i : Nat) :
    (OS_BitMapClr p k).s_OSPrioBitMap.testBit i
      = (k.s_OSPrioBitMap.testBit i && !decide (31 - p = i)) := by
  unfold OS_CFG_PRIO_MAX at hp
  simp only [OS_BitMapClr, OS_CFG_PRIO_MAX, Nat.not_le.mpr hp, if_false]
  rw [shift_one_mod _ (by omega), Nat.testBit_and, Nat.testBit_xor, Nat.testBit_two_pow,
    Nat.testBit_two_pow_sub_one]
  by_cases h32 : i < 32
  · by_cases he : 31 - p = i <;> simp [h32, he]
  · have : k.s_OSPrioBitMap.testBit i = false :=
      Nat.testBit_lt_two_pow
        (lt_of_lt_of_le hk (Nat.pow_le_pow_right (by norm_num) (by omega)))
    simp [this]

theorem OS_BitMapSet_lt (p : Nat) (k : Kernel) (hk : k.s_OSPrioBitMap < 2 ^ 32) :
    (OS_BitMapSet p k).s_OSPrioBitMap < 2 ^ 32 := by
  unfold OS_BitMapSet
  split
  · exact hk
  · exact Nat.or_lt_two_pow hk (Nat.mod_lt _ (by norm_num))

theorem OS_BitMapClr_lt (p : Nat) (k : Kernel) (hk : k.s_OSPrioBitMap < 2 ^ 32) :
    (OS_BitMapClr p k).s_OSPrioBitMap < 2 ^ 32 := by
  unfold OS_BitMapClr
  split
  · exact hk
  · exact lt_of_le_of_lt Nat.and_le_left hk

theorem OS_BitMapGetHighest_spec (k : Kernel) (hk : k.s_OSPrioBitMap < 2 ^ 32)
    (h0 : k.s_OSPrioBitMap ≠ 0) :
    ∃ p, OS_BitMapGetHighest k = some p ∧ p < OS_CFG_PRIO_MAX ∧
      k.s_OSPrioBitMap.testBit (31 - p) = true ∧
      ∀ p', p' < p → k.s_OSPrioBitMap.testBit (31 - p') = false := by
  obtain ⟨h1, h2, h3⟩ := clzAux_spec 32 _ h0 hk
  refine ⟨builtin_clz k.s_OSPrioBitMap, ?_, h1, h2, h3⟩
  simp [OS_BitMapGetHighest, h0]
/-! ## Lemmas on doubly linked segments -/

theorem lastPtr_append (q : Option Nat) (l1 l2 : List Nat) :
    lastPtr q (l1 ++ l2) = lastPtr (lastPtr q l1) l2 := by
  induction l1 generalizing q with
  | nil => rfl
  | cons a l ih => exact ih (some a)

theorem lastPtr_snoc (q : Option Nat) (l : List Nat) (b : Nat) :
    lastPtr q (l ++ [b]) = some b := by
  rw [lastPtr_append]; rfl

theorem lastPtr_mem {q : Option Nat} {l : List Nat} {b : Nat} (hl : l ≠ [])
    (h : lastPtr q l = some b) : b ∈ l := by
  rcases List.eq_nil_or_concat l with h0 | ⟨l0, c, hc⟩
  · exact absurd h0 hl
  · rw [List.concat_eq_append] at hc
    subst hc
    rw [lastPtr_snoc] at h
    cases h
    simp

theorem lastPtr_none_mem {l : List Nat} {b : Nat} (h : lastPtr none l = some b) : b ∈ l := by
  cases l with
  | nil => cases h
  | cons a l => exact lastPtr_mem (by simp) h

theorem lastPtr_ne_nil (q : Option Nat) {l : List Nat} (hl : l ≠ []) :
    lastPtr q l = lastPtr none l := by
  cases l with
  | nil => exact absurd rfl hl
  | cons a l => rfl

theorem firstPtr_none_mem {l : List Nat} {c : Nat} (h : firstPtr l none = some c) : c ∈ l := by
  cases l with
  | nil => cases h
  | cons a l => cases h; simp

theorem DSeg_congr {nx pv nx' pv' : Nat → Option Nat} {l : List Nat} :
    ∀ {q p r : Option Nat}, (∀ a ∈ l, nx' a = nx a) → (∀ a ∈ l, pv' a = pv a) →
      DSeg nx pv q p l r → DSeg nx' pv' q p l r := by
  induction l with
  | nil => intro q p r _ _ h; exact h
  | cons a l ih =>
    intro q p r h1 h2 h
    obtain ⟨hp, hq, hrest⟩ := h
    refine ⟨hp, ?_, ?_⟩
    · rw [h2 a (List.mem_cons_self _ _)]; exact hq
    · rw [h1 a (List.mem_cons_self _ _)]
      exact ih (fun b hb => h1 b (List.mem_cons_of_mem _ hb))
        (fun b hb => h2 b (List.mem_cons_of_mem _ hb)) hrest

theorem DSeg_append {nx pv : Nat → Option Nat} {l1 l2 : List Nat} :
    ∀ {q p r : Option Nat}, DSeg nx pv q p (l1 ++ l2) r ↔
      ∃ m, DSeg nx pv q p l1 m ∧ DSeg nx pv (lastPtr q l1) m l2 r := by
  induction l1 with
  | nil =>
    intro q p r
    constructor
    · intro h; exact ⟨p, rfl, h⟩
    · rintro ⟨m, hm, h⟩
      have hm' : p = m := hm
      subst hm'; exact h
  | cons a l ih =>
    intro q p r
    constructor
    · rintro ⟨hp, hq, hrest⟩
      obtain ⟨m, h1, h2⟩ := ih.mp hrest
      exact ⟨m, ⟨hp, hq, h1⟩, h2⟩
    · rintro ⟨m, ⟨hp, hq, h1⟩, h2⟩
      exact ⟨hp, hq, ih.mpr ⟨m, h1, h2⟩⟩

theorem DSeg_first {nx pv : Nat → Option Nat} {l : List Nat} {q p r : Option Nat}
    (h : DSeg nx pv q p l r) : p = firstPtr l r := by
  cases l with
  | nil => exact h
  | cons a l => exact h.1

theorem DSeg_snoc {nx pv : Nat → Option Nat} {l : List Nat} {b : Nat} {q p r : Option Nat} :
    DSeg nx pv q p (l ++ [b]) r ↔
      DSeg nx pv q p l (some b) ∧ pv b = lastPtr q l ∧ nx b = r := by
  rw [DSeg_append]
  constructor
  · rintro ⟨m, h1, hm, hq, hr⟩
    subst hm
    exact ⟨h1, hq, hr⟩
  · rintro ⟨h1, hq, hr⟩
    exact ⟨some b, h1, rfl, hq, hr⟩

theorem DSeg_mid {nx pv : Nat → Option Nat} {l1 l2 : List Nat} {t : Nat} {q p r : Option Nat} :
    DSeg nx pv q p (l1 ++ t :: l2) r ↔
      DSeg nx pv q p l1 (some t) ∧ pv t = lastPtr q l1 ∧ DSeg nx pv (some t) (nx t) l2 r := by
  rw [DSeg_append]
  constructor
  · rintro ⟨m, h1, hm, hq, hr⟩
    subst hm
    exact ⟨h1, hq, hr⟩
  · rintro ⟨h1, hq, hr⟩
    exact ⟨some t, h1, rfl, hq, hr⟩

/-- Linking a new node `t` between `l1` and `l2`. -/
theorem DSeg_link {nx pv nx' pv' : Nat → Option Nat} {l1 l2 : List Nat} {t : Nat}
    {q p p' r : Option Nat}
    (h : DSeg nx pv q p (l1 ++ l2) r) (hnd : (l1 ++ l2).Nodup) (ht : t ∉ l1 ++ l2)
    (hnt : nx' t = firstPtr l2 r) (hpt : pv' t = lastPtr q l1)
    (hnb : ∀ b, lastPtr none l1 = some b → nx' b = some t)
    (hnx : ∀ a ∈ l1 ++ l2, lastPtr none l1 ≠ some a → nx' a = nx a)
    (hpc : ∀ c, firstPtr l2 none = some c → pv' c = some t)
    (hpv : ∀ a ∈ l1 ++ l2, firstPtr l2 none ≠ some a → pv' a = pv a)
    (hp : p' = if l1 = [] then some t else p) :
    DSeg nx' pv' q p' (l1 ++ t :: l2) r := by
  obtain ⟨m, h1, h2⟩ := DSeg_append.mp h
  have hm : m = firstPtr l2 r := DSeg_first h2
  subst hm
  rw [DSeg_mid]
  have hdisj := List.disjoint_of_nodup_append hnd
  refine ⟨?_, hpt, ?_⟩
  · -- the part in front of `t`
    rcases List.eq_nil_or_concat l1 with h0 | ⟨l0, b, hb⟩
    · subst h0
      simpa using hp
    · rw [List.concat_eq_append] at hb
      subst hb
      have hne : l0 ++ [b] ≠ [] := by simp
      rw [if_neg hne] at hp
      subst hp
      rw [DSeg_snoc] at h1 ⊢
      obtain ⟨h1a, h1b, _⟩ := h1
      have hbl : lastPtr none (l0 ++ [b]) = some b := lastPtr_snoc _ _ _
      have hnd1 : (l0 ++ [b]).Nodup := (List.nodup_append.mp hnd).1
      have hb0 : b ∉ l0 := by
        intro hmem
        have := List.nodup_append.mp hnd1
        exact (List.disjoint_left.mp this.2.2 hmem) (by simp)
      have hbc : firstPtr l2 none ≠ some b := by
        intro hc
        exact hdisj (by simp) (firstPtr_none_mem hc)
      refine ⟨?_, ?_, hnb b hbl⟩
      · refine DSeg_congr ?_ ?_ h1a
        · intro a ha
          apply hnx a (by simp [ha])
          rw [hbl]; intro he; cases he; exact hb0 ha
        · intro a ha
          apply hpv a (by simp [ha])
          intro hc
          exact hdisj (by simp [ha]) (firstPtr_none_mem hc)
      · rw [hpv b (by simp) hbc]; exact h1b
  · -- the part behind `t`
    rw [hnt]
    cases l2 with
    | nil => exact h2
    | cons c l3 =>
      obtain ⟨_, h2b, h2c⟩ := h2
      have hnd2 : (c :: l3).Nodup := (List.nodup_append.mp hnd).2.1
      have hc3 : c ∉ l3 := (List.nodup_cons.mp hnd2).1
      have hcl : lastPtr none l1 ≠ some c := by
        intro hl
        exact hdisj (lastPtr_none_mem hl) (by simp)
      refine ⟨rfl, hpc c rfl, ?_⟩
      rw [hnx c (by simp) hcl]
      refine DSeg_congr ?_ ?_ h2c
      · intro a ha
        apply hnx a (by simp [ha])
        intro hl
        exact hdisj (lastPtr_none_mem hl) (by simp [ha])
      · intro a ha
        apply hpv a (by simp [ha])
        intro hc; cases hc; exact hc3 ha

/-- Unlinking the node `t` that sits between `l1` and `l2`. -/
theorem DSeg_unlink {nx pv nx' pv' : Nat → Option Nat} {l1 l2 : List Nat} {t : Nat}
    {q p p' r : Option Nat}
    (h : DSeg nx pv q p (l1 ++ t :: l2) r) (hnd : (l1 ++ t :: l2).Nodup)
    (hnb : ∀ b, lastPtr none l1 = some b → nx' b = firstPtr l2 r)
    (hnx : ∀ a ∈ l1 ++ l2, lastPtr none l1 ≠ some a → nx' a = nx a)
    (hpc : ∀ c, firstPtr l2 none = some c → pv' c = lastPtr q l1)
    (hpv : ∀ a ∈ l1 ++ l2, firstPtr l2 none ≠ some a → pv' a = pv a)
    (hp : p' = if l1 = [] then firstPtr l2 r else p) :
    DSeg nx' pv' q p' (l1 ++ l2) r := by
  obtain ⟨h1, _, h2⟩ := DSeg_mid.mp h
  have hnd' : (l1 ++ l2).Nodup := by
    have := List.nodup_append.mp hnd
    refine List.nodup_append.mpr ⟨this.1, (List.nodup_cons.mp this.2.1).2, ?_⟩
    intro a ha1 ha2
    exact this.2.2 ha1 (List.mem_cons_of_mem _ ha2)
  have hdisj := List.disjoint_of_nodup_append hnd'
  rw [DSeg_append]
  refine ⟨firstPtr l2 r, ?_, ?_⟩
  · rcases List.eq_nil_or_concat l1 with h0 | ⟨l0, b, hb⟩
    · subst h0
      simpa using hp
    · rw [List.concat_eq_append] at hb
      subst hb
      have hne : l0 ++ [b] ≠ [] := by simp
      rw [if_neg hne] at hp
      subst hp
      rw [DSeg_snoc] at h1 ⊢
      obtain ⟨h1a, h1b, _⟩ := h1
      have hbl : lastPtr none (l0 ++ [b]) = some b := lastPtr_snoc _ _ _
      have hnd1 : (l0 ++ [b]).Nodup := (List.nodup_append.mp hnd').1
      have hb0 : b ∉ l0 := by
        intro hmem
        have := List.nodup_append.mp hnd1
        exact (List.disjoint_left.mp this.2.2 hmem) (by simp)
      have hbc : firstPtr l2 none ≠ some b := by
        intro hc
        exact hdisj (by simp) (firstPtr_none_mem hc)
      refine ⟨?_, ?_, hnb b hbl⟩
      · refine DSeg_congr ?_ ?_ h1a
        · intro a ha
          apply hnx a (by simp [ha])
          rw [hbl]; intro he; cases he; exact hb0 ha
        · intro a ha
          apply hpv a (by simp [ha])
          intro hc
          exact hdisj (by simp [ha]) (firstPtr_none_mem hc)
      · rw [hpv b (by simp) hbc]; exact h1b
  · cases l2 with
    | nil => exact h2 ▸ rfl
    | cons c l3 =>
      obtain ⟨_, _, h2c⟩ := h2
      have hnd2 : (c :: l3).Nodup := (List.nodup_append.mp hnd').2.1
      have hc3 : c ∉ l3 := (List.nodup_cons.mp hnd2).1
      have hcl : lastPtr none l1 ≠ some c := by
        intro hl
        exact hdisj (lastPtr_none_mem hl) (by simp)
      refine ⟨rfl, hpc c rfl, ?_⟩
      rw [hnx c (by simp) hcl]
      refine DSeg_congr ?_ ?_ h2c
      · intro a ha
        apply hnx a (by simp [ha])
        intro hl
        exact hdisj (lastPtr_none_mem hl) (by simp [ha])
      · intro a ha
        apply hpv a (by simp [ha])
        intro hc; cases hc; exact hc3 ha
/-! ## Ready queue lemmas -/

theorem OS_BitMapSet_eq (p : Nat) (k : Kernel) (hp : p < OS_CFG_PRIO_MAX) :
    OS_BitMapSet p k
      = { k with s_OSPrioBitMap := k.s_OSPrioBitMap ||| ((1 <<< (31 - p)) % 2 ^ 32) } := by
  simp [OS_BitMapSet, Nat.not_le.mpr hp]

theorem OS_BitMapClr_eq (p : Nat) (k : Kernel) (hp : p < OS_CFG_PRIO_MAX) :
    OS_BitMapClr p k
      = { k with s_OSPrioBitMap :=
            k.s_OSPrioBitMap &&& (((1 <<< (31 - p)) % 2 ^ 32) ^^^ (2 ^ 32 - 1)) } := by
  simp [OS_BitMapClr, Nat.not_le.mpr hp]

theorem BitMapInv_set {k k' : Kernel} {q : Nat → List Nat} {p : Nat} {l : List Nat}
    (hbm : BitMapInv k q) (hp : p < OS_CFG_PRIO_MAX) (hl : l ≠ [])
    (hk : k'.s_OSPrioBitMap = (OS_BitMapSet p k).s_OSPrioBitMap) :
    BitMapInv k' (Function.update q p l) := by
  refine ⟨hk ▸ OS_BitMapSet_lt p k hbm.1, ?_⟩
  intro p' hp'
  rw [hk, OS_BitMapSet_testBit p k hp]
  unfold OS_CFG_PRIO_MAX at hp hp'
  by_cases he : p' = p
  · subst he; simp [hl]
  · have : ¬ (31 - p = 31 - p') := by omega
    simp [Function.update_noteq he, this, hbm.2 p' hp']

theorem BitMapInv_clr {k k' : Kernel} {q : Nat → List Nat} {p : Nat}
    (hbm : BitMapInv k q) (hp : p < OS_CFG_PRIO_MAX)
    (hk : k'.s_OSPrioBitMap = (OS_BitMapClr p k).s_OSPrioBitMap) :
    BitMapInv k' (Function.update q p []) := by
  refine ⟨hk ▸ OS_BitMapClr_lt p k hbm.1, ?_⟩
  intro p' hp'
  rw [hk, OS_BitMapClr_testBit p k hp hbm.1]
  unfold OS_CFG_PRIO_MAX at hp hp'
  by_cases he : p' = p
  · subst he; simp
  · have : ¬ (31 - p = 31 - p') := by omega
    simp [Function.update_noteq he, this, hbm.2 p' hp']

theorem BitMapInv_keep {k k' : Kernel} {q : Nat → List Nat} {p : Nat} {l : List Nat}
    (hbm : BitMapInv k q) (hl : l ≠ []) (hq : q p ≠ [])
    (hk : k'.s_OSPrioBitMap = k.s_OSPrioBitMap) :
    BitMapInv k' (Function.update q p l) := by
  refine ⟨hk ▸ hbm.1, ?_⟩
  intro p' hp'
  rw [hk]
  by_cases he : p' = p
  · subst he; simp [hl, hbm.2 p' hp', hq]
  · simp [Function.update_noteq he, hbm.2 p' hp']

theorem RdyFifo_other {k k' : Kernel} {p : Nat} {l : List Nat} (h : RdyFifo k p l)
    (hl : k'.s_OSRdyLists p = k.s_OSRdyLists p)
    (hnx : ∀ a ∈ l, k'.rdyNextPtr a = k.rdyNextPtr a)
    (hpv : ∀ a ∈ l, k'.rdyPrevPtr a = k.rdyPrevPtr a)
    (hpr : k'.priority = k.priority) : RdyFifo k' p l := by
  obtain ⟨h1, h2, h3, h4⟩ := h
  refine ⟨?_, ?_, h3, ?_⟩
  · rw [hl]; exact DSeg_congr hnx hpv h1
  · rw [hl]; exact h2
  · rw [hpr]; exact h4

theorem OS_RdyTaskAdd_spec (k : Kernel) (q : Nat → List Nat) (t : Nat)
    (hinv : RdyInv k q) (hbm : BitMapInv k q)
    (hp : k.priority t < OS_CFG_PRIO_MAX) (ht : t ∉ q (k.priority t)) :
    ∃ k', OS_RdyTaskAdd (some t) k = some k' ∧
      RdyInv k' (Function.update q (k.priority t) (q (k.priority t) ++ [t])) ∧
      BitMapInv k' (Function.update q (k.priority t) (q (k.priority t) ++ [t])) ∧
      RdyFrame k k' := by
  obtain ⟨hseg, htail, hnd, hprio⟩ := hinv _ hp
  have hhead := DSeg_first hseg
  have hother : ∀ p', p' < OS_CFG_PRIO_MAX → p' ≠ k.priority t → ∀ a ∈ q p', a ≠ t := by
    intro p' hp' hne a ha he
    subst he
    exact hne ((hinv p' hp').2.2.2 a ha).symm
  rcases List.eq_nil_or_concat (q (k.priority t)) with hq | ⟨l1, b, hq⟩
  · rw [hq] at hhead hseg
    simp only [firstPtr] at hhead
    simp only [OS_RdyTaskAdd, Nat.not_le.mpr hp, if_false, hhead, Option.map_some',
      OS_BitMapSet_eq _ _ hp]
    refine ⟨_, rfl, ?_, ?_, ?_⟩
    · intro p' hp'
      by_cases he : p' = k.priority t
      · subst he
        simp [RdyFifo, DSeg, lastPtr, hq]
      · simp only [Function.update_noteq he]
        refine RdyFifo_other (hinv p' hp') ?_ ?_ ?_ rfl
        · simp [Function.update_noteq he]
        · intro a ha
          simp [Function.update_noteq (hother p' hp' he a ha)]
        · intro a ha
          simp [Function.update_noteq (hother p' hp' he a ha)]
    · exact BitMapInv_set hbm hp (by simp) (by simp [OS_BitMapSet_eq _ _ hp])
    · simp [RdyFrame]
  · rw [List.concat_eq_append] at hq
    rw [hq] at hhead hseg htail hnd hprio ht
    have htl : (k.s_OSRdyLists (k.priority t)).tailPtr = some b := by
      rw [htail (by simp), lastPtr_snoc]
    obtain ⟨h0, hh0⟩ : ∃ h0, (k.s_OSRdyLists (k.priority t)).headPtr = some h0 := by
      rw [hhead]; cases l1 <;> exact ⟨_, rfl⟩
    have htb : t ≠ b := by
      intro he; apply ht; simp [he]
    simp only [OS_RdyTaskAdd, Nat.not_le.mpr hp, if_false, hh0, htl, Option.map_some',
      OS_BitMapSet_eq _ _ hp]
    refine ⟨_, rfl, ?_, ?_, ?_⟩
    · intro p' hp'
      by_cases he : p' = k.priority t
      · subst he
        simp only [Function.update_same, hq]
        unfold RdyFifo
        refine ⟨?_, ?_, ?_, ?_⟩
        · have hseg' : DSeg k.rdyNextPtr k.rdyPrevPtr none (some h0) ((l1 ++ [b]) ++ []) none := by
            rw [List.append_nil, ← hh0]; exact hseg
          refine DSeg_link hseg' (by simpa using hnd) (by simpa using ht) ?_ ?_ ?_ ?_ ?_ ?_ ?_
          · simp [firstPtr, Function.update_noteq htb]
          · simp [lastPtr_snoc]
          · intro b' hb'
            rw [lastPtr_snoc] at hb'
            cases hb'
            simp
          · intro a ha hne
            rw [lastPtr_snoc] at hne
            have hab : a ≠ b := fun h => hne (by rw [h])
            have hat : a ≠ t := by
              intro h; subst h; exact ht (by simpa using ha)
            simp [Function.update_noteq hab, Function.update_noteq hat]
          · intro c hc; cases hc
          · intro a ha _
            have hat : a ≠ t := by
              intro h; subst h; exact ht (by simpa using ha)
            simp [Function.update_noteq hat]
          · simp
        · intro _
          show _ = lastPtr none ((l1 ++ [b]) ++ [t])
          rw [lastPtr_snoc]
          simp
        · rw [List.nodup_append]
          refine ⟨hnd, by simp, ?_⟩
          intro a ha hat
          simp at hat
          subst hat
          exact ht ha
        · intro a ha
          rcases List.mem_append.mp ha with h | h
          · exact hprio a h
          · simp at h; subst h; rfl
      · simp only [Function.update_noteq he]
        have hb' : ∀ a ∈ q p', a ≠ b := by
          intro a ha hab
          subst hab
          exact he (((hinv p' hp').2.2.2 a ha).symm.trans (hprio a (by simp)))
        refine RdyFifo_other (hinv p' hp') ?_ ?_ ?_ rfl
        · simp [Function.update_noteq he]
        · intro a ha
          simp [Function.update_noteq (hother p' hp' he a ha), Function.update_noteq (hb' a ha)]
        · intro a ha
          simp [Function.update_noteq (hother p' hp' he a ha)]
    · exact BitMapInv_set hbm hp (by simp) (by simp [OS_BitMapSet_eq _ _ hp])
    · simp [RdyFrame]
theorem lastPtr_append_cons (q : Option Nat) (l1 : List Nat) (c : Nat) (l3 : List Nat) :
    lastPtr q (l1 ++ c :: l3) = lastPtr none (c :: l3) := by
  rw [lastPtr_append]; rfl

theorem erase_mid (l1 l2 : List Nat) (t : Nat) (h : t ∉ l1) :
    (l1 ++ t :: l2).erase t = l1 ++ l2 := by
  rw [List.erase_append_right _ h, List.erase_cons_head]

theorem nodup_mid {l1 l2 : List Nat} {t : Nat} (h : (l1 ++ t :: l2).Nodup) :
    t ∉ l1 ∧ t ∉ l2 ∧ (l1 ++ l2).Nodup := by
  have h' := List.nodup_append.mp h
  have hc := List.nodup_cons.mp h'.2.1
  refine ⟨fun hm => h'.2.2 hm (by simp), hc.1, ?_⟩
  refine List.nodup_append.mpr ⟨h'.1, hc.2, ?_⟩
  intro a ha1 ha2
  exact h'.2.2 ha1 (List.mem_cons_of_mem _ ha2)

theorem OS_RdyTaskRemove_spec (k : Kernel) (q : Nat → List Nat) (t : Nat)
    (hinv : RdyInv k q) (hbm : BitMapInv k q)
    (hp : k.priority t < OS_CFG_PRIO_MAX) (ht : t ∈ q (k.priority t)) :
    ∃ k', OS_RdyTaskRemove (some t) k = some k' ∧
      RdyInv k' (Function.update q (k.priority t) ((q (k.priority t)).erase t)) ∧
      BitMapInv k' (Function.update q (k.priority t) ((q (k.priority t)).erase t)) ∧
      RdyFrame k k' ∧ k'.rdyNextPtr t = none ∧ k'.rdyPrevPtr t = none := by
  obtain ⟨hseg, htail, hnd, hprio⟩ := hinv _ hp
  obtain ⟨l1, l2, hq⟩ := List.append_of_mem ht
  rw [hq] at hseg htail hnd hprio
  obtain ⟨ht1, ht2, hnd'⟩ := nodup_mid hnd
  have hdisj := List.disjoint_of_nodup_append hnd'
  rw [hq, erase_mid l1 l2 t ht1]
  have hhead := DSeg_first hseg
  obtain ⟨hs1, hpvt, hs2⟩ := DSeg_mid.mp hseg
  have hnxt := DSeg_first hs2
  have hmemq : ∀ a ∈ l1 ++ l2, a ∈ q (k.priority t) := by
    intro a ha
    rw [hq]
    rcases List.mem_append.mp ha with h | h
    · simp [h]
    · simp [h]
  have hat : ∀ a ∈ l1 ++ l2, a ≠ t := by
    intro a ha he
    subst he
    rcases List.mem_append.mp ha with h | h
    · exact ht1 h
    · exact ht2 h
  -- tasks queued at other priorities are not touched
  have hother : ∀ (k' : Kernel), k'.priority = k.priority →
      (∀ p', p' ≠ k.priority t → k'.s_OSRdyLists p' = k.s_OSRdyLists p') →
      (∀ a, k.priority a ≠ k.priority t → k'.rdyNextPtr a = k.rdyNextPtr a) →
      (∀ a, k.priority a ≠ k.priority t → k'.rdyPrevPtr a = k.rdyPrevPtr a) →
      RdyFifo k' (k.priority t) (l1 ++ l2) →
      RdyInv k' (Function.update q (k.priority t) (l1 ++ l2)) := by
    intro k' hpr hls hnx hpv hfifo p' hp'
    by_cases he : p' = k.priority t
    · subst he
      simpa using hfifo
    · rw [Function.update_noteq he]
      have hne : ∀ a ∈ q p', k.priority a ≠ k.priority t := by
        intro a ha
        rw [(hinv p' hp').2.2.2 a ha]; exact he
      exact RdyFifo_other (hinv p' hp') (hls p' he) (fun a ha => hnx a (hne a ha))
        (fun a ha => hpv a (hne a ha)) hpr
  have hprio' : ∀ a ∈ l1 ++ l2, k.priority a = k.priority t := by
    intro a ha
    apply hprio
    rcases List.mem_append.mp ha with h | h
    · simp [h]
    · simp [h]
  rcases List.eq_nil_or_concat l1 with h1 | ⟨l0, b, h1⟩
  · subst h1
    simp only [lastPtr] at hpvt
    cases l2 with
    | nil =>
      simp only [firstPtr] at hnxt
      simp only [OS_RdyTaskRemove, OS_RdyTaskRemove_unlink, Nat.not_le.mpr hp, if_false, hpvt,
        hnxt, Function.update_same, if_true, OS_BitMapClr_eq _ _ hp]
      refine ⟨_, rfl, ?_, ?_, ?_, ?_, ?_⟩
      · apply hother
        · rfl
        · intro p' he; simp [Function.update_noteq he]
        · intro a ha
          have : a ≠ t := fun h => ha (by rw [h])
          simp [Function.update_noteq this]
        · intro a ha
          have : a ≠ t := fun h => ha (by rw [h])
          simp [Function.update_noteq this]
        · simp [RdyFifo, DSeg]
      · exact BitMapInv_clr hbm hp (by simp [OS_BitMapClr_eq _ _ hp])
      · simp [RdyFrame]
      · simp
      · simp
    | cons c l3 =>
      simp only [firstPtr] at hnxt
      have hct : c ≠ t := hat c (by simp)
      simp only [OS_RdyTaskRemove, OS_RdyTaskRemove_unlink, Nat.not_le.mpr hp, if_false, hpvt,
        hnxt, Function.update_same, reduceCtorEq]
      refine ⟨_, rfl, ?_, ?_, ?_, ?_, ?_⟩
      · apply hother
        · rfl
        · intro p' he; simp [Function.update_noteq he]
        · intro a ha
          have : a ≠ t := fun h => ha (by rw [h])
          simp [Function.update_noteq this]
        · intro a ha
          have h1 : a ≠ t := fun h => ha (by rw [h])
          have h2 : a ≠ c := fun h => ha (by rw [h]; exact hprio' c (by simp))
          simp [Function.update_noteq h1, Function.update_noteq h2]
        · unfold RdyFifo
          refine ⟨?_, ?_, hnd', hprio'⟩
          · refine DSeg_unlink hseg hnd ?_ ?_ ?_ ?_ ?_
            · intro b hb; cases hb
            · intro a ha _
              simp [Function.update_noteq (hat a ha)]
            · intro c' hc'
              cases hc'
              simp [lastPtr, Function.update_noteq hct]
            · intro a ha hne
              have : a ≠ c := fun h => hne (by rw [h]; rfl)
              simp [Function.update_noteq (hat a ha), Function.update_noteq this]
            · simp [firstPtr]
          · intro _
            have := htail (by simp)
            simp only [Function.update_same]
            rw [this]
            rfl
      · exact BitMapInv_keep hbm (by simp) (by simp [hq]) rfl
      · simp [RdyFrame]
      · simp
      · simp
  · rw [List.concat_eq_append] at h1
    subst h1
    have hbt : b ≠ t := hat b (by simp)
    have hpvt' : k.rdyPrevPtr t = some b := by rw [hpvt, lastPtr_snoc]
    obtain ⟨h0, hh0⟩ : ∃ h0, (k.s_OSRdyLists (k.priority t)).headPtr = some h0 := by
      rw [hhead]; cases l0 <;> exact ⟨_, rfl⟩
    cases l2 with
    | nil =>
      simp only [firstPtr] at hnxt
      simp only [OS_RdyTaskRemove, OS_RdyTaskRemove_unlink, Nat.not_le.mpr hp, if_false, hpvt',
        hnxt, Function.update_same, hh0, reduceCtorEq]
      refine ⟨_, rfl, ?_, ?_, ?_, ?_, ?_⟩
      · apply hother
        · rfl
        · intro p' he; simp [Function.update_noteq he]
        · intro a ha
          have h1 : a ≠ t := fun h => ha (by rw [h])
          have h2 : a ≠ b := fun h => ha (by rw [h]; exact hprio' b (by simp))
          simp [Function.update_noteq h1, Function.update_noteq h2]
        · intro a ha
          have h1 : a ≠ t := fun h => ha (by rw [h])
          simp [Function.update_noteq h1]
        · unfold RdyFifo
          refine ⟨?_, ?_, hnd', hprio'⟩
          · refine DSeg_unlink hseg hnd ?_ ?_ ?_ ?_ ?_
            · intro b' hb'
              rw [lastPtr_snoc] at hb'
              cases hb'
              simp [firstPtr, Function.update_noteq hbt]
            · intro a ha hne
              rw [lastPtr_snoc] at hne
              have : a ≠ b := fun h => hne (by rw [h])
              simp [Function.update_noteq (hat a ha), Function.update_noteq this]
            · intro c hc; cases hc
            · intro a ha _
              simp [Function.update_noteq (hat a ha)]
            · simp [hh0]
          · intro _
            simp [lastPtr_snoc]
      · exact BitMapInv_keep hbm (by simp) (by simp [hq]) rfl
      · simp [RdyFrame]
      · simp
      · simp
    | cons c l3 =>
      simp only [firstPtr] at hnxt
      have hct : c ≠ t := hat c (by simp)
      have hbc : b ≠ c := by
        intro h
        exact hdisj (by simp : b ∈ l0 ++ [b]) (by simp [h])
      simp only [OS_RdyTaskRemove, OS_RdyTaskRemove_unlink, Nat.not_le.mpr hp, if_false, hpvt',
        hnxt, Function.update_same, hh0, reduceCtorEq]
      refine ⟨_, rfl, ?_, ?_, ?_, ?_, ?_⟩
      · apply hother
        · rfl
        · intro p' he; rfl
        · intro a ha
          have h1 : a ≠ t := fun h => ha (by rw [h])
          have h2 : a ≠ b := fun h => ha (by rw [h]; exact hprio' b (by simp))
          simp [Function.update_noteq h1, Function.update_noteq h2]
        · intro a ha
          have h1 : a ≠ t := fun h => ha (by rw [h])
          have h2 : a ≠ c := fun h => ha (by rw [h]; exact hprio' c (by simp))
          simp [Function.update_noteq h1, Function.update_noteq h2]
        · unfold RdyFifo
          refine ⟨?_, ?_, hnd', hprio'⟩
          · refine DSeg_unlink hseg hnd ?_ ?_ ?_ ?_ ?_
            · intro b' hb'
              rw [lastPtr_snoc] at hb'
              cases hb'
              simp [firstPtr, Function.update_noteq hbt]
            · intro a ha hne
              rw [lastPtr_snoc] at hne
              have : a ≠ b := fun h => hne (by rw [h])
              simp [Function.update_noteq (hat a ha), Function.update_noteq this]
            · intro c' hc'
              cases hc'
              simp [lastPtr_snoc, Function.update_noteq hct]
            · intro a ha hne
              have : a ≠ c := fun h => hne (by rw [h]; rfl)
              simp [Function.update_noteq (hat a ha), Function.update_noteq this]
            · simp [hh0]
          · intro _
            have := htail (by simp)
            rw [this, lastPtr_append_cons, lastPtr_append_cons]
            rfl
      · exact BitMapInv_keep hbm (by simp) (by simp [hq]) rfl
      · simp [RdyFrame]
      · simp
      · simp
theorem RdyFifo_head_ne_none {k : Kernel} {p : Nat} {l : List Nat} (h : RdyFifo k p l) :
    (k.s_OSRdyLists p).headPtr ≠ none ↔ l ≠ [] := by
  rw [DSeg_first h.1]
  cases l <;> simp [firstPtr]

theorem OSInitTaskSched_inv (k0 : Kernel) :
    RdyInv (OSInitTaskSched k0) (fun _ => []) ∧ BitMapInv (OSInitTaskSched k0) (fun _ => []) := by
  constructor
  · intro p hp
    simp [RdyFifo, OSInitTaskSched, OS_BitMapInit, OS_TickListInit, OS_RdyListInit, hp, DSeg]
  · refine ⟨by simp [OSInitTaskSched, OS_BitMapInit], ?_⟩
    intro p _
    simp [OSInitTaskSched, OS_BitMapInit]

theorem RdyReach_inv {k : Kernel} {q : Nat → List Nat} (h : RdyReach k q) :
    RdyInv k q ∧ BitMapInv k q ∧ ∀ p, OS_CFG_PRIO_MAX ≤ p → q p = [] := by
  induction h with
  | init k0 =>
    exact ⟨(OSInitTaskSched_inv k0).1, (OSInitTaskSched_inv k0).2, fun _ _ => rfl⟩
  | add k k' q t _ hp ht hop ih =>
    obtain ⟨k2, h2, hinv, hbm, _⟩ := OS_RdyTaskAdd_spec k q t ih.1 ih.2.1 hp ht
    rw [hop] at h2
    cases h2
    refine ⟨hinv, hbm, ?_⟩
    intro p hp'
    have : p ≠ k.priority t := by omega
    rw [Function.update_noteq this]
    exact ih.2.2 p hp'
  | remove k k' q t _ ht hop ih =>
    have hp : k.priority t < OS_CFG_PRIO_MAX := by
      by_contra hge
      rw [ih.2.2 _ (Nat.le_of_not_lt hge)] at ht
      exact absurd ht (List.not_mem_nil _)
    obtain ⟨k2, h2, hinv, hbm, _⟩ := OS_RdyTaskRemove_spec k q t ih.1 ih.2.1 hp ht
    rw [hop] at h2
    cases h2
    refine ⟨hinv, hbm, ?_⟩
    intro p hp'
    have : p ≠ k.priority t := by omega
    rw [Function.update_noteq this]
    exact ih.2.2 p hp'
theorem DSeg_walk {nx pv : Nat → Option Nat} {l : List Nat} :
    ∀ {q p : Option Nat} (n : Nat), DSeg nx pv q p l none → walk nx (l.length + n) p = l := by
  induction l with
  | nil =>
    intro q p n h
    have hp : p = none := h
    subst hp
    cases n <;> rfl
  | cons a l ih =>
    intro q p n h
    obtain ⟨hp, _, hrest⟩ := h
    subst hp
    have : (a :: l).length + n = (l.length + n) + 1 := by simp; omega
    rw [this]
    simp only [walk]
    rw [ih n hrest]

theorem exK3_reach : RdyReach exK3 exQ3 := by
  have h0 := RdyReach.init exK0
  have h1 := RdyReach.add _ exK1 _ 5 h0 (by decide) (by simp) rfl
  have h2 := RdyReach.add _ exK2 _ 1 h1 (by decide) (by decide) rfl
  have h3 := RdyReach.add _ exK3 _ 2 h2 (by decide) (by decide) rfl
  exact h3
theorem bitmapOps_lt (ops : List (Bool × Nat)) (k : Kernel) (hk : k.s_OSPrioBitMap < 2 ^ 32) :
    (bitmapOps ops k).s_OSPrioBitMap < 2 ^ 32 := by
  induction ops generalizing k with
  | nil => exact hk
  | cons op ops ih =>
    simp only [bitmapOps, List.foldl_cons]
    by_cases hb : op.1 = true
    · simp only [hb, if_true]
      exact ih _ (OS_BitMapSet_lt _ _ hk)
    · simp only [hb, Bool.false_eq_true, if_false]
      exact ih _ (OS_BitMapClr_lt _ _ hk)

theorem bitmapOps_testBit (ops : List (Bool × Nat)) (k : Kernel)
    (hops : ∀ op ∈ ops, op.2 < OS_CFG_PRIO_MAX) (p : Nat) (hp : p < OS_CFG_PRIO_MAX) :
    (bitmapOps ops (OS_BitMapInit k)).s_OSPrioBitMap.testBit (31 - p) = setNotCleared ops p := by
  induction ops using List.reverseRecOn with
  | nil => simp [bitmapOps, OS_BitMapInit, setNotCleared]
  | append_singleton ops op ih =>
    have ih' := ih (fun o ho => hops o (by simp [ho]))
    have hop : op.2 < OS_CFG_PRIO_MAX := hops op (by simp)
    have hlt := bitmapOps_lt ops (OS_BitMapInit k) (by simp [OS_BitMapInit])
    have hrun : bitmapOps (ops ++ [op]) (OS_BitMapInit k)
        = if op.1 then OS_BitMapSet op.2 (bitmapOps ops (OS_BitMapInit k))
          else OS_BitMapClr op.2 (bitmapOps ops (OS_BitMapInit k)) := by
      simp [bitmapOps, List.foldl_append]
    rw [hrun]
    obtain ⟨b, p1⟩ := op
    simp only at hop hrun ⊢
    by_cases he : p1 = p
    · subst he
      have hs : setNotCleared (ops ++ [(b, p1)]) p1 = b := by
        simp [setNotCleared, List.filter_append]
      rw [hs]
      cases b with
      | true => simp [OS_BitMapSet_testBit _ _ hop]
      | false => simp [OS_BitMapClr_testBit _ _ hop hlt]
    · have hs : setNotCleared (ops ++ [(b, p1)]) p = setNotCleared ops p := by
        simp [setNotCleared, List.filter_append, he]
      have hne : ¬ (31 - p1 = 31 - p) := by
        unfold OS_CFG_PRIO_MAX at hp hop
        omega
      rw [hs, ← ih']
      cases b with
      | true => simp [OS_BitMapSet_testBit _ _ hop, hne]
      | false => simp [OS_BitMapClr_testBit _ _ hop hlt, hne]

theorem setNotCleared_mem {ops : List (Bool × Nat)} {p : Nat} (h : setNotCleared ops p = true) :
    ∃ op ∈ ops, op.2 = p := by
  unfold setNotCleared at h
  cases hl : (ops.filter (fun op => op.2 = p)).getLast? with
  | none => rw [hl] at h; cases h
  | some op =>
    have hm := List.mem_of_getLast?_eq_some hl
    rw [List.mem_filter] at hm
    exact ⟨op, hm.1, by simpa using hm.2⟩

/-- C3: on a 32-bit bitmap word, `OS_BitMapSet(p)` with `p < 32` sets bit `31 - p` (and leaves
every other bit alone); on a non-zero word `OS_BitMapGetHighest` returns the smallest `p` in
`0..31` whose bit `31 - p` is set; and after any history of `OS_BitMapSet`/`OS_BitMapClr` calls
with legal priorities on an initialised bitmap it returns the numerically smallest priority
that was set and not cleared. -/
theorem C3_bitmap_set_and_get_highest (k : Kernel) (hk : k.s_OSPrioBitMap < 2 ^ 32) :
    (∀ p, p < 32 →
      (OS_BitMapSet p k).s_OSPrioBitMap.testBit (31 - p) = true ∧
      (OS_BitMapSet p k).s_OSPrioBitMap < 2 ^ 32 ∧
      ∀ i, i ≠ 31 - p →
        (OS_BitMapSet p k).s_OSPrioBitMap.testBit i = k.s_OSPrioBitMap.testBit i) ∧
    (k.s_OSPrioBitMap ≠ 0 →
      ∃ p, OS_BitMapGetHighest k = some p ∧ p < 32 ∧
        k.s_OSPrioBitMap.testBit (31 - p) = true ∧
        ∀ p', p' < 32 → k.s_OSPrioBitMap.testBit (31 - p') = true → p ≤ p') ∧
    (∀ (ops : List (Bool × Nat)) (p : Nat), (∀ op ∈ ops, op.2 < 32) →
      setNotCleared ops p = true → (∀ p', p' < p → setNotCleared ops p' = false) →
      OS_BitMapGetHighest (bitmapOps ops (OS_BitMapInit k)) = some p) := by
  refine ⟨?_, ?_, ?_⟩
  · intro p hp
    refine ⟨?_, OS_BitMapSet_lt p k hk, ?_⟩
    · rw [OS_BitMapSet_testBit p k hp]; simp
    · intro i hi
      rw [OS_BitMapSet_testBit p k hp]
      simp [Ne.symm hi]
  · intro h0
    obtain ⟨p, h1, h2, h3, h4⟩ := OS_BitMapGetHighest_spec k hk h0
    refine ⟨p, h1, h2, h3, ?_⟩
    intro p' _ hset
    by_contra hlt
    rw [h4 p' (by omega)] at hset
    cases hset
  · intro ops p hops hset hmin
    obtain ⟨op, hmem, hop⟩ := setNotCleared_mem hset
    have hp : p < OS_CFG_PRIO_MAX := hop ▸ hops op hmem
    have hlt := bitmapOps_lt ops (OS_BitMapInit k) (by simp [OS_BitMapInit])
    have hbit := bitmapOps_testBit ops k hops p hp
    rw [hset] at hbit
    have hne : (bitmapOps ops (OS_BitMapInit k)).s_OSPrioBitMap ≠ 0 := by
      intro h0
      rw [h0] at hbit
      simp at hbit
    obtain ⟨p0, h1, h2, h3, h4⟩ := OS_BitMapGetHighest_spec _ hlt hne
    rw [h1]
    congr 1
    rw [bitmapOps_testBit ops k hops p0 h2] at h3
    rcases Nat.lt_trichotomy p0 p with h | h | h
    · rw [hmin p0 h] at h3; cases h3
    · exact h
    · rw [h4 p h] at hbit; cases hbit

/-- C3, instantiated at the bitmap word 12345 of `exK0`. -/
theorem C3_bitmap_witness :
    (exK0.s_OSPrioBitMap < 2 ^ 32) ∧
    ((∀ p, p < 32 →
      (OS_BitMapSet p exK0).s_OSPrioBitMap.testBit (31 - p) = true ∧
      (OS_BitMapSet p exK0).s_OSPrioBitMap < 2 ^ 32 ∧
      ∀ i, i ≠ 31 - p →
        (OS_BitMapSet p exK0).s_OSPrioBitMap.testBit i = exK0.s_OSPrioBitMap.testBit i) ∧
    (exK0.s_OSPrioBitMap ≠ 0 →
      ∃ p, OS_BitMapGetHighest exK0 = some p ∧ p < 32 ∧
        exK0.s_OSPrioBitMap.testBit (31 - p) = true ∧
        ∀ p', p' < 32 → exK0.s_OSPrioBitMap.testBit (31 - p') = true → p ≤ p') ∧
    (∀ (ops : List (Bool × Nat)) (p : Nat), (∀ op ∈ ops, op.2 < 32) →
      setNotCleared ops p = true → (∀ p', p' < p → setNotCleared ops p' = false) →
      OS_BitMapGetHighest (bitmapOps ops (OS_BitMapInit exK0)) = some p)) :=
  ⟨by decide, C3_bitmap_set_and_get_highest exK0 (by decide)⟩
/-- C1: in every state reachable from `OSInitTaskSched` by `OS_RdyTaskAdd` (task of priority
below 32 that is not queued) and `OS_RdyTaskRemove` (queued task), for every priority `p` in
`0..31`, bit `31 - p` of the bitmap is set if and only if the head pointer of ready FIFO `p` is
not null. -/
theorem C1_bitmap_iff_ready_head (k : Kernel) (q : Nat → List Nat) (h : RdyReach k q)
    (p : Nat) (hp : p < 32) :
    k.s_OSPrioBitMap.testBit (31 - p) = true ↔ (k.s_OSRdyLists p).headPtr ≠ none := by
  obtain ⟨hinv, hbm, _⟩ := RdyReach_inv h
  rw [hbm.2 p hp, RdyFifo_head_ne_none (hinv p hp)]

/-- C1, instantiated: after adding tasks 5, 1 (priority 1) and 2 (priority 2), at priority 1. -/
theorem C1_bitmap_iff_ready_head_witness :
    RdyReach exK3 exQ3 ∧ 1 < 32 ∧
      (exK3.s_OSPrioBitMap.testBit (31 - 1) = true ↔ (exK3.s_OSRdyLists 1).headPtr ≠ none) :=
  ⟨exK3_reach, by decide, C1_bitmap_iff_ready_head exK3 exQ3 exK3_reach 1 (by decide)⟩

/-- C2: when the bitmap/ready-queue invariant holds (`q p` lists ready FIFO `p` head to tail,
which by C4 is the order of addition) and at least one task is queued, `OS_UpdateCurrentTask`
returns and only changes the current task, to a task `t` that is the head of the ready FIFO of
its priority (hence non-null, queued, and the earliest added of that priority), and no queued
task has a smaller priority number. -/
theorem C2_update_current_task (k : Kernel) (q : Nat → List Nat)
    (hinv : RdyInv k q) (hbm : BitMapInv k q) (hne : ∃ p, p < 32 ∧ q p ≠ []) :
    ∃ t rest, OS_UpdateCurrentTask k = some { k with g_pCurrentTask := some t } ∧
      k.priority t < 32 ∧ q (k.priority t) = t :: rest ∧
      (k.s_OSRdyLists (k.priority t)).headPtr = some t ∧
      ∀ p', p' < 32 → ∀ u ∈ q p', k.priority t ≤ k.priority u := by
  obtain ⟨p1, hp1, hq1⟩ := hne
  have hbit1 := (hbm.2 p1 hp1).mpr hq1
  have h0 : k.s_OSPrioBitMap ≠ 0 := by
    intro h0
    rw [h0] at hbit1
    simp at hbit1
  obtain ⟨p, h1, h2, h3, h4⟩ := OS_BitMapGetHighest_spec k hbm.1 h0
  have hq : q p ≠ [] := (hbm.2 p h2).mp h3
  obtain ⟨hseg, _, _, hprio⟩ := hinv p h2
  cases hl : q p with
  | nil => exact absurd hl hq
  | cons t rest =>
    rw [hl] at hseg hprio
    have hpt : k.priority t = p := hprio t (by simp)
    have hhead : (k.s_OSRdyLists p).headPtr = some t := hseg.1
    refine ⟨t, rest, ?_, ?_, ?_, ?_, ?_⟩
    · simp [OS_UpdateCurrentTask, h1, Nat.not_le.mpr h2, hhead]
    · rw [hpt]; exact h2
    · rw [hpt]; exact hl
    · rw [hpt]; exact hhead
    · intro p' hp' u hu
      rw [hpt, (hinv p' hp').2.2.2 u hu]
      by_contra hlt
      have hbit := (hbm.2 p' hp').mpr (List.ne_nil_of_mem hu)
      rw [h4 p' (by omega)] at hbit
      cases hbit

/-- C2, instantiated at the state with FIFO 1 = (5, 1) and FIFO 2 = (2). -/
theorem C2_update_current_task_witness :
    RdyInv exK3 exQ3 ∧ BitMapInv exK3 exQ3 ∧ (∃ p, p < 32 ∧ exQ3 p ≠ []) ∧
    ∃ t rest, OS_UpdateCurrentTask exK3 = some { exK3 with g_pCurrentTask := some t } ∧
      exK3.priority t < 32 ∧ exQ3 (exK3.priority t) = t :: rest ∧
      (exK3.s_OSRdyLists (exK3.priority t)).headPtr = some t ∧
      ∀ p', p' < 32 → ∀ u ∈ exQ3 p', exK3.priority t ≤ exK3.priority u :=
  ⟨(RdyReach_inv exK3_reach).1, (RdyReach_inv exK3_reach).2.1, ⟨1, by decide, by decide⟩,
    C2_update_current_task exK3 exQ3 (RdyReach_inv exK3_reach).1 (RdyReach_inv exK3_reach).2.1
      ⟨1, by decide, by decide⟩⟩

/-- C4: ready queues are first-come-first-served. In a reachable state, ready FIFO `p` read
head to tail is `q p`, the queued tasks of priority `p` in the order in which they were added;
`OS_RdyTaskAdd` of a task that is not queued appends it at the tail; and `OS_RdyTaskRemove` of a
member at any position (`l1` in front of it, `l2` behind it) deletes exactly that task and keeps
the order of the others. Neither touches the FIFOs of the other priorities. -/
theorem C4_ready_fifo_fcfs (k : Kernel) (q : Nat → List Nat) (h : RdyReach k q) :
    (∀ p, p < 32 → RdyFifo k p (q p) ∧
      walk k.rdyNextPtr (q p).length (k.s_OSRdyLists p).headPtr = q p) ∧
    (∀ t, k.priority t < 32 → t ∉ q (k.priority t) →
      ∃ k', OS_RdyTaskAdd (some t) k = some k' ∧
        RdyFifo k' (k.priority t) (q (k.priority t) ++ [t]) ∧
        ∀ p, p < 32 → p ≠ k.priority t → RdyFifo k' p (q p)) ∧
    (∀ t l1 l2, q (k.priority t) = l1 ++ t :: l2 →
      ∃ k', OS_RdyTaskRemove (some t) k = some k' ∧
        RdyFifo k' (k.priority t) (l1 ++ l2) ∧
        ∀ p, p < 32 → p ≠ k.priority t → RdyFifo k' p (q p)) := by
  obtain ⟨hinv, hbm, hbig⟩ := RdyReach_inv h
  refine ⟨?_, ?_, ?_⟩
  · intro p hp
    exact ⟨hinv p hp, DSeg_walk 0 (hinv p hp).1⟩
  · intro t hp ht
    obtain ⟨k', h1, h2, _, _⟩ := OS_RdyTaskAdd_spec k q t hinv hbm hp ht
    refine ⟨k', h1, ?_, ?_⟩
    · simpa using h2 _ hp
    · intro p hp' hne
      simpa [Function.update_noteq hne] using h2 p hp'
  · intro t l1 l2 hq
    have ht : t ∈ q (k.priority t) := by rw [hq]; simp
    have hp : k.priority t < OS_CFG_PRIO_MAX := by
      by_contra hge
      rw [hbig _ (Nat.le_of_not_lt hge)] at ht
      exact absurd ht (List.not_mem_nil _)
    obtain ⟨k', h1, h2, _, _⟩ := OS_RdyTaskRemove_spec k q t hinv hbm hp ht
    have hnd := (hinv _ hp).2.2.1
    rw [hq] at hnd
    have he : (q (k.priority t)).erase t = l1 ++ l2 := by
      rw [hq]; exact erase_mid l1 l2 t (nodup_mid hnd).1
    refine ⟨k', h1, ?_, ?_⟩
    · simpa [he] using h2 _ hp
    · intro p hp' hne
      simpa [Function.update_noteq hne] using h2 p hp'

/-- C4, instantiated at the state with FIFO 1 = (5, 1) and FIFO 2 = (2). -/
theorem C4_ready_fifo_fcfs_witness :
    RdyReach exK3 exQ3 ∧
    ((∀ p, p < 32 → RdyFifo exK3 p (exQ3 p) ∧
      walk exK3.rdyNextPtr (exQ3 p).length (exK3.s_OSRdyLists p).headPtr = exQ3 p) ∧
    (∀ t, exK3.priority t < 32 → t ∉ exQ3 (exK3.priority t) →
      ∃ k', OS_RdyTaskAdd (some t) exK3 = some k' ∧
        RdyFifo k' (exK3.priority t) (exQ3 (exK3.priority t) ++ [t]) ∧
        ∀ p, p < 32 → p ≠ exK3.priority t → RdyFifo k' p (exQ3 p)) ∧
    (∀ t l1 l2, exQ3 (exK3.priority t) = l1 ++ t :: l2 →
      ∃ k', OS_RdyTaskRemove (some t) exK3 = some k' ∧
        RdyFifo k' (exK3.priority t) (l1 ++ l2) ∧
        ∀ p, p < 32 → p ≠ exK3.priority t → RdyFifo k' p (exQ3 p))) :=
  ⟨exK3_reach, C4_ready_fifo_fcfs exK3 exQ3 exK3_reach⟩
/-! ## Delta tick list lemmas -/

theorem u64_sub_eq (a b : Nat) (hb : b ≤ a) (ha : a < 2 ^ 64) : u64_sub a b = a - b := by
  unfold u64_sub
  have hb' : b % 2 ^ 64 = b := Nat.mod_eq_of_lt (lt_of_le_of_lt hb ha)
  rw [hb']
  have h2 : a + (2 ^ 64 - b) = (a - b) + 2 ^ 64 := by omega
  rw [h2, Nat.add_mod_right]
  exact Nat.mod_eq_of_lt (by omega)

theorem u64_add_eq (a b : Nat) (h : a + b < 2 ^ 64) : u64_add a b = a + b :=
  Nat.mod_eq_of_lt h

theorem absTicks_congr {tick tick' : Nat → Nat} {l : List Nat} (h : ∀ a ∈ l, tick' a = tick a)
    (u : Nat) : absTicks tick' l u = absTicks tick l u := by
  induction l with
  | nil => rfl
  | cons a l ih =>
    simp only [absTicks]
    rw [h a (by simp), ih (fun b hb => h b (by simp [hb]))]

theorem absTicks_append_left (tick : Nat → Nat) {l1 : List Nat} (l2 : List Nat) {u : Nat}
    (hu : u ∈ l1) : absTicks tick (l1 ++ l2) u = absTicks tick l1 u := by
  induction l1 with
  | nil => cases hu
  | cons a l ih =>
    show tick a + (if a = u then 0 else absTicks tick (l ++ l2) u)
      = tick a + (if a = u then 0 else absTicks tick l u)
    by_cases he : a = u
    · simp [he]
    · simp only [he, if_false]
      rw [ih (by
        rcases List.mem_cons.mp hu with h | h
        · exact absurd h.symm he
        · exact h)]

theorem absTicks_append_right (tick : Nat → Nat) {l1 : List Nat} (l2 : List Nat) {u : Nat}
    (hu : u ∉ l1) : absTicks tick (l1 ++ l2) u = (l1.map tick).sum + absTicks tick l2 u := by
  induction l1 with
  | nil => simp
  | cons a l ih =>
    have hne : a ≠ u := fun h => hu (by simp [h])
    show tick a + (if a = u then 0 else absTicks tick (l ++ l2) u)
      = ((a :: l).map tick).sum + absTicks tick l2 u
    simp only [hne, if_false, List.map_cons, List.sum_cons]
    rw [ih (fun h => hu (by simp [h]))]
    omega

theorem absTicks_le_sum (tick : Nat → Nat) (l : List Nat) (u : Nat) :
    absTicks tick l u ≤ (l.map tick).sum := by
  induction l with
  | nil => simp [absTicks]
  | cons a l ih =>
    simp only [absTicks, List.map_cons, List.sum_cons]
    split <;> omega

theorem tick_le_sum (tick : Nat → Nat) {l : List Nat} {a : Nat} (ha : a ∈ l) :
    tick a ≤ (l.map tick).sum :=
  List.single_le_sum (by simp) _ (List.mem_map_of_mem tick ha)
theorem OS_TickTaskInsert_walk_spec (t : Nat) (k : Kernel) :
    ∀ (l2 l1 : List Nat) (fuel rem : Nat),
      DSeg k.tickNextPtr k.tickPrevPtr none k.s_OSTickList.headPtr (l1 ++ l2) none →
      (l1 ++ l2).Nodup → t ∉ l1 ++ l2 → l1 ++ l2 ≠ [] → l2.length < fuel → rem < 2 ^ 64 →
      (∀ a ∈ l2, k.tick a < 2 ^ 64) →
      ∃ k' m1 m2,
        OS_TickTaskInsert_walk t fuel rem (firstPtr l2 none) (lastPtr none l1) k = some k' ∧
        l2 = m1 ++ m2 ∧
        DSeg k'.tickNextPtr k'.tickPrevPtr none k'.s_OSTickList.headPtr
          (l1 ++ m1 ++ t :: m2) none ∧
        (∀ u ∈ m1, absTicks k.tick m1 u < rem) ∧
        (m1.map k.tick).sum ≤ rem ∧
        k'.tick t = rem - (m1.map k.tick).sum ∧
        (∀ c m3, m2 = c :: m3 → rem - (m1.map k.tick).sum ≤ k.tick c ∧
          k'.tick c = k.tick c - (rem - (m1.map k.tick).sum)) ∧
        (∀ a, a ≠ t → firstPtr m2 none ≠ some a → k'.tick a = k.tick a) ∧
        TickFrame k k' := by
  intro l2
  induction l2 with
  | nil =>
    intro l1 fuel rem hseg hnd ht hne hfuel hrem _
    rw [List.append_nil] at hnd ht hne
    obtain ⟨f, rfl⟩ : ∃ f, fuel = f + 1 := ⟨fuel - 1, by simp at hfuel; omega⟩
    rcases List.eq_nil_or_concat l1 with h1 | ⟨l0, b, h1⟩
    · exact absurd h1 hne
    · rw [List.concat_eq_append] at h1
      subst h1
      have htb : t ≠ b := fun h => ht (by simp [h])
      have hh : k.s_OSTickList.headPtr ≠ none := by
        rw [DSeg_first hseg]; cases l0 <;> simp [firstPtr]
      simp only [firstPtr, lastPtr_snoc, OS_TickTaskInsert_walk]
      refine ⟨_, [], [], rfl, rfl, ?_, ?_, ?_, ?_, ?_, ?_, ?_⟩
      · simp only [List.append_nil]
        refine DSeg_link hseg (by simpa using hnd) (by simpa using ht) ?_ ?_ ?_ ?_ ?_ ?_ ?_
        · simp [firstPtr, Function.update_noteq htb]
        · simp [lastPtr_snoc]
        · intro b' hb'
          rw [lastPtr_snoc] at hb'
          cases hb'
          simp
        · intro a ha hne'
          rw [lastPtr_snoc] at hne'
          have hab : a ≠ b := fun h => hne' (by rw [h])
          have hat : a ≠ t := by
            intro h; subst h; exact ht (by simpa using ha)
          simp [Function.update_noteq hab, Function.update_noteq hat]
        · intro c hc; cases hc
        · intro a ha _
          have hat : a ≠ t := by
            intro h; subst h; exact ht (by simpa using ha)
          simp [Function.update_noteq hat]
        · simp
      · intro u hu; cases hu
      · simp
      · simp
      · intro c m3 h; cases h
      · intro a hat _
        simp [Function.update_noteq hat]
      · simp [TickFrame]
  | cons c l3 ih =>
    intro l1 fuel rem hseg hnd ht hne hfuel hrem hticks
    obtain ⟨f, rfl⟩ : ∃ f, fuel = f + 1 := ⟨fuel - 1, by simp at hfuel; omega⟩
    obtain ⟨hs1, hpvc, hs2⟩ := DSeg_mid.mp hseg
    have hnxc := DSeg_first hs2
    have hct : c ≠ t := fun h => ht (by simp [h])
    have hat : ∀ a ∈ l1 ++ c :: l3, a ≠ t := fun a ha h => ht (h ▸ ha)
    have hc1 : c ∉ l1 := (nodup_mid hnd).1
    have hc3 : c ∉ l3 := (nodup_mid hnd).2.1
    have htc : k.tick c < 2 ^ 64 := hticks c (by simp)
    by_cases hle : rem ≤ k.tick c
    · -- insert in front of `c`
      rcases List.eq_nil_or_concat l1 with h1 | ⟨l0, b, h1⟩
      · subst h1
        simp only [lastPtr] at hpvc
        simp only [firstPtr, lastPtr, OS_TickTaskInsert_walk, hle, if_true, hpvc]
        refine ⟨_, [], c :: l3, rfl, rfl, ?_, ?_, ?_, ?_, ?_, ?_, ?_⟩
        · refine DSeg_link hseg hnd ht ?_ ?_ ?_ ?_ ?_ ?_ ?_
          · simp [firstPtr]
          · simp [lastPtr, Function.update_noteq hct.symm]
          · intro b hb; cases hb
          · intro a ha _
            simp [Function.update_noteq (hat a ha)]
          · intro c' hc'
            cases hc'
            simp
          · intro a ha hne'
            have hac : a ≠ c := fun h => hne' (by rw [h]; rfl)
            simp [Function.update_noteq (hat a ha), Function.update_noteq hac]
          · simp
        · intro u hu; cases hu
        · simp
        · simp [Function.update_noteq hct.symm]
        · intro c' m3 h
          cases h
          simp [Function.update_noteq hct, u64_sub_eq _ _ hle htc, hle]
        · intro a hat' hne'
          have hac : a ≠ c := fun h => hne' (by rw [h])
          simp [Function.update_noteq hat', Function.update_noteq hac]
        · simp [TickFrame]
      · rw [List.concat_eq_append] at h1
        subst h1
        rw [lastPtr_snoc] at hpvc
        have hbt : b ≠ t := hat b (by simp)
        have hbc : b ≠ c := fun h => hc1 (by simp [← h])
        have hh : ∃ h0, k.s_OSTickList.headPtr = some h0 := by
          rw [DSeg_first hseg]; cases l0 <;> exact ⟨_, rfl⟩
        simp only [firstPtr, lastPtr_snoc, OS_TickTaskInsert_walk, hle, if_true, hpvc]
        refine ⟨_, [], c :: l3, rfl, rfl, ?_, ?_, ?_, ?_, ?_, ?_, ?_⟩
        · simp only [List.append_nil]
          refine DSeg_link hseg hnd ht ?_ ?_ ?_ ?_ ?_ ?_ ?_
          · simp [firstPtr, Function.update_noteq hbt.symm]
          · simp [lastPtr_snoc, Function.update_noteq hct.symm]
          · intro b' hb'
            rw [lastPtr_snoc] at hb'
            cases hb'
            simp
          · intro a ha hne'
            rw [lastPtr_snoc] at hne'
            have hab : a ≠ b := fun h => hne' (by rw [h])
            simp [Function.update_noteq (hat a ha), Function.update_noteq hab]
          · intro c' hc'
            cases hc'
            simp
          · intro a ha hne'
            have hac : a ≠ c := fun h => hne' (by rw [h]; rfl)
            simp [Function.update_noteq (hat a ha), Function.update_noteq hac]
          · simp
        · intro u hu; cases hu
        · simp
        · simp [Function.update_noteq hct.symm]
        · intro c' m3 h
          cases h
          simp [Function.update_noteq hct, u64_sub_eq _ _ hle htc, hle]
        · intro a hat' hne'
          have hac : a ≠ c := fun h => hne' (by rw [h])
          simp [Function.update_noteq hat', Function.update_noteq hac]
        · simp [TickFrame]
    · -- move on behind `c`
      have hlt : k.tick c < rem := Nat.lt_of_not_le hle
      have hsub : u64_sub rem (k.tick c) = rem - k.tick c := u64_sub_eq _ _ (le_of_lt hlt) hrem
      have happ : (l1 ++ [c]) ++ l3 = l1 ++ c :: l3 := by simp
      obtain ⟨k', m1, m2, hw, hl3, hseg', habs, hsum, htt, hm2, hoth, hfr⟩ :=
        ih (l1 ++ [c]) f (rem - k.tick c) (happ ▸ hseg) (happ ▸ hnd) (happ ▸ ht) (by simp)
          (by simp at hfuel; omega) (by omega) (fun a ha => hticks a (by simp [ha]))
      refine ⟨k', c :: m1, m2, ?_, ?_, ?_, ?_, ?_, ?_, ?_, hoth, hfr⟩
      · simp only [firstPtr, OS_TickTaskInsert_walk, hle, if_false, hsub, hnxc]
        rw [lastPtr_snoc] at hw
        exact hw
      · rw [hl3]; rfl
      · simpa using hseg'
      · intro u hu
        simp only [absTicks]
        by_cases he : c = u
        · simp [he]; rw [← he]; exact hlt
        · simp only [he, if_false]
          have hu' : u ∈ m1 := by
            rcases List.mem_cons.mp hu with h | h
            · exact absurd h.symm he
            · exact h
          have := habs u hu'
          omega
      · simp only [List.map_cons, List.sum_cons]; omega
      · rw [htt]; simp only [List.map_cons, List.sum_cons]; omega
      · intro c' m3 h
        obtain ⟨h1, h2⟩ := hm2 c' m3 h
        simp only [List.map_cons, List.sum_cons]
        have e : rem - (k.tick c + (m1.map k.tick).sum) = rem - k.tick c - (m1.map k.tick).sum := by
          omega
        rw [e]
        exact ⟨h1, h2⟩
theorem sum_map_congr {tick tick' : Nat → Nat} {l : List Nat} (h : ∀ a ∈ l, tick' a = tick a) :
    (l.map tick').sum = (l.map tick).sum := by
  rw [List.map_congr_left h]

theorem nodup_insert_mid {l1 l2 : List Nat} {t : Nat} (hnd : (l1 ++ l2).Nodup)
    (ht : t ∉ l1 ++ l2) : (l1 ++ t :: l2).Nodup := by
  have h := List.nodup_append.mp hnd
  refine List.nodup_append.mpr ⟨h.1, List.nodup_cons.mpr ⟨fun hm => ht (by simp [hm]), h.2.1⟩, ?_⟩
  intro a ha1 ha2
  rcases List.mem_cons.mp ha2 with he | hm
  · subst he; exact ht (by simp [ha1])
  · exact h.2.2 ha1 hm

theorem OS_TickTaskInsert_spec (k : Kernel) (l : List Nat) (t T fuel : Nat)
    (hwf : TickListWF k l) (ht : t ∉ l) (htick : k.tick t ≠ 0) (hT : T < 2 ^ 64)
    (hfuel : l.length < fuel) :
    ∃ k' l1 l2, OS_TickTaskInsert fuel (some t) T k = some k' ∧ l = l1 ++ l2 ∧
      TickListWF k' (l1 ++ t :: l2) ∧
      absTicks k'.tick (l1 ++ t :: l2) t = T ∧
      (∀ u ∈ l, absTicks k'.tick (l1 ++ t :: l2) u = absTicks k.tick l u) ∧
      (∀ u ∈ l1, absTicks k.tick l u < T) ∧
      (∀ u ∈ l2, T ≤ absTicks k.tick l u) ∧
      (∀ a, a ∉ l → a ≠ t → k'.tick a = k.tick a) ∧
      TickFrame k k' := by
  obtain ⟨hseg, hnd, hsum⟩ := hwf
  have hhead := DSeg_first hseg
  cases l with
  | nil =>
    simp only [firstPtr] at hhead
    simp only [OS_TickTaskInsert, htick, if_false, hhead]
    refine ⟨_, [], [], rfl, rfl, ?_, ?_, ?_, ?_, ?_, ?_, ?_⟩
    · exact ⟨by simp [DSeg], by simp, by simpa using hT⟩
    · simp [absTicks]
    · intro u hu; cases hu
    · intro u hu; cases hu
    · intro u hu; cases hu
    · intro a _ hat
      simp [Function.update_noteq hat]
    · simp [TickFrame]
  | cons c0 l0 =>
    simp only [firstPtr] at hhead
    have hticks : ∀ a ∈ c0 :: l0, k.tick a < 2 ^ 64 := fun a ha =>
      lt_of_le_of_lt (tick_le_sum k.tick ha) hsum
    obtain ⟨k', m1, m2, hw, hl, hseg', habs, hs1, htt, hm2, hoth, hfr⟩ :=
      OS_TickTaskInsert_walk_spec t k (c0 :: l0) [] fuel T (by simpa using hseg)
        (by simpa using hnd) (by simpa using ht) (by simp) hfuel hT hticks
    simp only [firstPtr, lastPtr] at hw
    simp only [List.nil_append] at hseg'
    rw [hl] at hnd ht hsum
    have hdisj := List.disjoint_of_nodup_append hnd
    have hm1 : ∀ a ∈ m1, k'.tick a = k.tick a := by
      intro a ha
      apply hoth a (fun h => ht (by simp [← h, ha]))
      intro hf
      exact hdisj ha (firstPtr_none_mem hf)
    have hm1t : t ∉ m1 := fun h => ht (by simp [h])
    have hm2t : t ∉ m2 := fun h => ht (by simp [h])
    -- the list behind `t`, seen from `t`, keeps its absolute ticks
    have hback : ∀ u ∈ m2, absTicks k'.tick (t :: m2) u = absTicks k.tick m2 u := by
      intro u hu
      have hut : t ≠ u := fun h => hm2t (h ▸ hu)
      cases hm : m2 with
      | nil => rw [hm] at hu; cases hu
      | cons c m3 =>
        obtain ⟨h1, h2⟩ := hm2 c m3 hm
        have hc3 : c ∉ m3 := by
          have := (List.nodup_append.mp hnd).2.1
          rw [hm] at this
          exact (List.nodup_cons.mp this).1
        have hm3 : ∀ a ∈ m3, k'.tick a = k.tick a := by
          intro a ha
          apply hoth a (fun h => hm2t (by rw [hm, ← h]; simp [ha]))
          rw [hm]
          intro hf
          simp only [firstPtr] at hf
          cases hf
          exact hc3 ha
        simp only [absTicks, hut, if_false]
        rw [htt, h2, absTicks_congr hm3]
        omega
    have hsumback : ((t :: m2).map k'.tick).sum
        = if m2 = [] then T - (m1.map k.tick).sum else (m2.map k.tick).sum := by
      cases hm : m2 with
      | nil => simp [htt]
      | cons c m3 =>
        obtain ⟨h1, h2⟩ := hm2 c m3 hm
        have hc3 : c ∉ m3 := by
          have := (List.nodup_append.mp hnd).2.1
          rw [hm] at this
          exact (List.nodup_cons.mp this).1
        have hm3 : ∀ a ∈ m3, k'.tick a = k.tick a := by
          intro a ha
          apply hoth a (fun h => hm2t (by rw [hm, ← h]; simp [ha]))
          rw [hm]
          intro hf
          simp only [firstPtr] at hf
          cases hf
          exact hc3 ha
        simp only [List.map_cons, List.sum_cons, reduceCtorEq, if_false]
        rw [htt, h2, sum_map_congr hm3]
        omega
    have hres : OS_TickTaskInsert fuel (some t) T k = some k' := by
      simp only [OS_TickTaskInsert, htick, if_false, hhead]
      exact hw
    refine ⟨k', m1, m2, hres, hl, ⟨hseg', nodup_insert_mid hnd ht, ?_⟩, ?_, ?_, ?_, ?_, ?_, hfr⟩
    · rw [List.map_append, List.sum_append, sum_map_congr hm1, hsumback]
      rw [List.map_append, List.sum_append] at hsum
      split
      · omega
      · exact hsum
    · rw [absTicks_append_right _ _ hm1t, sum_map_congr hm1]
      simp only [absTicks, if_true, htt]
      omega
    · intro u hu
      rw [hl] at hu ⊢
      by_cases hu1 : u ∈ m1
      · rw [absTicks_append_left _ _ hu1, absTicks_append_left _ _ hu1]
        exact absTicks_congr hm1 u
      · have hu2 : u ∈ m2 := by
          rcases List.mem_append.mp hu with h | h
          · exact absurd h hu1
          · exact h
        rw [absTicks_append_right _ _ hu1, absTicks_append_right _ _ hu1, sum_map_congr hm1,
          hback u hu2]
    · intro u hu
      rw [hl, absTicks_append_left _ _ hu]
      exact habs u hu
    · intro u hu
      have hu1 : u ∉ m1 := fun h => hdisj h hu
      rw [hl, absTicks_append_right _ _ hu1]
      cases hm : m2 with
      | nil => rw [hm] at hu; cases hu
      | cons c m3 =>
        obtain ⟨h1, _⟩ := hm2 c m3 hm
        simp only [absTicks]
        omega
    · intro a ha hat
      apply hoth a hat
      intro hf
      apply ha
      rw [hl]
      exact List.mem_append_right _ (firstPtr_none_mem hf)
theorem OS_TickTaskRemove_spec (k : Kernel) (l1 l2 : List Nat) (t : Nat)
    (hwf : TickListWF k (l1 ++ t :: l2)) :
    TickListWF (OS_TickTaskRemove (some t) k) (l1 ++ l2) ∧
    (∀ c l3, l2 = c :: l3 → (OS_TickTaskRemove (some t) k).tick c = k.tick c + k.tick t) ∧
    (∀ u, u ≠ t → firstPtr l2 none ≠ some u → (OS_TickTaskRemove (some t) k).tick u = k.tick u) ∧
    (l1 ≠ [] → (OS_TickTaskRemove (some t) k).tick t = 0) ∧
    (l1 = [] → (OS_TickTaskRemove (some t) k).tick t = k.tick t) ∧
    (l1 = [] → (OS_TickTaskRemove (some t) k).s_OSTickList.headPtr = firstPtr l2 none) ∧
    (OS_TickTaskRemove (some t) k).tickNextPtr t = none ∧
    (OS_TickTaskRemove (some t) k).tickPrevPtr t = none ∧
    TickFrame k (OS_TickTaskRemove (some t) k) := by
  obtain ⟨hseg, hnd, hsum⟩ := hwf
  obtain ⟨ht1, ht2, hnd'⟩ := nodup_mid hnd
  have hdisj := List.disjoint_of_nodup_append hnd'
  have hhead := DSeg_first hseg
  obtain ⟨hs1, hpvt, hs2⟩ := DSeg_mid.mp hseg
  have hnxt := DSeg_first hs2
  have hat : ∀ a ∈ l1 ++ l2, a ≠ t := by
    intro a ha he
    subst he
    rcases List.mem_append.mp ha with h | h
    · exact ht1 h
    · exact ht2 h
  rw [List.map_append, List.sum_append, List.map_cons, List.sum_cons] at hsum
  rcases List.eq_nil_or_concat l1 with h1 | ⟨l0, b, h1⟩
  · subst h1
    simp only [lastPtr] at hpvt
    cases l2 with
    | nil =>
      simp only [firstPtr] at hnxt
      simp only [OS_TickTaskRemove, hpvt, hnxt]
      refine ⟨⟨by simp [DSeg], by simp, by simp⟩, ?_, ?_, ?_, ?_, ?_, ?_, ?_, ?_⟩
      · intro c l3 h; cases h
      · intro u _ _; trivial
      · intro h; exact absurd rfl h
      · intro _; trivial
      · intro _; rfl
      · simp
      · simp
      · simp [TickFrame]
    | cons c l3 =>
      simp only [firstPtr] at hnxt
      have hct : c ≠ t := hat c (by simp)
      have hc3 : c ∉ l3 := (List.nodup_cons.mp (by simpa using hnd')).1
      simp only [List.map_cons, List.sum_cons, List.map_nil, List.sum_nil] at hsum
      have hadd : u64_add (k.tick c) (k.tick t) = k.tick c + k.tick t :=
        u64_add_eq _ _ (by omega)
      simp only [OS_TickTaskRemove, hpvt, hnxt, hadd]
      refine ⟨⟨?_, hnd', ?_⟩, ?_, ?_, ?_, ?_, ?_, ?_, ?_, ?_⟩
      · refine DSeg_unlink hseg hnd ?_ ?_ ?_ ?_ ?_
        · intro b hb; cases hb
        · intro a ha _
          simp [Function.update_noteq (hat a ha)]
        · intro c' hc'
          cases hc'
          simp [lastPtr, Function.update_noteq hct]
        · intro a ha hne
          have : a ≠ c := fun h => hne (by rw [h]; rfl)
          simp [Function.update_noteq (hat a ha), Function.update_noteq this]
        · simp [firstPtr]
      · have h3 : ∀ a ∈ l3, Function.update k.tick c (k.tick c + k.tick t) a = k.tick a := by
          intro a ha
          have : a ≠ c := fun h => hc3 (h ▸ ha)
          simp [Function.update_noteq this]
        simp only [List.nil_append, List.map_cons, List.sum_cons, Function.update_same]
        rw [sum_map_congr h3]
        omega
      · intro c' l3' h
        cases h
        simp
      · intro u _ hne
        have : u ≠ c := fun h => hne (by rw [h]; rfl)
        simp [Function.update_noteq this]
      · intro h; exact absurd rfl h
      · intro _
        simp [Function.update_noteq hct.symm]
      · intro _; rfl
      · simp
      · simp
      · simp [TickFrame]
  · rw [List.concat_eq_append] at h1
    subst h1
    have hbt : b ≠ t := hat b (by simp)
    have hpvt' : k.tickPrevPtr t = some b := by rw [hpvt, lastPtr_snoc]
    obtain ⟨h0, hh0⟩ : ∃ h0, k.s_OSTickList.headPtr = some h0 := by
      rw [hhead]; cases l0 <;> exact ⟨_, rfl⟩
    cases l2 with
    | nil =>
      simp only [firstPtr] at hnxt
      simp only [OS_TickTaskRemove, hpvt', hnxt]
      refine ⟨⟨?_, hnd', ?_⟩, ?_, ?_, ?_, ?_, ?_, ?_, ?_, ?_⟩
      · refine DSeg_unlink hseg hnd ?_ ?_ ?_ ?_ ?_
        · intro b' hb'
          rw [lastPtr_snoc] at hb'
          cases hb'
          simp [firstPtr, Function.update_noteq hbt]
        · intro a ha hne
          rw [lastPtr_snoc] at hne
          have : a ≠ b := fun h => hne (by rw [h])
          simp [Function.update_noteq (hat a ha), Function.update_noteq this]
        · intro c hc; cases hc
        · intro a ha _
          simp [Function.update_noteq (hat a ha)]
        · simp [hh0]
      · have h3 : ∀ a ∈ l0 ++ [b] ++ [], Function.update k.tick t 0 a = k.tick a := by
          intro a ha
          simp [Function.update_noteq (hat a ha)]
        rw [sum_map_congr h3]
        simp only [List.append_nil]
        omega
      · intro c l3 h; cases h
      · intro u hut _
        simp [Function.update_noteq hut]
      · intro _; simp
      · intro h; simp at h
      · intro h; simp at h
      · simp
      · simp
      · simp [TickFrame]
    | cons c l3 =>
      simp only [firstPtr] at hnxt
      have hct : c ≠ t := hat c (by simp)
      have hbc : b ≠ c := by
        intro h
        exact hdisj (by simp : b ∈ l0 ++ [b]) (by simp [h])
      have hc3 : c ∉ l3 := (List.nodup_cons.mp (List.nodup_append.mp hnd').2.1).1
      simp only [List.map_cons, List.sum_cons] at hsum
      have hadd : u64_add (k.tick c) (k.tick t) = k.tick c + k.tick t :=
        u64_add_eq _ _ (by omega)
      simp only [OS_TickTaskRemove, hpvt', hnxt, hadd]
      refine ⟨⟨?_, hnd', ?_⟩, ?_, ?_, ?_, ?_, ?_, ?_, ?_, ?_⟩
      · refine DSeg_unlink hseg hnd ?_ ?_ ?_ ?_ ?_
        · intro b' hb'
          rw [lastPtr_snoc] at hb'
          cases hb'
          simp [firstPtr, Function.update_noteq hbt]
        · intro a ha hne
          rw [lastPtr_snoc] at hne
          have : a ≠ b := fun h => hne (by rw [h])
          simp [Function.update_noteq (hat a ha), Function.update_noteq this]
        · intro c' hc'
          cases hc'
          simp [lastPtr_snoc, Function.update_noteq hct]
        · intro a ha hne
          have : a ≠ c := fun h => hne (by rw [h]; rfl)
          simp [Function.update_noteq (hat a ha), Function.update_noteq this]
        · simp [hh0]
      · have h1 : ∀ a ∈ l0 ++ [b],
            Function.update (Function.update k.tick c (k.tick c + k.tick t)) t 0 a = k.tick a := by
          intro a ha
          have hac : a ≠ c := fun h => hdisj ha (by simp [h])
          simp [Function.update_noteq (hat a (List.mem_append_left _ ha)),
            Function.update_noteq hac]
        have h3 : ∀ a ∈ l3,
            Function.update (Function.update k.tick c (k.tick c + k.tick t)) t 0 a = k.tick a := by
          intro a ha
          have hac : a ≠ c := fun h => hc3 (h ▸ ha)
          simp [Function.update_noteq (hat a (by simp [ha])), Function.update_noteq hac]
        rw [List.map_append, List.sum_append, List.map_cons, List.sum_cons, sum_map_congr h1,
          sum_map_congr h3]
        simp only [Function.update_noteq hct, Function.update_same]
        omega
      · intro c' l3' h
        cases h
        simp [Function.update_noteq hct]
      · intro u hut hne
        have : u ≠ c := fun h => hne (by rw [h]; rfl)
        simp [Function.update_noteq hut, Function.update_noteq this]
      · intro _; simp
      · intro h; simp at h
      · intro h; simp at h
      · simp
      · simp
      · simp [TickFrame]
theorem absTicks_remove {tick tick' : Nat → Nat} {l1 l2 : List Nat} {t : Nat}
    (hnd : (l1 ++ t :: l2).Nodup)
    (hc : ∀ c l3, l2 = c :: l3 → tick' c = tick c + tick t)
    (ho : ∀ u, u ≠ t → firstPtr l2 none ≠ some u → tick' u = tick u) :
    ∀ u ∈ l1 ++ l2, absTicks tick' (l1 ++ l2) u = absTicks tick (l1 ++ t :: l2) u := by
  obtain ⟨ht1, ht2, hnd'⟩ := nodup_mid hnd
  have hdisj := List.disjoint_of_nodup_append hnd'
  have h1 : ∀ a ∈ l1, tick' a = tick a := by
    intro a ha
    apply ho a (fun h => ht1 (h ▸ ha))
    intro hf
    exact hdisj ha (firstPtr_none_mem hf)
  intro u hu
  by_cases hu1 : u ∈ l1
  · rw [absTicks_append_left _ _ hu1, absTicks_append_left _ _ hu1]
    exact absTicks_congr h1 u
  · have hu2 : u ∈ l2 := by
      rcases List.mem_append.mp hu with h | h
      · exact absurd h hu1
      · exact h
    have hut : t ≠ u := fun h => ht2 (h ▸ hu2)
    rw [absTicks_append_right _ _ hu1, absTicks_append_right _ _ hu1, sum_map_congr h1]
    cases hm : l2 with
    | nil => rw [hm] at hu2; cases hu2
    | cons c l3 =>
      have hc3 : c ∉ l3 := by
        have := (List.nodup_append.mp hnd').2.1
        rw [hm] at this
        exact (List.nodup_cons.mp this).1
      have h3 : ∀ a ∈ l3, tick' a = tick a := by
        intro a ha
        apply ho a (fun h => ht2 (by rw [hm, ← h]; simp [ha]))
        rw [hm]
        intro hf
        simp only [firstPtr] at hf
        cases hf
        exact hc3 ha
      simp only [absTicks, hut, if_false]
      rw [hc c l3 hm, absTicks_congr h3]
      omega

theorem TickListWF_of_RdyFrame {k k' : Kernel} {l : List Nat} (h : TickListWF k l)
    (hf : RdyFrame k k') : TickListWF k' l := by
  obtain ⟨_, h2, _, h4, h5, _, _, h8, _⟩ := hf
  unfold TickListWF
  rw [h2, h4, h5, h8]
  exact h

theorem RdyInv_of_TickFrame {k k' : Kernel} {q : Nat → List Nat} (h : RdyInv k q)
    (hf : TickFrame k k') : RdyInv k' q := by
  obtain ⟨h1, _, h3, h4, _, _, h7, _, _⟩ := hf
  intro p hp
  unfold RdyFifo
  rw [h1, h3, h4, h7]
  exact h p hp

theorem BitMapInv_of_TickFrame {k k' : Kernel} {q : Nat → List Nat} (h : BitMapInv k q)
    (hf : TickFrame k k') : BitMapInv k' q := by
  obtain ⟨_, _, _, _, _, _, _, h8, _⟩ := hf
  unfold BitMapInv
  rw [h8]
  exact h

theorem appendReady_nil (prio : Nat → Nat) (q : Nat → List Nat) : appendReady prio q [] = q := by
  funext p
  simp [appendReady]

theorem appendReady_one (prio : Nat → Nat) (q : Nat → List Nat) (h : Nat) :
    Function.update q (prio h) (q (prio h) ++ [h]) = appendReady prio q [h] := by
  funext p
  by_cases he : p = prio h
  · subst he; simp [appendReady]
  · have : ¬ prio h = p := fun h' => he h'.symm
    simp [appendReady, Function.update_noteq he, this]

theorem appendReady_append (prio : Nat → Nat) (q : Nat → List Nat) (e1 e2 : List Nat) :
    appendReady prio (appendReady prio q e1) e2 = appendReady prio q (e1 ++ e2) := by
  funext p
  simp [appendReady, List.filter_append]

theorem mem_appendReady {prio : Nat → Nat} {q : Nat → List Nat} {e : List Nat} {u p : Nat} :
    u ∈ appendReady prio q e p ↔ u ∈ q p ∨ (u ∈ e ∧ prio u = p) := by
  simp [appendReady, List.mem_filter]

theorem OS_TickUpdate_loop_spec :
    ∀ (l : List Nat) (k : Kernel) (q : Nat → List Nat) (fuel : Nat),
      TickListWF k l → RdyInv k q → BitMapInv k q →
      (∀ u ∈ l, k.priority u < OS_CFG_PRIO_MAX ∧ u ∉ q (k.priority u)) → l.length < fuel →
      ∃ k', OS_TickUpdate_loop fuel k.s_OSTickList.headPtr k = some k' ∧
        TickListWF k' (l.dropWhile (fun u => k.tick u = 0)) ∧
        (∀ u, k'.tick u = k.tick u) ∧
        RdyInv k' (appendReady k.priority q (l.takeWhile (fun u => k.tick u = 0))) ∧
        BitMapInv k' (appendReady k.priority q (l.takeWhile (fun u => k.tick u = 0))) ∧
        k'.priority = k.priority ∧ k'.state = k.state ∧
        k'.g_pCurrentTask = k.g_pCurrentTask := by
  intro l
  induction l with
  | nil =>
    intro k q fuel hwf hinv hbm _ hfuel
    obtain ⟨f, rfl⟩ : ∃ f, fuel = f + 1 := ⟨fuel - 1, by simp at hfuel; omega⟩
    have hh : k.s_OSTickList.headPtr = none := DSeg_first hwf.1
    rw [hh]
    refine ⟨k, rfl, ?_, fun _ => rfl, ?_, ?_, rfl, rfl, rfl⟩
    · simpa using hwf
    · simpa [appendReady_nil] using hinv
    · simpa [appendReady_nil] using hbm
  | cons h r ih =>
    intro k q fuel hwf hinv hbm hq hfuel
    obtain ⟨f, rfl⟩ : ∃ f, fuel = f + 1 := ⟨fuel - 1, by simp at hfuel; omega⟩
    have hh : k.s_OSTickList.headPtr = some h := DSeg_first hwf.1
    rw [hh]
    by_cases h0 : k.tick h = 0
    · -- the head has expired
      have hwf' : TickListWF k ([] ++ h :: r) := by simpa using hwf
      obtain ⟨hwf1, hc1, ho1, _, ht1, hhead1, _, _, hfr1⟩ := OS_TickTaskRemove_spec k [] r h hwf'
      simp only [List.nil_append] at hwf1
      have hnd : (h :: r).Nodup := hwf.2.1
      have hhr : h ∉ r := (List.nodup_cons.mp hnd).1
      have htick1 : ∀ u, (OS_TickTaskRemove (some h) k).tick u = k.tick u := by
        intro u
        by_cases hu : u = h
        · rw [hu]; exact ht1 rfl
        · by_cases hf : firstPtr r none = some u
          · cases hr : r with
            | nil => rw [hr] at hf; cases hf
            | cons c l3 =>
              rw [hr] at hf
              simp only [firstPtr] at hf
              cases hf
              rw [hc1 _ _ hr, h0]
              rfl
          · exact ho1 u hu hf
      have hpr1 : (OS_TickTaskRemove (some h) k).priority = k.priority := hfr1.1
      obtain ⟨hph, hqh⟩ := hq h (by simp)
      obtain ⟨k2, hadd, hinv2, hbm2, hfr2⟩ :=
        OS_RdyTaskAdd_spec (OS_TickTaskRemove (some h) k) q h (RdyInv_of_TickFrame hinv hfr1)
          (BitMapInv_of_TickFrame hbm hfr1) (by rw [hpr1]; exact hph) (by rw [hpr1]; exact hqh)
      rw [hpr1, appendReady_one] at hinv2 hbm2
      have hwf2 : TickListWF k2 r := TickListWF_of_RdyFrame hwf1 hfr2
      have hpr2 : k2.priority = k.priority := by rw [hfr2.1, hpr1]
      have htick2 : ∀ u, k2.tick u = k.tick u := by
        intro u; rw [hfr2.2.1]; exact htick1 u
      have hq2 : ∀ u ∈ r, k2.priority u < OS_CFG_PRIO_MAX ∧
          u ∉ appendReady k.priority q [h] (k2.priority u) := by
        intro u hu
        rw [hpr2]
        refine ⟨(hq u (by simp [hu])).1, ?_⟩
        rw [mem_appendReady]
        rintro (hmem | ⟨hmem, _⟩)
        · exact (hq u (by simp [hu])).2 hmem
        · simp at hmem
          exact hhr (hmem ▸ hu)
      obtain ⟨k', hloop, hwf', htick', hinv', hbm', hpr', hst', hcur'⟩ :=
        ih k2 (appendReady k.priority q [h]) f hwf2 hinv2 hbm2 hq2 (by simp at hfuel; omega)
      have hfun : (fun u => decide (k2.tick u = 0)) = (fun u => decide (k.tick u = 0)) := by
        funext u; rw [htick2 u]
      rw [hfun, hpr2, appendReady_append] at hinv' hbm'
      rw [hfun] at hwf'
      have hhead2 : k2.s_OSTickList.headPtr = firstPtr r none := by
        rw [hfr2.2.2.2.2.2.2.2.1]; exact hhead1 rfl
      have hhead2' : k2.s_OSTickList.headPtr = k2.s_OSTickList.headPtr := rfl
      refine ⟨k', ?_, ?_, ?_, ?_, ?_, ?_, ?_, ?_⟩
      · simp only [OS_TickUpdate_loop, h0, if_true, hadd]
        exact hloop
      · simpa [List.dropWhile, h0] using hwf'
      · intro u; rw [htick' u, htick2 u]
      · simpa [List.takeWhile, h0] using hinv'
      · simpa [List.takeWhile, h0] using hbm'
      · rw [hpr', hpr2]
      · rw [hst', hfr2.2.2.1, hfr1.2.1]
      · rw [hcur', hfr2.2.2.2.2.2.2.2.2, hfr1.2.2.2.2.2.2.2.2]
    · refine ⟨k, ?_, ?_, fun _ => rfl, ?_, ?_, rfl, rfl, rfl⟩
      · simp [OS_TickUpdate_loop, h0]
      · simpa [List.dropWhile, h0] using hwf
      · simpa [List.takeWhile, h0, appendReady_nil] using hinv
      · simpa [List.takeWhile, h0, appendReady_nil] using hbm
theorem absTicks_cons_of_ne (tick : Nat → Nat) {a u : Nat} (l : List Nat) (h : a ≠ u) :
    absTicks tick (a :: l) u = tick a + absTicks tick l u := by
  simp [absTicks, h]

theorem absTicks_cons_self (tick : Nat → Nat) (a : Nat) (l : List Nat) :
    absTicks tick (a :: l) a = tick a := by
  simp [absTicks]

theorem takeWhile_zero_eq_filter (tick : Nat → Nat) (l : List Nat) (hnd : l.Nodup) :
    l.takeWhile (fun u => tick u = 0) = l.filter (fun u => absTicks tick l u = 0) := by
  induction l with
  | nil => rfl
  | cons a r ih =>
    have har : a ∉ r := (List.nodup_cons.mp hnd).1
    by_cases h0 : tick a = 0
    · rw [List.takeWhile_cons_of_pos (by simpa using h0), ih (List.nodup_cons.mp hnd).2,
        List.filter_cons_of_pos (by simp [absTicks, h0])]
      congr 1
      apply List.filter_congr
      intro u hu
      have : a ≠ u := fun h => har (h ▸ hu)
      rw [absTicks_cons_of_ne _ _ this, h0, Nat.zero_add]
    · rw [List.takeWhile_cons_of_neg (by simpa using h0)]
      symm
      rw [List.filter_eq_nil_iff]
      intro u _
      have : tick a ≤ absTicks tick (a :: r) u := by
        simp only [absTicks]; omega
      simp
      omega

theorem dropWhile_zero_eq_filter (tick : Nat → Nat) (l : List Nat) (hnd : l.Nodup) :
    l.dropWhile (fun u => tick u = 0) = l.filter (fun u => 0 < absTicks tick l u) := by
  induction l with
  | nil => rfl
  | cons a r ih =>
    have har : a ∉ r := (List.nodup_cons.mp hnd).1
    by_cases h0 : tick a = 0
    · rw [List.dropWhile_cons_of_pos (by simpa using h0), ih (List.nodup_cons.mp hnd).2,
        List.filter_cons_of_neg (by simp [absTicks, h0])]
      apply List.filter_congr
      intro u hu
      have : a ≠ u := fun h => har (h ▸ hu)
      rw [absTicks_cons_of_ne _ _ this, h0, Nat.zero_add]
    · rw [List.dropWhile_cons_of_neg (by simpa using h0)]
      symm
      rw [List.filter_eq_self]
      intro u _
      have : tick a ≤ absTicks tick (a :: r) u := by
        simp only [absTicks]; omega
      simp
      omega

theorem absTicks_dropWhile_zero (tick : Nat → Nat) (l : List Nat) (hnd : l.Nodup) (u : Nat)
    (hu : u ∈ l.dropWhile (fun u => tick u = 0)) :
    absTicks tick (l.dropWhile (fun u => tick u = 0)) u = absTicks tick l u := by
  induction l with
  | nil => rfl
  | cons a r ih =>
    have har : a ∉ r := (List.nodup_cons.mp hnd).1
    by_cases h0 : tick a = 0
    · rw [List.dropWhile_cons_of_pos (by simpa using h0)] at hu ⊢
      have hur : u ∈ r := (List.dropWhile_sublist _).subset hu
      have : a ≠ u := fun h => har (h ▸ hur)
      rw [ih (List.nodup_cons.mp hnd).2 hu, absTicks_cons_of_ne _ _ this, h0, Nat.zero_add]
    · rw [List.dropWhile_cons_of_neg (by simpa using h0)]

theorem absTicks_dec_head (tick : Nat → Nat) (h : Nat) (r : List Nat) (hnd : (h :: r).Nodup)
    (hpos : 1 ≤ tick h) (u : Nat) (_hu : u ∈ h :: r) :
    absTicks (Function.update tick h (tick h - 1)) (h :: r) u = absTicks tick (h :: r) u - 1 := by
  have hhr : h ∉ r := (List.nodup_cons.mp hnd).1
  have hr : ∀ a ∈ r, Function.update tick h (tick h - 1) a = tick a := by
    intro a ha
    have : a ≠ h := fun e => hhr (e ▸ ha)
    simp [Function.update_noteq this]
  simp only [absTicks, Function.update_same]
  rw [absTicks_congr hr]
  omega

theorem absTicks_pairwise (tick : Nat → Nat) (l : List Nat) (hnd : l.Nodup) :
    l.Pairwise (fun a b => absTicks tick l a ≤ absTicks tick l b) := by
  induction l with
  | nil => exact List.Pairwise.nil
  | cons a r ih =>
    have har : a ∉ r := (List.nodup_cons.mp hnd).1
    refine List.Pairwise.cons ?_ ?_
    · intro b _
      rw [absTicks_cons_self]
      simp only [absTicks]; omega
    · refine (ih (List.nodup_cons.mp hnd).2).imp_of_mem ?_
      intro x y hx hy hxy
      have h1 : a ≠ x := fun h => har (h ▸ hx)
      have h2 : a ≠ y := fun h => har (h ▸ hy)
      rw [absTicks_cons_of_ne _ _ h1, absTicks_cons_of_ne _ _ h2]
      omega

theorem filter_le_split (f : Nat → Nat) (l : List Nat)
    (hs : l.Pairwise (fun a b => f a ≤ f b)) (n m : Nat) (hnm : n ≤ m) :
    l.filter (fun u => f u ≤ n) ++ l.filter (fun u => n < f u ∧ f u ≤ m)
      = l.filter (fun u => f u ≤ m) := by
  induction l with
  | nil => rfl
  | cons a r ih =>
    obtain ⟨ha, hr⟩ := List.pairwise_cons.mp hs
    by_cases h1 : f a ≤ n
    · have h2 : ¬ (n < f a ∧ f a ≤ m) := by omega
      have h3 : f a ≤ m := by omega
      rw [List.filter_cons_of_pos (by simpa using h1), List.filter_cons_of_neg (by simpa using h2),
        List.filter_cons_of_pos (by simpa using h3), List.cons_append, ih hr]
    · have hall : ∀ u ∈ r, ¬ f u ≤ n := fun u hu => by have := ha u hu; omega
      have hnil : r.filter (fun u => f u ≤ n) = [] := by
        rw [List.filter_eq_nil_iff]
        intro u hu
        simpa using hall u hu
      rw [List.filter_cons_of_neg (by simpa using h1), hnil, List.nil_append]
      apply List.filter_congr
      intro u hu
      have : n < f u := by
        rcases List.mem_cons.mp hu with h | h
        · rw [h]; omega
        · have := hall u h; omega
      simp [this]
theorem OS_TickUpdate_spec (k : Kernel) (l : List Nat) (q : Nat → List Nat) (fuel : Nat)
    (hwf : TickListWF k l) (hpos : ∀ u ∈ l, 1 ≤ absTicks k.tick l u)
    (hinv : RdyInv k q) (hbm : BitMapInv k q)
    (hq : ∀ u ∈ l, k.priority u < OS_CFG_PRIO_MAX ∧ u ∉ q (k.priority u))
    (hfuel : l.length < fuel) :
    ∃ k', OS_TickUpdate fuel k = some k' ∧
      TickListWF k' (l.filter (fun u => 1 < absTicks k.tick l u)) ∧
      (∀ u ∈ l, 1 < absTicks k.tick l u →
        absTicks k'.tick (l.filter (fun u => 1 < absTicks k.tick l u)) u
          = absTicks k.tick l u - 1) ∧
      RdyInv k' (appendReady k.priority q (l.filter (fun u => absTicks k.tick l u ≤ 1))) ∧
      BitMapInv k' (appendReady k.priority q (l.filter (fun u => absTicks k.tick l u ≤ 1))) ∧
      k'.priority = k.priority ∧ k'.state = k.state ∧
      k'.g_pCurrentTask = k.g_pCurrentTask := by
  cases l with
  | nil =>
    have hh : k.s_OSTickList.headPtr = none := DSeg_first hwf.1
    refine ⟨k, by simp [OS_TickUpdate, hh], by simpa using hwf, ?_, ?_, ?_, rfl, rfl, rfl⟩
    · intro u hu; cases hu
    · simpa [appendReady_nil] using hinv
    · simpa [appendReady_nil] using hbm
  | cons h r =>
    have hh : k.s_OSTickList.headPtr = some h := DSeg_first hwf.1
    obtain ⟨hseg, hnd, hsum⟩ := hwf
    have hhr : h ∉ r := (List.nodup_cons.mp hnd).1
    have hth : 1 ≤ k.tick h := by
      have := hpos h (by simp)
      rwa [absTicks_cons_self] at this
    have hthlt : k.tick h < 2 ^ 64 := lt_of_le_of_lt (tick_le_sum k.tick (by simp)) hsum
    have hsub : u64_sub (k.tick h) 1 = k.tick h - 1 := u64_sub_eq _ _ hth hthlt
    have hr : ∀ a ∈ r, Function.update k.tick h (k.tick h - 1) a = k.tick a := by
      intro a ha
      have : a ≠ h := fun e => hhr (e ▸ ha)
      simp [Function.update_noteq this]
    have hwf1 : TickListWF { k with tick := Function.update k.tick h (k.tick h - 1) } (h :: r) := by
      refine ⟨hseg, hnd, ?_⟩
      simp only [List.map_cons, List.sum_cons, Function.update_same] at hsum ⊢
      rw [sum_map_congr hr]
      omega
    obtain ⟨k', hloop, hwf', htick', hinv', hbm', hpr', hst', hcur'⟩ :=
      OS_TickUpdate_loop_spec (h :: r) { k with tick := Function.update k.tick h (k.tick h - 1) }
        q fuel hwf1 hinv hbm hq hfuel
    simp only at hloop hwf' htick' hinv' hbm' hpr' hst' hcur'
    have habs1 : ∀ u ∈ h :: r, absTicks (Function.update k.tick h (k.tick h - 1)) (h :: r) u
        = absTicks k.tick (h :: r) u - 1 :=
      fun u hu => absTicks_dec_head k.tick h r hnd hth u hu
    have hdrop : (h :: r).dropWhile (fun u => Function.update k.tick h (k.tick h - 1) u = 0)
        = (h :: r).filter (fun u => 1 < absTicks k.tick (h :: r) u) := by
      rw [dropWhile_zero_eq_filter _ _ hnd]
      apply List.filter_congr
      intro u hu
      rw [habs1 u hu]
      have := hpos u hu
      simp only [decide_eq_decide]
      omega
    have htake : (h :: r).takeWhile (fun u => Function.update k.tick h (k.tick h - 1) u = 0)
        = (h :: r).filter (fun u => absTicks k.tick (h :: r) u ≤ 1) := by
      rw [takeWhile_zero_eq_filter _ _ hnd]
      apply List.filter_congr
      intro u hu
      rw [habs1 u hu]
      have := hpos u hu
      simp only [decide_eq_decide]
      omega
    refine ⟨k', ?_, ?_, ?_, ?_, ?_, hpr', hst', hcur'⟩
    · simp only [OS_TickUpdate, hh, hsub]
      rw [hh] at hloop
      exact hloop
    · rw [← hdrop]; exact hwf'
    · intro u hu hlt
      have hmem : u ∈ (h :: r).filter (fun u => 1 < absTicks k.tick (h :: r) u) := by
        rw [List.mem_filter]; exact ⟨hu, by simpa using hlt⟩
      rw [absTicks_congr (fun a _ => htick' a)]
      rw [← hdrop] at hmem ⊢
      rw [absTicks_dropWhile_zero _ _ hnd u hmem, habs1 u hu]
    · rw [← htake]; exact hinv'
    · rw [← htake]; exact hbm'

theorem OS_TickUpdate_times_spec (n : Nat) :
    ∀ (k : Kernel) (l : List Nat) (q : Nat → List Nat) (fuel : Nat),
      TickListWF k l → (∀ u ∈ l, 1 ≤ absTicks k.tick l u) →
      RdyInv k q → BitMapInv k q →
      (∀ u ∈ l, k.priority u < OS_CFG_PRIO_MAX ∧ u ∉ q (k.priority u)) →
      l.length < fuel →
      ∃ k', OS_TickUpdate_times fuel n k = some k' ∧
        TickListWF k' (l.filter (fun u => n < absTicks k.tick l u)) ∧
        (∀ u ∈ l, n < absTicks k.tick l u →
          absTicks k'.tick (l.filter (fun u => n < absTicks k.tick l u)) u
            = absTicks k.tick l u - n) ∧
        RdyInv k' (appendReady k.priority q (l.filter (fun u => absTicks k.tick l u ≤ n))) ∧
        BitMapInv k' (appendReady k.priority q (l.filter (fun u => absTicks k.tick l u ≤ n))) ∧
        k'.priority = k.priority ∧ k'.state = k.state ∧
        k'.g_pCurrentTask = k.g_pCurrentTask := by
  induction n with
  | zero =>
    intro k l q fuel hwf hpos hinv hbm _ _
    have h1 : l.filter (fun u => 0 < absTicks k.tick l u) = l := by
      rw [List.filter_eq_self]
      intro u hu
      have := hpos u hu
      simp; omega
    have h2 : l.filter (fun u => absTicks k.tick l u ≤ 0) = [] := by
      rw [List.filter_eq_nil_iff]
      intro u hu
      have := hpos u hu
      simp; omega
    refine ⟨k, rfl, ?_, ?_, ?_, ?_, rfl, rfl, rfl⟩
    · rw [h1]; exact hwf
    · intro u _ _; rw [h1]; rfl
    · rw [h2, appendReady_nil]; exact hinv
    · rw [h2, appendReady_nil]; exact hbm
  | succ n ih =>
    intro k l q fuel hwf hpos hinv hbm hq hfuel
    obtain ⟨k1, hstep, hwf1, habs1, hinv1, hbm1, hpr1, hst1, hcur1⟩ :=
      OS_TickUpdate_spec k l q fuel hwf hpos hinv hbm hq hfuel
    have hmem1 : ∀ u, u ∈ l.filter (fun u => 1 < absTicks k.tick l u)
        ↔ u ∈ l ∧ 1 < absTicks k.tick l u := by
      intro u; simp [List.mem_filter]
    have hpos1 : ∀ u ∈ l.filter (fun u => 1 < absTicks k.tick l u),
        1 ≤ absTicks k1.tick (l.filter (fun u => 1 < absTicks k.tick l u)) u := by
      intro u hu
      obtain ⟨hul, hlt⟩ := (hmem1 u).mp hu
      rw [habs1 u hul hlt]; omega
    have hq1 : ∀ u ∈ l.filter (fun u => 1 < absTicks k.tick l u),
        k1.priority u < OS_CFG_PRIO_MAX ∧
        u ∉ appendReady k.priority q (l.filter (fun u => absTicks k.tick l u ≤ 1))
          (k1.priority u) := by
      intro u hu
      obtain ⟨hul, hlt⟩ := (hmem1 u).mp hu
      rw [hpr1]
      refine ⟨(hq u hul).1, ?_⟩
      rw [mem_appendReady]
      rintro (hm | ⟨hm, _⟩)
      · exact (hq u hul).2 hm
      · rw [List.mem_filter] at hm
        have := hm.2
        simp at this
        omega
    obtain ⟨k', hrest, hwf', habs', hinv', hbm', hpr', hst', hcur'⟩ :=
      ih k1 _ _ fuel hwf1 hpos1 hinv1 hbm1 hq1
        (lt_of_le_of_lt (List.length_filter_le _ _) hfuel)
    have hl' : (l.filter (fun u => 1 < absTicks k.tick l u)).filter
        (fun u => n < absTicks k1.tick (l.filter (fun u => 1 < absTicks k.tick l u)) u)
        = l.filter (fun u => n + 1 < absTicks k.tick l u) := by
      rw [List.filter_filter]
      apply List.filter_congr
      intro u hu
      by_cases hlt : 1 < absTicks k.tick l u
      · have hd : decide (1 < absTicks k.tick l u) = true := by simpa using hlt
        rw [habs1 u hu hlt, hd, Bool.and_true]
        simp only [decide_eq_decide]
        omega
      · have hd : decide (1 < absTicks k.tick l u) = false := by simpa using hlt
        rw [hd, Bool.and_false]
        symm
        simp only [decide_eq_false_iff_not]
        omega
    have he' : l.filter (fun u => absTicks k.tick l u ≤ 1) ++
        (l.filter (fun u => 1 < absTicks k.tick l u)).filter
          (fun u => absTicks k1.tick (l.filter (fun u => 1 < absTicks k.tick l u)) u ≤ n)
        = l.filter (fun u => absTicks k.tick l u ≤ n + 1) := by
      rw [← filter_le_split (absTicks k.tick l) l (absTicks_pairwise k.tick l hwf.2.1) 1 (n + 1)
        (by omega)]
      congr 1
      rw [List.filter_filter]
      apply List.filter_congr
      intro u hu
      by_cases hlt : 1 < absTicks k.tick l u
      · have hd : decide (1 < absTicks k.tick l u) = true := by simpa using hlt
        rw [habs1 u hu hlt, hd, Bool.and_true]
        simp only [decide_eq_decide]
        omega
      · have hd : decide (1 < absTicks k.tick l u) = false := by simpa using hlt
        rw [hd, Bool.and_false]
        symm
        simp only [decide_eq_false_iff_not]
        omega
    rw [hl'] at hwf' habs'
    rw [hpr1, appendReady_append, he'] at hinv' hbm'
    refine ⟨k', ?_, hwf', ?_, hinv', hbm', by rw [hpr', hpr1], by rw [hst', hst1],
      by rw [hcur', hcur1]⟩
    · simp only [OS_TickUpdate_times, hstep]
      exact hrest
    · intro u hu hlt
      have hlt1 : 1 < absTicks k.tick l u := by omega
      have hu1 : u ∈ l.filter (fun u => 1 < absTicks k.tick l u) := (hmem1 u).mpr ⟨hu, hlt1⟩
      rw [habs' u hu1 (by rw [habs1 u hu hlt1]; omega), habs1 u hu hlt1]
      omega
theorem exT3_wf : TickListWF exT3 [2, 3, 1] := by
  refine ⟨?_, by decide, by decide⟩
  simp only [DSeg]
  decide

theorem exT0_inv : RdyInv exT0 (fun _ => []) ∧ BitMapInv exT0 (fun _ => []) :=
  OSInitTaskSched_inv _

theorem exT3_frame : TickFrame exT0 exT3 :=
  ⟨rfl, rfl, rfl, rfl, rfl, rfl, rfl, rfl, rfl⟩

theorem exT3_inv : RdyInv exT3 (fun _ => []) ∧ BitMapInv exT3 (fun _ => []) :=
  ⟨RdyInv_of_TickFrame exT0_inv.1 exT3_frame, BitMapInv_of_TickFrame exT0_inv.2 exT3_frame⟩

theorem OS_TickUpdate_times_empty (fuel n : Nat) (k : Kernel)
    (h : k.s_OSTickList.headPtr = none) : OS_TickUpdate_times fuel n k = some k := by
  induction n with
  | zero => rfl
  | succ n ih => simp [OS_TickUpdate_times, OS_TickUpdate, h, ih]

/-- C5: delta-list insertion keeps absolute expiry times. For a well-formed tick list `l`, a
task `t` that is not in it and whose tick field is non-zero on entry, and a `u64` delay `T`,
`OS_TickTaskInsert(t, T)` returns (given enough fuel for the walk), the tick list is then
`l1 ++ t :: l2` with `l = l1 ++ l2` and well formed, the tick fields from the head through `t`
add up to `T`, the sum from the head through every previously listed task is unchanged, every
task in front of `t` had absolute remaining ticks below `T` and every task behind `t` (so in
particular the first one) had at least `T`. -/
theorem C5_tick_insert_keeps_absolute_times (k : Kernel) (l : List Nat) (t T fuel : Nat)
    (hwf : TickListWF k l) (ht : t ∉ l) (htick : k.tick t ≠ 0) (hT : T < 2 ^ 64)
    (hfuel : l.length < fuel) :
    ∃ k' l1 l2, OS_TickTaskInsert fuel (some t) T k = some k' ∧ l = l1 ++ l2 ∧
      TickListWF k' (l1 ++ t :: l2) ∧
      absTicks k'.tick (l1 ++ t :: l2) t = T ∧
      (∀ u ∈ l, absTicks k'.tick (l1 ++ t :: l2) u = absTicks k.tick l u) ∧
      (∀ u ∈ l1, absTicks k.tick l u < T) ∧
      (∀ u ∈ l2, T ≤ absTicks k.tick l u) := by
  obtain ⟨k', l1, l2, h1, h2, h3, h4, h5, h6, h7, _⟩ :=
    OS_TickTaskInsert_spec k l t T fuel hwf ht htick hT hfuel
  exact ⟨k', l1, l2, h1, h2, h3, h4, h5, h6, h7⟩

/-- C5, instantiated: task 4 is inserted for 30 ticks into the list (2, 3, 1) with tick fields
(20, 15, 15). -/
theorem C5_tick_insert_witness :
    TickListWF exT3 [2, 3, 1] ∧ 4 ∉ [2, 3, 1] ∧ exT3.tick 4 ≠ 0 ∧ 30 < 2 ^ 64 ∧
    [2, 3, 1].length < 4 ∧
    ∃ k' l1 l2, OS_TickTaskInsert 4 (some 4) 30 exT3 = some k' ∧ [2, 3, 1] = l1 ++ l2 ∧
      TickListWF k' (l1 ++ 4 :: l2) ∧
      absTicks k'.tick (l1 ++ 4 :: l2) 4 = 30 ∧
      (∀ u ∈ [2, 3, 1], absTicks k'.tick (l1 ++ 4 :: l2) u = absTicks exT3.tick [2, 3, 1] u) ∧
      (∀ u ∈ l1, absTicks exT3.tick [2, 3, 1] u < 30) ∧
      (∀ u ∈ l2, 30 ≤ absTicks exT3.tick [2, 3, 1] u) :=
  ⟨exT3_wf, by decide, by decide, by decide, by decide,
    C5_tick_insert_keeps_absolute_times exT3 [2, 3, 1] 4 30 4 exT3_wf (by decide) (by decide)
      (by decide) (by decide)⟩

/-- C7: `n` consecutive calls of `OS_TickUpdate`. The tick list `l` is well formed with head
tick at least 1; the ready FIFOs and the bitmap are consistent (`q p` is FIFO `p`); every
delayed task has a priority below 32 and is not queued in a ready FIFO. Then the `n` calls
return (given fuel for the loop), the tick list afterwards consists of exactly the tasks of `l`
whose absolute remaining ticks exceeded `n`, in the same order, each with its absolute
remaining ticks reduced by `n`, and exactly the tasks whose absolute remaining ticks were at
most `n` have been appended to the ready FIFO of their priority. An empty tick list is left
unchanged. -/
theorem C7_tick_update_expires_on_time (k : Kernel) (l : List Nat) (q : Nat → List Nat)
    (fuel n : Nat)
    (hwf : TickListWF k l) (hhead : ∀ h r, l = h :: r → 1 ≤ k.tick h)
    (hinv : RdyInv k q) (hbm : BitMapInv k q)
    (hq : ∀ u ∈ l, k.priority u < 32 ∧ u ∉ q (k.priority u))
    (hfuel : l.length < fuel) :
    (∃ k', OS_TickUpdate_times fuel n k = some k' ∧
      TickListWF k' (l.filter (fun u => n < absTicks k.tick l u)) ∧
      (∀ u ∈ l, n < absTicks k.tick l u →
        absTicks k'.tick (l.filter (fun u => n < absTicks k.tick l u)) u
          = absTicks k.tick l u - n) ∧
      RdyInv k' (appendReady k.priority q (l.filter (fun u => absTicks k.tick l u ≤ n))) ∧
      BitMapInv k' (appendReady k.priority q (l.filter (fun u => absTicks k.tick l u ≤ n))) ∧
      (∀ u ∈ l, (u ∈ appendReady k.priority q (l.filter (fun u => absTicks k.tick l u ≤ n))
          (k.priority u) ↔ absTicks k.tick l u ≤ n))) ∧
    (k.s_OSTickList.headPtr = none → OS_TickUpdate_times fuel n k = some k) := by
  have hpos : ∀ u ∈ l, 1 ≤ absTicks k.tick l u := by
    intro u hu
    cases l with
    | nil => cases hu
    | cons h r =>
      have := hhead h r rfl
      simp only [absTicks]
      omega
  obtain ⟨k', h1, h2, h3, h4, h5, _⟩ :=
    OS_TickUpdate_times_spec n k l q fuel hwf hpos hinv hbm hq hfuel
  refine ⟨⟨k', h1, h2, h3, h4, h5, ?_⟩, OS_TickUpdate_times_empty fuel n k⟩
  intro u hu
  rw [mem_appendReady, List.mem_filter]
  constructor
  · rintro (hm | ⟨hm, _⟩)
    · exact absurd hm (hq u hu).2
    · simpa using hm.2
  · intro hle
    exact Or.inr ⟨⟨hu, by simpa using hle⟩, rfl⟩

/-- C7, instantiated: 35 ticks on the list (2, 3, 1) with tick fields (20, 15, 15). -/
theorem C7_tick_update_witness :
    TickListWF exT3 [2, 3, 1] ∧ (∀ h r, [2, 3, 1] = h :: r → 1 ≤ exT3.tick h) ∧
    RdyInv exT3 (fun _ => []) ∧ BitMapInv exT3 (fun _ => []) ∧
    (∀ u ∈ [2, 3, 1], exT3.priority u < 32 ∧ u ∉ (fun _ => ([] : List Nat)) (exT3.priority u)) ∧
    [2, 3, 1].length < 4 ∧
    ((∃ k', OS_TickUpdate_times 4 35 exT3 = some k' ∧
      TickListWF k' ([2, 3, 1].filter (fun u => 35 < absTicks exT3.tick [2, 3, 1] u)) ∧
      (∀ u ∈ [2, 3, 1], 35 < absTicks exT3.tick [2, 3, 1] u →
        absTicks k'.tick ([2, 3, 1].filter (fun u => 35 < absTicks exT3.tick [2, 3, 1] u)) u
          = absTicks exT3.tick [2, 3, 1] u - 35) ∧
      RdyInv k' (appendReady exT3.priority (fun _ => [])
        ([2, 3, 1].filter (fun u => absTicks exT3.tick [2, 3, 1] u ≤ 35))) ∧
      BitMapInv k' (appendReady exT3.priority (fun _ => [])
        ([2, 3, 1].filter (fun u => absTicks exT3.tick [2, 3, 1] u ≤ 35))) ∧
      (∀ u ∈ [2, 3, 1], (u ∈ appendReady exT3.priority (fun _ => [])
          ([2, 3, 1].filter (fun u => absTicks exT3.tick [2, 3, 1] u ≤ 35))
          (exT3.priority u) ↔ absTicks exT3.tick [2, 3, 1] u ≤ 35))) ∧
    (exT3.s_OSTickList.headPtr = none → OS_TickUpdate_times 4 35 exT3 = some exT3)) :=
  ⟨exT3_wf, by intro h r e; cases e; decide, exT3_inv.1, exT3_inv.2, by decide, by decide,
    C7_tick_update_expires_on_time exT3 [2, 3, 1] (fun _ => []) 4 35 exT3_wf
      (by intro h r e; cases e; decide) exT3_inv.1 exT3_inv.2 (by decide) (by decide)⟩
theorem TickFrame_trans {k k1 k2 : Kernel} (h1 : TickFrame k k1) (h2 : TickFrame k1 k2) :
    TickFrame k k2 := by
  obtain ⟨a1, a2, a3, a4, a5, a6, a7, a8, a9⟩ := h1
  obtain ⟨b1, b2, b3, b4, b5, b6, b7, b8, b9⟩ := h2
  exact ⟨b1.trans a1, b2.trans a2, b3.trans a3, b4.trans a4, b5.trans a5, b6.trans a6,
    b7.trans a7, b8.trans a8, b9.trans a9⟩

/-- C9 (as stated) fails: task 5 holds 0 in its tick field and the tick list is empty;
`OS_TickTaskInsert(task 5, 7)` then leaves the tick list empty and the tick field 0, and puts
task 5 at the head of ready FIFO 1, which was empty. -/
theorem C9_tick_insert_empty_counterexample :
    (OSInitTaskSched exK0).s_OSTickList.headPtr = none ∧ (OSInitTaskSched exK0).tick 5 = 0 ∧
    ((OSInitTaskSched exK0).s_OSRdyLists 1).headPtr = none ∧
    OS_TickTaskInsert 1 (some 5) 7 (OSInitTaskSched exK0) = some exK1 ∧
    exK1.tick 5 = 0 ∧ exK1.s_OSTickList.headPtr = none ∧
    (exK1.s_OSRdyLists 1).headPtr = some 5 :=
  ⟨by decide, by decide, by decide, rfl, by decide, by decide, by decide⟩

/-- C9 (amended): for every task `t` whose tick field is non-zero on entry and every requested
delay `T`, `OS_TickTaskInsert(t, T)` on an empty tick list stores `T` in the tick field of `t`
and makes `t` the single node of the tick list (head = tail = `t`, both links null); nothing
else changes, in particular no ready queue and not the bitmap. -/
theorem C9_tick_insert_empty_amended (k : Kernel) (t T fuel : Nat)
    (hempty : k.s_OSTickList.headPtr = none) (htick : k.tick t ≠ 0) :
    ∃ k', OS_TickTaskInsert fuel (some t) T k = some k' ∧
      k'.tick t = T ∧ k'.s_OSTickList.headPtr = some t ∧ k'.s_OSTickList.tailPtr = some t ∧
      k'.tickNextPtr t = none ∧ k'.tickPrevPtr t = none ∧
      (∀ u, u ≠ t → k'.tick u = k.tick u ∧ k'.tickNextPtr u = k.tickNextPtr u ∧
        k'.tickPrevPtr u = k.tickPrevPtr u) ∧
      TickFrame k k' := by
  simp only [OS_TickTaskInsert, htick, if_false, hempty]
  refine ⟨_, rfl, ?_, rfl, rfl, ?_, ?_, ?_, ?_⟩
  · simp
  · simp
  · simp
  · intro u hu
    simp [Function.update_noteq hu]
  · simp [TickFrame]

/-- C9 (amended), instantiated: task 1 (tick field 50) is inserted for 50 ticks into the empty
tick list of `exT0`. -/
theorem C9_tick_insert_empty_amended_witness :
    exT0.s_OSTickList.headPtr = none ∧ exT0.tick 1 ≠ 0 ∧
    ∃ k', OS_TickTaskInsert 1 (some 1) 50 exT0 = some k' ∧
      k'.tick 1 = 50 ∧ k'.s_OSTickList.headPtr = some 1 ∧ k'.s_OSTickList.tailPtr = some 1 ∧
      k'.tickNextPtr 1 = none ∧ k'.tickPrevPtr 1 = none ∧
      (∀ u, u ≠ 1 → k'.tick u = exT0.tick u ∧ k'.tickNextPtr u = exT0.tickNextPtr u ∧
        k'.tickPrevPtr u = exT0.tickPrevPtr u) ∧
      TickFrame exT0 k' :=
  ⟨by decide, by decide, C9_tick_insert_empty_amended exT0 1 50 1 (by decide) (by decide)⟩

theorem OS_BitMapSet_state (p : Nat) (k : Kernel) : (OS_BitMapSet p k).state = k.state := by
  unfold OS_BitMapSet
  split <;> rfl

theorem OS_RdyTaskAdd_state (p : Option Nat) (k k' : Kernel) (h : OS_RdyTaskAdd p k = some k') :
    k'.state = k.state := by
  cases p with
  | none => cases h; rfl
  | some t =>
    by_cases hp : OS_CFG_PRIO_MAX ≤ k.priority t
    · simp [OS_RdyTaskAdd, hp] at h
    · cases hh : (k.s_OSRdyLists (k.priority t)).headPtr with
      | none =>
        simp only [OS_RdyTaskAdd, hp, if_false, hh, Option.map_some', Option.some.injEq] at h
        rw [← h, OS_BitMapSet_state]
      | some h0 =>
        cases htl : (k.s_OSRdyLists (k.priority t)).tailPtr with
        | none => simp [OS_RdyTaskAdd, hp, hh, htl] at h
        | some tl =>
          simp only [OS_RdyTaskAdd, hp, if_false, hh, htl, Option.map_some',
            Option.some.injEq] at h
          rw [← h, OS_BitMapSet_state]

theorem OS_TickTaskRemove_state (p : Option Nat) (k : Kernel) :
    (OS_TickTaskRemove p k).state = k.state := by
  unfold OS_TickTaskRemove
  split
  · rfl
  · split
    · split <;> rfl
    · split <;> rfl

theorem OS_TickUpdate_loop_state (fuel : Nat) :
    ∀ (h : Option Nat) (k k' : Kernel), OS_TickUpdate_loop fuel h k = some k' →
      k'.state = k.state := by
  induction fuel with
  | zero => intro h k k' hr; cases hr
  | succ f ih =>
    intro h k k' hr
    cases h with
    | none => cases hr; rfl
    | some a =>
      simp only [OS_TickUpdate_loop] at hr
      split at hr
      · split at hr
        · cases hr
        · rename_i k2 hadd
          rw [ih _ _ _ hr, OS_RdyTaskAdd_state _ _ _ hadd, OS_TickTaskRemove_state]
      · cases hr; rfl

/-- `OS_TickUpdate` never writes the state field of any task. -/
theorem OS_TickUpdate_state (fuel : Nat) (k k' : Kernel) (h : OS_TickUpdate fuel k = some k') :
    k'.state = k.state := by
  cases hh : k.s_OSTickList.headPtr with
  | none =>
    simp only [OS_TickUpdate, hh, Option.some.injEq] at h
    rw [← h]
  | some a =>
    simp only [OS_TickUpdate, hh] at h
    have hs := OS_TickUpdate_loop_state fuel _ _ _ h
    exact hs

/-- C10: the code at the failing input. The tick list of `exD1` holds the single task 2 with
tick 1 and state `DELAY`. One `OS_TickUpdate` unlinks it (the tick list is empty afterwards)
and queues it in ready FIFO 2, but its state is still `DELAY`. -/
theorem C10_tick_update_leaves_state_delay :
    exD1.s_OSTickList.headPtr = some 2 ∧ exD1.tickNextPtr 2 = none ∧ exD1.tick 2 = 1 ∧
    exD1.state 2 = OS_TASK_STAT.OS_TASK_DELAY ∧
    OS_TickUpdate 8 exD1 = some exD2 ∧
    exD2.s_OSTickList.headPtr = none ∧ (exD2.s_OSRdyLists 2).headPtr = some 2 ∧
    exD2.state 2 = OS_TASK_STAT.OS_TASK_DELAY :=
  ⟨by decide, by decide, by decide, by decide, rfl, by decide, by decide, by decide⟩
theorem append_eq_singleton {l1 l2 : List Nat} {a : Nat} (h : l1 ++ l2 = [a]) :
    (l1 = [] ∧ l2 = [a]) ∨ (l1 = [a] ∧ l2 = []) := by
  cases l1 with
  | nil => exact Or.inl ⟨rfl, h⟩
  | cons x r =>
    simp only [List.cons_append, List.cons.injEq, List.append_eq_nil] at h
    obtain ⟨hx, hr, hl2⟩ := h
    subst hx hr hl2
    exact Or.inr ⟨rfl, rfl⟩

theorem append_eq_pair {l1 l2 : List Nat} {a b : Nat} (h : l1 ++ l2 = [a, b]) :
    (l1 = [] ∧ l2 = [a, b]) ∨ (l1 = [a] ∧ l2 = [b]) ∨ (l1 = [a, b] ∧ l2 = []) := by
  cases l1 with
  | nil => exact Or.inl ⟨rfl, h⟩
  | cons x r =>
    simp only [List.cons_append, List.cons.injEq] at h
    obtain ⟨hx, hr⟩ := h
    subst hx
    rcases append_eq_singleton hr with ⟨h1, h2⟩ | ⟨h1, h2⟩
    · subst h1 h2; exact Or.inr (Or.inl ⟨rfl, rfl⟩)
    · subst h1 h2; exact Or.inr (Or.inr ⟨rfl, rfl⟩)

/-- C6: the delta-list scenario. On an empty tick list, three distinct tasks `a`, `b`, `c`
whose tick fields hold 50, 20 and 35 are inserted for 50, 20 and 35 ticks in this order. The
insertions return, the tick list is then (`b`, `c`, `a`) with tick fields (20, 15, 15), and
(the ready FIFOs being consistent, the three tasks having priorities below 32 and not being
queued) after `n` calls of `OS_TickUpdate` the tick list holds exactly those of the three
tasks whose delay exceeds `n`, and exactly those whose delay is at most `n` have been appended
to their ready FIFOs: `b` is moved by the 20th call, `c` by the 35th and `a` by the 50th. -/
theorem C6_delta_list_scenario (k : Kernel) (q : Nat → List Nat) (a b c fuel : Nat)
    (hab : a ≠ b) (hac : a ≠ c) (hbc : b ≠ c)
    (hempty : k.s_OSTickList.headPtr = none)
    (hta : k.tick a = 50) (htb : k.tick b = 20) (htc : k.tick c = 35)
    (hinv : RdyInv k q) (hbm : BitMapInv k q)
    (hq : ∀ u ∈ [a, b, c], k.priority u < 32 ∧ u ∉ q (k.priority u))
    (hfuel : 3 < fuel) :
    ∃ k1 k2 k3,
      OS_TickTaskInsert fuel (some a) 50 k = some k1 ∧
      OS_TickTaskInsert fuel (some b) 20 k1 = some k2 ∧
      OS_TickTaskInsert fuel (some c) 35 k2 = some k3 ∧
      TickListWF k3 [b, c, a] ∧ k3.tick b = 20 ∧ k3.tick c = 15 ∧ k3.tick a = 15 ∧
      ∀ n, ∃ kn, OS_TickUpdate_times fuel n k3 = some kn ∧
        TickListWF kn
          ([b, c, a].filter (fun u => n < if u = b then 20 else if u = c then 35 else 50)) ∧
        RdyInv kn (appendReady k.priority q
          ([b, c, a].filter (fun u => (if u = b then 20 else if u = c then 35 else 50) ≤ n))) := by
  have hwf0 : TickListWF k [] := ⟨hempty, List.nodup_nil, by simp⟩
  -- first insertion
  obtain ⟨k1, l1, l2, hi1, hl1, hwf1, habs1, _, _, _, hoth1, hfr1⟩ :=
    OS_TickTaskInsert_spec k [] a 50 fuel hwf0 (by simp) (by rw [hta]; decide) (by decide)
      (by simp; omega)
  obtain ⟨rfl, rfl⟩ : l1 = [] ∧ l2 = [] := by simpa using hl1.symm
  simp only [List.nil_append] at hwf1 habs1
  have h1b : k1.tick b = 20 := by rw [hoth1 b (by simp) (Ne.symm hab), htb]
  have h1c : k1.tick c = 35 := by rw [hoth1 c (by simp) (Ne.symm hac), htc]
  -- second insertion
  obtain ⟨k2, l1, l2, hi2, hl2, hwf2, habs2b, habs2, hlt2, _, hoth2, hfr2⟩ :=
    OS_TickTaskInsert_spec k1 [a] b 20 fuel hwf1 (by simp [Ne.symm hab]) (by rw [h1b]; decide)
      (by decide) (by simp; omega)
  obtain ⟨rfl, rfl⟩ : l1 = [] ∧ l2 = [a] := by
    rcases append_eq_singleton hl2.symm with h | ⟨h, _⟩
    · exact h
    · have := hlt2 a (by simp [h])
      rw [habs1] at this
      omega
  simp only [List.nil_append] at hwf2 habs2b habs2
  have h2a : absTicks k2.tick [b, a] a = 50 := by rw [habs2 a (by simp), habs1]
  have h2c : k2.tick c = 35 := by rw [hoth2 c (by simp [Ne.symm hac]) (Ne.symm hbc), h1c]
  -- third insertion
  obtain ⟨k3, l1, l2, hi3, hl3, hwf3, habs3c, habs3, hlt3, hge3, _, hfr3⟩ :=
    OS_TickTaskInsert_spec k2 [b, a] c 35 fuel hwf2 (by simp [Ne.symm hbc, Ne.symm hac])
      (by rw [h2c]; decide) (by decide) (by simp; omega)
  obtain ⟨rfl, rfl⟩ : l1 = [b] ∧ l2 = [a] := by
    rcases append_eq_pair hl3.symm with ⟨_, h⟩ | h | ⟨h, _⟩
    · have := hge3 b (by simp [h])
      rw [habs2b] at this
      omega
    · exact h
    · have := hlt3 a (by simp [h])
      rw [h2a] at this
      omega
  have hwf3' : TickListWF k3 [b, c, a] := by simpa using hwf3
  have h3c : absTicks k3.tick [b, c, a] c = 35 := by simpa using habs3c
  have h3b : absTicks k3.tick [b, c, a] b = 20 := by
    have := habs3 b (by simp)
    rw [habs2b] at this
    simpa using this
  have h3a : absTicks k3.tick [b, c, a] a = 50 := by
    have := habs3 a (by simp)
    rw [h2a] at this
    simpa using this
  simp only [absTicks, if_true, hbc, Ne.symm hac, Ne.symm hab, if_false] at h3b h3c h3a
  have hdue : ∀ u ∈ [b, c, a],
      absTicks k3.tick [b, c, a] u = if u = b then 20 else if u = c then 35 else 50 := by
    intro u hu
    simp only [List.mem_cons, List.mem_singleton, List.not_mem_nil, or_false] at hu
    rcases hu with h | h | h
    · subst h
      simp only [absTicks, if_true]
      omega
    · subst h
      simp only [absTicks, if_true, hbc, Ne.symm hbc, if_false]
      omega
    · subst h
      simp only [absTicks, if_true, Ne.symm hac, Ne.symm hab, hab, hac, if_false]
      omega
  have hfr : TickFrame k k3 := TickFrame_trans (TickFrame_trans hfr1 hfr2) hfr3
  have hpr : k3.priority = k.priority := hfr.1
  refine ⟨k1, k2, k3, hi1, hi2, hi3, hwf3', by omega, by omega, by omega, ?_⟩
  intro n
  obtain ⟨kn, hrun, hwfn, _, hinvn, _⟩ :=
    OS_TickUpdate_times_spec n k3 [b, c, a] q fuel hwf3'
      (by intro u hu; rw [hdue u hu]; split_ifs <;> omega)
      (RdyInv_of_TickFrame hinv hfr) (BitMapInv_of_TickFrame hbm hfr)
      (by
        intro u hu
        rw [hpr]
        exact hq u (by
          simp only [List.mem_cons, List.mem_singleton, List.not_mem_nil, or_false] at hu ⊢
          tauto))
      (by simp; omega)
  have e1 : [b, c, a].filter (fun u => n < absTicks k3.tick [b, c, a] u)
      = [b, c, a].filter (fun u => n < if u = b then 20 else if u = c then 35 else 50) :=
    List.filter_congr (fun u hu => by rw [hdue u hu])
  have e2 : [b, c, a].filter (fun u => absTicks k3.tick [b, c, a] u ≤ n)
      = [b, c, a].filter (fun u => (if u = b then 20 else if u = c then 35 else 50) ≤ n) :=
    List.filter_congr (fun u hu => by rw [hdue u hu])
  rw [e1] at hwfn
  rw [e2, hpr] at hinvn
  exact ⟨kn, hrun, hwfn, hinvn⟩

/-- C6, instantiated with tasks 1, 2 and 3 on the initialised kernel `exT0`. -/
theorem C6_delta_list_scenario_witness :
    (1 : Nat) ≠ 2 ∧ (1 : Nat) ≠ 3 ∧ (2 : Nat) ≠ 3 ∧ exT0.s_OSTickList.headPtr = none ∧
    exT0.tick 1 = 50 ∧ exT0.tick 2 = 20 ∧ exT0.tick 3 = 35 ∧
    RdyInv exT0 (fun _ => []) ∧ BitMapInv exT0 (fun _ => []) ∧
    (∀ u ∈ [1, 2, 3], exT0.priority u < 32 ∧ u ∉ (fun _ => ([] : List Nat)) (exT0.priority u)) ∧
    3 < 8 ∧
    ∃ k1 k2 k3,
      OS_TickTaskInsert 8 (some 1) 50 exT0 = some k1 ∧
      OS_TickTaskInsert 8 (some 2) 20 k1 = some k2 ∧
      OS_TickTaskInsert 8 (some 3) 35 k2 = some k3 ∧
      TickListWF k3 [2, 3, 1] ∧ k3.tick 2 = 20 ∧ k3.tick 3 = 15 ∧ k3.tick 1 = 15 ∧
      ∀ n, ∃ kn, OS_TickUpdate_times 8 n k3 = some kn ∧
        TickListWF kn
          ([2, 3, 1].filter (fun u => n < if u = 2 then 20 else if u = 3 then 35 else 50)) ∧
        RdyInv kn (appendReady exT0.priority (fun _ => [])
          ([2, 3, 1].filter (fun u => (if u = 2 then 20 else if u = 3 then 35 else 50) ≤ n))) :=
  ⟨by decide, by decide, by decide, by decide, by decide, by decide, by decide, exT0_inv.1,
    exT0_inv.2, by decide, by decide,
    C6_delta_list_scenario exT0 (fun _ => []) 1 2 3 8 (by decide) (by decide) (by decide)
      (by decide) (by decide) (by decide) (by decide) exT0_inv.1 exT0_inv.2 (by decide)
      (by decide)⟩
theorem exE2_wf : TickListWF exE2 [1, 5] := by
  refine ⟨?_, by decide, by decide⟩
  simp only [DSeg]
  decide

theorem exE2_inv : RdyInv exE2 (fun _ => []) ∧ BitMapInv exE2 (fun _ => []) :=
  ⟨RdyInv_of_TickFrame exT0_inv.1 ⟨rfl, rfl, rfl, rfl, rfl, rfl, rfl, rfl, rfl⟩,
    BitMapInv_of_TickFrame exT0_inv.2 ⟨rfl, rfl, rfl, rfl, rfl, rfl, rfl, rfl, rfl⟩⟩

theorem absTicks_pos_of_head (tick : Nat → Nat) (l : List Nat)
    (hhead : ∀ h r, l = h :: r → 1 ≤ tick h) : ∀ u ∈ l, 1 ≤ absTicks tick l u := by
  intro u hu
  cases l with
  | nil => cases hu
  | cons h r =>
    have := hhead h r rfl
    simp only [absTicks]
    omega

/-- C11: tasks that expire in the same `OS_TickUpdate` call join the ready queues in delta-list
order. The tick list `l` is well formed with head tick at least 1, the ready side is consistent
(`q p` is FIFO `p`), and every delayed task has a priority below 32 and is not queued. Then one
call returns, the tasks it unlinks are those of `l` whose absolute remaining ticks were at most
1, and afterwards ready FIFO `p` is `q p` (the tasks queued before) followed by the expired
tasks of priority `p` in the order in which they stood in the delta list. -/
theorem C11_same_tick_expiry_order (k : Kernel) (l : List Nat) (q : Nat → List Nat)
    (fuel : Nat)
    (hwf : TickListWF k l) (hhead : ∀ h r, l = h :: r → 1 ≤ k.tick h)
    (hinv : RdyInv k q) (hbm : BitMapInv k q)
    (hq : ∀ u ∈ l, k.priority u < 32 ∧ u ∉ q (k.priority u))
    (hfuel : l.length < fuel) :
    ∃ k', OS_TickUpdate fuel k = some k' ∧
      TickListWF k' (l.filter (fun u => 1 < absTicks k.tick l u)) ∧
      ∀ p, p < 32 →
        RdyFifo k' p
          (q p ++ (l.filter (fun u => absTicks k.tick l u ≤ 1)).filter
            (fun u => k.priority u = p)) ∧
        walk k'.rdyNextPtr
            (q p ++ (l.filter (fun u => absTicks k.tick l u ≤ 1)).filter
              (fun u => k.priority u = p)).length (k'.s_OSRdyLists p).headPtr
          = q p ++ (l.filter (fun u => absTicks k.tick l u ≤ 1)).filter
              (fun u => k.priority u = p) := by
  obtain ⟨k', h1, h2, _, h4, _⟩ :=
    OS_TickUpdate_spec k l q fuel hwf (absTicks_pos_of_head k.tick l hhead) hinv hbm hq hfuel
  refine ⟨k', h1, h2, ?_⟩
  intro p hp
  exact ⟨h4 p hp, DSeg_walk 0 (h4 p hp).1⟩

/-- C11, instantiated: tasks 1 and 5, both of priority 1, expire at the same tick. -/
theorem C11_same_tick_expiry_order_witness :
    TickListWF exE2 [1, 5] ∧ (∀ h r, [1, 5] = h :: r → 1 ≤ exE2.tick h) ∧
    RdyInv exE2 (fun _ => []) ∧ BitMapInv exE2 (fun _ => []) ∧
    (∀ u ∈ [1, 5], exE2.priority u < 32 ∧ u ∉ (fun _ => ([] : List Nat)) (exE2.priority u)) ∧
    [1, 5].length < 4 ∧
    ∃ k', OS_TickUpdate 4 exE2 = some k' ∧
      TickListWF k' ([1, 5].filter (fun u => 1 < absTicks exE2.tick [1, 5] u)) ∧
      ∀ p, p < 32 →
        RdyFifo k' p
          ((fun _ => []) p ++ ([1, 5].filter (fun u => absTicks exE2.tick [1, 5] u ≤ 1)).filter
            (fun u => exE2.priority u = p)) ∧
        walk k'.rdyNextPtr
            ((fun _ => []) p ++
              ([1, 5].filter (fun u => absTicks exE2.tick [1, 5] u ≤ 1)).filter
                (fun u => exE2.priority u = p)).length (k'.s_OSRdyLists p).headPtr
          = (fun _ => []) p ++ ([1, 5].filter (fun u => absTicks exE2.tick [1, 5] u ≤ 1)).filter
              (fun u => exE2.priority u = p) :=
  ⟨exE2_wf, by intro h r e; cases e; decide, exE2_inv.1, exE2_inv.2, by decide, by decide,
    C11_same_tick_expiry_order exE2 [1, 5] (fun _ => []) 4 exE2_wf
      (by intro h r e; cases e; decide) exE2_inv.1 exE2_inv.2 (by decide) (by decide)⟩
/-! ## Wait queue lemmas -/

theorem OS_PendListInsert_walk_spec (prio : Nat) (k : Kernel) :
    ∀ (l2 l1 : List Nat) (fuel : Nat) (q r : Option Nat),
      DSeg k.pendNextPtr k.pendPrevPtr q (firstPtr l2 r) l2 none → l2.length < fuel →
      OS_PendListInsert_walk prio fuel (firstPtr l2 none) (lastPtr none l1) k
        = some (lastPtr none (l1 ++ l2.takeWhile (fun u => k.priority u < prio)),
                firstPtr (l2.dropWhile (fun u => k.priority u < prio)) none) := by
  intro l2
  induction l2 with
  | nil =>
    intro l1 fuel q r _ hfuel
    obtain ⟨f, rfl⟩ : ∃ f, fuel = f + 1 := ⟨fuel - 1, by simp at hfuel; omega⟩
    simp [firstPtr, OS_PendListInsert_walk]
  | cons c l3 ih =>
    intro l1 fuel q r hseg hfuel
    obtain ⟨f, rfl⟩ : ∃ f, fuel = f + 1 := ⟨fuel - 1, by simp at hfuel; omega⟩
    obtain ⟨_, _, hrest⟩ := hseg
    have hnx : k.pendNextPtr c = firstPtr l3 none := DSeg_first hrest
    by_cases hlt : k.priority c < prio
    · have hgt : prio > k.priority c := hlt
      simp only [firstPtr, OS_PendListInsert_walk, hgt, if_true]
      rw [List.takeWhile_cons_of_pos (by simpa using hlt),
        List.dropWhile_cons_of_pos (by simpa using hlt)]
      have := ih (l1 ++ [c]) f (some c) none (by rw [← hnx]; exact hrest)
        (by simp at hfuel; omega)
      rw [lastPtr_snoc, ← hnx] at this
      rw [hnx] at this ⊢
      simpa using this
    · have hgt : ¬ prio > k.priority c := hlt
      simp only [firstPtr, OS_PendListInsert_walk, hgt, if_false]
      rw [List.takeWhile_cons_of_neg (by simpa using hlt),
        List.dropWhile_cons_of_neg (by simpa using hlt)]
      simp [firstPtr]

theorem lastPtr_mid (q : Option Nat) (l1 : List Nat) (t : Nat) (l2 : List Nat) :
    lastPtr q (l1 ++ t :: l2) = lastPtr (some t) l2 := by
  rw [lastPtr_append]; rfl

theorem OS_PendListInsert_spec (pl : OS_PEND_LIST) (k : Kernel) (l : List Nat) (t fuel : Nat)
    (hrep : PendRepr pl k l) (ht : t ∉ l) (hfuel : l.length < fuel) :
    ∃ pl' k', OS_PendListInsert fuel (some pl) (some t) k = some (some pl', k') ∧
      PendRepr pl' k'
        (l.takeWhile (fun u => k.priority u < k.priority t) ++
          t :: l.dropWhile (fun u => k.priority u < k.priority t)) ∧
      PendFrame k k' := by
  obtain ⟨hseg, htail, hnd⟩ := hrep
  have hhead := DSeg_first hseg
  cases hl : l with
  | nil =>
    subst hl
    simp only [firstPtr] at hhead
    simp only [OS_PendListInsert, hhead]
    refine ⟨_, _, rfl, ⟨?_, ?_, ?_⟩, ?_⟩
    · simp [DSeg]
    · intro _; simp [lastPtr]
    · simp
    · simp [PendFrame]
  | cons c0 l0 =>
    rw [← hl]
    have hne : l ≠ [] := by rw [hl]; simp
    have hh : pl.headPtr = some c0 := by rw [hhead, hl]; rfl
    have hwalk := OS_PendListInsert_walk_spec (k.priority t) k l [] fuel none none
      (by rw [← hhead]; exact hseg) hfuel
    rw [← hhead, hh] at hwalk
    have h0 : lastPtr none ([] : List Nat) = none := rfl
    rw [h0] at hwalk
    simp only [List.nil_append] at hwalk
    generalize hl1 : l.takeWhile (fun u => k.priority u < k.priority t) = l1 at hwalk ⊢
    generalize hl2 : l.dropWhile (fun u => k.priority u < k.priority t) = l2 at hwalk ⊢
    have happ : l1 ++ l2 = l := by rw [← hl1, ← hl2]; exact List.takeWhile_append_dropWhile _ _
    rw [← happ] at hseg hnd ht htail hne
    have hdisj := List.disjoint_of_nodup_append hnd
    have hat : ∀ a ∈ l1 ++ l2, a ≠ t := fun a ha h => ht (h ▸ ha)
    have hnd' := nodup_insert_mid hnd ht
    rcases List.eq_nil_or_concat l1 with h1 | ⟨l1a, b, h1⟩
    · subst h1
      cases l2 with
      | nil => exact absurd rfl hne
      | cons c l3 =>
        simp only [lastPtr, firstPtr] at hwalk
        simp only [OS_PendListInsert, hh, hwalk]
        have hct : c ≠ t := hat c (by simp)
        refine ⟨_, _, rfl, ⟨?_, ?_, hnd'⟩, ?_⟩
        · refine DSeg_link hseg hnd ht ?_ ?_ ?_ ?_ ?_ ?_ ?_
          · simp [firstPtr]
          · simp [lastPtr]
          · intro b hb; cases hb
          · intro a ha _
            simp [Function.update_noteq (hat a ha)]
          · intro c' hc'
            cases hc'
            simp [Function.update_noteq hct]
          · intro a ha hne'
            have hac : a ≠ c := fun h => hne' (by rw [h]; rfl)
            simp [Function.update_noteq (hat a ha), Function.update_noteq hac]
          · simp
        · intro _
          have := htail (by simp)
          simp only [List.nil_append] at this ⊢
          rw [this]
          rfl
        · simp [PendFrame]
    · rw [List.concat_eq_append] at h1
      subst h1
      have hbt : b ≠ t := hat b (by simp)
      rw [lastPtr_snoc] at hwalk
      cases l2 with
      | nil =>
        simp only [firstPtr] at hwalk
        simp only [OS_PendListInsert, hh, hwalk]
        refine ⟨_, _, rfl, ⟨?_, ?_, hnd'⟩, ?_⟩
        · refine DSeg_link hseg hnd ht ?_ ?_ ?_ ?_ ?_ ?_ ?_
          · simp [firstPtr]
          · simp [lastPtr_snoc]
          · intro b' hb'
            rw [lastPtr_snoc] at hb'
            cases hb'
            simp [Function.update_noteq hbt]
          · intro a ha hne'
            rw [lastPtr_snoc] at hne'
            have hab : a ≠ b := fun h => hne' (by rw [h])
            simp [Function.update_noteq (hat a ha), Function.update_noteq hab]
          · intro c hc; cases hc
          · intro a ha _
            simp [Function.update_noteq (hat a ha)]
          · simp [hh]
        · intro _
          rw [lastPtr_mid]
          rfl
        · simp [PendFrame]
      | cons c l3 =>
        simp only [firstPtr] at hwalk
        simp only [OS_PendListInsert, hh, hwalk]
        have hct : c ≠ t := hat c (by simp)
        have hbc : b ≠ c := fun h => hdisj (by simp : b ∈ l1a ++ [b]) (by simp [h])
        refine ⟨_, _, rfl, ⟨?_, ?_, hnd'⟩, ?_⟩
        · refine DSeg_link hseg hnd ht ?_ ?_ ?_ ?_ ?_ ?_ ?_
          · simp [firstPtr]
          · simp [lastPtr_snoc]
          · intro b' hb'
            rw [lastPtr_snoc] at hb'
            cases hb'
            simp [Function.update_noteq hbt]
          · intro a ha hne'
            rw [lastPtr_snoc] at hne'
            have hab : a ≠ b := fun h => hne' (by rw [h])
            simp [Function.update_noteq (hat a ha), Function.update_noteq hab]
          · intro c' hc'
            cases hc'
            simp [Function.update_noteq hct]
          · intro a ha hne'
            have hac : a ≠ c := fun h => hne' (by rw [h]; rfl)
            simp [Function.update_noteq (hat a ha), Function.update_noteq hac]
          · simp [hh]
        · intro _
          have := htail (by simp)
          rw [this, lastPtr_mid, lastPtr_mid]
          rfl
        · simp [PendFrame]

theorem OS_PendListRemove_spec (pl : OS_PEND_LIST) (k : Kernel) (l1 l2 : List Nat) (t : Nat)
    (hrep : PendRepr pl k (l1 ++ t :: l2)) :
    ∃ pl' k', OS_PendListRemove (some pl) (some t) k = (some pl', k') ∧
      PendRepr pl' k' (l1 ++ l2) ∧ PendFrame k k' := by
  obtain ⟨hseg, htail, hnd⟩ := hrep
  obtain ⟨ht1, ht2, hnd'⟩ := nodup_mid hnd
  have hdisj := List.disjoint_of_nodup_append hnd'
  have hhead := DSeg_first hseg
  obtain ⟨hs1, hpvt, hs2⟩ := DSeg_mid.mp hseg
  have hnxt := DSeg_first hs2
  have htl := htail (by simp)
  have hat : ∀ a ∈ l1 ++ l2, a ≠ t := by
    intro a ha he
    subst he
    rcases List.mem_append.mp ha with h | h
    · exact ht1 h
    · exact ht2 h
  rcases List.eq_nil_or_concat l1 with h1 | ⟨l0, b, h1⟩
  · subst h1
    simp only [lastPtr] at hpvt
    cases l2 with
    | nil =>
      simp only [firstPtr] at hnxt
      simp only [OS_PendListRemove, hpvt, hnxt]
      refine ⟨_, _, rfl, ⟨by simp [DSeg], by simp, by simp⟩, ?_⟩
      simp [PendFrame]
    | cons c l3 =>
      simp only [firstPtr] at hnxt
      have hct : c ≠ t := hat c (by simp)
      simp only [OS_PendListRemove, hpvt, hnxt]
      refine ⟨_, _, rfl, ⟨?_, ?_, hnd'⟩, ?_⟩
      · refine DSeg_unlink hseg hnd ?_ ?_ ?_ ?_ ?_
        · intro b hb; cases hb
        · intro a ha _
          simp [Function.update_noteq (hat a ha)]
        · intro c' hc'
          cases hc'
          simp [lastPtr]
        · intro a ha hne
          have : a ≠ c := fun h => hne (by rw [h]; rfl)
          simp [Function.update_noteq this]
        · simp [firstPtr]
      · intro _
        simp only [List.nil_append] at htl ⊢
        rw [htl]
        rfl
      · simp [PendFrame]
  · rw [List.concat_eq_append] at h1
    subst h1
    have hbt : b ≠ t := hat b (by simp)
    have hpvt' : k.pendPrevPtr t = some b := by rw [hpvt, lastPtr_snoc]
    obtain ⟨h0, hh0⟩ : ∃ h0, pl.headPtr = some h0 := by
      rw [hhead]; cases l0 <;> exact ⟨_, rfl⟩
    cases l2 with
    | nil =>
      simp only [firstPtr] at hnxt
      simp only [OS_PendListRemove, hpvt', hnxt]
      refine ⟨_, _, rfl, ⟨?_, ?_, hnd'⟩, ?_⟩
      · refine DSeg_unlink hseg hnd ?_ ?_ ?_ ?_ ?_
        · intro b' hb'
          rw [lastPtr_snoc] at hb'
          cases hb'
          simp [firstPtr]
        · intro a ha hne
          rw [lastPtr_snoc] at hne
          have : a ≠ b := fun h => hne (by rw [h])
          simp [Function.update_noteq this]
        · intro c hc; cases hc
        · intro a ha _
          simp [Function.update_noteq (hat a ha)]
        · simp [hh0]
      · intro _
        simp [lastPtr_snoc]
      · simp [PendFrame]
    | cons c l3 =>
      simp only [firstPtr] at hnxt
      have hct : c ≠ t := hat c (by simp)
      have hbc : b ≠ c := by
        intro h
        exact hdisj (by simp : b ∈ l0 ++ [b]) (by simp [h])
      simp only [OS_PendListRemove, hpvt', hnxt]
      refine ⟨_, _, rfl, ⟨?_, ?_, hnd'⟩, ?_⟩
      · refine DSeg_unlink hseg hnd ?_ ?_ ?_ ?_ ?_
        · intro b' hb'
          rw [lastPtr_snoc] at hb'
          cases hb'
          simp [firstPtr, Function.update_noteq hbt]
        · intro a ha hne
          rw [lastPtr_snoc] at hne
          have : a ≠ b := fun h => hne (by rw [h])
          simp [Function.update_noteq (hat a ha), Function.update_noteq this]
        · intro c' hc'
          cases hc'
          simp [lastPtr_snoc, Function.update_noteq hct]
        · intro a ha hne
          have : a ≠ c := fun h => hne (by rw [h]; rfl)
          simp [Function.update_noteq (hat a ha), Function.update_noteq this]
        · simp [hh0]
      · intro _
        rw [htl, lastPtr_append_cons, lastPtr_append_cons]
        rfl
      · simp [PendFrame]

theorem dropWhile_lt_ge (f : Nat → Nat) (p : Nat) (l : List Nat)
    (hs : l.Pairwise (fun a b => f a ≤ f b)) :
    ∀ u ∈ l.dropWhile (fun u => f u < p), p ≤ f u := by
  induction l with
  | nil => intro u hu; cases hu
  | cons a r ih =>
    obtain ⟨ha, hr⟩ := List.pairwise_cons.mp hs
    by_cases hlt : f a < p
    · rw [List.dropWhile_cons_of_pos (by simpa using hlt)]
      exact ih hr
    · rw [List.dropWhile_cons_of_neg (by simpa using hlt)]
      intro u hu
      rcases List.mem_cons.mp hu with h | h
      · rw [h]; omega
      · have := ha u h; omega

theorem takeWhile_lt_lt (f : Nat → Nat) (p : Nat) (l : List Nat) :
    ∀ u ∈ l.takeWhile (fun u => f u < p), f u < p := by
  intro u hu
  simpa using List.mem_takeWhile_imp hu

theorem sorted_insert (f : Nat → Nat) (t : Nat) (l : List Nat)
    (hs : l.Pairwise (fun a b => f a ≤ f b)) :
    (l.takeWhile (fun u => f u < f t) ++ t :: l.dropWhile (fun u => f u < f t)).Pairwise
      (fun a b => f a ≤ f b) := by
  have hge := dropWhile_lt_ge f (f t) l hs
  have hlt := takeWhile_lt_lt f (f t) l
  rw [List.pairwise_append]
  refine ⟨hs.sublist (List.takeWhile_sublist _), ?_, ?_⟩
  · rw [List.pairwise_cons]
    exact ⟨fun b hb => hge b hb, hs.sublist (List.dropWhile_sublist _)⟩
  · intro a ha b hb
    have h1 := hlt a ha
    rcases List.mem_cons.mp hb with h | h
    · rw [h]; omega
    · have := hge b h; omega

theorem perm_insert (t : Nat) (l arr : List Nat) (p : Nat → Bool) (h : l.Perm arr) :
    (l.takeWhile p ++ t :: l.dropWhile p).Perm (arr ++ [t]) := by
  have h1 : (l.takeWhile p ++ t :: l.dropWhile p).Perm (t :: (l.takeWhile p ++ l.dropWhile p)) :=
    List.perm_middle
  rw [List.takeWhile_append_dropWhile] at h1
  exact h1.trans ((List.Perm.cons t h).trans (List.perm_append_singleton t arr).symm)

theorem OS_PendListInsert_walk_mono (prio : Nat) (k : Kernel) :
    ∀ (fuel n : Nat) (cur prev : Option Nat) (r : Option Nat × Option Nat),
      OS_PendListInsert_walk prio fuel cur prev k = some r →
      OS_PendListInsert_walk prio (fuel + n) cur prev k = some r := by
  intro fuel
  induction fuel with
  | zero => intro n cur prev r h; cases h
  | succ f ih =>
    intro n cur prev r h
    have e : f + 1 + n = (f + n) + 1 := by omega
    rw [e]
    cases cur with
    | none => simpa [OS_PendListInsert_walk] using h
    | some c =>
      simp only [OS_PendListInsert_walk] at h ⊢
      split
      · rename_i hgt
        rw [if_pos hgt] at h
        exact ih n _ _ r h
      · rename_i hgt
        rw [if_neg hgt] at h
        exact h

theorem OS_PendListInsert_mono (fuel n : Nat) (pl : OS_PEND_LIST) (t : Nat) (k : Kernel)
    (r : Option OS_PEND_LIST × Kernel)
    (h : OS_PendListInsert fuel (some pl) (some t) k = some r) :
    OS_PendListInsert (fuel + n) (some pl) (some t) k = some r := by
  cases hh : pl.headPtr with
  | none =>
    simp only [OS_PendListInsert, hh] at h ⊢
    exact h
  | some h0 =>
    cases hw : OS_PendListInsert_walk (k.priority t) fuel (some h0) none k with
    | none => simp [OS_PendListInsert, hh, hw] at h
    | some r' =>
      have hw' := OS_PendListInsert_walk_mono (k.priority t) k fuel n _ _ r' hw
      simp only [OS_PendListInsert, hh, hw] at h
      simp only [OS_PendListInsert, hh, hw']
      exact h

theorem PendReach_inv {pl : OS_PEND_LIST} {k : Kernel} {arr : List Nat}
    (h : PendReach pl k arr) :
    ∃ l, PendRepr pl k l ∧ l.Perm arr ∧ l.Pairwise (fun a b => k.priority a ≤ k.priority b) := by
  induction h with
  | init pl0 k =>
    exact ⟨[], ⟨by simp [OS_PendListInit, DSeg], by simp, by simp⟩, List.Perm.refl _,
      List.Pairwise.nil⟩
  | insert pl pl' k k' arr t fuel _ ht hop ih =>
    obtain ⟨l, hrep, hperm, hsort⟩ := ih
    have htl : t ∉ l := fun hm => ht (hperm.subset hm)
    obtain ⟨pl2, k2, h2, hrep2, hfr⟩ :=
      OS_PendListInsert_spec pl k l t (fuel + (l.length + 1)) hrep htl (by omega)
    rw [OS_PendListInsert_mono fuel (l.length + 1) pl t k _ hop] at h2
    simp only [Option.some.injEq, Prod.mk.injEq] at h2
    obtain ⟨rfl, rfl⟩ := h2
    refine ⟨_, hrep2, perm_insert t l arr _ hperm, ?_⟩
    rw [hfr.1]
    exact sorted_insert k.priority t l hsort
  | remove pl pl' k k' arr t _ ht hop ih =>
    obtain ⟨l, hrep, hperm, hsort⟩ := ih
    have htl : t ∈ l := hperm.symm.subset ht
    obtain ⟨l1, l2, hl⟩ := List.append_of_mem htl
    subst hl
    obtain ⟨pl2, k2, h2, hrep2, hfr⟩ := OS_PendListRemove_spec pl k l1 l2 t hrep
    rw [hop] at h2
    simp only [Prod.mk.injEq, Option.some.injEq] at h2
    obtain ⟨rfl, rfl⟩ := h2
    have he : (l1 ++ t :: l2).erase t = l1 ++ l2 := erase_mid l1 l2 t (nodup_mid hrep.2.2).1
    refine ⟨l1 ++ l2, hrep2, ?_, ?_⟩
    · rw [← he]; exact hperm.erase t
    · rw [hfr.1]
      exact hsort.sublist (by simp)

theorem exP3_reach : PendReach exP3.1 exP3.2 [1, 5, 2] := by
  have h0 := PendReach.init { headPtr := some 9, tailPtr := none } exK0
  have h1 := PendReach.insert _ exP1.1 _ exP1.2 _ 1 8 h0 (by simp) rfl
  have h2 := PendReach.insert _ exP2.1 _ exP2.2 _ 5 8 h1 (by decide) rfl
  have h3 := PendReach.insert _ exP3.1 _ exP3.2 _ 2 8 h2 (by decide) rfl
  exact h3

/-- C12: every wait queue built from `OS_PendListInit` by `OS_PendListInsert` (task not in the
queue) and `OS_PendListRemove` (task in the queue) is sorted. `arr` lists the waiters in order
of arrival; the pend links of the queue spell out a list `l` with the same members, sorted by
non-decreasing priority number from head to tail; `OS_PendListGetHighest` returns the head of
`l`, a waiter whose priority number is minimal among all waiters, and it returns null exactly
when there is no waiter. -/
theorem C12_wait_queue_sorted (pl : OS_PEND_LIST) (k : Kernel) (arr : List Nat)
    (h : PendReach pl k arr) :
    ∃ l, PendRepr pl k l ∧ walk k.pendNextPtr l.length pl.headPtr = l ∧ l.Perm arr ∧
      l.Pairwise (fun a b => k.priority a ≤ k.priority b) ∧
      OS_PendListGetHighest (some pl) = l.head? ∧
      (∀ t, OS_PendListGetHighest (some pl) = some t →
        t ∈ arr ∧ ∀ u ∈ arr, k.priority t ≤ k.priority u) ∧
      (OS_PendListGetHighest (some pl) = none ↔ arr = []) := by
  obtain ⟨l, hrep, hperm, hsort⟩ := PendReach_inv h
  have hhead : pl.headPtr = l.head? := by
    rw [DSeg_first hrep.1]; cases l <;> rfl
  refine ⟨l, hrep, DSeg_walk 0 hrep.1, hperm, hsort, hhead, ?_, ?_⟩
  · intro t ht
    have ht' : l.head? = some t := by rw [← hhead]; exact ht
    cases l with
    | nil => cases ht'
    | cons a r =>
      simp only [List.head?_cons, Option.some.injEq] at ht'
      subst ht'
      refine ⟨hperm.subset (by simp), ?_⟩
      intro u hu
      rcases List.mem_cons.mp (hperm.symm.subset hu) with he | hm
      · rw [he]
      · exact (List.pairwise_cons.mp hsort).1 u hm
  · show pl.headPtr = none ↔ arr = []
    rw [hhead]
    constructor
    · intro hn
      have : l = [] := by cases l with
        | nil => rfl
        | cons a r => cases hn
      subst this
      exact hperm.symm.eq_nil
    · intro hn
      subst hn
      rw [hperm.eq_nil]
      rfl

/-- C12, instantiated: tasks 1 and 5 (priority 1) and 2 (priority 2) were inserted. -/
theorem C12_wait_queue_sorted_witness :
    PendReach exP3.1 exP3.2 [1, 5, 2] ∧
    ∃ l, PendRepr exP3.1 exP3.2 l ∧ walk exP3.2.pendNextPtr l.length exP3.1.headPtr = l ∧
      l.Perm [1, 5, 2] ∧
      l.Pairwise (fun a b => exP3.2.priority a ≤ exP3.2.priority b) ∧
      OS_PendListGetHighest (some exP3.1) = l.head? ∧
      (∀ t, OS_PendListGetHighest (some exP3.1) = some t →
        t ∈ [1, 5, 2] ∧ ∀ u ∈ [1, 5, 2], exP3.2.priority t ≤ exP3.2.priority u) ∧
      (OS_PendListGetHighest (some exP3.1) = none ↔ [1, 5, 2] = []) :=
  ⟨exP3_reach, C12_wait_queue_sorted exP3.1 exP3.2 [1, 5, 2] exP3_reach⟩

/-- `OS_PendListInsert` puts the new task in front of every waiter of equal priority: all
waiters whose priority number equals that of the new task `t` end up behind `t`. -/
theorem OS_PendListInsert_before_equal (pl : OS_PEND_LIST) (k : Kernel) (l : List Nat)
    (t fuel : Nat) (hrep : PendRepr pl k l) (ht : t ∉ l) (hfuel : l.length < fuel) :
    ∃ pl' k' l1 l2, OS_PendListInsert fuel (some pl) (some t) k = some (some pl', k') ∧
      PendRepr pl' k' (l1 ++ t :: l2) ∧ l = l1 ++ l2 ∧
      ∀ u ∈ l, k.priority u = k.priority t → u ∈ l2 := by
  obtain ⟨pl', k', h1, h2, _⟩ := OS_PendListInsert_spec pl k l t fuel hrep ht hfuel
  refine ⟨pl', k', _, _, h1, h2, (List.takeWhile_append_dropWhile _ _).symm, ?_⟩
  intro u hu he
  have hu' : u ∈ l.takeWhile (fun u => k.priority u < k.priority t) ++
      l.dropWhile (fun u => k.priority u < k.priority t) := by
    rw [List.takeWhile_append_dropWhile]; exact hu
  rcases List.mem_append.mp hu' with h | h
  · have := takeWhile_lt_lt k.priority (k.priority t) l u h
    omega
  · exact h

/-- C13: the code at the failing input. Task 1 and then task 5, both of priority 1, are
inserted into an initialised wait queue. Both calls return; afterwards the queue read from the
head is (5, 1): the later arrival is nearer the head, and `OS_PendListGetHighest` returns
task 5, not task 1. -/
theorem C13_equal_priority_waiters_reversed :
    OS_PendListInsert 8 (some (OS_PendListInit { headPtr := some 9, tailPtr := none }))
        (some 1) exK0 = some (some exP1.1, exP1.2) ∧
    OS_PendListInsert 8 (some exP1.1) (some 5) exP1.2 = some (some exP2.1, exP2.2) ∧
    exP2.2.priority 1 = exP2.2.priority 5 ∧
    walk exP2.2.pendNextPtr 2 exP2.1.headPtr = [5, 1] ∧
    OS_PendListGetHighest (some exP2.1) = some 5 :=
  ⟨rfl, rfl, by decide, by decide, by decide⟩
/-! ## Allocator lemmas -/

theorem hdrWord_mask (s : Nat) (u : Bool) (hs : s < 2 ^ 31) :
    hdrWord s u &&& OS_MEM_SIZE_MASK = s := by
  have hm : OS_MEM_SIZE_MASK = 2 ^ 31 - 1 := by decide
  rw [hm, Nat.and_pow_two_sub_one_eq_mod]
  cases u with
  | false => simpa [hdrWord] using Nat.mod_eq_of_lt hs
  | true =>
    simp only [hdrWord, if_true]
    rw [Nat.add_mod_right]
    exact Nat.mod_eq_of_lt hs

theorem hdrWord_flag (s : Nat) (u : Bool) (hs : s < 2 ^ 31) :
    (hdrWord s u &&& OS_MEM_USED_FLAG = 0) ↔ u = false := by
  have hm : OS_MEM_USED_FLAG = 2 ^ 31 := by decide
  rw [hm, Nat.and_two_pow]
  cases u with
  | false =>
    simp only [hdrWord, Bool.false_eq_true, if_false]
    rw [Nat.testBit_lt_two_pow hs]
    simp
  | true =>
    simp only [hdrWord, if_true]
    rw [Nat.add_comm, Nat.testBit_two_pow_add_eq, Nat.testBit_lt_two_pow hs]
    simp

theorem or_flag (s : Nat) (hs : s < 2 ^ 31) : s ||| OS_MEM_USED_FLAG = hdrWord s true := by
  have hm : OS_MEM_USED_FLAG = 2 ^ 31 * 1 := by decide
  rw [hm, Nat.lor_comm, ← Nat.mul_add_lt_is_or hs 1]
  simp [hdrWord, Nat.add_comm]

theorem u32_add_eq (a b : Nat) (h : a + b < 2 ^ 32) : u32_add a b = a + b :=
  Nat.mod_eq_of_lt h

theorem u32_sub_eq (a b : Nat) (hb : b ≤ a) (ha : a < 2 ^ 32) : u32_sub a b = a - b := by
  unfold u32_sub
  have hb' : b % 2 ^ 32 = b := Nat.mod_eq_of_lt (lt_of_le_of_lt hb ha)
  rw [hb']
  have h2 : a + (2 ^ 32 - b) = (a - b) + 2 ^ 32 := by omega
  rw [h2, Nat.add_mod_right]
  exact Nat.mod_eq_of_lt (by omega)

theorem span_append (h : Nat) (l1 l2 : List (Nat × Bool)) :
    span h (l1 ++ l2) = span h l1 + span h l2 := by
  simp [span]

theorem span_cons (h : Nat) (b : Nat × Bool) (l : List (Nat × Bool)) :
    span h (b :: l) = h + b.1 + span h l := by
  simp [span]

theorem MemSeg_append {m : MemState} {h : Nat} {l1 l2 : List (Nat × Bool)} :
    ∀ {p a p' a' : Nat}, MemSeg m h p a (l1 ++ l2) p' a' ↔
      ∃ pm, MemSeg m h p a l1 pm (a + span h l1) ∧ MemSeg m h pm (a + span h l1) l2 p' a' := by
  induction l1 with
  | nil =>
    intro p a p' a'
    simp only [List.nil_append, span, List.map_nil, List.sum_nil, Nat.add_zero, MemSeg]
    constructor
    · intro hs; exact ⟨p, ⟨rfl, trivial⟩, hs⟩
    · rintro ⟨pm, ⟨rfl, _⟩, hs⟩; exact hs
  | cons b l ih =>
    intro p a p' a'
    have e : a + span h (b :: l) = (a + h + b.1) + span h l := by rw [span_cons]; omega
    simp only [List.cons_append, MemSeg]
    rw [e]
    constructor
    · rintro ⟨h1, h2, h3, h4⟩
      obtain ⟨pm, h5, h6⟩ := ih.mp h4
      exact ⟨pm, ⟨h1, h2, h3, h5⟩, h6⟩
    · rintro ⟨pm, ⟨h1, h2, h3, h5⟩, h6⟩
      exact ⟨h1, h2, h3, ih.mpr ⟨pm, h5, h6⟩⟩

theorem MemSeg_end {m : MemState} {h : Nat} {l : List (Nat × Bool)} :
    ∀ {p a p' a' : Nat}, MemSeg m h p a l p' a' → a' = a + span h l := by
  induction l with
  | nil => intro p a p' a' hs; simp [span]; exact hs.2.symm
  | cons b l ih =>
    intro p a p' a' hs
    rw [ih hs.2.2.2, span_cons]
    omega

theorem MemSeg_congr {m m' : MemState} {h : Nat} (hh : 0 < h) {l : List (Nat × Bool)} :
    ∀ {p a p' a' : Nat},
      (∀ x, a ≤ x → x < a + span h l →
        m'.memUsedSize x = m.memUsedSize x ∧ m'.memNextNode x = m.memNextNode x) →
      MemSeg m h p a l p' a' → MemSeg m' h p a l p' a' := by
  induction l with
  | nil => intro p a p' a' _ hs; exact hs
  | cons b l ih =>
    intro p a p' a' hag hs
    obtain ⟨h1, h2, h3, h4⟩ := hs
    have hsp : span h (b :: l) = h + b.1 + span h l := span_cons h b l
    obtain ⟨e1, e2⟩ := hag a (le_refl a) (by rw [hsp]; omega)
    refine ⟨h1, by rw [e1]; exact h2, h3, ?_⟩
    rw [e2]
    exact ih (fun x hx1 hx2 => hag x (by omega) (by rw [hsp]; omega)) h4

theorem MallocMemory_walk_hit (cfg : MemCfg) (req s : Nat) (m : MemState)
    (post : List (Nat × Bool)) (p' a' : Nat) :
    ∀ (pre : List (Nat × Bool)) (fuel p a : Nat), 0 < a →
      MemSeg m cfg.OS_MEM_NODE_SIZE p a (pre ++ (s, false) :: post) p' a' →
      (∀ b ∈ pre, ¬ (b.2 = false ∧ req ≤ b.1)) → req ≤ s → pre.length < fuel →
      MallocMemory_walk cfg req fuel p m =
        some (MallocMemory_take cfg req (a + span cfg.OS_MEM_NODE_SIZE pre) s m) := by
  intro pre
  induction pre with
  | nil =>
    intro fuel p a ha hseg _ hreq hfuel
    obtain ⟨fuel, rfl⟩ : ∃ f, fuel = f + 1 := ⟨fuel - 1, by simp at hfuel; omega⟩
    obtain ⟨h1, h2, h3, _⟩ := hseg
    subst h1
    have hf : m.memUsedSize p &&& OS_MEM_USED_FLAG = 0 := by
      rw [h2]; exact (hdrWord_flag s false h3).mpr rfl
    have hsz : m.memUsedSize p &&& OS_MEM_SIZE_MASK = s := by
      rw [h2]; exact hdrWord_mask s false h3
    have hp : p ≠ 0 := by omega
    simp [MallocMemory_walk, hp, hf, hsz, hreq, span]
  | cons b pre ih =>
    intro fuel p a ha hseg hun hreq hfuel
    obtain ⟨fuel, rfl⟩ : ∃ f, fuel = f + 1 := ⟨fuel - 1, by simp at hfuel; omega⟩
    obtain ⟨h1, h2, h3, h4⟩ := hseg
    subst h1
    have hp : p ≠ 0 := by omega
    have hb := hun b (List.mem_cons_self _ _)
    have hsz : m.memUsedSize p &&& OS_MEM_SIZE_MASK = b.1 := by
      rw [h2]; exact hdrWord_mask b.1 b.2 h3
    have hcond : ¬ (m.memUsedSize p &&& OS_MEM_USED_FLAG = 0 ∧
        m.memUsedSize p &&& OS_MEM_SIZE_MASK ≥ req) := by
      rw [hsz, h2, hdrWord_flag b.1 b.2 h3]
      exact hb
    have e : p + span cfg.OS_MEM_NODE_SIZE (b :: pre) =
        (p + cfg.OS_MEM_NODE_SIZE + b.1) + span cfg.OS_MEM_NODE_SIZE pre := by
      rw [span_cons]; omega
    rw [e, ← ih fuel (m.memNextNode p) (p + cfg.OS_MEM_NODE_SIZE + b.1) (by omega) h4
      (fun x hx => hun x (List.mem_cons_of_mem _ hx)) hreq (by simp at hfuel; omega)]
    simp only [MallocMemory_walk, hp, if_false, hcond]

theorem MallocMemory_walk_miss (cfg : MemCfg) (req : Nat) (m : MemState) (a' : Nat) :
    ∀ (l : List (Nat × Bool)) (fuel p a : Nat), 0 < a →
      MemSeg m cfg.OS_MEM_NODE_SIZE p a l 0 a' →
      (∀ b ∈ l, ¬ (b.2 = false ∧ req ≤ b.1)) → l.length < fuel →
      MallocMemory_walk cfg req fuel p m = some (0, m) := by
  intro l
  induction l with
  | nil =>
    intro fuel p a _ hseg _ hfuel
    obtain ⟨fuel, rfl⟩ : ∃ f, fuel = f + 1 := ⟨fuel - 1, by simp at hfuel; omega⟩
    have hp : p = 0 := hseg.1
    simp [MallocMemory_walk, hp]
  | cons b l ih =>
    intro fuel p a ha hseg hun hfuel
    obtain ⟨fuel, rfl⟩ : ∃ f, fuel = f + 1 := ⟨fuel - 1, by simp at hfuel; omega⟩
    obtain ⟨h1, h2, h3, h4⟩ := hseg
    subst h1
    have hp : p ≠ 0 := by omega
    have hb := hun b (List.mem_cons_self _ _)
    have hsz : m.memUsedSize p &&& OS_MEM_SIZE_MASK = b.1 := by
      rw [h2]; exact hdrWord_mask b.1 b.2 h3
    have hcond : ¬ (m.memUsedSize p &&& OS_MEM_USED_FLAG = 0 ∧
        m.memUsedSize p &&& OS_MEM_SIZE_MASK ≥ req) := by
      rw [hsz, h2, hdrWord_flag b.1 b.2 h3]
      exact hb
    rw [← ih fuel (m.memNextNode p) (p + cfg.OS_MEM_NODE_SIZE + b.1) (by omega) h4
      (fun x hx => hun x (List.mem_cons_of_mem _ hx)) (by simp at hfuel; omega)]
    simp only [MallocMemory_walk, hp, if_false, hcond]

theorem MallocMemory_walk_mono (cfg : MemCfg) (req : Nat) (m : MemState) :
    ∀ (fuel k p : Nat) (r : Nat × MemState), MallocMemory_walk cfg req fuel p m = some r →
      MallocMemory_walk cfg req (fuel + k) p m = some r := by
  intro fuel
  induction fuel with
  | zero => intro k p r h; simp [MallocMemory_walk] at h
  | succ fuel ih =>
    intro k p r h
    have e : fuel + 1 + k = (fuel + k) + 1 := by omega
    rw [e]
    simp only [MallocMemory_walk] at h ⊢
    by_cases hp : p = 0
    · simpa [hp] using h
    · simp only [hp, if_false] at h ⊢
      by_cases hc : m.memUsedSize p &&& OS_MEM_USED_FLAG = 0 ∧
          m.memUsedSize p &&& OS_MEM_SIZE_MASK ≥ req
      · simpa [hc] using h
      · simp only [hc, if_false] at h ⊢
        exact ih k _ r h

theorem MallocMemory_take_spec (cfg : MemCfg) (req s a : Nat) (m : MemState)
    (post : List (Nat × Bool)) (p' a' : Nat) (hh : 0 < cfg.OS_MEM_NODE_SIZE)
    (hseg : MemSeg m cfg.OS_MEM_NODE_SIZE a a ((s, false) :: post) p' a')
    (hreq : req ≤ s) (hov : s + cfg.OS_MEM_NODE_SIZE + cfg.OS_MEM_ALIGN < 2 ^ 31) :
    (MallocMemory_take cfg req a s m).1 = a + cfg.OS_MEM_NODE_SIZE ∧
    MemSeg (MallocMemory_take cfg req a s m).2 cfg.OS_MEM_NODE_SIZE a a
      (splitBlock cfg req s ++ post) p' a' ∧
    (∀ x, x < a →
      (MallocMemory_take cfg req a s m).2.memUsedSize x = m.memUsedSize x ∧
      (MallocMemory_take cfg req a s m).2.memNextNode x = m.memNextNode x) ∧
    (MallocMemory_take cfg req a s m).2.memoryBase = m.memoryBase ∧
    (MallocMemory_take cfg req a s m).2.memoryEnd = m.memoryEnd ∧
    (MallocMemory_take cfg req a s m).2.memoryList = m.memoryList ∧
    (MallocMemory_take cfg req a s m).2.memoryRdy = m.memoryRdy ∧
    (s ≥ req + cfg.OS_MEM_NODE_SIZE + cfg.OS_MEM_ALIGN →
      (MallocMemory_take cfg req a s m).2.memNextNode a = a + cfg.OS_MEM_NODE_SIZE + req ∧
      (MallocMemory_take cfg req a s m).2.memNextNode (a + cfg.OS_MEM_NODE_SIZE + req) =
        m.memNextNode a) := by
  obtain ⟨_, h2, h3, h4⟩ := hseg
  have hA : cfg.OS_MEM_ALIGN % 2 ^ 32 = cfg.OS_MEM_ALIGN := Nat.mod_eq_of_lt (by omega)
  have hsum : u32_add (u32_add req cfg.OS_MEM_NODE_SIZE) (cfg.OS_MEM_ALIGN % 2 ^ 32) =
      req + cfg.OS_MEM_NODE_SIZE + cfg.OS_MEM_ALIGN := by
    rw [hA, u32_add_eq req _ (by omega), u32_add_eq _ _ (by omega)]
  by_cases hsplit : s ≥ req + cfg.OS_MEM_NODE_SIZE + cfg.OS_MEM_ALIGN
  · have hnew : u32_sub (u32_sub s req) cfg.OS_MEM_NODE_SIZE &&& OS_MEM_SIZE_MASK =
        s - req - cfg.OS_MEM_NODE_SIZE := by
      rw [u32_sub_eq s req hreq (by omega), u32_sub_eq _ _ (by omega) (by omega)]
      have := hdrWord_mask (s - req - cfg.OS_MEM_NODE_SIZE) false (by omega)
      simpa [hdrWord] using this
    have hne : a + cfg.OS_MEM_NODE_SIZE + req ≠ a := by omega
    have hne' : a ≠ a + cfg.OS_MEM_NODE_SIZE + req := by omega
    have hte : MallocMemory_take cfg req a s m = (a + cfg.OS_MEM_NODE_SIZE,
        { m with
          memUsedSize := Function.update (Function.update m.memUsedSize
            (a + cfg.OS_MEM_NODE_SIZE + req) (s - req - cfg.OS_MEM_NODE_SIZE)) a
            (hdrWord req true)
          memNextNode := Function.update (Function.update m.memNextNode
            (a + cfg.OS_MEM_NODE_SIZE + req) (m.memNextNode a)) a
            (a + cfg.OS_MEM_NODE_SIZE + req) }) := by
      simp only [MallocMemory_take, hsum, hsplit, if_true, hnew, ge_iff_le,
        or_flag req (show req < 2 ^ 31 by omega)]
    have hsb : splitBlock cfg req s =
        [(req, true), (s - req - cfg.OS_MEM_NODE_SIZE, false)] := by
      simp only [splitBlock, hsplit, if_true, ge_iff_le]
    rw [hte, hsb]
    refine ⟨rfl, ?_, ?_, rfl, rfl, rfl, rfl, ?_⟩
    · have e : a + cfg.OS_MEM_NODE_SIZE + req + cfg.OS_MEM_NODE_SIZE +
          (s - req - cfg.OS_MEM_NODE_SIZE) = a + cfg.OS_MEM_NODE_SIZE + s := by omega
      simp only [List.cons_append, List.nil_append, MemSeg, Function.update_same,
        Function.update_noteq hne, e]
      refine ⟨trivial, trivial, by omega, trivial, by simp [hdrWord], by omega, ?_⟩
      refine MemSeg_congr hh ?_ h4
      intro x hx1 _
      have hx : x ≠ a := by omega
      have hx' : x ≠ a + cfg.OS_MEM_NODE_SIZE + req := by omega
      simp [Function.update_noteq hx, Function.update_noteq hx']
    · intro x hx
      have hx1 : x ≠ a := by omega
      have hx' : x ≠ a + cfg.OS_MEM_NODE_SIZE + req := by omega
      simp [Function.update_noteq hx1, Function.update_noteq hx']
    · intro _
      simp [Function.update_same, Function.update_noteq hne]
  · have hte : MallocMemory_take cfg req a s m = (a + cfg.OS_MEM_NODE_SIZE,
        { m with memUsedSize := Function.update m.memUsedSize a (hdrWord s true) }) := by
      have hw : m.memUsedSize a ||| OS_MEM_USED_FLAG = hdrWord s true := by
        rw [h2]; simpa [hdrWord] using or_flag s h3
      simp only [MallocMemory_take, hsum, hsplit, if_false, ge_iff_le, hw]
    have hsb : splitBlock cfg req s = [(s, true)] := by
      simp only [splitBlock, hsplit, if_false, ge_iff_le]
    rw [hte, hsb]
    refine ⟨rfl, ?_, ?_, rfl, rfl, rfl, rfl, ?_⟩
    · simp only [List.cons_append, List.nil_append, MemSeg, Function.update_same]
      refine ⟨trivial, trivial, h3, ?_⟩
      refine MemSeg_congr hh ?_ h4
      intro x hx1 _
      have hx : x ≠ a := by omega
      simp [Function.update_noteq hx]
    · intro x hx
      have hx1 : x ≠ a := by omega
      simp [Function.update_noteq hx1]
    · intro h; exact absurd h hsplit

theorem OS_MEM_ALIGN_UP_eq (cfg : MemCfg) (x a : Nat) (hA : cfg.OS_MEM_ALIGN = 2 ^ a)
    (ha : a < 32) (hx : x + (2 ^ a - 1) < 2 ^ 32) :
    OS_MEM_ALIGN_UP cfg x = (x + (2 ^ a - 1)) / 2 ^ a * 2 ^ a := by
  have h2a : 2 ^ a < 2 ^ 32 := Nat.pow_lt_pow_right (by decide) ha
  have hm : (2 ^ a - 1) % 2 ^ 32 = 2 ^ a - 1 := Nat.mod_eq_of_lt (by omega)
  unfold OS_MEM_ALIGN_UP
  rw [hA, hm, u32_add_eq _ _ hx]
  generalize x + (2 ^ a - 1) = y at hx
  apply Nat.eq_of_testBit_eq
  intro i
  rw [← Nat.shiftRight_eq_div_pow, ← Nat.shiftLeft_eq, Nat.testBit_shiftLeft,
    Nat.testBit_shiftRight, Nat.testBit_and, Nat.testBit_xor, Nat.testBit_two_pow_sub_one,
    Nat.testBit_two_pow_sub_one]
  by_cases h1 : i < a
  · have h3 : i < 32 := by omega
    have h4 : ¬ i ≥ a := by omega
    simp [h1, h3, h4]
  · have h4 : i ≥ a := by omega
    have e : a + (i - a) = i := by omega
    by_cases h3 : i < 32
    · simp [h1, h3, h4, e]
    · have hy : y.testBit i = false :=
        Nat.testBit_lt_two_pow (lt_of_lt_of_le hx (Nat.pow_le_pow_right (by decide) (by omega)))
      simp [h1, h3, e, hy]

theorem CfgOK_align (cfg : MemCfg) (hc : CfgOK cfg) (n : Nat) (hn : n < cfg.OS_MEM_MAX_SIZE) :
    OS_MEM_ALIGN_UP cfg n =
      (n + (cfg.OS_MEM_ALIGN - 1)) / cfg.OS_MEM_ALIGN * cfg.OS_MEM_ALIGN ∧
    n ≤ OS_MEM_ALIGN_UP cfg n := by
  obtain ⟨_, _, _, _, h5, a, hA⟩ := hc
  have hApos : 0 < 2 ^ a := Nat.pos_pow_of_pos a (by decide)
  have ha : a < 32 := by
    by_contra hcon
    have : 2 ^ 32 ≤ 2 ^ a := Nat.pow_le_pow_right (by decide) (by omega)
    omega
  have e := OS_MEM_ALIGN_UP_eq cfg n a hA ha (by omega)
  rw [hA]
  refine ⟨e, ?_⟩
  rw [e]
  have h1 := Nat.div_add_mod (n + (2 ^ a - 1)) (2 ^ a)
  have h2 := Nat.mod_lt (n + (2 ^ a - 1)) hApos
  have h3 : (n + (2 ^ a - 1)) / 2 ^ a * 2 ^ a = 2 ^ a * ((n + (2 ^ a - 1)) / 2 ^ a) :=
    Nat.mul_comm _ _
  omega

theorem span_ge_length (h : Nat) (hh : 0 < h) (l : List (Nat × Bool)) :
    l.length ≤ span h l := by
  induction l with
  | nil => simp [span]
  | cons b l ih => rw [span_cons]; simp only [List.length_cons]; omega

theorem MemInv_span {cfg : MemCfg} {m : MemState} {bs : List (Nat × Bool)}
    (hinv : MemInv cfg m bs) : span cfg.OS_MEM_NODE_SIZE bs = cfg.OS_MEM_MAX_SIZE := by
  have := MemSeg_end hinv.2.2.2
  omega

theorem first_fit_cases (req : Nat) (bs : List (Nat × Bool)) :
    (∃ pre s post, bs = pre ++ (s, false) :: post ∧
      (∀ b ∈ pre, ¬ (b.2 = false ∧ req ≤ b.1)) ∧ req ≤ s) ∨
    (∀ b ∈ bs, ¬ (b.2 = false ∧ req ≤ b.1)) := by
  induction bs with
  | nil => right; intro b hb; cases hb
  | cons b bs ih =>
    by_cases hb : b.2 = false ∧ req ≤ b.1
    · left
      refine ⟨[], b.1, bs, ?_, ?_, hb.2⟩
      · obtain ⟨s, u⟩ := b
        simp only at hb
        simp [hb.1]
      · intro x hx; cases hx
    · rcases ih with ⟨pre, s, post, e, h1, h2⟩ | h
      · left
        refine ⟨b :: pre, s, post, by rw [e]; rfl, ?_, h2⟩
        intro x hx
        rcases List.mem_cons.mp hx with rfl | hx
        · exact hb
        · exact h1 x hx
      · right
        intro x hx
        rcases List.mem_cons.mp hx with rfl | hx
        · exact hb
        · exact h x hx

theorem OSMalloc_hit (cfg : MemCfg) (m : MemState) (pre post : List (Nat × Bool))
    (s n fuel : Nat) (hc : CfgOK cfg)
    (hinv : MemInv cfg m (pre ++ (s, false) :: post))
    (hn : 0 < n) (hn' : n < cfg.OS_MEM_MAX_SIZE)
    (hun : ∀ b ∈ pre, ¬ (b.2 = false ∧ OS_MEM_ALIGN_UP cfg n ≤ b.1))
    (hreq : OS_MEM_ALIGN_UP cfg n ≤ s) (hfuel : pre.length < fuel) :
    ∃ m', OSMalloc cfg fuel n m =
        some (cfg.s_OSMemoryPool + span cfg.OS_MEM_NODE_SIZE pre + cfg.OS_MEM_NODE_SIZE, m') ∧
      MemInv cfg m' (pre ++ splitBlock cfg (OS_MEM_ALIGN_UP cfg n) s ++ post) ∧
      (s ≥ OS_MEM_ALIGN_UP cfg n + cfg.OS_MEM_NODE_SIZE + cfg.OS_MEM_ALIGN →
        m'.memNextNode (cfg.s_OSMemoryPool + span cfg.OS_MEM_NODE_SIZE pre) =
          cfg.s_OSMemoryPool + span cfg.OS_MEM_NODE_SIZE pre + cfg.OS_MEM_NODE_SIZE +
            OS_MEM_ALIGN_UP cfg n ∧
        m'.memNextNode (cfg.s_OSMemoryPool + span cfg.OS_MEM_NODE_SIZE pre +
            cfg.OS_MEM_NODE_SIZE + OS_MEM_ALIGN_UP cfg n) =
          m.memNextNode (cfg.s_OSMemoryPool + span cfg.OS_MEM_NODE_SIZE pre)) := by
  have hc' := hc
  obtain ⟨hpool, hend, hh, _, hov, _⟩ := hc'
  obtain ⟨hrdy, hbase, hmend, hseg⟩ := hinv
  have hge := (CfgOK_align cfg hc n hn').2
  have hspan : span cfg.OS_MEM_NODE_SIZE (pre ++ (s, false) :: post) = cfg.OS_MEM_MAX_SIZE := by
    have := MemSeg_end hseg; omega
  rw [span_append, span_cons] at hspan
  simp only at hspan
  have hwalk := MallocMemory_walk_hit cfg (OS_MEM_ALIGN_UP cfg n) s m post 0
    (cfg.s_OSMemoryPool + cfg.OS_MEM_MAX_SIZE) pre fuel m.memoryList cfg.s_OSMemoryPool hpool
    hseg hun hreq hfuel
  obtain ⟨pm, hs1, hs2⟩ := MemSeg_append.mp hseg
  have hpm : pm = cfg.s_OSMemoryPool + span cfg.OS_MEM_NODE_SIZE pre := hs2.1
  rw [hpm] at hs1 hs2
  obtain ⟨t1, t2, t3, t4, t5, t6, t7, t8⟩ := MallocMemory_take_spec cfg (OS_MEM_ALIGN_UP cfg n) s
    (cfg.s_OSMemoryPool + span cfg.OS_MEM_NODE_SIZE pre) m post 0
    (cfg.s_OSMemoryPool + cfg.OS_MEM_MAX_SIZE) hh hs2 hreq (by omega)
  generalize MallocMemory_take cfg (OS_MEM_ALIGN_UP cfg n)
    (cfg.s_OSMemoryPool + span cfg.OS_MEM_NODE_SIZE pre) s m = r at hwalk t1 t2 t3 t4 t5 t6 t7 t8
  obtain ⟨ptr, m'⟩ := r
  simp only at t1 t2 t3 t4 t5 t6 t7 t8
  subst t1
  have hsize : ¬ (n = 0 ∨ n ≥ cfg.OS_MEM_MAX_SIZE) := by omega
  have hrange : ¬ (cfg.s_OSMemoryPool + span cfg.OS_MEM_NODE_SIZE pre + cfg.OS_MEM_NODE_SIZE = 0 ∨
      cfg.s_OSMemoryPool + span cfg.OS_MEM_NODE_SIZE pre + cfg.OS_MEM_NODE_SIZE ≤ m'.memoryBase ∨
      cfg.s_OSMemoryPool + span cfg.OS_MEM_NODE_SIZE pre + cfg.OS_MEM_NODE_SIZE ≥
        m'.memoryEnd) := by
    rw [t4, t5, hbase, hmend]; omega
  refine ⟨m', ?_, ⟨by rw [t7]; exact hrdy, by rw [t4]; exact hbase, by rw [t5]; exact hmend, ?_⟩,
    t8⟩
  · simp only [OSMalloc, hsize, if_false, hrdy, Bool.true_eq_false, MallocMemory, hwalk, hrange]
  · rw [t6, List.append_assoc]
    refine MemSeg_append.mpr ⟨cfg.s_OSMemoryPool + span cfg.OS_MEM_NODE_SIZE pre, ?_, t2⟩
    exact MemSeg_congr hh (fun x _ hx => t3 x hx) hs1

theorem OSMalloc_miss (cfg : MemCfg) (m : MemState) (bs : List (Nat × Bool))
    (n fuel : Nat) (hc : CfgOK cfg) (hinv : MemInv cfg m bs)
    (hun : ∀ b ∈ bs, ¬ (b.2 = false ∧ OS_MEM_ALIGN_UP cfg n ≤ b.1))
    (hfuel : bs.length < fuel) :
    OSMalloc cfg fuel n m = some (0, m) := by
  obtain ⟨hpool, _⟩ := hc
  obtain ⟨hrdy, _, _, hseg⟩ := hinv
  have hwalk := MallocMemory_walk_miss cfg (OS_MEM_ALIGN_UP cfg n) m
    (cfg.s_OSMemoryPool + cfg.OS_MEM_MAX_SIZE) bs fuel m.memoryList cfg.s_OSMemoryPool hpool
    hseg hun hfuel
  by_cases hsize : n = 0 ∨ n ≥ cfg.OS_MEM_MAX_SIZE
  · simp only [OSMalloc, hsize, if_true]
  · simp only [OSMalloc, hsize, if_false, hrdy, Bool.true_eq_false, MallocMemory, hwalk,
      true_or, if_true]

theorem OSMalloc_mono (cfg : MemCfg) (fuel k n : Nat) (m : MemState) (r : Nat × MemState)
    (h : OSMalloc cfg fuel n m = some r) : OSMalloc cfg (fuel + k) n m = some r := by
  unfold OSMalloc at h ⊢
  by_cases hsize : n = 0 ∨ n ≥ cfg.OS_MEM_MAX_SIZE
  · simpa [hsize] using h
  · simp only [hsize, if_false] at h ⊢
    by_cases hrdy : m.memoryRdy = false
    · simpa [hrdy] using h
    · simp only [hrdy, if_false] at h ⊢
      cases hw : MallocMemory cfg fuel n m with
      | none => rw [hw] at h; cases h
      | some r1 =>
        have hw' : MallocMemory cfg (fuel + k) n m = some r1 :=
          MallocMemory_walk_mono cfg _ m fuel k _ r1 hw
        rw [hw] at h
        rw [hw']
        exact h

theorem OSFree_findPrev_found (m : MemState) (h curr : Nat) (hh : 0 < h) (b : Nat × Bool) :
    ∀ (pre : List (Nat × Bool)) (fuel p a : Nat), 0 < a →
      MemSeg m h p a (pre ++ [b]) curr curr → pre.length < fuel →
      OSFree_findPrev curr fuel p m = some (a + span h pre) := by
  intro pre
  induction pre with
  | nil =>
    intro fuel p a ha hseg hfuel
    obtain ⟨fuel, rfl⟩ : ∃ f, fuel = f + 1 := ⟨fuel - 1, by simp at hfuel; omega⟩
    obtain ⟨h1, _, _, h4, _⟩ := hseg
    subst h1
    simp [OSFree_findPrev, h4, span]
  | cons x pre ih =>
    intro fuel p a ha hseg hfuel
    obtain ⟨fuel, rfl⟩ : ∃ f, fuel = f + 1 := ⟨fuel - 1, by simp at hfuel; omega⟩
    obtain ⟨h1, _, _, h4⟩ := hseg
    subst h1
    replace h4 : MemSeg m h (m.memNextNode p) (p + h + x.1) (pre ++ [b]) curr curr := h4
    have hend := MemSeg_end h4
    have hnext : m.memNextNode p = p + h + x.1 := by
      cases pre with
      | nil => exact h4.1
      | cons y pre => exact h4.1
    have hsp : span h (pre ++ [b]) = span h pre + (h + b.1) := by
      rw [span_append, span_cons]; simp [span]
    have hne : m.memNextNode p ≠ curr := by rw [hnext]; omega
    have hp : p ≠ 0 := by omega
    have e : p + span h (x :: pre) = (p + h + x.1) + span h pre := by rw [span_cons]; omega
    rw [e, ← ih fuel (m.memNextNode p) (p + h + x.1) (by omega) h4 (by simp at hfuel; omega)]
    simp only [OSFree_findPrev, hp, hne, ne_eq, not_false_eq_true, and_self, if_true]

theorem OSFree_findPrev_none (m : MemState) (h curr a' : Nat) (hh : 0 < h)
    (hcurr : 0 < curr) :
    ∀ (l : List (Nat × Bool)) (fuel p a : Nat), curr ≤ a →
      MemSeg m h p a l 0 a' → l.length < fuel →
      OSFree_findPrev curr fuel p m = some 0 := by
  intro l
  induction l with
  | nil =>
    intro fuel p a _ hseg hfuel
    obtain ⟨fuel, rfl⟩ : ∃ f, fuel = f + 1 := ⟨fuel - 1, by simp at hfuel; omega⟩
    have hp : p = 0 := hseg.1
    simp [OSFree_findPrev, hp]
  | cons x l ih =>
    intro fuel p a ha hseg hfuel
    obtain ⟨fuel, rfl⟩ : ∃ f, fuel = f + 1 := ⟨fuel - 1, by simp at hfuel; omega⟩
    obtain ⟨h1, _, _, h4⟩ := hseg
    subst h1
    have hne : m.memNextNode p ≠ curr := by
      cases l with
      | nil => have := h4.1; omega
      | cons y l => have := h4.1; omega
    have hp : p ≠ 0 := by omega
    rw [← ih fuel (m.memNextNode p) (p + h + x.1) (by omega) h4 (by simp at hfuel; omega)]
    simp only [OSFree_findPrev, hp, hne, ne_eq, not_false_eq_true, and_self, if_true]

theorem OSFree_findPrev_mono (m : MemState) (curr : Nat) :
    ∀ (fuel k p r : Nat), OSFree_findPrev curr fuel p m = some r →
      OSFree_findPrev curr (fuel + k) p m = some r := by
  intro fuel
  induction fuel with
  | zero => intro k p r h; simp [OSFree_findPrev] at h
  | succ fuel ih =>
    intro k p r h
    have e : fuel + 1 + k = (fuel + k) + 1 := by omega
    rw [e]
    simp only [OSFree_findPrev] at h ⊢
    by_cases hc : p ≠ 0 ∧ m.memNextNode p ≠ curr
    · rw [if_pos hc] at h ⊢
      exact ih k _ r h
    · simpa [hc] using h

theorem OSFree_mergeNext_spec (cfg : MemCfg) (a s a' : Nat) (m : MemState)
    (post : List (Nat × Bool)) (hh : 0 < cfg.OS_MEM_NODE_SIZE) (ha : 0 < a)
    (hseg : MemSeg m cfg.OS_MEM_NODE_SIZE a a ((s, true) :: post) 0 a')
    (hov : a' < a + 2 ^ 31) :
    MemSeg (OSFree_mergeNext cfg a m) cfg.OS_MEM_NODE_SIZE a a
      (((absorbNext cfg.OS_MEM_NODE_SIZE s post).1, false) ::
        (absorbNext cfg.OS_MEM_NODE_SIZE s post).2) 0 a' ∧
    (∀ x, x < a →
      (OSFree_mergeNext cfg a m).memUsedSize x = m.memUsedSize x ∧
      (OSFree_mergeNext cfg a m).memNextNode x = m.memNextNode x) ∧
    (OSFree_mergeNext cfg a m).memoryBase = m.memoryBase ∧
    (OSFree_mergeNext cfg a m).memoryEnd = m.memoryEnd ∧
    (OSFree_mergeNext cfg a m).memoryList = m.memoryList ∧
    (OSFree_mergeNext cfg a m).memoryRdy = m.memoryRdy := by
  obtain ⟨_, h2, h3, h4⟩ := hseg
  simp only at h2 h3 h4
  have hw : m.memUsedSize a &&& OS_MEM_SIZE_MASK = s := by
    rw [h2]; exact hdrWord_mask s true h3
  have hend := MemSeg_end h4
  cases post with
  | nil =>
    have hnx : m.memNextNode a = 0 := h4.1
    have hte : OSFree_mergeNext cfg a m =
        { m with memUsedSize := Function.update m.memUsedSize a s } := by
      simp only [OSFree_mergeNext, hw, hnx, ne_eq, not_true_eq_false, false_and, if_false]
    rw [hte]
    refine ⟨⟨rfl, by simp [hdrWord, absorbNext], h3, ?_⟩, ?_, rfl, rfl, rfl, rfl⟩
    · exact MemSeg_congr hh (fun x hx _ => by
        have hx1 : x ≠ a := by omega
        simp [Function.update_noteq hx1]) h4
    · intro x hx
      have hx1 : x ≠ a := by omega
      simp [Function.update_noteq hx1]
  | cons b post2 =>
    obtain ⟨s2, u2⟩ := b
    obtain ⟨g1, g2, g3, g4⟩ := h4
    simp only at g1 g2 g3 g4
    have hne : a + cfg.OS_MEM_NODE_SIZE + s ≠ a := by omega
    have hn0 : a + cfg.OS_MEM_NODE_SIZE + s ≠ 0 := by omega
    rw [span_cons] at hend
    simp only at hend
    cases u2 with
    | true =>
      have hfl : ¬ (hdrWord s2 true &&& OS_MEM_USED_FLAG = 0) := by
        rw [hdrWord_flag s2 true g3]; simp
      have hup : Function.update m.memUsedSize a s (m.memNextNode a) = hdrWord s2 true := by
        rw [g1, Function.update_noteq hne, g2]
      have hte : OSFree_mergeNext cfg a m =
          { m with memUsedSize := Function.update m.memUsedSize a s } := by
        simp only [OSFree_mergeNext, hw, hup, hfl, and_false, if_false]
      rw [hte]
      refine ⟨⟨rfl, by simp [hdrWord, absorbNext], h3, ?_⟩, ?_, rfl, rfl, rfl, rfl⟩
      · refine MemSeg_congr hh (fun x hx _ => ?_) (?_ : MemSeg m _ _ _ _ _ _)
        · have hx1 : x ≠ a := by omega
          simp [Function.update_noteq hx1]
        · exact ⟨g1, g2, g3, g4⟩
      · intro x hx
        have hx1 : x ≠ a := by omega
        simp [Function.update_noteq hx1]
    | false =>
      have hfl : hdrWord s2 false &&& OS_MEM_USED_FLAG = 0 :=
        (hdrWord_flag s2 false g3).mpr rfl
      have hs : s &&& OS_MEM_SIZE_MASK = s := by
        simpa [hdrWord] using hdrWord_mask s false h3
      have hs2 : hdrWord s2 false &&& OS_MEM_SIZE_MASK = s2 := hdrWord_mask s2 false g3
      have hup : Function.update m.memUsedSize a s (m.memNextNode a) = hdrWord s2 false := by
        rw [g1, Function.update_noteq hne, g2]
      have hnx : m.memNextNode (m.memNextNode a) =
          m.memNextNode (a + cfg.OS_MEM_NODE_SIZE + s) := by rw [g1]
      have hc : m.memNextNode a ≠ 0 := by rw [g1]; exact hn0
      have hsum : u32_add (u32_add s s2) cfg.OS_MEM_NODE_SIZE = s + s2 + cfg.OS_MEM_NODE_SIZE := by
        rw [u32_add_eq s s2 (by omega), u32_add_eq _ _ (by omega)]
      have hte : OSFree_mergeNext cfg a m =
          { m with
            memUsedSize := Function.update (Function.update m.memUsedSize a s) a
              (s + s2 + cfg.OS_MEM_NODE_SIZE)
            memNextNode := Function.update m.memNextNode a
              (m.memNextNode (a + cfg.OS_MEM_NODE_SIZE + s)) } := by
        simp only [OSFree_mergeNext, hw, hup, hfl, hc, ne_eq,
          not_false_eq_true, and_self, if_true, Function.update_same, hs, hs2, hsum, hnx]
      rw [hte]
      have e : a + cfg.OS_MEM_NODE_SIZE + (s + s2 + cfg.OS_MEM_NODE_SIZE) =
          a + cfg.OS_MEM_NODE_SIZE + s + cfg.OS_MEM_NODE_SIZE + s2 := by omega
      refine ⟨⟨rfl, by simp [hdrWord, absorbNext], ?_, ?_⟩, ?_, rfl, rfl, rfl, rfl⟩
      · simp only [absorbNext]; omega
      · simp only [absorbNext, Function.update_same, e]
        exact MemSeg_congr hh (fun x hx _ => by
          have hx1 : x ≠ a := by omega
          simp [Function.update_noteq hx1]) g4
      · intro x hx
        have hx1 : x ≠ a := by omega
        simp [Function.update_noteq hx1]

theorem absorbPrev_nil (h c : Nat) : absorbPrev h [] c = [(c, false)] := rfl

theorem absorbPrev_used (h c s0 : Nat) (pre : List (Nat × Bool)) :
    absorbPrev h (pre ++ [(s0, true)]) c = pre ++ [(s0, true)] ++ [(c, false)] := by
  simp [absorbPrev]

theorem absorbPrev_free (h c s0 : Nat) (pre : List (Nat × Bool)) :
    absorbPrev h (pre ++ [(s0, false)]) c = pre ++ [(s0 + c + h, false)] := by
  simp [absorbPrev]

theorem OSFree_mergePrev_spec (cfg : MemCfg) (p0 a0 c a' : Nat) (m : MemState)
    (pre post : List (Nat × Bool)) (b : Nat × Bool) (hh : 0 < cfg.OS_MEM_NODE_SIZE)
    (ha : 0 < a0)
    (hseg : MemSeg m cfg.OS_MEM_NODE_SIZE p0 a0 ((pre ++ [b]) ++ (c, false) :: post) 0 a')
    (hov : a' < a0 + 2 ^ 31) :
    MemSeg (OSFree_mergePrev cfg (a0 + span cfg.OS_MEM_NODE_SIZE (pre ++ [b]))
        (a0 + span cfg.OS_MEM_NODE_SIZE pre) m) cfg.OS_MEM_NODE_SIZE p0 a0
      (absorbPrev cfg.OS_MEM_NODE_SIZE (pre ++ [b]) c ++ post) 0 a' ∧
    (OSFree_mergePrev cfg (a0 + span cfg.OS_MEM_NODE_SIZE (pre ++ [b]))
        (a0 + span cfg.OS_MEM_NODE_SIZE pre) m).memoryBase = m.memoryBase ∧
    (OSFree_mergePrev cfg (a0 + span cfg.OS_MEM_NODE_SIZE (pre ++ [b]))
        (a0 + span cfg.OS_MEM_NODE_SIZE pre) m).memoryEnd = m.memoryEnd ∧
    (OSFree_mergePrev cfg (a0 + span cfg.OS_MEM_NODE_SIZE (pre ++ [b]))
        (a0 + span cfg.OS_MEM_NODE_SIZE pre) m).memoryList = m.memoryList ∧
    (OSFree_mergePrev cfg (a0 + span cfg.OS_MEM_NODE_SIZE (pre ++ [b]))
        (a0 + span cfg.OS_MEM_NODE_SIZE pre) m).memoryRdy = m.memoryRdy := by
  obtain ⟨s0, u0⟩ := b
  have hseg0 := hseg
  rw [List.append_assoc] at hseg
  obtain ⟨pm, k1, k2⟩ := MemSeg_append.mp hseg
  obtain ⟨g1, g2, g3, g4⟩ := k2
  obtain ⟨f1, f2, f3, f4⟩ := g4
  simp only at g1 g2 g3 f1 f2 f3 f4
  subst g1
  have hend := MemSeg_end f4
  have hsp : span cfg.OS_MEM_NODE_SIZE (pre ++ [(s0, u0)]) =
      span cfg.OS_MEM_NODE_SIZE pre + (cfg.OS_MEM_NODE_SIZE + s0) := by
    rw [span_append, span_cons]; simp [span]
  have hcur : a0 + span cfg.OS_MEM_NODE_SIZE (pre ++ [(s0, u0)]) =
      a0 + span cfg.OS_MEM_NODE_SIZE pre + cfg.OS_MEM_NODE_SIZE + s0 := by rw [hsp]; omega
  have hp0 : a0 + span cfg.OS_MEM_NODE_SIZE pre ≠ 0 := by omega
  rw [hcur]
  cases u0 with
  | true =>
    have hfl : ¬ (hdrWord s0 true &&& OS_MEM_USED_FLAG = 0) := by
      rw [hdrWord_flag s0 true g3]; simp
    have hte : OSFree_mergePrev cfg (a0 + span cfg.OS_MEM_NODE_SIZE pre + cfg.OS_MEM_NODE_SIZE + s0)
        (a0 + span cfg.OS_MEM_NODE_SIZE pre) m = m := by
      simp only [OSFree_mergePrev, g2, hfl, and_false, if_false]
    rw [hte, absorbPrev_used, List.append_assoc]
    exact ⟨hseg0, rfl, rfl, rfl, rfl⟩
  | false =>
    have hfl : hdrWord s0 false &&& OS_MEM_USED_FLAG = 0 :=
      (hdrWord_flag s0 false g3).mpr rfl
    have hs0 : hdrWord s0 false &&& OS_MEM_SIZE_MASK = s0 := hdrWord_mask s0 false g3
    have hc : hdrWord c false &&& OS_MEM_SIZE_MASK = c := hdrWord_mask c false f3
    have hsum : u32_add (u32_add s0 c) cfg.OS_MEM_NODE_SIZE = s0 + c + cfg.OS_MEM_NODE_SIZE := by
      rw [u32_add_eq s0 c (by omega), u32_add_eq _ _ (by omega)]
    have hte : OSFree_mergePrev cfg (a0 + span cfg.OS_MEM_NODE_SIZE pre + cfg.OS_MEM_NODE_SIZE + s0)
        (a0 + span cfg.OS_MEM_NODE_SIZE pre) m =
        { m with
          memUsedSize := Function.update m.memUsedSize (a0 + span cfg.OS_MEM_NODE_SIZE pre)
            (s0 + c + cfg.OS_MEM_NODE_SIZE)
          memNextNode := Function.update m.memNextNode (a0 + span cfg.OS_MEM_NODE_SIZE pre)
            (m.memNextNode (a0 + span cfg.OS_MEM_NODE_SIZE pre + cfg.OS_MEM_NODE_SIZE + s0)) } := by
      simp only [OSFree_mergePrev, g2, hfl, hp0, ne_eq, not_false_eq_true, and_self, if_true,
        hs0, f2, hc, hsum]
    rw [hte, absorbPrev_free, List.append_assoc]
    refine ⟨?_, rfl, rfl, rfl, rfl⟩
    refine MemSeg_append.mpr ⟨a0 + span cfg.OS_MEM_NODE_SIZE pre, ?_, ?_⟩
    · exact MemSeg_congr hh (fun x _ hx => by
        have hx1 : x ≠ a0 + span cfg.OS_MEM_NODE_SIZE pre := by omega
        simp [Function.update_noteq hx1]) k1
    · have e : a0 + span cfg.OS_MEM_NODE_SIZE pre + cfg.OS_MEM_NODE_SIZE +
          (s0 + c + cfg.OS_MEM_NODE_SIZE) =
          a0 + span cfg.OS_MEM_NODE_SIZE pre + cfg.OS_MEM_NODE_SIZE + s0 +
            cfg.OS_MEM_NODE_SIZE + c := by omega
      simp only [List.singleton_append, MemSeg, Function.update_same, e]
      refine ⟨trivial, by simp [hdrWord], by omega, ?_⟩
      exact MemSeg_congr hh (fun x hx _ => by
        have hx1 : x ≠ a0 + span cfg.OS_MEM_NODE_SIZE pre := by omega
        simp [Function.update_noteq hx1]) f4

theorem absorbNext_length (h s : Nat) (post : List (Nat × Bool)) :
    (absorbNext h s post).2.length ≤ post.length := by
  unfold absorbNext
  split
  · simp
  · exact le_refl _

theorem OSFree_spec (cfg : MemCfg) (m : MemState) (pre post : List (Nat × Bool))
    (s fuel : Nat) (hc : CfgOK cfg) (hinv : MemInv cfg m (pre ++ (s, true) :: post))
    (hfuel : (pre ++ (s, true) :: post).length < fuel) :
    ∃ m', OSFree cfg fuel
        (cfg.s_OSMemoryPool + span cfg.OS_MEM_NODE_SIZE pre + cfg.OS_MEM_NODE_SIZE) m = some m' ∧
      MemInv cfg m' (freedList cfg.OS_MEM_NODE_SIZE pre s post) := by
  obtain ⟨hpool, hend, hh, _, hov, _⟩ := hc
  obtain ⟨hrdy, hbase, hmend, hseg⟩ := hinv
  obtain ⟨pm, k1, k2⟩ := MemSeg_append.mp hseg
  have hpm : pm = cfg.s_OSMemoryPool + span cfg.OS_MEM_NODE_SIZE pre := k2.1
  subst hpm
  have hspan : span cfg.OS_MEM_NODE_SIZE (pre ++ (s, true) :: post) = cfg.OS_MEM_MAX_SIZE := by
    have := MemSeg_end hseg; omega
  rw [span_append] at hspan
  obtain ⟨n1, n2, n3, n4, n5, n6⟩ := OSFree_mergeNext_spec cfg
    (cfg.s_OSMemoryPool + span cfg.OS_MEM_NODE_SIZE pre) s
    (cfg.s_OSMemoryPool + cfg.OS_MEM_MAX_SIZE) m post hh (by omega) k2 (by omega)
  have hlen := absorbNext_length cfg.OS_MEM_NODE_SIZE s post
  have hptr : cfg.s_OSMemoryPool + span cfg.OS_MEM_NODE_SIZE pre + cfg.OS_MEM_NODE_SIZE ≠ 0 := by
    omega
  have hcur : cfg.s_OSMemoryPool + span cfg.OS_MEM_NODE_SIZE pre + cfg.OS_MEM_NODE_SIZE -
      cfg.OS_MEM_NODE_SIZE = cfg.s_OSMemoryPool + span cfg.OS_MEM_NODE_SIZE pre := by omega
  simp only [OSFree, hptr, if_false, hcur]
  generalize OSFree_mergeNext cfg (cfg.s_OSMemoryPool + span cfg.OS_MEM_NODE_SIZE pre) m = m1
    at n1 n2 n3 n4 n5 n6
  have k1' : MemSeg m1 cfg.OS_MEM_NODE_SIZE m1.memoryList cfg.s_OSMemoryPool pre
      (cfg.s_OSMemoryPool + span cfg.OS_MEM_NODE_SIZE pre)
      (cfg.s_OSMemoryPool + span cfg.OS_MEM_NODE_SIZE pre) := by
    rw [n5]
    exact MemSeg_congr hh (fun x _ hx => n2 x hx) k1
  simp only [List.length_append, List.length_cons] at hfuel
  rcases List.eq_nil_or_concat pre with hnil | ⟨pre1, b, hcat⟩
  · subst hnil
    simp only [span, List.map_nil, List.sum_nil, Nat.add_zero] at n1 k1' ⊢
    have hl : m1.memoryList = cfg.s_OSMemoryPool := k1'.1
    have hfp := OSFree_findPrev_none m1 cfg.OS_MEM_NODE_SIZE cfg.s_OSMemoryPool
      (cfg.s_OSMemoryPool + cfg.OS_MEM_MAX_SIZE) hh hpool _ fuel cfg.s_OSMemoryPool
      cfg.s_OSMemoryPool (le_refl _) n1 (by simp only [List.length_cons]; simp at hfuel; omega)
    rw [hl, hfp]
    refine ⟨_, rfl, ?_⟩
    have hte : OSFree_mergePrev cfg cfg.s_OSMemoryPool 0 m1 = m1 := by
      simp [OSFree_mergePrev]
    rw [hte]
    refine ⟨by rw [n6]; exact hrdy, by rw [n3]; exact hbase, by rw [n4]; exact hmend, ?_⟩
    rw [hl]
    exact n1
  · rw [List.concat_eq_append] at hcat
    subst hcat
    have hfp := OSFree_findPrev_found m1 cfg.OS_MEM_NODE_SIZE
      (cfg.s_OSMemoryPool + span cfg.OS_MEM_NODE_SIZE (pre1 ++ [b])) hh b pre1 fuel
      m1.memoryList cfg.s_OSMemoryPool hpool k1'
      (by simp only [List.length_append, List.length_singleton] at hfuel; omega)
    rw [hfp]
    refine ⟨_, rfl, ?_⟩
    have hfull : MemSeg m1 cfg.OS_MEM_NODE_SIZE m1.memoryList cfg.s_OSMemoryPool
        ((pre1 ++ [b]) ++ ((absorbNext cfg.OS_MEM_NODE_SIZE s post).1, false) ::
          (absorbNext cfg.OS_MEM_NODE_SIZE s post).2) 0
        (cfg.s_OSMemoryPool + cfg.OS_MEM_MAX_SIZE) :=
      MemSeg_append.mpr ⟨_, k1', n1⟩
    obtain ⟨q1, q2, q3, q4, q5⟩ := OSFree_mergePrev_spec cfg m1.memoryList cfg.s_OSMemoryPool
      (absorbNext cfg.OS_MEM_NODE_SIZE s post).1 (cfg.s_OSMemoryPool + cfg.OS_MEM_MAX_SIZE) m1
      pre1 (absorbNext cfg.OS_MEM_NODE_SIZE s post).2 b hh hpool hfull (by omega)
    refine ⟨by rw [q5, n6]; exact hrdy, by rw [q2, n3]; exact hbase,
      by rw [q3, n4]; exact hmend, ?_⟩
    rw [q4]
    exact q1

/-! ### Header lists: adjacent free headers and used pointers -/

theorem NoAdjFree_parts {pre post : List (Nat × Bool)} {b : Nat × Bool}
    (hadj : NoAdjFree (pre ++ b :: post)) :
    NoAdjFree pre ∧ NoAdjFree post ∧
    (b.2 = false → (∀ x ∈ pre.getLast?, x.2 = true) ∧ (∀ y ∈ post.head?, y.2 = true)) := by
  unfold NoAdjFree at hadj ⊢
  obtain ⟨h1, h2, h3⟩ := List.chain'_append.mp hadj
  obtain ⟨h4, h5⟩ := List.chain'_cons'.mp h2
  refine ⟨h1, h5, fun hb => ⟨fun x hx => ?_, fun y hy => ?_⟩⟩
  · rcases h3 x hx b rfl with h | h
    · exact h
    · rw [hb] at h; cases h
  · rcases h4 y hy with h | h
    · rw [hb] at h; cases h
    · exact h

theorem NoAdjFree_split (cfg : MemCfg) (req s : Nat) (pre post : List (Nat × Bool))
    (hadj : NoAdjFree (pre ++ (s, false) :: post)) :
    NoAdjFree (pre ++ splitBlock cfg req s ++ post) := by
  obtain ⟨h1, h2, h3⟩ := NoAdjFree_parts hadj
  obtain ⟨h4, h5⟩ := h3 rfl
  unfold NoAdjFree at h1 h2 ⊢
  rw [List.append_assoc]
  refine List.chain'_append.mpr ⟨h1, ?_, ?_⟩
  · unfold splitBlock
    split
    · refine List.chain'_cons.mpr ⟨Or.inl rfl, ?_⟩
      exact List.chain'_cons'.mpr ⟨fun y hy => Or.inr (h5 y hy), h2⟩
    · exact List.chain'_cons'.mpr ⟨fun y _ => Or.inl rfl, h2⟩
  · intro x hx y _
    exact Or.inl (h4 x hx)

theorem absorbNext_head (h s : Nat) (post : List (Nat × Bool)) (hadj : NoAdjFree post) :
    NoAdjFree (absorbNext h s post).2 ∧ ∀ y ∈ (absorbNext h s post).2.head?, y.2 = true := by
  unfold NoAdjFree at hadj ⊢
  match post, hadj with
  | [], _ => exact ⟨List.chain'_nil, fun y hy => by cases hy⟩
  | (s2, true) :: post2, hadj =>
    refine ⟨hadj, fun y hy => ?_⟩
    simp only [absorbNext, List.head?_cons, Option.mem_def, Option.some.injEq] at hy
    rw [← hy]
  | (s2, false) :: post2, hadj =>
    obtain ⟨h4, h5⟩ := List.chain'_cons'.mp hadj
    refine ⟨h5, fun y hy => ?_⟩
    rcases h4 y hy with h | h
    · cases h
    · exact h

theorem absorbPrev_chain (h c : Nat) (pre : List (Nat × Bool)) (hadj : NoAdjFree pre) :
    NoAdjFree (absorbPrev h pre c) := by
  unfold NoAdjFree at hadj ⊢
  rcases List.eq_nil_or_concat pre with hnil | ⟨pre1, b, hcat⟩
  · subst hnil; exact List.chain'_singleton _
  · rw [List.concat_eq_append] at hcat
    subst hcat
    obtain ⟨s0, u0⟩ := b
    cases u0 with
    | true =>
      rw [absorbPrev_used]
      refine List.chain'_append.mpr ⟨hadj, List.chain'_singleton _, ?_⟩
      intro x hx y _
      rw [List.getLast?_concat] at hx
      simp only [Option.mem_def, Option.some.injEq] at hx
      rw [← hx]; exact Or.inl rfl
    | false =>
      rw [absorbPrev_free]
      obtain ⟨h1, _, h3⟩ := List.chain'_append.mp hadj
      refine List.chain'_append.mpr ⟨h1, List.chain'_singleton _, ?_⟩
      intro x hx y _
      rcases h3 x hx (s0, false) rfl with hx2 | hx2
      · exact Or.inl hx2
      · cases hx2

theorem absorbPrev_getLast (h c : Nat) (pre : List (Nat × Bool)) :
    ∀ x ∈ (absorbPrev h pre c).getLast?, x.2 = false := by
  intro x hx
  rcases List.eq_nil_or_concat pre with hnil | ⟨pre1, b, hcat⟩
  · subst hnil
    simp only [absorbPrev_nil, List.getLast?_singleton, Option.mem_def, Option.some.injEq] at hx
    rw [← hx]
  · rw [List.concat_eq_append] at hcat
    subst hcat
    obtain ⟨s0, u0⟩ := b
    cases u0 with
    | true =>
      rw [absorbPrev_used, List.getLast?_concat] at hx
      simp only [Option.mem_def, Option.some.injEq] at hx
      rw [← hx]
    | false =>
      rw [absorbPrev_free, List.getLast?_concat] at hx
      simp only [Option.mem_def, Option.some.injEq] at hx
      rw [← hx]

theorem NoAdjFree_freed (h s : Nat) (pre post : List (Nat × Bool))
    (hadj : NoAdjFree (pre ++ (s, true) :: post)) : NoAdjFree (freedList h pre s post) := by
  obtain ⟨h1, h2, _⟩ := NoAdjFree_parts hadj
  obtain ⟨h3, h4⟩ := absorbNext_head h s post h2
  have h5 := absorbPrev_chain h (absorbNext h s post).1 pre h1
  unfold NoAdjFree at h3 h5 ⊢
  unfold freedList
  refine List.chain'_append.mpr ⟨h5, h3, ?_⟩
  intro x _ y hy
  exact Or.inr (h4 y hy)

theorem freedList_splitBlock (cfg : MemCfg) (req s : Nat) (pre post : List (Nat × Bool))
    (hadj : NoAdjFree (pre ++ (s, false) :: post)) :
    ∃ c post1, splitBlock cfg req s ++ post = (c, true) :: post1 ∧
      freedList cfg.OS_MEM_NODE_SIZE pre c post1 = pre ++ (s, false) :: post := by
  obtain ⟨_, _, h3⟩ := NoAdjFree_parts hadj
  obtain ⟨h4, h5⟩ := h3 rfl
  have hpre : ∀ c, absorbPrev cfg.OS_MEM_NODE_SIZE pre c = pre ++ [(c, false)] := by
    intro c
    rcases List.eq_nil_or_concat pre with hnil | ⟨pre1, b, hcat⟩
    · subst hnil; rfl
    · rw [List.concat_eq_append] at hcat
      subst hcat
      obtain ⟨s0, u0⟩ := b
      have hu : u0 = true := h4 (s0, u0) (by rw [List.getLast?_concat]; rfl)
      subst hu
      exact absorbPrev_used _ _ _ _
  by_cases hsplit : s ≥ req + cfg.OS_MEM_NODE_SIZE + cfg.OS_MEM_ALIGN
  · refine ⟨req, (s - req - cfg.OS_MEM_NODE_SIZE, false) :: post, ?_, ?_⟩
    · simp only [splitBlock, hsplit, if_true, ge_iff_le]; rfl
    · have e : req + (s - req - cfg.OS_MEM_NODE_SIZE) + cfg.OS_MEM_NODE_SIZE = s := by omega
      simp only [freedList, absorbNext, hpre, e, List.append_assoc, List.singleton_append]
  · refine ⟨s, post, ?_, ?_⟩
    · simp only [splitBlock, hsplit, if_false, ge_iff_le]; rfl
    · have hn : absorbNext cfg.OS_MEM_NODE_SIZE s post = (s, post) := by
        match post, h5 with
        | [], _ => rfl
        | (s2, true) :: post2, _ => rfl
        | (s2, false) :: post2, h5 => exact absurd (h5 (s2, false) rfl) (by simp)
      simp only [freedList, hn, hpre, List.append_assoc, List.singleton_append]

theorem usedPtrs_append (h : Nat) (l1 l2 : List (Nat × Bool)) :
    ∀ a, usedPtrs h a (l1 ++ l2) = usedPtrs h a l1 ++ usedPtrs h (a + span h l1) l2 := by
  induction l1 with
  | nil => intro a; simp [usedPtrs, span]
  | cons b l ih =>
    intro a
    have e : a + span h (b :: l) = (a + h + b.1) + span h l := by rw [span_cons]; omega
    rw [e, List.cons_append]
    simp only [usedPtrs, List.append_assoc]
    exact congrArg _ (ih _)

theorem usedPtrs_bounds (h : Nat) (l : List (Nat × Bool)) :
    ∀ a q, q ∈ usedPtrs h a l → a + h ≤ q ∧ q ≤ a + span h l := by
  induction l with
  | nil => intro a q hq; cases hq
  | cons b l ih =>
    intro a q hq
    rw [span_cons]
    simp only [usedPtrs, List.mem_append] at hq
    rcases hq with hq | hq
    · split at hq
      · simp only [List.mem_singleton] at hq; omega
      · cases hq
    · have := ih _ _ hq
      omega

theorem usedPtrs_mem_split (h : Nat) (l : List (Nat × Bool)) :
    ∀ a q, q ∈ usedPtrs h a l →
      ∃ pre s post, l = pre ++ (s, true) :: post ∧ q = a + span h pre + h := by
  induction l with
  | nil => intro a q hq; cases hq
  | cons b l ih =>
    intro a q hq
    simp only [usedPtrs, List.mem_append] at hq
    rcases hq with hq | hq
    · obtain ⟨s, u⟩ := b
      cases u with
      | true =>
        simp only [if_true, List.mem_singleton] at hq
        exact ⟨[], s, l, rfl, by simp [span, hq]⟩
      | false => simp at hq
    · obtain ⟨pre, s, post, e, hq2⟩ := ih _ _ hq
      refine ⟨b :: pre, s, post, by rw [e]; rfl, ?_⟩
      rw [hq2, span_cons]; omega

theorem usedPtrs_splitBlock (cfg : MemCfg) (req s a : Nat) (post : List (Nat × Bool)) :
    usedPtrs cfg.OS_MEM_NODE_SIZE a (splitBlock cfg req s ++ post) =
      (a + cfg.OS_MEM_NODE_SIZE) :: usedPtrs cfg.OS_MEM_NODE_SIZE (a + cfg.OS_MEM_NODE_SIZE + s) post := by
  by_cases hsplit : s ≥ req + cfg.OS_MEM_NODE_SIZE + cfg.OS_MEM_ALIGN
  · have e : a + cfg.OS_MEM_NODE_SIZE + req + cfg.OS_MEM_NODE_SIZE +
        (s - req - cfg.OS_MEM_NODE_SIZE) = a + cfg.OS_MEM_NODE_SIZE + s := by omega
    simp [splitBlock, hsplit, usedPtrs, e]
  · simp [splitBlock, hsplit, usedPtrs]

theorem span_absorbPrev (h c : Nat) (pre : List (Nat × Bool)) :
    span h (absorbPrev h pre c) = span h pre + h + c := by
  rcases List.eq_nil_or_concat pre with hnil | ⟨pre1, b, hcat⟩
  · subst hnil; simp [absorbPrev_nil, span]
  · rw [List.concat_eq_append] at hcat
    subst hcat
    obtain ⟨s0, u0⟩ := b
    cases u0 with
    | true => rw [absorbPrev_used, span_append, span_cons]; simp [span]; omega
    | false =>
      rw [absorbPrev_free, span_append, span_append, span_cons, span_cons]
      simp [span]; omega

theorem usedPtrs_absorbPrev (h c a : Nat) (pre : List (Nat × Bool)) :
    usedPtrs h a (absorbPrev h pre c) = usedPtrs h a pre := by
  rcases List.eq_nil_or_concat pre with hnil | ⟨pre1, b, hcat⟩
  · subst hnil; simp [absorbPrev_nil, usedPtrs]
  · rw [List.concat_eq_append] at hcat
    subst hcat
    obtain ⟨s0, u0⟩ := b
    cases u0 with
    | true => rw [absorbPrev_used, usedPtrs_append]; simp [usedPtrs]
    | false => rw [absorbPrev_free, usedPtrs_append, usedPtrs_append]; simp [usedPtrs]

theorem usedPtrs_absorbNext (h s a : Nat) (post : List (Nat × Bool)) :
    usedPtrs h (a + h + (absorbNext h s post).1) (absorbNext h s post).2 =
      usedPtrs h (a + h + s) post := by
  match post with
  | [] => rfl
  | (s2, true) :: post2 => rfl
  | (s2, false) :: post2 =>
    have e : a + h + (s + s2 + h) = a + h + s + h + s2 := by omega
    simp [absorbNext, usedPtrs, e]

theorem usedPtrs_freed (h s a : Nat) (pre post : List (Nat × Bool)) :
    usedPtrs h a (freedList h pre s post) =
      usedPtrs h a pre ++ usedPtrs h (a + span h pre + h + s) post := by
  unfold freedList
  rw [usedPtrs_append, usedPtrs_absorbPrev, span_absorbPrev]
  have e : a + (span h pre + h + (absorbNext h s post).1) =
      (a + span h pre) + h + (absorbNext h s post).1 := by omega
  rw [e, usedPtrs_absorbNext]

theorem OSInitMemory_spec (cfg : MemCfg) (m0 : MemState) (hc : CfgOK cfg) :
    MemInv cfg (OSInitMemory cfg m0) [(cfg.OS_MEM_MAX_SIZE - cfg.OS_MEM_NODE_SIZE, false)] := by
  obtain ⟨hpool, hend, hh, hle, hov, _⟩ := hc
  have hm : cfg.OS_MEM_MAX_SIZE % 2 ^ 32 = cfg.OS_MEM_MAX_SIZE := Nat.mod_eq_of_lt (by omega)
  have hw : u32_sub (cfg.OS_MEM_MAX_SIZE % 2 ^ 32) cfg.OS_MEM_NODE_SIZE &&& OS_MEM_SIZE_MASK =
      cfg.OS_MEM_MAX_SIZE - cfg.OS_MEM_NODE_SIZE := by
    rw [hm, u32_sub_eq _ _ hle (by omega)]
    simpa [hdrWord] using
      hdrWord_mask (cfg.OS_MEM_MAX_SIZE - cfg.OS_MEM_NODE_SIZE) false (by omega)
  refine ⟨rfl, rfl, rfl, ?_⟩
  simp only [OSInitMemory, MemSeg, Function.update_same, hw, hdrWord]
  refine ⟨trivial, by simp, by omega, trivial, by omega⟩

theorem OSFree_mono (cfg : MemCfg) (fuel k p : Nat) (m m' : MemState)
    (h : OSFree cfg fuel p m = some m') : OSFree cfg (fuel + k) p m = some m' := by
  unfold OSFree at h ⊢
  by_cases hp : p = 0
  · simpa [hp] using h
  · simp only [hp, if_false] at h ⊢
    cases hw : OSFree_findPrev (p - cfg.OS_MEM_NODE_SIZE) fuel
        (OSFree_mergeNext cfg (p - cfg.OS_MEM_NODE_SIZE) m).memoryList
        (OSFree_mergeNext cfg (p - cfg.OS_MEM_NODE_SIZE) m) with
    | none => rw [hw] at h; cases h
    | some r =>
      rw [hw] at h
      rw [OSFree_findPrev_mono _ _ fuel k _ r hw]
      exact h

theorem OSMalloc_cases (cfg : MemCfg) (m m' : MemState) (bs : List (Nat × Bool))
    (n fuel p : Nat) (hc : CfgOK cfg) (hinv : MemInv cfg m bs)
    (hm : OSMalloc cfg fuel n m = some (p, m')) :
    (p = 0 ∧ m' = m) ∨
    (∃ pre s post, bs = pre ++ (s, false) :: post ∧
      (∀ b ∈ pre, ¬ (b.2 = false ∧ OS_MEM_ALIGN_UP cfg n ≤ b.1)) ∧
      OS_MEM_ALIGN_UP cfg n ≤ s ∧
      p = cfg.s_OSMemoryPool + span cfg.OS_MEM_NODE_SIZE pre + cfg.OS_MEM_NODE_SIZE ∧
      MemInv cfg m' (pre ++ splitBlock cfg (OS_MEM_ALIGN_UP cfg n) s ++ post)) := by
  have hbig := OSMalloc_mono cfg fuel (bs.length + 1) n m _ hm
  by_cases hsize : n = 0 ∨ n ≥ cfg.OS_MEM_MAX_SIZE
  · left
    simp only [OSMalloc, hsize, if_true, Option.some.injEq, Prod.mk.injEq] at hm
    exact ⟨hm.1.symm, hm.2.symm⟩
  · rcases first_fit_cases (OS_MEM_ALIGN_UP cfg n) bs with ⟨pre, s, post, e, h1, h2⟩ | hmiss
    · right
      subst e
      obtain ⟨m2, g1, g2, _⟩ := OSMalloc_hit cfg m pre post s n
        (fuel + ((pre ++ (s, false) :: post).length + 1)) hc hinv (by omega) (by omega) h1 h2
        (by simp only [List.length_append, List.length_cons]; omega)
      rw [hbig] at g1
      simp only [Option.some.injEq, Prod.mk.injEq] at g1
      obtain ⟨g3, g4⟩ := g1
      subst g3 g4
      exact ⟨pre, s, post, rfl, h1, h2, rfl, g2⟩
    · left
      have g1 := OSMalloc_miss cfg m bs n (fuel + (bs.length + 1)) hc hinv hmiss (by omega)
      rw [hbig] at g1
      simp only [Option.some.injEq, Prod.mk.injEq] at g1
      exact ⟨g1.1, g1.2⟩

theorem MemReach_inv (cfg : MemCfg) (hc : CfgOK cfg) (m : MemState) (live : List Nat)
    (hr : MemReach cfg m live) :
    ∃ bs, MemInv cfg m bs ∧ NoAdjFree bs ∧ live.Nodup ∧
      ∀ q ∈ live, q ∈ usedPtrs cfg.OS_MEM_NODE_SIZE cfg.s_OSMemoryPool bs := by
  induction hr with
  | init m0 =>
    exact ⟨_, OSInitMemory_spec cfg m0 hc, List.chain'_singleton _, List.nodup_nil,
      fun q hq => by cases hq⟩
  | malloc m m' live fuel n p _ hm ih =>
    obtain ⟨bs, i1, i2, i3, i4⟩ := ih
    rcases OSMalloc_cases cfg m m' bs n fuel p hc i1 hm with ⟨hp, hm'⟩ |
      ⟨pre, s, post, e, _, _, hp, hinv'⟩
    · subst hm'
      simp only [hp, if_true]
      exact ⟨bs, i1, i2, i3, i4⟩
    · subst e
      have hh : 0 < cfg.OS_MEM_NODE_SIZE := hc.2.2.1
      have hp0 : p ≠ 0 := by omega
      have hold : usedPtrs cfg.OS_MEM_NODE_SIZE cfg.s_OSMemoryPool (pre ++ (s, false) :: post) =
          usedPtrs cfg.OS_MEM_NODE_SIZE cfg.s_OSMemoryPool pre ++
            usedPtrs cfg.OS_MEM_NODE_SIZE
              (cfg.s_OSMemoryPool + span cfg.OS_MEM_NODE_SIZE pre + cfg.OS_MEM_NODE_SIZE + s)
              post := by
        rw [usedPtrs_append]; simp [usedPtrs]
      have hnew : usedPtrs cfg.OS_MEM_NODE_SIZE cfg.s_OSMemoryPool
          (pre ++ splitBlock cfg (OS_MEM_ALIGN_UP cfg n) s ++ post) =
          usedPtrs cfg.OS_MEM_NODE_SIZE cfg.s_OSMemoryPool pre ++ p ::
            usedPtrs cfg.OS_MEM_NODE_SIZE
              (cfg.s_OSMemoryPool + span cfg.OS_MEM_NODE_SIZE pre + cfg.OS_MEM_NODE_SIZE + s)
              post := by
        rw [List.append_assoc, usedPtrs_append, usedPtrs_splitBlock, hp]
      have hnot : p ∉ live := by
        intro hpl
        have := i4 p hpl
        rw [hold, List.mem_append] at this
        rcases this with h1 | h1
        · have := usedPtrs_bounds _ _ _ _ h1; omega
        · have := usedPtrs_bounds _ _ _ _ h1; omega
      simp only [hp0, if_false]
      refine ⟨_, hinv', NoAdjFree_split cfg _ s pre post i2, List.nodup_cons.mpr ⟨hnot, i3⟩, ?_⟩
      intro q hq
      rw [hnew]
      rcases List.mem_cons.mp hq with rfl | hq
      · simp
      · have := i4 q hq
        rw [hold, List.mem_append] at this
        rcases this with h1 | h1
        · exact List.mem_append_left _ h1
        · exact List.mem_append_right _ (List.mem_cons_of_mem _ h1)
  | free m m' live fuel p _ hpl hf ih =>
    obtain ⟨bs, i1, i2, i3, i4⟩ := ih
    obtain ⟨pre, s, post, e, hp⟩ := usedPtrs_mem_split _ _ _ _ (i4 p hpl)
    subst e
    obtain ⟨m2, g1, g2⟩ := OSFree_spec cfg m pre post s
      (fuel + ((pre ++ (s, true) :: post).length + 1)) hc i1 (by omega)
    rw [← hp, OSFree_mono cfg fuel _ p m m' hf] at g1
    simp only [Option.some.injEq] at g1
    subst g1
    refine ⟨_, g2, NoAdjFree_freed _ s pre post i2, i3.erase p, ?_⟩
    intro q hq
    obtain ⟨hqp, hql⟩ := (List.Nodup.mem_erase_iff i3).mp hq
    have := i4 q hql
    rw [usedPtrs_append] at this
    simp only [usedPtrs, if_true, List.singleton_append, List.mem_append, List.mem_cons] at this
    rw [usedPtrs_freed, List.mem_append]
    rcases this with h1 | h1 | h1
    · exact Or.inl h1
    · exact absurd (h1.trans hp.symm) hqp
    · exact Or.inr h1

theorem hdrWord_inj (s1 s2 : Nat) (u1 u2 : Bool) (h1 : s1 < 2 ^ 31) (h2 : s2 < 2 ^ 31)
    (e : hdrWord s1 u1 = hdrWord s2 u2) : s1 = s2 ∧ u1 = u2 := by
  have hs : s1 = s2 := by
    rw [← hdrWord_mask s1 u1 h1, ← hdrWord_mask s2 u2 h2, e]
  subst hs
  refine ⟨rfl, ?_⟩
  cases u1 <;> cases u2 <;> simp [hdrWord] at e ⊢

theorem MemSeg_unique (m : MemState) (h e : Nat) :
    ∀ (l1 l2 : List (Nat × Bool)) (p a : Nat), 0 < a →
      MemSeg m h p a l1 0 e → MemSeg m h p a l2 0 e → l1 = l2 := by
  intro l1
  induction l1 with
  | nil =>
    intro l2 p a ha h1 h2
    cases l2 with
    | nil => rfl
    | cons b l2 => have := h1.1; have := h2.1; omega
  | cons b l1 ih =>
    intro l2 p a ha h1 h2
    cases l2 with
    | nil => have := h1.1; have := h2.1; omega
    | cons c l2 =>
      obtain ⟨_, f2, f3, f4⟩ := h1
      obtain ⟨_, g2, g3, g4⟩ := h2
      obtain ⟨e1, e2⟩ := hdrWord_inj b.1 c.1 b.2 c.2 f3 g3 (by rw [← f2, ← g2])
      have hbc : b = c := Prod.ext e1 e2
      subst hbc
      rw [ih l2 _ _ (by omega) f4 g4]

theorem MemInv_unique (cfg : MemCfg) (hc : CfgOK cfg) (m : MemState) (l1 l2 : List (Nat × Bool))
    (h1 : MemInv cfg m l1) (h2 : MemInv cfg m l2) : l1 = l2 :=
  MemSeg_unique m _ _ l1 l2 _ _ hc.1 h1.2.2.2 h2.2.2.2

theorem exMemCfg_ok : CfgOK exMemCfg :=
  ⟨by decide, by decide, by decide, by decide, by decide, 3, rfl⟩

theorem MemInv_length_le {cfg : MemCfg} (hc : CfgOK cfg) {m : MemState} {bs : List (Nat × Bool)}
    (hinv : MemInv cfg m bs) : bs.length ≤ cfg.OS_MEM_MAX_SIZE := by
  rw [← MemInv_span hinv]
  exact span_ge_length _ hc.2.2.1 bs

/-! ## Claims about the allocator -/

/-- C14: first fit. In an initialised allocator whose header list is `bs`, for a size `n` with
`0 < n < OS_MEM_MAX_SIZE` the aligned size is `n` rounded up to a multiple of the alignment, and
`OSMalloc n` (with fuel above the pool size) returns: either the address right behind the first
header, in list and address order, that is free and whose payload is at least the aligned size
(a non-null address); or, when no header of the list is free and large enough, null, leaving
the state unchanged. So the result is null exactly when no header fits. -/
theorem C14_first_fit (cfg : MemCfg) (m : MemState) (bs : List (Nat × Bool)) (n fuel : Nat)
    (hc : CfgOK cfg) (hinv : MemInv cfg m bs) (hn : 0 < n) (hn' : n < cfg.OS_MEM_MAX_SIZE)
    (hfuel : cfg.OS_MEM_MAX_SIZE < fuel) :
    OS_MEM_ALIGN_UP cfg n =
      (n + (cfg.OS_MEM_ALIGN - 1)) / cfg.OS_MEM_ALIGN * cfg.OS_MEM_ALIGN ∧
    ((∃ pre s post m', bs = pre ++ (s, false) :: post ∧
        (∀ b ∈ pre, ¬ (b.2 = false ∧ OS_MEM_ALIGN_UP cfg n ≤ b.1)) ∧
        OS_MEM_ALIGN_UP cfg n ≤ s ∧
        OSMalloc cfg fuel n m =
          some (cfg.s_OSMemoryPool + span cfg.OS_MEM_NODE_SIZE pre + cfg.OS_MEM_NODE_SIZE, m') ∧
        cfg.s_OSMemoryPool + span cfg.OS_MEM_NODE_SIZE pre + cfg.OS_MEM_NODE_SIZE ≠ 0) ∨
      ((∀ b ∈ bs, ¬ (b.2 = false ∧ OS_MEM_ALIGN_UP cfg n ≤ b.1)) ∧
        OSMalloc cfg fuel n m = some (0, m))) := by
  have hlen := MemInv_length_le hc hinv
  refine ⟨(CfgOK_align cfg hc n hn').1, ?_⟩
  rcases first_fit_cases (OS_MEM_ALIGN_UP cfg n) bs with ⟨pre, s, post, e, h1, h2⟩ | hmiss
  · left
    subst e
    obtain ⟨m', g1, _, _⟩ := OSMalloc_hit cfg m pre post s n fuel hc hinv hn hn' h1 h2
      (by simp only [List.length_append, List.length_cons] at hlen; omega)
    have hpool := hc.1
    exact ⟨pre, s, post, m', rfl, h1, h2, g1, by omega⟩
  · right
    exact ⟨hmiss, OSMalloc_miss cfg m bs n fuel hc hinv hmiss (by omega)⟩

/-- C14, instantiated: `OSMalloc(100)` on the freshly initialised 1024-byte pool. -/
theorem C14_first_fit_witness :
    CfgOK exMemCfg ∧ MemInv exMemCfg (OSInitMemory exMemCfg exMem0) [(1016, false)] ∧
    OS_MEM_ALIGN_UP exMemCfg 100 =
      (100 + (exMemCfg.OS_MEM_ALIGN - 1)) / exMemCfg.OS_MEM_ALIGN * exMemCfg.OS_MEM_ALIGN ∧
    ((∃ pre s post m', [(1016, false)] = pre ++ (s, false) :: post ∧
        (∀ b ∈ pre, ¬ (b.2 = false ∧ OS_MEM_ALIGN_UP exMemCfg 100 ≤ b.1)) ∧
        OS_MEM_ALIGN_UP exMemCfg 100 ≤ s ∧
        OSMalloc exMemCfg 1025 100 (OSInitMemory exMemCfg exMem0) =
          some (exMemCfg.s_OSMemoryPool + span exMemCfg.OS_MEM_NODE_SIZE pre +
            exMemCfg.OS_MEM_NODE_SIZE, m') ∧
        exMemCfg.s_OSMemoryPool + span exMemCfg.OS_MEM_NODE_SIZE pre +
          exMemCfg.OS_MEM_NODE_SIZE ≠ 0) ∨
      ((∀ b ∈ [(1016, false)], ¬ (b.2 = false ∧ OS_MEM_ALIGN_UP exMemCfg 100 ≤ b.1)) ∧
        OSMalloc exMemCfg 1025 100 (OSInitMemory exMemCfg exMem0) =
          some (0, OSInitMemory exMemCfg exMem0))) :=
  ⟨exMemCfg_ok, OSInitMemory_spec exMemCfg exMem0 exMemCfg_ok,
    C14_first_fit exMemCfg (OSInitMemory exMemCfg exMem0) [(1016, false)] 100 1025 exMemCfg_ok
      (OSInitMemory_spec exMemCfg exMem0 exMemCfg_ok) (by decide) (by decide) (by decide)⟩

/-- C15: the split rule. When `OSMalloc n` selects the free header of payload `s` that stands
between the headers `pre` and `post` (it is the first that fits the aligned size `n'`), then it
returns the address behind that header and: if `s ≥ n' + OS_MEM_NODE_SIZE + OS_MEM_ALIGN`, the
header becomes used with payload exactly `n'` and a new free header of payload
`s - n' - OS_MEM_NODE_SIZE` stands right behind that payload, linked as the next of the block
and with the old next of the block as its next; otherwise the header becomes used with its
payload `s` unchanged and the list has no new header. All other headers are unchanged. -/
theorem C15_split_rule (cfg : MemCfg) (m : MemState) (pre post : List (Nat × Bool))
    (s n fuel : Nat) (hc : CfgOK cfg)
    (hinv : MemInv cfg m (pre ++ (s, false) :: post))
    (hn : 0 < n) (hn' : n < cfg.OS_MEM_MAX_SIZE)
    (hun : ∀ b ∈ pre, ¬ (b.2 = false ∧ OS_MEM_ALIGN_UP cfg n ≤ b.1))
    (hreq : OS_MEM_ALIGN_UP cfg n ≤ s) (hfuel : cfg.OS_MEM_MAX_SIZE < fuel) :
    ∃ m', OSMalloc cfg fuel n m =
        some (cfg.s_OSMemoryPool + span cfg.OS_MEM_NODE_SIZE pre + cfg.OS_MEM_NODE_SIZE, m') ∧
      (s ≥ OS_MEM_ALIGN_UP cfg n + cfg.OS_MEM_NODE_SIZE + cfg.OS_MEM_ALIGN →
        MemInv cfg m' (pre ++ (OS_MEM_ALIGN_UP cfg n, true) ::
          (s - OS_MEM_ALIGN_UP cfg n - cfg.OS_MEM_NODE_SIZE, false) :: post) ∧
        m'.memNextNode (cfg.s_OSMemoryPool + span cfg.OS_MEM_NODE_SIZE pre) =
          cfg.s_OSMemoryPool + span cfg.OS_MEM_NODE_SIZE pre + cfg.OS_MEM_NODE_SIZE +
            OS_MEM_ALIGN_UP cfg n ∧
        m'.memNextNode (cfg.s_OSMemoryPool + span cfg.OS_MEM_NODE_SIZE pre +
            cfg.OS_MEM_NODE_SIZE + OS_MEM_ALIGN_UP cfg n) =
          m.memNextNode (cfg.s_OSMemoryPool + span cfg.OS_MEM_NODE_SIZE pre)) ∧
      (s < OS_MEM_ALIGN_UP cfg n + cfg.OS_MEM_NODE_SIZE + cfg.OS_MEM_ALIGN →
        MemInv cfg m' (pre ++ (s, true) :: post)) := by
  have hlen := MemInv_length_le hc hinv
  obtain ⟨m', g1, g2, g3⟩ := OSMalloc_hit cfg m pre post s n fuel hc hinv hn hn' hun hreq
    (by simp only [List.length_append, List.length_cons] at hlen; omega)
  refine ⟨m', g1, ?_, ?_⟩
  · intro hsplit
    have hsb : splitBlock cfg (OS_MEM_ALIGN_UP cfg n) s = [(OS_MEM_ALIGN_UP cfg n, true),
        (s - OS_MEM_ALIGN_UP cfg n - cfg.OS_MEM_NODE_SIZE, false)] := by
      simp only [splitBlock, hsplit, if_true, ge_iff_le]
    rw [hsb, List.append_assoc] at g2
    exact ⟨g2, g3 hsplit⟩
  · intro hsplit
    have hns : ¬ s ≥ OS_MEM_ALIGN_UP cfg n + cfg.OS_MEM_NODE_SIZE + cfg.OS_MEM_ALIGN := by omega
    have hsb : splitBlock cfg (OS_MEM_ALIGN_UP cfg n) s = [(s, true)] := by
      simp only [splitBlock, hns, if_false, ge_iff_le]
    rw [hsb, List.append_assoc] at g2
    exact g2

/-- C15, instantiated: `OSMalloc(100)` splits the single free block of the freshly initialised
1024-byte pool. -/
theorem C15_split_rule_witness :
    CfgOK exMemCfg ∧ MemInv exMemCfg (OSInitMemory exMemCfg exMem0) ([] ++ (1016, false) :: []) ∧
    ∃ m', OSMalloc exMemCfg 1025 100 (OSInitMemory exMemCfg exMem0) =
        some (exMemCfg.s_OSMemoryPool + span exMemCfg.OS_MEM_NODE_SIZE [] +
          exMemCfg.OS_MEM_NODE_SIZE, m') ∧
      (1016 ≥ OS_MEM_ALIGN_UP exMemCfg 100 + exMemCfg.OS_MEM_NODE_SIZE + exMemCfg.OS_MEM_ALIGN →
        MemInv exMemCfg m' ([] ++ (OS_MEM_ALIGN_UP exMemCfg 100, true) ::
          (1016 - OS_MEM_ALIGN_UP exMemCfg 100 - exMemCfg.OS_MEM_NODE_SIZE, false) :: []) ∧
        m'.memNextNode (exMemCfg.s_OSMemoryPool + span exMemCfg.OS_MEM_NODE_SIZE []) =
          exMemCfg.s_OSMemoryPool + span exMemCfg.OS_MEM_NODE_SIZE [] +
            exMemCfg.OS_MEM_NODE_SIZE + OS_MEM_ALIGN_UP exMemCfg 100 ∧
        m'.memNextNode (exMemCfg.s_OSMemoryPool + span exMemCfg.OS_MEM_NODE_SIZE [] +
            exMemCfg.OS_MEM_NODE_SIZE + OS_MEM_ALIGN_UP exMemCfg 100) =
          (OSInitMemory exMemCfg exMem0).memNextNode
            (exMemCfg.s_OSMemoryPool + span exMemCfg.OS_MEM_NODE_SIZE [])) ∧
      (1016 < OS_MEM_ALIGN_UP exMemCfg 100 + exMemCfg.OS_MEM_NODE_SIZE + exMemCfg.OS_MEM_ALIGN →
        MemInv exMemCfg m' ([] ++ (1016, true) :: [])) :=
  ⟨exMemCfg_ok, OSInitMemory_spec exMemCfg exMem0 exMemCfg_ok,
    C15_split_rule exMemCfg (OSInitMemory exMemCfg exMem0) [] [] 1016 100 1025 exMemCfg_ok
      (OSInitMemory_spec exMemCfg exMem0 exMemCfg_ok) (by decide) (by decide)
      (fun b hb => by cases hb) (by decide) (by decide)⟩

theorem exAllocA_eq :
    OSMalloc exMemCfg 8 100 (OSInitMemory exMemCfg exMem0) = some (exAllocA.1, exAllocA.2) := rfl

theorem exAllocB_eq : OSMalloc exMemCfg 8 200 exAllocA.2 = some (exAllocB.1, exAllocB.2) := rfl

theorem exFreeA_eq : OSFree exMemCfg 8 exAllocA.1 exAllocB.2 = some exFreeA := rfl

theorem exAllocA_ptr : exAllocA.1 = 0x20000008 := by decide

theorem exAllocB_ptr : exAllocB.1 = 0x20000078 := by decide

theorem exAllocA_reach : MemReach exMemCfg exAllocA.2 [0x20000008] :=
  MemReach.malloc _ _ [] 8 100 exAllocA.1 (MemReach.init exMem0) exAllocA_eq

theorem exAllocB_reach : MemReach exMemCfg exAllocB.2 [0x20000078, 0x20000008] :=
  MemReach.malloc _ _ _ 8 200 exAllocB.1 exAllocA_reach exAllocB_eq

theorem exFreeA_reach : MemReach exMemCfg exFreeA [0x20000078] :=
  MemReach.free _ _ _ 8 exAllocA.1 exAllocB_reach (by decide) exFreeA_eq

/-- C16: `OSFree` of a live pointer. In every state reachable from `OSInitMemory` by `OSMalloc`
and `OSFree` of live pointers, a live pointer `p` is the address behind a used header, of some
payload `s`, that stands between headers `pre` and `post` of the header list; `OSFree p` (with
fuel above the pool size) returns, and the new header list is `freedList`: the block is free,
it has taken in the header behind it if that one was free (payload plus the payload of that
header plus one header size, that header gone from the list), and then the header in front of
it, if that one was free, has taken in the block in the same way; the other headers of `pre`
and `post` are unchanged. A block between two free headers ends as one free header whose
payload is the three payloads plus two header sizes. -/
theorem C16_free_coalesces (cfg : MemCfg) (m : MemState) (live : List Nat) (p : Nat)
    (hc : CfgOK cfg) (hr : MemReach cfg m live) (hp : p ∈ live) :
    ∃ pre s post, MemInv cfg m (pre ++ (s, true) :: post) ∧
      p = cfg.s_OSMemoryPool + span cfg.OS_MEM_NODE_SIZE pre + cfg.OS_MEM_NODE_SIZE ∧
      (∀ fuel, cfg.OS_MEM_MAX_SIZE < fuel →
        ∃ m', OSFree cfg fuel p m = some m' ∧
          MemInv cfg m' (freedList cfg.OS_MEM_NODE_SIZE pre s post)) ∧
      (∀ s2 post2, post = (s2, false) :: post2 →
        absorbNext cfg.OS_MEM_NODE_SIZE s post = (s + s2 + cfg.OS_MEM_NODE_SIZE, post2)) ∧
      (∀ s2 post2, post = (s2, true) :: post2 →
        absorbNext cfg.OS_MEM_NODE_SIZE s post = (s, post)) ∧
      (post = [] → absorbNext cfg.OS_MEM_NODE_SIZE s post = (s, [])) ∧
      (∀ pre1 s0 c, pre = pre1 ++ [(s0, false)] →
        absorbPrev cfg.OS_MEM_NODE_SIZE pre c = pre1 ++ [(s0 + c + cfg.OS_MEM_NODE_SIZE, false)]) ∧
      (∀ pre1 s0 c, pre = pre1 ++ [(s0, true)] →
        absorbPrev cfg.OS_MEM_NODE_SIZE pre c = pre ++ [(c, false)]) ∧
      (∀ c, pre = [] → absorbPrev cfg.OS_MEM_NODE_SIZE pre c = [(c, false)]) ∧
      (∀ pre1 s0 s2 post2, pre = pre1 ++ [(s0, false)] → post = (s2, false) :: post2 →
        freedList cfg.OS_MEM_NODE_SIZE pre s post =
          pre1 ++ (s0 + s + s2 + 2 * cfg.OS_MEM_NODE_SIZE, false) :: post2) := by
  obtain ⟨bs, i1, _, _, i4⟩ := MemReach_inv cfg hc m live hr
  obtain ⟨pre, s, post, e, hp'⟩ := usedPtrs_mem_split _ _ _ _ (i4 p hp)
  subst e
  have hlen := MemInv_length_le hc i1
  refine ⟨pre, s, post, i1, hp', ?_, ?_, ?_, ?_, ?_, ?_, ?_, ?_⟩
  · intro fuel hfuel
    rw [hp']
    exact OSFree_spec cfg m pre post s fuel hc i1 (by omega)
  · intro s2 post2 e; subst e; rfl
  · intro s2 post2 e; subst e; rfl
  · intro e; subst e; rfl
  · intro pre1 s0 c e; subst e; exact absorbPrev_free _ _ _ _
  · intro pre1 s0 c e; subst e; exact absorbPrev_used _ _ _ _
  · intro c e; subst e; rfl
  · intro pre1 s0 s2 post2 e1 e2
    subst e1 e2
    have e : s0 + (s + s2 + cfg.OS_MEM_NODE_SIZE) + cfg.OS_MEM_NODE_SIZE =
        s0 + s + s2 + 2 * cfg.OS_MEM_NODE_SIZE := by omega
    simp only [freedList, absorbNext, absorbPrev_free, e, List.append_assoc,
      List.singleton_append]

/-- C16, instantiated: the block of 200 bytes in `exFreeA` lies between two free blocks. -/
theorem C16_free_coalesces_witness :
    CfgOK exMemCfg ∧ MemReach exMemCfg exFreeA [0x20000078] ∧ 0x20000078 ∈ [0x20000078] ∧
    ∃ pre s post, MemInv exMemCfg exFreeA (pre ++ (s, true) :: post) ∧
      0x20000078 =
        exMemCfg.s_OSMemoryPool + span exMemCfg.OS_MEM_NODE_SIZE pre + exMemCfg.OS_MEM_NODE_SIZE ∧
      (∀ fuel, exMemCfg.OS_MEM_MAX_SIZE < fuel →
        ∃ m', OSFree exMemCfg fuel 0x20000078 exFreeA = some m' ∧
          MemInv exMemCfg m' (freedList exMemCfg.OS_MEM_NODE_SIZE pre s post)) ∧
      (∀ s2 post2, post = (s2, false) :: post2 →
        absorbNext exMemCfg.OS_MEM_NODE_SIZE s post =
          (s + s2 + exMemCfg.OS_MEM_NODE_SIZE, post2)) ∧
      (∀ s2 post2, post = (s2, true) :: post2 →
        absorbNext exMemCfg.OS_MEM_NODE_SIZE s post = (s, post)) ∧
      (post = [] → absorbNext exMemCfg.OS_MEM_NODE_SIZE s post = (s, [])) ∧
      (∀ pre1 s0 c, pre = pre1 ++ [(s0, false)] →
        absorbPrev exMemCfg.OS_MEM_NODE_SIZE pre c =
          pre1 ++ [(s0 + c + exMemCfg.OS_MEM_NODE_SIZE, false)]) ∧
      (∀ pre1 s0 c, pre = pre1 ++ [(s0, true)] →
        absorbPrev exMemCfg.OS_MEM_NODE_SIZE pre c = pre ++ [(c, false)]) ∧
      (∀ c, pre = [] → absorbPrev exMemCfg.OS_MEM_NODE_SIZE pre c = [(c, false)]) ∧
      (∀ pre1 s0 s2 post2, pre = pre1 ++ [(s0, false)] → post = (s2, false) :: post2 →
        freedList exMemCfg.OS_MEM_NODE_SIZE pre s post =
          pre1 ++ (s0 + s + s2 + 2 * exMemCfg.OS_MEM_NODE_SIZE, false) :: post2) :=
  ⟨exMemCfg_ok, exFreeA_reach, by decide,
    C16_free_coalesces exMemCfg exFreeA [0x20000078] 0x20000078 exMemCfg_ok exFreeA_reach
      (by decide)⟩

/-- C17: allocate, then free. In every state reachable from `OSInitMemory` by `OSMalloc` and
`OSFree` of live pointers, with header list `bs`: if `OSMalloc n` returns a non-null `p`, then
`OSFree p` right afterwards (with fuel above the pool size) returns and the header list
is `bs` again: the same headers at the same addresses with the same sizes and used flags. -/
theorem C17_malloc_free_round_trip (cfg : MemCfg) (m m' : MemState) (live : List Nat)
    (n p fuel fuel2 : Nat) (hc : CfgOK cfg) (hr : MemReach cfg m live)
    (hm : OSMalloc cfg fuel n m = some (p, m')) (hp : p ≠ 0)
    (hfuel : cfg.OS_MEM_MAX_SIZE < fuel2) :
    ∃ bs m2, MemInv cfg m bs ∧ OSFree cfg fuel2 p m' = some m2 ∧ MemInv cfg m2 bs := by
  obtain ⟨bs, i1, i2, _, _⟩ := MemReach_inv cfg hc m live hr
  rcases OSMalloc_cases cfg m m' bs n fuel p hc i1 hm with ⟨hp0, _⟩ |
    ⟨pre, s, post, e, _, _, hp', hinv'⟩
  · exact absurd hp0 hp
  · subst e
    obtain ⟨c, post1, e1, e2⟩ := freedList_splitBlock cfg (OS_MEM_ALIGN_UP cfg n) s pre post i2
    rw [List.append_assoc, e1] at hinv'
    have hlen := MemInv_length_le hc hinv'
    obtain ⟨m2, g1, g2⟩ := OSFree_spec cfg m' pre post1 c fuel2 hc hinv' (by omega)
    rw [e2] at g2
    rw [← hp'] at g1
    exact ⟨_, m2, i1, g1, g2⟩

/-- C17, instantiated: `OSMalloc(100)` on the freshly initialised 1024-byte pool, then
`OSFree` of the result. -/
theorem C17_malloc_free_round_trip_witness :
    CfgOK exMemCfg ∧ MemReach exMemCfg (OSInitMemory exMemCfg exMem0) [] ∧
    OSMalloc exMemCfg 8 100 (OSInitMemory exMemCfg exMem0) = some (exAllocA.1, exAllocA.2) ∧
    exAllocA.1 ≠ 0 ∧
    ∃ bs m2, MemInv exMemCfg (OSInitMemory exMemCfg exMem0) bs ∧
      OSFree exMemCfg 1025 exAllocA.1 exAllocA.2 = some m2 ∧ MemInv exMemCfg m2 bs :=
  ⟨exMemCfg_ok, MemReach.init exMem0, exAllocA_eq, by decide,
    C17_malloc_free_round_trip exMemCfg (OSInitMemory exMemCfg exMem0) exAllocA.2 [] 100
      exAllocA.1 8 1025 exMemCfg_ok (MemReach.init exMem0) exAllocA_eq (by decide) (by decide)⟩

/-- C18: `OSInitMemory` leaves a single free header whose payload is the pool size minus the
header size, and in every state reachable from it by `OSMalloc` and `OSFree` of live pointers
the headers of the list lie back to back from the pool base to the pool end, so that the sum
over all headers of payload size plus header size is the pool size. -/
theorem C18_sizes_sum_to_pool (cfg : MemCfg) (hc : CfgOK cfg) :
    (∀ m0, MemInv cfg (OSInitMemory cfg m0)
      [(cfg.OS_MEM_MAX_SIZE - cfg.OS_MEM_NODE_SIZE, false)]) ∧
    (∀ m live, MemReach cfg m live →
      ∃ bs, MemInv cfg m bs ∧
        (bs.map (fun b => b.1 + cfg.OS_MEM_NODE_SIZE)).sum = cfg.OS_MEM_MAX_SIZE) := by
  refine ⟨fun m0 => OSInitMemory_spec cfg m0 hc, ?_⟩
  intro m live hr
  obtain ⟨bs, i1, _⟩ := MemReach_inv cfg hc m live hr
  refine ⟨bs, i1, ?_⟩
  have h := MemInv_span i1
  unfold span at h
  rw [← h]
  congr 1
  apply List.map_congr_left
  intro b _
  exact Nat.add_comm _ _

/-- C18, instantiated for the 1024-byte pool `exMemCfg`. -/
theorem C18_sizes_sum_to_pool_witness :
    CfgOK exMemCfg ∧
    (∀ m0, MemInv exMemCfg (OSInitMemory exMemCfg m0)
      [(exMemCfg.OS_MEM_MAX_SIZE - exMemCfg.OS_MEM_NODE_SIZE, false)]) ∧
    (∀ m live, MemReach exMemCfg m live →
      ∃ bs, MemInv exMemCfg m bs ∧
        (bs.map (fun b => b.1 + exMemCfg.OS_MEM_NODE_SIZE)).sum = exMemCfg.OS_MEM_MAX_SIZE) :=
  ⟨exMemCfg_ok, C18_sizes_sum_to_pool exMemCfg exMemCfg_ok⟩

/-- C19: in every state reachable from `OSInitMemory` by `OSMalloc` and `OSFree` of live
pointers, no two headers that are adjacent in the header list are both free. -/
theorem C19_no_adjacent_free (cfg : MemCfg) (m : MemState) (live : List Nat)
    (hc : CfgOK cfg) (hr : MemReach cfg m live) :
    ∃ bs, MemInv cfg m bs ∧ NoAdjFree bs ∧
      ∀ i, i + 1 < bs.length → ¬ ((bs.getD i (0, true)).2 = false ∧
        (bs.getD (i + 1) (0, true)).2 = false) := by
  obtain ⟨bs, i1, i2, _⟩ := MemReach_inv cfg hc m live hr
  refine ⟨bs, i1, i2, ?_⟩
  intro i hi
  have h := (List.chain'_iff_get.mp i2) i (by omega)
  simp only [List.get_eq_getElem] at h
  have e1 : bs.getD i (0, true) = bs[i] := by
    rw [List.getD_eq_getElem?_getD, List.getElem?_eq_getElem (by omega)]; rfl
  have e2 : bs.getD (i + 1) (0, true) = bs[i + 1] := by
    rw [List.getD_eq_getElem?_getD, List.getElem?_eq_getElem hi]; rfl
  rw [e1, e2]
  rintro ⟨h1, h2⟩
  rcases h with h | h
  · rw [h1] at h; cases h
  · rw [h2] at h; cases h

/-- C19, instantiated: the state `exFreeA`, reached by two allocations and a free. -/
theorem C19_no_adjacent_free_witness :
    CfgOK exMemCfg ∧ MemReach exMemCfg exFreeA [0x20000078] ∧
    ∃ bs, MemInv exMemCfg exFreeA bs ∧ NoAdjFree bs ∧
      ∀ i, i + 1 < bs.length → ¬ ((bs.getD i (0, true)).2 = false ∧
        (bs.getD (i + 1) (0, true)).2 = false) :=
  ⟨exMemCfg_ok, exFreeA_reach,
    C19_no_adjacent_free exMemCfg exFreeA [0x20000078] exMemCfg_ok exFreeA_reach⟩

theorem allocFreeScenario_spec (m0 : MemState) (fuel : Nat) (hfuel : 5 ≤ fuel) :
    ∃ mE, allocFreeScenario exMemCfg fuel 100 200 50 m0 = some mE ∧
      MemInv exMemCfg mE [(312, false), (56, true), (632, false)] := by
  have hc := exMemCfg_ok
  have i0 : MemInv exMemCfg (OSInitMemory exMemCfg m0) ([] ++ (1016, false) :: []) :=
    OSInitMemory_spec exMemCfg m0 hc
  obtain ⟨mA, a1, a2, _⟩ := OSMalloc_hit exMemCfg _ [] [] 1016 100 fuel hc i0 (by decide)
    (by decide) (fun b hb => by cases hb) (by decide) (by simp only [List.length_nil]; omega)
  have iA : MemInv exMemCfg mA ([(104, true)] ++ (904, false) :: []) := a2
  obtain ⟨mB, b1, b2, _⟩ := OSMalloc_hit exMemCfg mA [(104, true)] [] 904 200 fuel hc iA
    (by decide) (by decide) (by decide) (by decide)
    (by simp only [List.length_singleton]; omega)
  have iB : MemInv exMemCfg mB ([(104, true), (200, true)] ++ (696, false) :: []) := b2
  obtain ⟨mC, c1, c2, _⟩ := OSMalloc_hit exMemCfg mB [(104, true), (200, true)] [] 696 50 fuel
    hc iB (by decide) (by decide) (by decide) (by decide)
    (by simp only [List.length_cons, List.length_nil]; omega)
  have iC : MemInv exMemCfg mC ([(104, true)] ++ (200, true) :: [(56, true), (632, false)]) := c2
  obtain ⟨mD, d1, d2⟩ := OSFree_spec exMemCfg mC [(104, true)] [(56, true), (632, false)] 200
    fuel hc iC (by simp only [List.length_append, List.length_cons, List.length_nil]; omega)
  have iD : MemInv exMemCfg mD ([] ++ (104, true) :: [(200, false), (56, true), (632, false)]) :=
    d2
  obtain ⟨mE, e1, e2⟩ := OSFree_spec exMemCfg mD [] [(200, false), (56, true), (632, false)] 104
    fuel hc iD (by simp only [List.length_append, List.length_cons, List.length_nil]; omega)
  refine ⟨mE, ?_, e2⟩
  simp only [allocFreeScenario, a1, b1, c1]
  rw [d1]
  exact e1

/-- C20 as stated fails: on the 1024-byte pool `exMemCfg` (header size 8, alignment 8), after
allocating 100, 200 and 50 bytes and freeing the second and then the first block, the header
list is a free header of 312 bytes, the used header of the third block (56 bytes) and a free
header of 632 bytes. The free space is two blocks with the used block between them; no header
has a payload of `1024 - 50 - 2 * 8 = 958` bytes and the free headers are not a single one. -/
theorem C20_single_free_block_counterexample :
    ∃ mE, allocFreeScenario exMemCfg 8 100 200 50 exMem0 = some mE ∧
      MemInv exMemCfg mE [(312, false), (56, true), (632, false)] ∧
      ∀ bs, MemInv exMemCfg mE bs →
        bs.filter (fun b => !b.2) = [(312, false), (632, false)] ∧
        (bs.filter (fun b => !b.2)).length ≠ 1 ∧
        bs.filter (fun b => !b.2) ≠ [(1024 - 50 - 2 * exMemCfg.OS_MEM_NODE_SIZE, false)] ∧
        ∀ b ∈ bs, b.1 ≠ 1024 - 50 - 2 * exMemCfg.OS_MEM_NODE_SIZE := by
  obtain ⟨mE, h1, h2⟩ := allocFreeScenario_spec exMem0 8 (by decide)
  refine ⟨mE, h1, h2, ?_⟩
  intro bs hbs
  rw [MemInv_unique exMemCfg exMemCfg_ok mE bs _ hbs h2]
  decide

/-- C20, amended: on a freshly initialised pool of 1024 bytes with header size 8 and alignment
8 (whatever the memory held before), allocating 100, 200 and 50 bytes in that order and then
freeing the second and then the first block returns (with fuel 5 or more) and leaves exactly
three headers: a free header of 312 bytes at the pool base, which is the first two blocks
coalesced (104 + 200 bytes plus one header), the third block still in use (56 bytes, 50
rounded up), and behind it the free rest of the pool, 632 bytes. -/
theorem C20_two_free_blocks (m0 : MemState) (fuel : Nat) (hfuel : 5 ≤ fuel) :
    ∃ mE, allocFreeScenario exMemCfg fuel 100 200 50 m0 = some mE ∧
      MemInv exMemCfg mE [(312, false), (56, true), (632, false)] ∧
      (∀ bs, MemInv exMemCfg mE bs → bs = [(312, false), (56, true), (632, false)]) ∧
      312 = OS_MEM_ALIGN_UP exMemCfg 100 + OS_MEM_ALIGN_UP exMemCfg 200 +
        exMemCfg.OS_MEM_NODE_SIZE ∧
      56 = OS_MEM_ALIGN_UP exMemCfg 50 ∧
      632 = exMemCfg.OS_MEM_MAX_SIZE - 3 * exMemCfg.OS_MEM_NODE_SIZE - 312 - 56 := by
  obtain ⟨mE, h1, h2⟩ := allocFreeScenario_spec m0 fuel hfuel
  exact ⟨mE, h1, h2, fun bs hbs => MemInv_unique exMemCfg exMemCfg_ok mE bs _ hbs h2,
    by decide, by decide, by decide⟩

/-- C20, amended and instantiated: the memory is all zero before initialisation, fuel 8. -/
theorem C20_two_free_blocks_witness :
    5 ≤ 8 ∧
    ∃ mE, allocFreeScenario exMemCfg 8 100 200 50 exMem0 = some mE ∧
      MemInv exMemCfg mE [(312, false), (56, true), (632, false)] ∧
      (∀ bs, MemInv exMemCfg mE bs → bs = [(312, false), (56, true), (632, false)]) ∧
      312 = OS_MEM_ALIGN_UP exMemCfg 100 + OS_MEM_ALIGN_UP exMemCfg 200 +
        exMemCfg.OS_MEM_NODE_SIZE ∧
      56 = OS_MEM_ALIGN_UP exMemCfg 50 ∧
      632 = exMemCfg.OS_MEM_MAX_SIZE - 3 * exMemCfg.OS_MEM_NODE_SIZE - 312 - 56 :=
  ⟨by decide, C20_two_free_blocks exMem0 8 (by decide)⟩

/-! ## Allocator: failure cases and usage report -/

theorem usedBytes_cons (h : Nat) (b : Nat × Bool) (bs : List (Nat × Bool)) :
    usedBytes h (b :: bs) = (if b.2 = true then b.1 + h else 0) + usedBytes h bs := by
  unfold usedBytes
  by_cases hb : b.2 = true
  · simp [List.filter_cons, hb]
  · simp [List.filter_cons, hb]

theorem usedBytes_le_span (h : Nat) (bs : List (Nat × Bool)) : usedBytes h bs ≤ span h bs := by
  induction bs with
  | nil => simp [usedBytes, span]
  | cons b bs ih =>
    rw [usedBytes_cons, span_cons]
    split <;> omega

theorem OSMemoryPerused_walk_spec (cfg : MemCfg) (m : MemState) (e : Nat)
    (hh : cfg.OS_MEM_NODE_SIZE < 2 ^ 31) :
    ∀ (bs : List (Nat × Bool)) (fuel p a used : Nat), 0 < a →
      MemSeg m cfg.OS_MEM_NODE_SIZE p a bs 0 e →
      used + usedBytes cfg.OS_MEM_NODE_SIZE bs < 2 ^ 32 → bs.length < fuel →
      OSMemoryPerused_walk cfg fuel p used m =
        some (used + usedBytes cfg.OS_MEM_NODE_SIZE bs) := by
  intro bs
  induction bs with
  | nil =>
    intro fuel p a used _ hseg _ hfuel
    obtain ⟨fuel, rfl⟩ : ∃ f, fuel = f + 1 := ⟨fuel - 1, by simp at hfuel; omega⟩
    have hp : p = 0 := hseg.1
    simp [OSMemoryPerused_walk, hp, usedBytes]
  | cons b bs ih =>
    intro fuel p a used ha hseg hov hfuel
    obtain ⟨fuel, rfl⟩ : ∃ f, fuel = f + 1 := ⟨fuel - 1, by simp at hfuel; omega⟩
    obtain ⟨h1, h2, h3, h4⟩ := hseg
    subst h1
    have hp : p ≠ 0 := by omega
    have hsz : m.memUsedSize p &&& OS_MEM_SIZE_MASK = b.1 := by
      rw [h2]; exact hdrWord_mask b.1 b.2 h3
    have hfl : (m.memUsedSize p &&& OS_MEM_USED_FLAG = 0) ↔ b.2 = false := by
      rw [h2]; exact hdrWord_flag b.1 b.2 h3
    have hN : cfg.OS_MEM_NODE_SIZE % 2 ^ 32 = cfg.OS_MEM_NODE_SIZE :=
      Nat.mod_eq_of_lt (by omega)
    rw [usedBytes_cons] at hov ⊢
    have hlen : bs.length < fuel := by simp at hfuel; omega
    by_cases hb : b.2 = true
    · have hne : m.memUsedSize p &&& OS_MEM_USED_FLAG ≠ 0 := by
        intro h0; rw [hfl.mp h0] at hb; cases hb
      rw [if_pos hb] at hov ⊢
      have hadd : u32_add used (u32_add b.1 cfg.OS_MEM_NODE_SIZE) =
          used + (b.1 + cfg.OS_MEM_NODE_SIZE) := by
        rw [u32_add_eq b.1 _ (by omega), u32_add_eq _ _ (by omega)]
      simp only [OSMemoryPerused_walk, hp, if_false, hne, ne_eq, not_false_eq_true, if_true,
        hsz, hN, hadd]
      rw [ih fuel _ _ _ (by omega) h4 (by omega) hlen]
      congr 1; omega
    · have hbf : b.2 = false := by cases hbb : b.2 <;> simp_all
      have he : m.memUsedSize p &&& OS_MEM_USED_FLAG = 0 := hfl.mpr hbf
      rw [if_neg hb] at hov ⊢
      simp only [OSMemoryPerused_walk, hp, if_false, he, ne_eq, not_true_eq_false]
      rw [ih fuel _ _ _ (by omega) h4 (by omega) hlen]
      congr 1; omega

theorem OSMemoryPerused_spec (cfg : MemCfg) (m : MemState) (bs : List (Nat × Bool))
    (fuel : Nat) (hc : CfgOK cfg) (hbig : cfg.OS_MEM_MAX_SIZE * 1000 < 2 ^ 32)
    (hinv : MemInv cfg m bs) (hfuel : cfg.OS_MEM_MAX_SIZE < fuel) :
    OSMemoryPerused cfg fuel m =
      some (1000 * usedBytes cfg.OS_MEM_NODE_SIZE bs / cfg.OS_MEM_MAX_SIZE) ∧
    1000 * usedBytes cfg.OS_MEM_NODE_SIZE bs / cfg.OS_MEM_MAX_SIZE ≤ 1000 := by
  have hlen := MemInv_length_le hc hinv
  have hspan := MemInv_span hinv
  have hle := usedBytes_le_span cfg.OS_MEM_NODE_SIZE bs
  obtain ⟨hpool, hend, hh, hhle, hov, _⟩ := hc
  obtain ⟨_, hbase, hmend, hseg⟩ := hinv
  have hpos : 0 < cfg.OS_MEM_MAX_SIZE := by omega
  have hq : 1000 * usedBytes cfg.OS_MEM_NODE_SIZE bs / cfg.OS_MEM_MAX_SIZE ≤ 1000 := by
    apply Nat.div_le_of_le_mul
    rw [Nat.mul_comm cfg.OS_MEM_MAX_SIZE 1000]
    exact Nat.mul_le_mul_left 1000 (by omega)
  refine ⟨?_, hq⟩
  have hwalk := OSMemoryPerused_walk_spec cfg m _ (by omega) bs fuel m.memoryList
    cfg.s_OSMemoryPool 0 hpool hseg (by omega) (by omega)
  have htot : u32_sub (m.memoryEnd % 2 ^ 32) m.memoryBase = cfg.OS_MEM_MAX_SIZE := by
    rw [hmend, hbase, Nat.mod_eq_of_lt hend, u32_sub_eq _ _ (by omega) hend]
    omega
  have hmul : u32_mul (usedBytes cfg.OS_MEM_NODE_SIZE bs) 1000 =
      1000 * usedBytes cfg.OS_MEM_NODE_SIZE bs := by
    unfold u32_mul
    rw [Nat.mul_comm]
    exact Nat.mod_eq_of_lt (by omega)
  have hne : cfg.OS_MEM_MAX_SIZE ≠ 0 := by omega
  simp only [OSMemoryPerused, hwalk, Nat.zero_add, htot, hne, if_false, hmul]
  rw [Nat.mod_eq_of_lt (by omega)]

theorem exMemCfg20k_ok : CfgOK exMemCfg20k :=
  ⟨by decide, by decide, by decide, by decide, by decide, 3, rfl⟩

/-- C21: `OSMalloc` returns null, leaving the state as it is, when the size is 0, when the size
is at least `OS_MEM_MAX_SIZE`, when the allocator is not initialised, and (initialised
allocator with header list `bs`, fuel above the pool size) when no free header fits the aligned
size. Whenever `OSMalloc` returns null in a state that is initialised with a header list or not
initialised, the state after the call is the state before it: every header cell (sizes, used
flags, links) is unchanged. -/
theorem C21_malloc_null_cases (cfg : MemCfg) (hc : CfgOK cfg) :
    (∀ m fuel, OSMalloc cfg fuel 0 m = some (0, m)) ∧
    (∀ m fuel n, n ≥ cfg.OS_MEM_MAX_SIZE → OSMalloc cfg fuel n m = some (0, m)) ∧
    (∀ m fuel n, m.memoryRdy = false → OSMalloc cfg fuel n m = some (0, m)) ∧
    (∀ m bs fuel n, MemInv cfg m bs → cfg.OS_MEM_MAX_SIZE < fuel →
      (∀ b ∈ bs, ¬ (b.2 = false ∧ OS_MEM_ALIGN_UP cfg n ≤ b.1)) →
      OSMalloc cfg fuel n m = some (0, m)) ∧
    (∀ m m' fuel n, ((∃ bs, MemInv cfg m bs) ∨ m.memoryRdy = false) →
      OSMalloc cfg fuel n m = some (0, m') → m' = m) := by
  refine ⟨?_, ?_, ?_, ?_, ?_⟩
  · intro m fuel
    simp [OSMalloc]
  · intro m fuel n hn
    have h : n = 0 ∨ n ≥ cfg.OS_MEM_MAX_SIZE := Or.inr hn
    simp only [OSMalloc, h, if_true]
  · intro m fuel n hr
    by_cases h : n = 0 ∨ n ≥ cfg.OS_MEM_MAX_SIZE
    · simp only [OSMalloc, h, if_true]
    · simp only [OSMalloc, h, if_false, hr, if_true]
  · intro m bs fuel n hinv hfuel hun
    have hlen := MemInv_length_le hc hinv
    exact OSMalloc_miss cfg m bs n fuel hc hinv hun (by omega)
  · intro m m' fuel n hst hm
    rcases hst with ⟨bs, hinv⟩ | hr
    · rcases OSMalloc_cases cfg m m' bs n fuel 0 hc hinv hm with ⟨_, h⟩ | ⟨pre, s, post, _, _, _, hp, _⟩
      · exact h
      · have := hc.2.2.1
        omega
    · by_cases h : n = 0 ∨ n ≥ cfg.OS_MEM_MAX_SIZE
      · simp only [OSMalloc, h, if_true, Option.some.injEq, Prod.mk.injEq, true_and] at hm
        exact hm.symm
      · simp only [OSMalloc, h, if_false, hr, if_true, Option.some.injEq, Prod.mk.injEq,
          true_and] at hm
        exact hm.symm

/-- C21, instantiated for the 1024-byte pool `exMemCfg`. -/
theorem C21_malloc_null_cases_witness :
    CfgOK exMemCfg ∧
    (∀ m fuel, OSMalloc exMemCfg fuel 0 m = some (0, m)) ∧
    (∀ m fuel n, n ≥ exMemCfg.OS_MEM_MAX_SIZE → OSMalloc exMemCfg fuel n m = some (0, m)) ∧
    (∀ m fuel n, m.memoryRdy = false → OSMalloc exMemCfg fuel n m = some (0, m)) ∧
    (∀ m bs fuel n, MemInv exMemCfg m bs → exMemCfg.OS_MEM_MAX_SIZE < fuel →
      (∀ b ∈ bs, ¬ (b.2 = false ∧ OS_MEM_ALIGN_UP exMemCfg n ≤ b.1)) →
      OSMalloc exMemCfg fuel n m = some (0, m)) ∧
    (∀ m m' fuel n, ((∃ bs, MemInv exMemCfg m bs) ∨ m.memoryRdy = false) →
      OSMalloc exMemCfg fuel n m = some (0, m') → m' = m) :=
  ⟨exMemCfg_ok, C21_malloc_null_cases exMemCfg exMemCfg_ok⟩

/-- C22: `OSMemoryPerused`. For a pool with `OS_MEM_MAX_SIZE * 1000 < 2 ^ 32`, in every state
reachable from `OSInitMemory` by `OSMalloc` and `OSFree` of live pointers, with header list
`bs`, `OSMemoryPerused` (fuel above the pool size) returns `1000 * U / OS_MEM_MAX_SIZE` rounded
down, where `U` is the sum of payload size plus header size over the used headers; the result
is at most 1000; it is 0 right after `OSInitMemory`; and on the 20 KiB pool of the demo a
single `OSMalloc(512)` on the fresh pool gives `U = 520` and the result
`1000 * 520 / 20480 = 25`. -/
theorem C22_memory_perused (cfg : MemCfg) (hc : CfgOK cfg)
    (hbig : cfg.OS_MEM_MAX_SIZE * 1000 < 2 ^ 32) :
    (∀ m live fuel, MemReach cfg m live → cfg.OS_MEM_MAX_SIZE < fuel →
      ∃ bs, MemInv cfg m bs ∧
        OSMemoryPerused cfg fuel m =
          some (1000 * ((bs.filter (fun b => b.2)).map
            (fun b => b.1 + cfg.OS_MEM_NODE_SIZE)).sum / cfg.OS_MEM_MAX_SIZE) ∧
        1000 * ((bs.filter (fun b => b.2)).map
            (fun b => b.1 + cfg.OS_MEM_NODE_SIZE)).sum / cfg.OS_MEM_MAX_SIZE ≤ 1000) ∧
    (∀ m0 fuel, cfg.OS_MEM_MAX_SIZE < fuel →
      OSMemoryPerused cfg fuel (OSInitMemory cfg m0) = some 0) ∧
    (∀ m0 fuel, exMemCfg20k.OS_MEM_MAX_SIZE < fuel →
      ∃ p m', OSMalloc exMemCfg20k fuel 512 (OSInitMemory exMemCfg20k m0) = some (p, m') ∧
        p ≠ 0 ∧ MemInv exMemCfg20k m' [(512, true), (19952, false)] ∧
        OSMemoryPerused exMemCfg20k fuel m' = some 25 ∧ 1000 * 520 / 20480 = 25) := by
  refine ⟨?_, ?_, ?_⟩
  · intro m live fuel hr hfuel
    obtain ⟨bs, i1, _⟩ := MemReach_inv cfg hc m live hr
    exact ⟨bs, i1, OSMemoryPerused_spec cfg m bs fuel hc hbig i1 hfuel⟩
  · intro m0 fuel hfuel
    have h := (OSMemoryPerused_spec cfg _ _ fuel hc hbig (OSInitMemory_spec cfg m0 hc) hfuel).1
    rw [h]
    simp [usedBytes]
  · intro m0 fuel hfuel
    have hc2 := exMemCfg20k_ok
    have i0 : MemInv exMemCfg20k (OSInitMemory exMemCfg20k m0) ([] ++ (20472, false) :: []) :=
      OSInitMemory_spec exMemCfg20k m0 hc2
    obtain ⟨m', a1, a2, _⟩ := OSMalloc_hit exMemCfg20k _ [] [] 20472 512 fuel hc2 i0
      (by decide) (by decide) (fun b hb => by cases hb) (by decide)
      (by simp only [List.length_nil]; omega)
    have iA : MemInv exMemCfg20k m' [(512, true), (19952, false)] := a2
    refine ⟨_, m', a1, by decide, iA, ?_, by decide⟩
    have h := (OSMemoryPerused_spec exMemCfg20k m' _ fuel hc2 (by decide) iA hfuel).1
    rw [h]
    decide

/-- C22, instantiated for the 1024-byte pool `exMemCfg`. -/
theorem C22_memory_perused_witness :
    CfgOK exMemCfg ∧ exMemCfg.OS_MEM_MAX_SIZE * 1000 < 2 ^ 32 ∧
    (∀ m live fuel, MemReach exMemCfg m live → exMemCfg.OS_MEM_MAX_SIZE < fuel →
      ∃ bs, MemInv exMemCfg m bs ∧
        OSMemoryPerused exMemCfg fuel m =
          some (1000 * ((bs.filter (fun b => b.2)).map
            (fun b => b.1 + exMemCfg.OS_MEM_NODE_SIZE)).sum / exMemCfg.OS_MEM_MAX_SIZE) ∧
        1000 * ((bs.filter (fun b => b.2)).map
            (fun b => b.1 + exMemCfg.OS_MEM_NODE_SIZE)).sum / exMemCfg.OS_MEM_MAX_SIZE ≤ 1000) ∧
    (∀ m0 fuel, exMemCfg.OS_MEM_MAX_SIZE < fuel →
      OSMemoryPerused exMemCfg fuel (OSInitMemory exMemCfg m0) = some 0) ∧
    (∀ m0 fuel, exMemCfg20k.OS_MEM_MAX_SIZE < fuel →
      ∃ p m', OSMalloc exMemCfg20k fuel 512 (OSInitMemory exMemCfg20k m0) = some (p, m') ∧
        p ≠ 0 ∧ MemInv exMemCfg20k m' [(512, true), (19952, false)] ∧
        OSMemoryPerused exMemCfg20k fuel m' = some 25 ∧ 1000 * 520 / 20480 = 25) :=
  ⟨exMemCfg_ok, by decide, C22_memory_perused exMemCfg exMemCfg_ok (by decide)⟩

/-! ## Event-flag groups -/

/-- C23: `IsFlagsMatch`. For every flag word `f` and every task whose recorded wait mask is `m`,
the result is 1 (true) exactly when the recorded mode is `WAIT_SET_ALL` and `f & m = m`, or
`WAIT_SET_ANY` and `f & m ≠ 0`, or `WAIT_CLR_ALL` and `f & m = 0`, or `WAIT_CLR_ANY` and
`f & m ≠ m`; otherwise it is 0 (false), in particular for every other mode value, such as
`WAIT_NONE`. -/
theorem C23_is_flags_match (f t : Nat) (s : Sys) :
    (IsFlagsMatch f t s = 1 ∨ IsFlagsMatch f t s = 0) ∧
    (IsFlagsMatch f t s = 1 ↔
      (s.flagsPendOpt t = OS_FLAG_WAIT_SET_ALL ∧
        f &&& s.flagsMaskPendOn t = s.flagsMaskPendOn t) ∨
      (s.flagsPendOpt t = OS_FLAG_WAIT_SET_ANY ∧ f &&& s.flagsMaskPendOn t ≠ 0) ∨
      (s.flagsPendOpt t = OS_FLAG_WAIT_CLR_ALL ∧ f &&& s.flagsMaskPendOn t = 0) ∨
      (s.flagsPendOpt t = OS_FLAG_WAIT_CLR_ANY ∧
        f &&& s.flagsMaskPendOn t ≠ s.flagsMaskPendOn t)) ∧
    (s.flagsPendOpt t ≠ OS_FLAG_WAIT_SET_ALL → s.flagsPendOpt t ≠ OS_FLAG_WAIT_SET_ANY →
      s.flagsPendOpt t ≠ OS_FLAG_WAIT_CLR_ALL → s.flagsPendOpt t ≠ OS_FLAG_WAIT_CLR_ANY →
      IsFlagsMatch f t s = 0) ∧
    (s.flagsPendOpt t = OS_FLAG_WAIT_NONE → IsFlagsMatch f t s = 0) := by
  have h12 : OS_FLAG_WAIT_SET_ALL ≠ OS_FLAG_WAIT_SET_ANY := by decide
  have h13 : OS_FLAG_WAIT_SET_ALL ≠ OS_FLAG_WAIT_CLR_ALL := by decide
  have h14 : OS_FLAG_WAIT_SET_ALL ≠ OS_FLAG_WAIT_CLR_ANY := by decide
  have h23 : OS_FLAG_WAIT_SET_ANY ≠ OS_FLAG_WAIT_CLR_ALL := by decide
  have h24 : OS_FLAG_WAIT_SET_ANY ≠ OS_FLAG_WAIT_CLR_ANY := by decide
  have h34 : OS_FLAG_WAIT_CLR_ALL ≠ OS_FLAG_WAIT_CLR_ANY := by decide
  have h01 : OS_FLAG_WAIT_NONE ≠ OS_FLAG_WAIT_SET_ALL := by decide
  have h02 : OS_FLAG_WAIT_NONE ≠ OS_FLAG_WAIT_SET_ANY := by decide
  have h03 : OS_FLAG_WAIT_NONE ≠ OS_FLAG_WAIT_CLR_ALL := by decide
  have h04 : OS_FLAG_WAIT_NONE ≠ OS_FLAG_WAIT_CLR_ANY := by decide
  unfold IsFlagsMatch
  by_cases o1 : s.flagsPendOpt t = OS_FLAG_WAIT_SET_ALL
  · by_cases c : f &&& s.flagsMaskPendOn t = s.flagsMaskPendOn t <;>
      simp [o1, c, h12, h13, h14, h01.symm]
  · by_cases o2 : s.flagsPendOpt t = OS_FLAG_WAIT_SET_ANY
    · by_cases c : f &&& s.flagsMaskPendOn t = 0 <;>
        simp [o2, c, h12.symm, h23, h24, h02.symm]
    · by_cases o3 : s.flagsPendOpt t = OS_FLAG_WAIT_CLR_ALL
      · by_cases c : f &&& s.flagsMaskPendOn t = 0 <;>
          simp [o3, c, h13.symm, h23.symm, h34, h03.symm]
      · by_cases o4 : s.flagsPendOpt t = OS_FLAG_WAIT_CLR_ANY
        · by_cases c : f &&& s.flagsMaskPendOn t = s.flagsMaskPendOn t <;>
            simp [o4, c, h14.symm, h24.symm, h34.symm, h04.symm]
        · simp [o1, o2, o3, o4]

/-- C29: `OS_BitMapGetHighest` returns a priority if and only if the bitmap word is not zero.
With the word equal to zero the call does not return (the function spins in `while(1){}`; in
the embedding it has no result); otherwise the result is the number of leading zeros of the
word. -/
theorem C29_get_highest_returns_iff_nonzero (k : Kernel) :
    ((∃ p, OS_BitMapGetHighest k = some p) ↔ k.s_OSPrioBitMap ≠ 0) ∧
    (k.s_OSPrioBitMap = 0 → OS_BitMapGetHighest k = none) ∧
    (k.s_OSPrioBitMap ≠ 0 → OS_BitMapGetHighest k = some (builtin_clz k.s_OSPrioBitMap)) := by
  unfold OS_BitMapGetHighest
  by_cases h : k.s_OSPrioBitMap = 0
  · simp [h]
  · simp [h]

theorem IsFlagsMatch_congr (flags t : Nat) (s s' : Sys)
    (h1 : s'.flagsMaskPendOn t = s.flagsMaskPendOn t)
    (h2 : s'.flagsPendOpt t = s.flagsPendOpt t) :
    IsFlagsMatch flags t s' = IsFlagsMatch flags t s := by
  simp only [IsFlagsMatch, h1, h2]

theorem PendListGetHighestMatch_loop_spec (flags : Nat) (s : Sys) :
    ∀ (l : List Nat) (fuel : Nat) (p best q0 : Option Nat),
      DSeg s.kernel.pendNextPtr s.kernel.pendPrevPtr q0 p l none → l.length < fuel →
      PendListGetHighestMatch_loop flags fuel p best s =
        some (l.foldl (PendListGetHighestMatch_pick flags s) best) := by
  intro l
  induction l with
  | nil =>
    intro fuel p best q0 hseg hfuel
    obtain ⟨fuel, rfl⟩ : ∃ f, fuel = f + 1 := ⟨fuel - 1, by simp at hfuel; omega⟩
    have hp : p = none := hseg
    subst hp
    simp [PendListGetHighestMatch_loop]
  | cons a l ih =>
    intro fuel p best q0 hseg hfuel
    obtain ⟨fuel, rfl⟩ : ∃ f, fuel = f + 1 := ⟨fuel - 1, by simp at hfuel; omega⟩
    obtain ⟨h1, _, h3⟩ := hseg
    subst h1
    simp only [PendListGetHighestMatch_loop, List.foldl_cons]
    exact ih fuel _ _ _ h3 (by simp at hfuel; omega)

theorem PendListGetHighestMatch_loop_mono (flags : Nat) (s : Sys) :
    ∀ (fuel n : Nat) (p best r : Option Nat),
      PendListGetHighestMatch_loop flags fuel p best s = some r →
      PendListGetHighestMatch_loop flags (fuel + n) p best s = some r := by
  intro fuel
  induction fuel with
  | zero => intro n p best r h; simp [PendListGetHighestMatch_loop] at h
  | succ fuel ih =>
    intro n p best r h
    have e : fuel + 1 + n = (fuel + n) + 1 := by omega
    rw [e]
    cases p with
    | none => simpa [PendListGetHighestMatch_loop] using h
    | some t =>
      simp only [PendListGetHighestMatch_loop] at h ⊢
      exact ih n _ _ r h

theorem pick_foldl_spec (flags : Nat) (s : Sys) :
    ∀ (l : List Nat) (best : Option Nat),
      (l.foldl (PendListGetHighestMatch_pick flags s) best = none →
        best = none ∧ ∀ u ∈ l, IsFlagsMatch flags u s = 0) ∧
      (∀ t, l.foldl (PendListGetHighestMatch_pick flags s) best = some t →
        (best = some t ∨ (t ∈ l ∧ IsFlagsMatch flags t s ≠ 0)) ∧
        (∀ b, best = some b → s.kernel.priority t ≤ s.kernel.priority b) ∧
        (∀ u ∈ l, IsFlagsMatch flags u s ≠ 0 →
          s.kernel.priority t ≤ s.kernel.priority u)) := by
  intro l
  induction l with
  | nil =>
    intro best
    refine ⟨fun h => ⟨h, fun u hu => by cases hu⟩, fun t h => ⟨Or.inl h, ?_, fun u hu => by cases hu⟩⟩
    intro b hb
    simp only [List.foldl_nil] at h
    rw [h] at hb
    cases hb
    exact le_refl _
  | cons x l ih =>
    intro best
    obtain ⟨ih1, ih2⟩ := ih (PendListGetHighestMatch_pick flags s best x)
    simp only [List.foldl_cons]
    by_cases hx : IsFlagsMatch flags x s ≠ 0
    · -- the waiter `x` matches
      have hpick : ∃ c, PendListGetHighestMatch_pick flags s best x = some c ∧
          (c = x ∨ best = some c) ∧ s.kernel.priority c ≤ s.kernel.priority x ∧
          ∀ b, best = some b → s.kernel.priority c ≤ s.kernel.priority b := by
        cases best with
        | none =>
          refine ⟨x, by simp [PendListGetHighestMatch_pick, hx], Or.inl rfl, le_refl _, ?_⟩
          intro b hb; cases hb
        | some b0 =>
          by_cases hlt : s.kernel.priority x < s.kernel.priority b0
          · refine ⟨x, by simp [PendListGetHighestMatch_pick, hx, hlt], Or.inl rfl, le_refl _, ?_⟩
            intro b hb; cases hb; omega
          · refine ⟨b0, by simp [PendListGetHighestMatch_pick, hx, hlt], Or.inr rfl,
              by omega, ?_⟩
            intro b hb; cases hb; exact le_refl _
      obtain ⟨c, hc, hc1, hc2, hc3⟩ := hpick
      rw [hc] at ih1 ih2 ⊢
      refine ⟨fun h => ?_, fun t h => ?_⟩
      · have := (ih1 h).1; cases this
      · obtain ⟨g1, g2, g3⟩ := ih2 t h
        have htc := g2 c rfl
        refine ⟨?_, ?_, ?_⟩
        · rcases g1 with g | ⟨g, g'⟩
          · cases g
            rcases hc1 with e | e
            · right; rw [e]; exact ⟨List.mem_cons_self _ _, hx⟩
            · left; exact e
          · right; exact ⟨List.mem_cons_of_mem _ g, g'⟩
        · intro b hb
          exact le_trans htc (hc3 b hb)
        · intro u hu hm
          rcases List.mem_cons.mp hu with e | hu
          · rw [e]; exact le_trans htc hc2
          · exact g3 u hu hm
    · -- the waiter `x` does not match
      have hx0 : IsFlagsMatch flags x s = 0 := by
        by_contra h; exact hx h
      have hpick : PendListGetHighestMatch_pick flags s best x = best := by
        simp [PendListGetHighestMatch_pick, hx0]
      rw [hpick] at ih1 ih2 ⊢
      refine ⟨fun h => ?_, fun t h => ?_⟩
      · obtain ⟨g1, g2⟩ := ih1 h
        refine ⟨g1, fun u hu => ?_⟩
        rcases List.mem_cons.mp hu with e | hu
        · rw [e]; exact hx0
        · exact g2 u hu
      · obtain ⟨g1, g2, g3⟩ := ih2 t h
        refine ⟨?_, g2, ?_⟩
        · rcases g1 with g | ⟨g, g'⟩
          · left; exact g
          · right; exact ⟨List.mem_cons_of_mem _ g, g'⟩
        · intro u hu hm
          rcases List.mem_cons.mp hu with e | hu
          · rw [e] at hm; exact absurd hx0 hm
          · exact g3 u hu hm

theorem RdyInv_of_PendFrame {k k' : Kernel} {q : Nat → List Nat} (h : RdyInv k q)
    (hf : PendFrame k k') : RdyInv k' q := by
  obtain ⟨h1, _, _, h4, h5, _, _, h8, _, _, _⟩ := hf
  intro p hp
  unfold RdyFifo
  rw [h1, h4, h5, h8]
  exact h p hp

theorem BitMapInv_of_PendFrame {k k' : Kernel} {q : Nat → List Nat} (h : BitMapInv k q)
    (hf : PendFrame k k') : BitMapInv k' q := by
  obtain ⟨_, _, _, _, _, _, _, _, h9, _, _⟩ := hf
  unfold BitMapInv
  rw [h9]
  exact h

theorem PendRepr_of_RdyFrame {k k' : Kernel} {pl : OS_PEND_LIST} {l : List Nat}
    (h : PendRepr pl k l) (hf : RdyFrame k k') : PendRepr pl k' l := by
  obtain ⟨_, _, _, _, _, h6, h7, _, _⟩ := hf
  unfold PendRepr
  rw [h6, h7]
  exact h

theorem OSFlagPend_matched (f t mask opt fuel : Nat) (s : Sys)
    (hobj : s.objType f = OS_OBJ_TYPE_FLAG) (hcur : s.kernel.g_pCurrentTask = some t)
    (hm : IsFlagsMatch (s.flags f) t (recordWait t mask opt s) ≠ 0) :
    OSFlagPend fuel (some f) mask opt s =
      some { s with
        flags := Function.update s.flags f (s.flags f &&& u32_not mask)
        flagsMaskPendOn := Function.update s.flagsMaskPendOn t 0
        flagsPendOpt := Function.update s.flagsPendOpt t OS_FLAG_WAIT_NONE } := by
  have h2 : OS_FLAG_WAIT_SET_ANY ≠ 0 := by decide
  have hc : opt = OS_FLAG_WAIT_SET_ALL ∨ OS_FLAG_WAIT_SET_ANY ≠ 0 := Or.inr h2
  unfold recordWait at hm
  simp only [OSFlagPend, hobj, ne_eq, not_true_eq_false, if_false, hcur, hm, not_false_eq_true,
    if_true, hc, Function.update_idem]

theorem OSFlagPend_blocked (f t mask opt fuel : Nat) (s : Sys) (l : List Nat)
    (q : Nat → List Nat) (hwf : FlagWF f s l q) (hcur : s.kernel.g_pCurrentTask = some t)
    (hp : s.kernel.priority t < OS_CFG_PRIO_MAX) (ht : t ∈ q (s.kernel.priority t))
    (hm : IsFlagsMatch (s.flags f) t (recordWait t mask opt s) = 0)
    (hfuel : l.length < fuel) :
    ∃ s', OSFlagPend fuel (some f) mask opt s = some s' ∧
      FlagWF f s'
        (l.takeWhile (fun u => s.kernel.priority u < s.kernel.priority t) ++
          t :: l.dropWhile (fun u => s.kernel.priority u < s.kernel.priority t))
        (Function.update q (s.kernel.priority t) ((q (s.kernel.priority t)).erase t)) ∧
      s'.kernel.state = Function.update s.kernel.state t OS_TASK_STAT.OS_TASK_PEND ∧
      s'.pendObj = Function.update s.pendObj t (some f) ∧
      s'.flagsMaskPendOn = Function.update s.flagsMaskPendOn t mask ∧
      s'.flagsPendOpt = Function.update s.flagsPendOpt t opt ∧
      s'.flags = s.flags ∧ s'.objType = s.objType ∧
      s'.kernel.priority = s.kernel.priority ∧
      s'.kernel.g_pCurrentTask = s.kernel.g_pCurrentTask ∧
      (∀ g, g ≠ f → s'.pendList g = s.pendList g) := by
  obtain ⟨hobj, hrep, hinv, hbm, hw⟩ := hwf
  have htl : t ∉ l := fun h => (hw t h).2 _ hp ht
  obtain ⟨k1, e1, r1, b1, f1, _, _⟩ := OS_RdyTaskRemove_spec s.kernel q t hinv hbm hp ht
  have hrep1 : PendRepr (s.pendList f) k1 l := PendRepr_of_RdyFrame hrep f1
  obtain ⟨pl, k2, e2, r2, f2⟩ := OS_PendListInsert_spec (s.pendList f) k1 l t fuel hrep1 htl hfuel
  have hpr1 : k1.priority = s.kernel.priority := f1.1
  have hpr2 : k2.priority = k1.priority := f2.1
  rw [hpr1] at r2
  unfold recordWait at hm
  have hte : OSFlagPend fuel (some f) mask opt s = some (OS_Sched { recordWait t mask opt s with
      kernel := { k2 with state := Function.update k2.state t OS_TASK_STAT.OS_TASK_PEND }
      pendList := Function.update s.pendList f pl
      pendObj := Function.update s.pendObj t (some f) }) := by
    simp only [OSFlagPend, hobj, ne_eq, not_true_eq_false, if_false, hcur, hm, e1, e2,
      recordWait]
  refine ⟨_, hte, ⟨hobj, ?_, ?_, ?_, ?_⟩, ?_, rfl, rfl, rfl, rfl, rfl, ?_, ?_, ?_⟩
  · simp only [OS_Sched, recordWait, Function.update_same]
    exact r2
  · exact (RdyInv_of_PendFrame r1 f2 : RdyInv k2 _)
  · exact (BitMapInv_of_PendFrame b1 f2 : BitMapInv k2 _)
  · intro u hu
    simp only [OS_Sched, recordWait]
    rw [hpr2, hpr1]
    have hu' : u = t ∨ u ∈ l := by
      rcases List.mem_append.mp hu with h | h
      · exact Or.inr ((List.takeWhile_sublist _).subset h)
      · rcases List.mem_cons.mp h with h | h
        · exact Or.inl h
        · exact Or.inr ((List.dropWhile_sublist _).subset h)
    rcases hu' with rfl | hul
    · refine ⟨hp, fun p hpp => ?_⟩
      by_cases he : p = s.kernel.priority u
      · subst he
        rw [Function.update_same]
        exact List.Nodup.not_mem_erase (hinv _ hp).2.2.1
      · rw [Function.update_noteq he]
        intro hin
        exact he ((hinv p hpp).2.2.2 u hin).symm
    · refine ⟨(hw u hul).1, fun p hpp => ?_⟩
      by_cases he : p = s.kernel.priority t
      · subst he
        rw [Function.update_same]
        intro hin
        exact (hw u hul).2 _ hpp (List.mem_of_mem_erase hin)
      · rw [Function.update_noteq he]
        exact (hw u hul).2 p hpp
  · simp only [OS_Sched]
    rw [f2.2.2.1, f1.2.2.1]
  · simp only [OS_Sched]
    rw [hpr2, hpr1]
  · simp only [OS_Sched]
    rw [f2.2.2.2.2.2.2.2.2.2.2, f1.2.2.2.2.2.2.2.2]
  · intro g hg
    simp only [OS_Sched, recordWait, Function.update_noteq hg]

theorem OSFlagPost_wake_spec (f t : Nat) (s : Sys) (l1 l2 : List Nat) (q : Nat → List Nat)
    (hwf : FlagWF f s (l1 ++ t :: l2) q) :
    ∃ s', OSFlagPost_wake f t s = some s' ∧
      FlagWF f s' (l1 ++ l2)
        (Function.update q (s.kernel.priority t) (q (s.kernel.priority t) ++ [t])) ∧
      s'.kernel.state = Function.update s.kernel.state t OS_TASK_STAT.OS_TASK_READY ∧
      s'.pendObj = Function.update s.pendObj t none ∧
      s'.flags = Function.update s.flags f
        (if s.flagsPendOpt t = OS_FLAG_WAIT_SET_ALL ∨ s.flagsPendOpt t = OS_FLAG_WAIT_SET_ANY
          then s.flags f &&& u32_not (s.flagsMaskPendOn t) else s.flags f) ∧
      s'.flagsMaskPendOn = s.flagsMaskPendOn ∧ s'.flagsPendOpt = s.flagsPendOpt ∧
      s'.objType = s.objType ∧ s'.kernel.priority = s.kernel.priority ∧
      s'.kernel.g_pCurrentTask = s.kernel.g_pCurrentTask ∧
      (∀ g, g ≠ f → s'.pendList g = s.pendList g) := by
  obtain ⟨hobj, hrep, hinv, hbm, hw⟩ := hwf
  have htl : t ∈ l1 ++ t :: l2 := by simp
  have hp := (hw t htl).1
  have htq : t ∉ q (s.kernel.priority t) := (hw t htl).2 _ hp
  obtain ⟨pl, k1, e1, r1, f1⟩ := OS_PendListRemove_spec (s.pendList f) s.kernel l1 l2 t hrep
  have hpr1 : k1.priority = s.kernel.priority := f1.1
  have hinv1 : RdyInv k1 q := RdyInv_of_PendFrame hinv f1
  have hbm1 : BitMapInv k1 q := BitMapInv_of_PendFrame hbm f1
  obtain ⟨k2, e2, r2, b2, f2⟩ := OS_RdyTaskAdd_spec k1 q t hinv1 hbm1 (by rw [hpr1]; exact hp)
    (by rw [hpr1]; exact htq)
  rw [hpr1] at r2 b2
  have hpr2 : k2.priority = k1.priority := f2.1
  have hnd : (l1 ++ t :: l2).Nodup := hrep.2.2
  have hwf' : ∀ u ∈ l1 ++ l2, k2.priority u < OS_CFG_PRIO_MAX ∧ ∀ p, p < OS_CFG_PRIO_MAX →
      u ∉ Function.update q (s.kernel.priority t) (q (s.kernel.priority t) ++ [t]) p := by
    intro u hu
    have hul : u ∈ l1 ++ t :: l2 := by
      rcases List.mem_append.mp hu with h | h
      · exact List.mem_append_left _ h
      · exact List.mem_append_right _ (List.mem_cons_of_mem _ h)
    have hut : u ≠ t := by
      intro e
      subst e
      have := List.nodup_middle.mp hnd
      exact (List.nodup_cons.mp this).1 hu
    rw [hpr2, hpr1]
    refine ⟨(hw u hul).1, fun p hpp => ?_⟩
    by_cases he : p = s.kernel.priority t
    · subst he
      rw [Function.update_same]
      intro hin
      rcases List.mem_append.mp hin with h | h
      · exact (hw u hul).2 _ hpp h
      · exact hut (List.mem_singleton.mp h)
    · rw [Function.update_noteq he]
      exact (hw u hul).2 p hpp
  by_cases hset : s.flagsPendOpt t = OS_FLAG_WAIT_SET_ALL ∨
      s.flagsPendOpt t = OS_FLAG_WAIT_SET_ANY
  · have hte : OSFlagPost_wake f t s = some (OS_Sched { s with
        flags := Function.update s.flags f (s.flags f &&& u32_not (s.flagsMaskPendOn t))
        kernel := { k2 with state := Function.update k2.state t OS_TASK_STAT.OS_TASK_READY }
        pendList := Function.update s.pendList f pl
        pendObj := Function.update s.pendObj t none }) := by
      simp only [OSFlagPost_wake, hset, if_true, e1, e2]
    refine ⟨_, hte, ⟨hobj, ?_, (r2 : RdyInv k2 _), (b2 : BitMapInv k2 _), hwf'⟩, ?_, rfl, ?_,
      rfl, rfl, rfl, ?_, ?_, ?_⟩
    · simp only [OS_Sched, Function.update_same]
      exact (PendRepr_of_RdyFrame r1 f2 : PendRepr pl k2 _)
    · simp only [OS_Sched]
      rw [f2.2.2.1, f1.2.2.1]
    · simp only [OS_Sched, hset, if_true]
    · simp only [OS_Sched]
      rw [hpr2, hpr1]
    · simp only [OS_Sched]
      rw [f2.2.2.2.2.2.2.2.2, f1.2.2.2.2.2.2.2.2.2.2]
    · intro g hg
      simp only [OS_Sched, Function.update_noteq hg]
  · have hte : OSFlagPost_wake f t s = some (OS_Sched { s with
        kernel := { k2 with state := Function.update k2.state t OS_TASK_STAT.OS_TASK_READY }
        pendList := Function.update s.pendList f pl
        pendObj := Function.update s.pendObj t none }) := by
      simp only [OSFlagPost_wake, hset, if_false, e1, e2]
    refine ⟨_, hte, ⟨hobj, ?_, (r2 : RdyInv k2 _), (b2 : BitMapInv k2 _), hwf'⟩, ?_, rfl, ?_,
      rfl, rfl, rfl, ?_, ?_, ?_⟩
    · simp only [OS_Sched, Function.update_same]
      exact (PendRepr_of_RdyFrame r1 f2 : PendRepr pl k2 _)
    · simp only [OS_Sched]
      rw [f2.2.2.1, f1.2.2.1]
    · simp only [OS_Sched, hset, if_false, Function.update_eq_self]
    · simp only [OS_Sched]
      rw [hpr2, hpr1]
    · simp only [OS_Sched]
      rw [f2.2.2.2.2.2.2.2.2, f1.2.2.2.2.2.2.2.2.2.2]
    · intro g hg
      simp only [OS_Sched, Function.update_noteq hg]

theorem FlagWF_flags (f : Nat) (s : Sys) (l : List Nat) (q : Nat → List Nat) (w : Nat)
    (hwf : FlagWF f s l q) :
    FlagWF f { s with flags := Function.update s.flags f w } l q := hwf

theorem OSFlagPost_spec (f mask opt fuel : Nat) (s : Sys) (l : List Nat) (q : Nat → List Nat)
    (hwf : FlagWF f s l q) (hfuel : l.length < fuel) :
    ((∀ u ∈ l, IsFlagsMatch (postedFlags (s.flags f) mask opt) u s = 0) ∧
      OSFlagPost fuel (some f) mask opt s =
        some { s with flags := Function.update s.flags f (postedFlags (s.flags f) mask opt) }) ∨
    (∃ l1 t l2 s', l = l1 ++ t :: l2 ∧
      IsFlagsMatch (postedFlags (s.flags f) mask opt) t s ≠ 0 ∧
      (∀ u ∈ l, IsFlagsMatch (postedFlags (s.flags f) mask opt) u s ≠ 0 →
        s.kernel.priority t ≤ s.kernel.priority u) ∧
      OSFlagPost fuel (some f) mask opt s = some s' ∧
      FlagWF f s' (l1 ++ l2)
        (Function.update q (s.kernel.priority t) (q (s.kernel.priority t) ++ [t])) ∧
      s'.kernel.state = Function.update s.kernel.state t OS_TASK_STAT.OS_TASK_READY ∧
      s'.pendObj = Function.update s.pendObj t none ∧
      s'.flags = Function.update s.flags f
        (if s.flagsPendOpt t = OS_FLAG_WAIT_SET_ALL ∨ s.flagsPendOpt t = OS_FLAG_WAIT_SET_ANY
          then postedFlags (s.flags f) mask opt &&& u32_not (s.flagsMaskPendOn t)
          else postedFlags (s.flags f) mask opt) ∧
      s'.flagsMaskPendOn = s.flagsMaskPendOn ∧ s'.flagsPendOpt = s.flagsPendOpt ∧
      s'.objType = s.objType ∧ s'.kernel.priority = s.kernel.priority ∧
      s'.kernel.g_pCurrentTask = s.kernel.g_pCurrentTask ∧
      (∀ g, g ≠ f → s'.pendList g = s.pendList g)) := by
  have hobj := hwf.1
  have hrep := hwf.2.1
  have hwf1 := FlagWF_flags f s l q (postedFlags (s.flags f) mask opt) hwf
  have hcongr : ∀ u, IsFlagsMatch (postedFlags (s.flags f) mask opt) u
      { s with flags := Function.update s.flags f (postedFlags (s.flags f) mask opt) } =
      IsFlagsMatch (postedFlags (s.flags f) mask opt) u s :=
    fun u => IsFlagsMatch_congr _ u _ _ rfl rfl
  cases l with
  | nil =>
    left
    refine ⟨fun u hu => (by cases hu), ?_⟩
    have hh : (s.pendList f).headPtr = none := hrep.1
    simp only [OSFlagPost, hobj, ne_eq, not_true_eq_false, if_false, hh, postedFlags]
  | cons a l' =>
    have hh : (s.pendList f).headPtr = some a := hrep.1.1
    have hloop := PendListGetHighestMatch_loop_spec (postedFlags (s.flags f) mask opt)
      { s with flags := Function.update s.flags f (postedFlags (s.flags f) mask opt) }
      (a :: l') fuel (s.pendList f).headPtr none none hrep.1 hfuel
    obtain ⟨p1, p2⟩ := pick_foldl_spec (postedFlags (s.flags f) mask opt)
      { s with flags := Function.update s.flags f (postedFlags (s.flags f) mask opt) }
      (a :: l') none
    have hpre : OSFlagPost fuel (some f) mask opt s =
        match (a :: l').foldl (PendListGetHighestMatch_pick (postedFlags (s.flags f) mask opt)
          { s with flags := Function.update s.flags f (postedFlags (s.flags f) mask opt) })
          none with
        | none => some { s with
            flags := Function.update s.flags f (postedFlags (s.flags f) mask opt) }
        | some t => OSFlagPost_wake f t { s with
            flags := Function.update s.flags f (postedFlags (s.flags f) mask opt) } := by
      rw [hh] at hloop
      have hpf : (if opt = OS_FLAG_SET then s.flags f ||| mask else s.flags f &&& u32_not mask) =
          postedFlags (s.flags f) mask opt := rfl
      simp only [OSFlagPost, hobj, ne_eq, not_true_eq_false, if_false, hh, hpf,
        PendListGetHighestMatch, not_false_eq_true, if_true, reduceCtorEq, hloop]
      generalize List.foldl _ none (a :: l') = r
      cases r <;> rfl
    cases hr : (a :: l').foldl (PendListGetHighestMatch_pick (postedFlags (s.flags f) mask opt)
        { s with flags := Function.update s.flags f (postedFlags (s.flags f) mask opt) })
        none with
    | none =>
      left
      rw [hr] at hpre
      refine ⟨fun u hu => ?_, hpre⟩
      rw [← hcongr u]
      exact (p1 hr).2 u hu
    | some t =>
      right
      rw [hr] at hpre
      obtain ⟨g1, _, g3⟩ := p2 t hr
      have htm : t ∈ a :: l' ∧ IsFlagsMatch (postedFlags (s.flags f) mask opt) t
          { s with flags := Function.update s.flags f (postedFlags (s.flags f) mask opt) } ≠ 0 := by
        rcases g1 with g | g
        · cases g
        · exact g
      obtain ⟨l1, l2, e⟩ := List.append_of_mem htm.1
      rw [e] at hwf1
      obtain ⟨s', w1, w2, w3, w4, w5, w6, w7, w8, w9, w10, w11⟩ :=
        OSFlagPost_wake_spec f t _ l1 l2 q hwf1
      refine ⟨l1, t, l2, s', e, ?_, ?_, hpre.trans w1, w2, w3, w4, ?_, w6, w7, w8, w9, w10, w11⟩
      · rw [← hcongr t]; exact htm.2
      · intro u hu hm
        rw [← hcongr u] at hm
        exact g3 u hu hm
      · rw [w5]
        simp only [Function.update_same, Function.update_idem]

theorem DSeg_unique {nx pv : Nat → Option Nat} :
    ∀ (l l' : List Nat) (q q' p : Option Nat),
      DSeg nx pv q p l none → DSeg nx pv q' p l' none → l = l' := by
  intro l
  induction l with
  | nil =>
    intro l' q q' p h h'
    cases l' with
    | nil => rfl
    | cons a l' =>
      have h1 : p = none := h
      have h2 : p = some a := h'.1
      rw [h1] at h2; cases h2
  | cons a l ih =>
    intro l' q q' p h h'
    cases l' with
    | nil =>
      have h1 : p = none := h'
      have h2 : p = some a := h.1
      rw [h1] at h2; cases h2
    | cons b l' =>
      have e : a = b := by
        have h1 := h.1
        have h2 := h'.1
        rw [h1] at h2
        exact Option.some.inj h2
      subst e
      rw [ih l' _ _ _ h.2.2 h'.2.2]

theorem RdyInv_unique {k : Kernel} {q q' : Nat → List Nat} (h : RdyInv k q) (h' : RdyInv k q')
    (p : Nat) (hp : p < OS_CFG_PRIO_MAX) : q p = q' p :=
  DSeg_unique _ _ _ _ _ (h p hp).1 (h' p hp).1

theorem OSFlagPend_mono (fuel n f mask opt : Nat) (s s' : Sys)
    (h : OSFlagPend fuel (some f) mask opt s = some s') :
    OSFlagPend (fuel + n) (some f) mask opt s = some s' := by
  unfold OSFlagPend at h ⊢
  simp only at h ⊢
  split at h
  · rename_i hobj; rw [if_pos hobj]; exact h
  · rename_i hobj
    rw [if_neg hobj]
    cases hcur : s.kernel.g_pCurrentTask with
    | none => rw [hcur] at h; cases h
    | some cur =>
      rw [hcur] at h
      simp only at h ⊢
      split at h
      · rename_i hm; rw [if_pos hm]; exact h
      · rename_i hm
        rw [if_neg hm]
        cases hrem : OS_RdyTaskRemove (some cur) s.kernel with
        | none => simp only [hrem] at h; cases h
        | some k1 =>
          simp only [hrem] at h ⊢
          cases hins : OS_PendListInsert fuel (some (s.pendList f)) (some cur) k1 with
          | none => simp only [hins] at h; cases h
          | some r =>
            rw [OS_PendListInsert_mono fuel n _ cur k1 r hins]
            rw [hins] at h
            exact h

theorem PendListGetHighestMatch_mono (fuel n flags : Nat) (pl : OS_PEND_LIST) (s : Sys)
    (r : Option Nat) (h : PendListGetHighestMatch fuel (some pl) flags s = some r) :
    PendListGetHighestMatch (fuel + n) (some pl) flags s = some r := by
  unfold PendListGetHighestMatch at h ⊢
  simp only at h ⊢
  split at h
  · rename_i h0; rw [if_pos h0]; exact h
  · rename_i h0
    rw [if_neg h0]
    exact PendListGetHighestMatch_loop_mono _ _ fuel n _ _ r h

theorem OSFlagPost_mono (fuel n f mask opt : Nat) (s s' : Sys)
    (h : OSFlagPost fuel (some f) mask opt s = some s') :
    OSFlagPost (fuel + n) (some f) mask opt s = some s' := by
  unfold OSFlagPost at h ⊢
  simp only at h ⊢
  split at h
  · rename_i hobj; rw [if_pos hobj]; exact h
  · rename_i hobj
    rw [if_neg hobj]
    split at h
    · rename_i hh
      rw [if_pos hh]
      split at h
      · cases h
      · rename_i hg
        rw [PendListGetHighestMatch_mono fuel n _ _ _ _ hg]
        exact h
      · rename_i t hg
        rw [PendListGetHighestMatch_mono fuel n _ _ _ _ hg]
        exact h
    · rename_i hh
      rw [if_neg hh]
      exact h

theorem FlagWF_create (f init_flags : Nat) (s0 s : Sys) (q0 : Nat → List Nat)
    (hinv : RdyInv s0.kernel q0) (hbm : BitMapInv s0.kernel q0)
    (hc : OSFlagCreate (some f) init_flags s0 = some s) :
    FlagWF f s [] q0 ∧ s.kernel = s0.kernel ∧ s.pendObj = s0.pendObj ∧
      s.flags f = init_flags := by
  simp only [OSFlagCreate, Option.some.injEq] at hc
  subst hc
  refine ⟨⟨by simp, ⟨?_, fun h => absurd rfl h, List.nodup_nil⟩, hinv, hbm,
    fun t ht => (by cases ht)⟩, rfl, rfl, by simp⟩
  simp only [Function.update_same]
  rfl

theorem FlagReach_inv (f : Nat) (s : Sys) (h : FlagReach f s) :
    ∃ l q, FlagWF f s l q ∧
      ∀ t, t ∈ l ↔ (s.kernel.state t = OS_TASK_STAT.OS_TASK_PEND ∧ s.pendObj t = some f) := by
  induction h with
  | create s0 s q0 init_flags hinv hbm hno hc =>
    obtain ⟨w1, _, w3, _⟩ := FlagWF_create f init_flags s0 s q0 hinv hbm hc
    refine ⟨[], q0, w1, fun t => ⟨fun h => (by cases h), fun h => ?_⟩⟩
    rw [w3] at h
    exact absurd h.2 (hno t)
  | pend s s' q t fuel mask opt _ hcur hq hp ht hpend ih =>
    obtain ⟨l, q1, hwf, hiff⟩ := ih
    have hqe : q (s.kernel.priority t) = q1 (s.kernel.priority t) :=
      RdyInv_unique hq hwf.2.2.1 _ hp
    rw [hqe] at ht
    by_cases hm : IsFlagsMatch (s.flags f) t (recordWait t mask opt s) = 0
    · obtain ⟨s2, e, w1, w2, w3, _⟩ := OSFlagPend_blocked f t mask opt (fuel + (l.length + 1)) s
        l q1 hwf hcur hp ht hm (by omega)
      rw [OSFlagPend_mono fuel _ f mask opt s s' hpend] at e
      simp only [Option.some.injEq] at e
      subst e
      refine ⟨_, _, w1, fun u => ?_⟩
      have hmem : u ∈ l.takeWhile (fun u => s.kernel.priority u < s.kernel.priority t) ++
          t :: l.dropWhile (fun u => s.kernel.priority u < s.kernel.priority t) ↔
          (u = t ∨ u ∈ l) := by
        constructor
        · intro hu
          rcases List.mem_append.mp hu with h | h
          · exact Or.inr ((List.takeWhile_sublist _).subset h)
          · rcases List.mem_cons.mp h with h | h
            · exact Or.inl h
            · exact Or.inr ((List.dropWhile_sublist _).subset h)
        · intro hu
          rcases hu with h | h
          · rw [h]; simp
          · have : u ∈ l.takeWhile (fun u => s.kernel.priority u < s.kernel.priority t) ++
                l.dropWhile (fun u => s.kernel.priority u < s.kernel.priority t) := by
              rw [List.takeWhile_append_dropWhile]; exact h
            rcases List.mem_append.mp this with h | h
            · exact List.mem_append_left _ h
            · exact List.mem_append_right _ (List.mem_cons_of_mem _ h)
      rw [hmem, w2, w3]
      by_cases hut : u = t
      · subst hut
        simp
      · simp only [hut, false_or, Function.update_noteq hut]
        exact hiff u
    · have e := OSFlagPend_matched f t mask opt fuel s hwf.1 hcur hm
      rw [hpend] at e
      simp only [Option.some.injEq] at e
      subst e
      exact ⟨l, q1, hwf, hiff⟩
  | post s s' fuel mask opt _ hpost ih =>
    obtain ⟨l, q1, hwf, hiff⟩ := ih
    have hbig := OSFlagPost_mono fuel (l.length + 1) f mask opt s s' hpost
    rcases OSFlagPost_spec f mask opt (fuel + (l.length + 1)) s l q1 hwf (by omega) with
      ⟨_, e⟩ | ⟨l1, t, l2, s2, el, _, _, e, w1, w2, w3, _⟩
    · rw [hbig] at e
      simp only [Option.some.injEq] at e
      subst e
      exact ⟨l, q1, hwf, hiff⟩
    · rw [hbig] at e
      simp only [Option.some.injEq] at e
      subst e
      subst el
      have hnd : (l1 ++ t :: l2).Nodup := hwf.2.1.2.2
      have hnd' := List.nodup_middle.mp hnd
      refine ⟨_, _, w1, fun u => ?_⟩
      rw [w2, w3]
      by_cases hut : u = t
      · subst hut
        simp only [Function.update_same]
        constructor
        · intro hu; exact absurd hu (List.nodup_cons.mp hnd').1
        · intro hu; exact absurd hu.1 (by decide)
      · simp only [Function.update_noteq hut]
        rw [← hiff u]
        simp only [List.mem_append, List.mem_cons, hut, false_or]
  | switch s t _ ih =>
    obtain ⟨l, q1, hwf, hiff⟩ := ih
    exact ⟨l, q1, hwf, hiff⟩

theorem FlagWF_setCurrent {f : Nat} {s : Sys} {l : List Nat} {q : Nat → List Nat}
    (t : Option Nat) (h : FlagWF f s l q) : FlagWF f (setCurrent t s) l q := h

theorem exW0_wf : FlagWF 100 exW0 [] exQ3 :=
  (FlagWF_create 100 0 exS0 exW0 exQ3 (RdyReach_inv exK3_reach).1 (RdyReach_inv exK3_reach).2.1
    rfl).1

theorem exW1_wf : FlagWF 100 exW1 [5] (Function.update exQ3 1 [1]) := by
  obtain ⟨s', e, w, _⟩ := OSFlagPend_blocked 100 5 3 OS_FLAG_WAIT_SET_ANY 8 exW0 [] exQ3
    exW0_wf rfl (by decide) (by decide) (by decide) (by decide)
  have e' : OSFlagPend 8 (some 100) 3 OS_FLAG_WAIT_SET_ANY exW0 = some exW1 := rfl
  rw [e'] at e
  cases e
  exact w

theorem exW2_wf :
    FlagWF 100 exW2 [1, 5] (Function.update (Function.update exQ3 1 [1]) 1 []) := by
  obtain ⟨s', e, w, _⟩ := OSFlagPend_blocked 100 1 3 OS_FLAG_WAIT_SET_ALL 8
    (setCurrent (some 1) exW1) [5] (Function.update exQ3 1 [1])
    (FlagWF_setCurrent _ exW1_wf) rfl (by decide) (by decide) (by decide) (by decide)
  have e' : OSFlagPend 8 (some 100) 3 OS_FLAG_WAIT_SET_ALL (setCurrent (some 1) exW1) =
      some exW2 := rfl
  rw [e'] at e
  cases e
  exact w

theorem exW3_wf :
    FlagWF 100 exW3 [1, 5, 2]
      (Function.update (Function.update (Function.update exQ3 1 [1]) 1 []) 2 []) := by
  obtain ⟨s', e, w, _⟩ := OSFlagPend_blocked 100 2 7 OS_FLAG_WAIT_SET_ALL 8
    (setCurrent (some 2) exW2) [1, 5] (Function.update (Function.update exQ3 1 [1]) 1 [])
    (FlagWF_setCurrent _ exW2_wf) rfl (by decide) (by decide) (by decide) (by decide)
  have e' : OSFlagPend 8 (some 100) 7 OS_FLAG_WAIT_SET_ALL (setCurrent (some 2) exW2) =
      some exW3 := rfl
  rw [e'] at e
  cases e
  exact w

theorem exV2_wf :
    FlagWF 100 exV2 [5, 2] (Function.update (Function.update exQ3 1 [1]) 2 []) := by
  obtain ⟨s', e, w, _⟩ := OSFlagPend_blocked 100 2 3 OS_FLAG_WAIT_SET_ALL 8
    (setCurrent (some 2) exW1) [5] (Function.update exQ3 1 [1])
    (FlagWF_setCurrent _ exW1_wf) rfl (by decide) (by decide) (by decide) (by decide)
  have e' : OSFlagPend 8 (some 100) 3 OS_FLAG_WAIT_SET_ALL (setCurrent (some 2) exW1) =
      some exV2 := rfl
  rw [e'] at e
  cases e
  exact w

theorem exW3_reach : FlagReach 100 exW3 := by
  have h0 : FlagReach 100 exW0 :=
    FlagReach.create exS0 exW0 exQ3 0 (RdyReach_inv exK3_reach).1 (RdyReach_inv exK3_reach).2.1
      (fun t h => by cases h) rfl
  have h1 : FlagReach 100 exW1 :=
    FlagReach.pend exW0 exW1 exQ3 5 8 3 OS_FLAG_WAIT_SET_ANY h0 rfl exW0_wf.2.2.1 (by decide)
      (by decide) rfl
  have h2 : FlagReach 100 exW2 :=
    FlagReach.pend (setCurrent (some 1) exW1) exW2 (Function.update exQ3 1 [1]) 1 8 3
      OS_FLAG_WAIT_SET_ALL (FlagReach.switch exW1 (some 1) h1) rfl exW1_wf.2.2.1 (by decide)
      (by decide) rfl
  exact FlagReach.pend (setCurrent (some 2) exW2) exW3
    (Function.update (Function.update exQ3 1 [1]) 1 []) 2 8 7
    OS_FLAG_WAIT_SET_ALL (FlagReach.switch exW2 (some 2) h2) rfl exW2_wf.2.2.1 (by decide)
    (by decide) rfl

theorem u32_not_and_testBit (w m i : Nat) (hw : w < 2 ^ 32) :
    (w &&& u32_not m).testBit i = (w.testBit i && !m.testBit i) := by
  unfold u32_not
  rw [Nat.testBit_and, Nat.testBit_xor, Nat.testBit_mod_two_pow, Nat.testBit_two_pow_sub_one]
  by_cases h : i < 32
  · simp [h]
  · have hwi : w.testBit i = false :=
      Nat.testBit_lt_two_pow (lt_of_lt_of_le hw (Nat.pow_le_pow_right (by decide) (by omega)))
    simp [h, hwi]

theorem postedFlags_lt (flags mask opt : Nat) (hf : flags < 2 ^ 32) (hm : mask < 2 ^ 32) :
    postedFlags flags mask opt < 2 ^ 32 := by
  unfold postedFlags
  split
  · exact Nat.or_lt_two_pow hf hm
  · exact lt_of_le_of_lt Nat.and_le_left hf

/-- C24: the code at the failing input. The flag group at address 100 holds the word `0b01`;
the current task, task 5, calls `OSFlagPend` with mask `0b11` and mode `WAIT_CLR_ANY`. The
condition is satisfied (`0b01 & 0b11 ≠ 0b11`), the call returns without blocking (kernel lists
and wait queue unchanged), and the flag word is 0 afterwards: the mask bits have been cleared,
although the mode is a CLR mode. -/
theorem C24_pend_clr_any_consumes_flags :
    OSFlagCreate (some 100) 1 exS0 = some exF1 ∧
    exF1.kernel.g_pCurrentTask = some 5 ∧ exF1.flags 100 = 1 ∧
    IsFlagsMatch (exF1.flags 100) 5 (recordWait 5 3 OS_FLAG_WAIT_CLR_ANY exF1) = 1 ∧
    OSFlagPend 8 (some 100) 3 OS_FLAG_WAIT_CLR_ANY exF1 = some exF2 ∧
    exF2.kernel = exF1.kernel ∧ exF2.pendList 100 = exF1.pendList 100 ∧
    exF2.flags 100 = 0 ∧ exF2.flags 100 ≠ exF1.flags 100 :=
  ⟨rfl, rfl, by decide, by decide, rfl, rfl, rfl, by decide, by decide⟩

/-- C25: `OSFlagPend` queues the blocked task in front of an earlier waiter of the same
priority. The group at address 100 is created empty in `exW0`; task 5 (priority 1) pends on
it first, which gives `exW1`: task 5 is the only waiter and task 1 (priority 1 as well) is
ready. Task 1, as the current task, then calls `OSFlagPend(mask 0b011, WAIT_SET_ALL)`; the
flag word is 0 and does not satisfy the condition. The call returns: task 1 is gone from its
ready FIFO, its state is `PEND`, its `pendObj` is the group, its recorded mask and mode are
those of the call, the flag word is unchanged and a switch has been requested. The wait
queue, however, is (1, 5): task 1 stands in front of task 5, the waiter of equal priority that
arrived before it, and `OS_PendListGetHighest` returns task 1. -/
theorem C25_pend_queues_in_front_of_equal_priority :
    FlagWF 100 exW0 [] exQ3 ∧
    OSFlagPend 8 (some 100) 3 OS_FLAG_WAIT_SET_ANY exW0 = some exW1 ∧
    FlagWF 100 exW1 [5] (Function.update exQ3 1 [1]) ∧
    (setCurrent (some 1) exW1).kernel.g_pCurrentTask = some 1 ∧
    exW1.kernel.priority 1 = 1 ∧ exW1.kernel.priority 5 = 1 ∧ exW1.flags 100 = 0 ∧
    IsFlagsMatch ((setCurrent (some 1) exW1).flags 100) 1
      (recordWait 1 3 OS_FLAG_WAIT_SET_ALL (setCurrent (some 1) exW1)) = 0 ∧
    OSFlagPend 8 (some 100) 3 OS_FLAG_WAIT_SET_ALL (setCurrent (some 1) exW1) = some exW2 ∧
    RdyInv exW2.kernel (Function.update (Function.update exQ3 1 [1]) 1 []) ∧
    BitMapInv exW2.kernel (Function.update (Function.update exQ3 1 [1]) 1 []) ∧
    exW2.kernel.state 1 = OS_TASK_STAT.OS_TASK_PEND ∧ exW2.pendObj 1 = some 100 ∧
    exW2.flagsMaskPendOn 1 = 3 ∧ exW2.flagsPendOpt 1 = OS_FLAG_WAIT_SET_ALL ∧
    exW2.flags 100 = exW1.flags 100 ∧ exW2.schedRequested = true ∧
    PendRepr (exW2.pendList 100) exW2.kernel [1, 5] ∧
    walk exW2.kernel.pendNextPtr 8 (exW2.pendList 100).headPtr = [1, 5] ∧
    OS_PendListGetHighest (some (exW2.pendList 100)) = some 1 := by
  refine ⟨exW0_wf, rfl, exW1_wf, rfl, by decide, by decide, by decide, by decide, rfl,
    exW2_wf.2.2.1, exW2_wf.2.2.2.1, by decide, by decide, by decide, by decide, by decide,
    by decide, exW2_wf.2.1, by decide, by decide⟩

theorem IsFlagsMatch_bool (f t : Nat) (s : Sys) :
    IsFlagsMatch f t s = 1 ∨ IsFlagsMatch f t s = 0 := by
  unfold IsFlagsMatch
  simp only
  repeat' split
  all_goals first | exact Or.inl rfl | exact Or.inr rfl

/-- C27: the flag word after `OSFlagPost`. The group `f` is well formed with waiters `l`; the
flag word and the mask are 32-bit values; `w` is the updated word. `OSFlagPost` returns, and:
if no waiter is woken the flag word is `w`; if the waiter `t` is woken and waited in mode
`WAIT_SET_ALL` or `WAIT_SET_ANY`, the flag word is `w` with the bits of the mask of `t`
cleared; if `t` waited in another mode (`WAIT_CLR_ALL`, `WAIT_CLR_ANY`), the flag word is
`w`. -/
theorem C27_post_flag_word (f mask opt fuel : Nat) (s : Sys) (l : List Nat)
    (q : Nat → List Nat) (hwf : FlagWF f s l q) (hfuel : l.length < fuel)
    (hflags : s.flags f < 2 ^ 32) (hmask : mask < 2 ^ 32) :
    ∃ s', OSFlagPost fuel (some f) mask opt s = some s' ∧
      (((∀ u ∈ l, IsFlagsMatch (postedFlags (s.flags f) mask opt) u s = 0) ∧
          PendRepr (s'.pendList f) s'.kernel l ∧
          s'.flags f = postedFlags (s.flags f) mask opt) ∨
        (∃ l1 t l2, l = l1 ++ t :: l2 ∧
          IsFlagsMatch (postedFlags (s.flags f) mask opt) t s = 1 ∧
          PendRepr (s'.pendList f) s'.kernel (l1 ++ l2) ∧
          s'.kernel.state t = OS_TASK_STAT.OS_TASK_READY ∧
          ((s.flagsPendOpt t = OS_FLAG_WAIT_SET_ALL ∨ s.flagsPendOpt t = OS_FLAG_WAIT_SET_ANY) →
            s'.flags f = postedFlags (s.flags f) mask opt &&& u32_not (s.flagsMaskPendOn t) ∧
            ∀ i, (s'.flags f).testBit i =
              ((postedFlags (s.flags f) mask opt).testBit i &&
                !(s.flagsMaskPendOn t).testBit i)) ∧
          (¬ (s.flagsPendOpt t = OS_FLAG_WAIT_SET_ALL ∨
              s.flagsPendOpt t = OS_FLAG_WAIT_SET_ANY) →
            s'.flags f = postedFlags (s.flags f) mask opt))) := by
  have hlt := postedFlags_lt (s.flags f) mask opt hflags hmask
  rcases OSFlagPost_spec f mask opt fuel s l q hwf hfuel with
    ⟨hno, e⟩ | ⟨l1, t, l2, s', el, hm, _, e, w1, w2, _, w4, _⟩
  · exact ⟨_, e, Or.inl ⟨hno, hwf.2.1, by simp⟩⟩
  · have h1 : IsFlagsMatch (postedFlags (s.flags f) mask opt) t s = 1 := by
      rcases IsFlagsMatch_bool (postedFlags (s.flags f) mask opt) t s with h | h
      · exact h
      · exact absurd h hm
    refine ⟨s', e, Or.inr ⟨l1, t, l2, el, h1, w1.2.1, by rw [w2]; simp, ?_, ?_⟩⟩
    · intro hset
      have hf : s'.flags f =
          postedFlags (s.flags f) mask opt &&& u32_not (s.flagsMaskPendOn t) := by
        rw [w4]; simp [hset]
      refine ⟨hf, fun i => ?_⟩
      rw [hf]
      exact u32_not_and_testBit _ _ i hlt
    · intro hset
      rw [w4]; simp [hset]

/-- C27, instantiated: the flag word is 0; task 5 (priority 1) waits in mode `WAIT_SET_ANY`
with mask `0b0011`, task 2 (priority 2) in mode `WAIT_SET_ALL` with mask `0b0011`; `0b0001` is
posted. The code wakes task 5, the flag word is 0 afterwards (bits `0b0011` clear), and task 2
is still in the wait queue. -/
theorem C27_post_flag_word_witness :
    FlagWF 100 exV2 [5, 2] (Function.update (Function.update exQ3 1 [1]) 2 []) ∧
    [5, 2].length < 8 ∧ exV2.flags 100 < 2 ^ 32 ∧ 1 < 2 ^ 32 ∧
    (exV2.flags 100 = 0 ∧
      exV2.flagsPendOpt 5 = OS_FLAG_WAIT_SET_ANY ∧ exV2.flagsMaskPendOn 5 = 3 ∧
      exV2.flagsPendOpt 2 = OS_FLAG_WAIT_SET_ALL ∧ exV2.flagsMaskPendOn 2 = 3 ∧
      exV2.kernel.priority 5 < exV2.kernel.priority 2) ∧
    (OSFlagPost 8 (some 100) 1 OS_FLAG_SET exV2 = some exV3 ∧
      exV3.flags 100 = 0 ∧ exV3.kernel.state 5 = OS_TASK_STAT.OS_TASK_READY ∧
      walk exV3.kernel.pendNextPtr 4 (exV3.pendList 100).headPtr = [2] ∧
      walk exV3.kernel.rdyNextPtr 4 (exV3.kernel.s_OSRdyLists 1).headPtr = [1, 5]) ∧
    ∃ s', OSFlagPost 8 (some 100) 1 OS_FLAG_SET exV2 = some s' ∧
      (((∀ u ∈ [5, 2], IsFlagsMatch (postedFlags (exV2.flags 100) 1 OS_FLAG_SET) u exV2 = 0) ∧
          PendRepr (s'.pendList 100) s'.kernel [5, 2] ∧
          s'.flags 100 = postedFlags (exV2.flags 100) 1 OS_FLAG_SET) ∨
        (∃ l1 t l2, [5, 2] = l1 ++ t :: l2 ∧
          IsFlagsMatch (postedFlags (exV2.flags 100) 1 OS_FLAG_SET) t exV2 = 1 ∧
          PendRepr (s'.pendList 100) s'.kernel (l1 ++ l2) ∧
          s'.kernel.state t = OS_TASK_STAT.OS_TASK_READY ∧
          ((exV2.flagsPendOpt t = OS_FLAG_WAIT_SET_ALL ∨
              exV2.flagsPendOpt t = OS_FLAG_WAIT_SET_ANY) →
            s'.flags 100 =
              postedFlags (exV2.flags 100) 1 OS_FLAG_SET &&& u32_not (exV2.flagsMaskPendOn t) ∧
            ∀ i, (s'.flags 100).testBit i =
              ((postedFlags (exV2.flags 100) 1 OS_FLAG_SET).testBit i &&
                !(exV2.flagsMaskPendOn t).testBit i)) ∧
          (¬ (exV2.flagsPendOpt t = OS_FLAG_WAIT_SET_ALL ∨
              exV2.flagsPendOpt t = OS_FLAG_WAIT_SET_ANY) →
            s'.flags 100 = postedFlags (exV2.flags 100) 1 OS_FLAG_SET))) :=
  ⟨exV2_wf, by decide, by decide, by decide,
    ⟨by decide, by decide, by decide, by decide, by decide, by decide⟩,
    ⟨rfl, by decide, by decide, by decide, by decide⟩,
    C27_post_flag_word 100 1 OS_FLAG_SET 8 exV2 [5, 2] _ exV2_wf (by decide) (by decide)
      (by decide)⟩

/-- C28: wait queue membership, state and `pendObj`. In every state reachable for the flag
group `f` (created by `OSFlagCreate` while no task waits for `f`, then any sequence of
`OSFlagPend` by a current task that is queued ready, `OSFlagPost` and changes of the current
task), the wait queue of `f` holds a list of tasks `l` and the ready FIFOs hold `q`, such that
a task is in `l` if and only if its state is `PEND` and its `pendObj` is `f`, and no task of
`l` is in a ready FIFO. -/
theorem C28_pend_state_iff_in_wait_queue (f : Nat) (s : Sys) (h : FlagReach f s) :
    ∃ l q, PendRepr (s.pendList f) s.kernel l ∧ RdyInv s.kernel q ∧ BitMapInv s.kernel q ∧
      (∀ t, t ∈ l ↔
        (s.kernel.state t = OS_TASK_STAT.OS_TASK_PEND ∧ s.pendObj t = some f)) ∧
      (∀ t ∈ l, ∀ p, p < OS_CFG_PRIO_MAX → t ∉ q p) := by
  obtain ⟨l, q, hwf, hiff⟩ := FlagReach_inv f s h
  exact ⟨l, q, hwf.2.1, hwf.2.2.1, hwf.2.2.2.1, hiff, fun t ht => (hwf.2.2.2.2 t ht).2⟩

/-- C28, instantiated: the state `exW3`, reached by three blocking `OSFlagPend` calls. -/
theorem C28_pend_state_iff_in_wait_queue_witness :
    FlagReach 100 exW3 ∧
    ∃ l q, PendRepr (exW3.pendList 100) exW3.kernel l ∧ RdyInv exW3.kernel q ∧
      BitMapInv exW3.kernel q ∧
      (∀ t, t ∈ l ↔
        (exW3.kernel.state t = OS_TASK_STAT.OS_TASK_PEND ∧ exW3.pendObj t = some 100)) ∧
      (∀ t ∈ l, ∀ p, p < OS_CFG_PRIO_MAX → t ∉ q p) :=
  ⟨exW3_reach, C28_pend_state_iff_in_wait_queue 100 exW3 exW3_reach⟩

/-! ## Removing a task that is not queued -/

theorem exK2_reach : RdyReach exK2 exQ2 := by
  have h0 := RdyReach.init exK0
  have h1 := RdyReach.add _ exK1 _ 5 h0 (by decide) (by simp) rfl
  exact RdyReach.add _ exK2 _ 1 h1 (by decide) (by decide) rfl

/-- C30 as stated fails: in `exK2` ready FIFO 1 holds tasks 5 and 1; task 9 has priority 1, is
in no ready FIFO and has null ready links. `OS_RdyTaskRemove` of task 9 returns, and afterwards
the head pointer of ready FIFO 1 is null (the FIFO reads as empty) and bit 1 of the priority
bitmap is cleared. -/
theorem C30_remove_unqueued_counterexample :
    RdyInv exK2 exQ2 ∧ BitMapInv exK2 exQ2 ∧ exK2.priority 9 < OS_CFG_PRIO_MAX ∧
    (∀ p, p < OS_CFG_PRIO_MAX → 9 ∉ exQ2 p) ∧
    exK2.rdyNextPtr 9 = none ∧ exK2.rdyPrevPtr 9 = none ∧
    walk exK2.rdyNextPtr 4 (exK2.s_OSRdyLists 1).headPtr = [5, 1] ∧
    exK2.s_OSPrioBitMap.testBit (31 - 1) = true ∧
    OS_RdyTaskRemove (some 9) exK2 = some exR9 ∧
    (exR9.s_OSRdyLists 1).headPtr = none ∧
    walk exR9.rdyNextPtr 4 (exR9.s_OSRdyLists 1).headPtr = [] ∧
    exR9.s_OSPrioBitMap.testBit (31 - 1) = false ∧
    exR9.s_OSRdyLists 1 ≠ exK2.s_OSRdyLists 1 ∧
    exR9.s_OSPrioBitMap ≠ exK2.s_OSPrioBitMap := by
  refine ⟨(RdyReach_inv exK2_reach).1, (RdyReach_inv exK2_reach).2.1, by decide, ?_, by decide,
    by decide, by decide, by decide, rfl, by decide, by decide, by decide, by decide, by decide⟩
  intro p _
  unfold exQ2
  by_cases h : p = 1
  · subst h; decide
  · simp [Function.update_noteq h]

theorem OS_RdyTaskRemove_unqueued (k : Kernel) (t : Nat)
    (hp : k.priority t < OS_CFG_PRIO_MAX)
    (hn : k.rdyNextPtr t = none) (hv : k.rdyPrevPtr t = none) :
    OS_RdyTaskRemove (some t) k =
      some (OS_BitMapClr (k.priority t) { k with
        s_OSRdyLists := Function.update k.s_OSRdyLists (k.priority t)
          { k.s_OSRdyLists (k.priority t) with headPtr := none } }) := by
  have hp' : ¬ OS_CFG_PRIO_MAX ≤ k.priority t := by omega
  have e1 : Function.update k.rdyNextPtr t none = k.rdyNextPtr := by
    rw [← hn]; exact Function.update_eq_self t k.rdyNextPtr
  have e2 : Function.update k.rdyPrevPtr t none = k.rdyPrevPtr := by
    rw [← hv]; exact Function.update_eq_self t k.rdyPrevPtr
  simp only [OS_RdyTaskRemove, hp', if_false, OS_RdyTaskRemove_unlink, hv, hn, e1, e2,
    Function.update_same, if_true]

/-- C30, amended: a task that is not queued is removed. The ready side is consistent (FIFOs
`q`, bitmap), the task `t` has a priority below 32, is in no ready FIFO and has null ready
links. Then `OS_RdyTaskRemove` returns; the ready links of all tasks are unchanged; every
ready FIFO of a priority other than that of `t` is unchanged, and so is its bitmap bit; and if
the ready FIFO of the priority of `t` is empty, the whole state is unchanged. -/
theorem C30_remove_unqueued_amended (k : Kernel) (q : Nat → List Nat) (t : Nat)
    (hinv : RdyInv k q) (hbm : BitMapInv k q) (hp : k.priority t < OS_CFG_PRIO_MAX)
    (_hnot : ∀ p, p < OS_CFG_PRIO_MAX → t ∉ q p)
    (hn : k.rdyNextPtr t = none) (hv : k.rdyPrevPtr t = none) :
    ∃ k', OS_RdyTaskRemove (some t) k = some k' ∧
      k'.rdyNextPtr = k.rdyNextPtr ∧ k'.rdyPrevPtr = k.rdyPrevPtr ∧
      (∀ p, p < OS_CFG_PRIO_MAX → p ≠ k.priority t →
        k'.s_OSRdyLists p = k.s_OSRdyLists p ∧ RdyFifo k' p (q p) ∧
        k'.s_OSPrioBitMap.testBit (31 - p) = k.s_OSPrioBitMap.testBit (31 - p)) ∧
      (q (k.priority t) = [] → k' = k) := by
  have e := OS_RdyTaskRemove_unqueued k t hp hn hv
  rw [OS_BitMapClr_eq _ _ hp] at e
  refine ⟨_, e, rfl, rfl, ?_, ?_⟩
  · intro p hpp hne
    have hl : Function.update k.s_OSRdyLists (k.priority t)
        { k.s_OSRdyLists (k.priority t) with headPtr := none } p = k.s_OSRdyLists p :=
      Function.update_noteq hne _ _
    refine ⟨hl, RdyFifo_other (hinv p hpp) hl (fun _ _ => rfl) (fun _ _ => rfl) rfl, ?_⟩
    have hb := OS_BitMapClr_testBit (k.priority t) k hp hbm.1 (31 - p)
    rw [OS_BitMapClr_eq _ _ hp] at hb
    simp only at hb ⊢
    rw [hb]
    have hne' : ¬ (31 - k.priority t = 31 - p) := by
      unfold OS_CFG_PRIO_MAX at hp hpp; omega
    simp [hne']
  · intro hq
    have hhead : (k.s_OSRdyLists (k.priority t)).headPtr = none := by
      have := (hinv _ hp).1
      rw [hq] at this
      exact this
    have hl : Function.update k.s_OSRdyLists (k.priority t)
        { k.s_OSRdyLists (k.priority t) with headPtr := none } = k.s_OSRdyLists := by
      have hs : ({ k.s_OSRdyLists (k.priority t) with headPtr := none } : OS_RDY_LIST) =
          k.s_OSRdyLists (k.priority t) := by
        cases hx : k.s_OSRdyLists (k.priority t) with
        | mk hd tl =>
          rw [hx] at hhead
          simp only at hhead
          subst hhead
          rfl
      rw [hs]
      exact Function.update_eq_self _ _
    have hbit : k.s_OSPrioBitMap &&&
        (((1 <<< (31 - k.priority t)) % 2 ^ 32) ^^^ (2 ^ 32 - 1)) = k.s_OSPrioBitMap := by
      have hb := fun i => OS_BitMapClr_testBit (k.priority t) k hp hbm.1 i
      simp only [OS_BitMapClr_eq _ _ hp] at hb
      apply Nat.eq_of_testBit_eq
      intro i
      rw [hb i]
      by_cases hi : 31 - k.priority t = i
      · have hclear : k.s_OSPrioBitMap.testBit (31 - k.priority t) = false := by
          have := (hbm.2 _ hp).not
          simp only [hq, ne_eq, not_true_eq_false, not_false_eq_true, iff_true] at this
          simpa using this
        rw [← hi, hclear]; rfl
      · simp [hi]
    rw [hl, hbit]

/-- C30, amended and instantiated: in `exK3` ready FIFO 3 is empty; task 3 (priority 3) is not
queued. -/
theorem C30_remove_unqueued_amended_witness :
    RdyInv exK3 exQ3 ∧ BitMapInv exK3 exQ3 ∧ exK3.priority 3 < OS_CFG_PRIO_MAX ∧
    (∀ p, p < OS_CFG_PRIO_MAX → 3 ∉ exQ3 p) ∧
    exK3.rdyNextPtr 3 = none ∧ exK3.rdyPrevPtr 3 = none ∧
    ∃ k', OS_RdyTaskRemove (some 3) exK3 = some k' ∧
      k'.rdyNextPtr = exK3.rdyNextPtr ∧ k'.rdyPrevPtr = exK3.rdyPrevPtr ∧
      (∀ p, p < OS_CFG_PRIO_MAX → p ≠ exK3.priority 3 →
        k'.s_OSRdyLists p = exK3.s_OSRdyLists p ∧ RdyFifo k' p (exQ3 p) ∧
        k'.s_OSPrioBitMap.testBit (31 - p) = exK3.s_OSPrioBitMap.testBit (31 - p)) ∧
      (exQ3 (exK3.priority 3) = [] → k' = exK3) := by
  have hnot : ∀ p, p < OS_CFG_PRIO_MAX → 3 ∉ exQ3 p := by
    intro p _
    unfold exQ3
    by_cases h2 : p = 2
    · subst h2; decide
    · by_cases h1 : p = 1
      · subst h1; decide
      · simp [Function.update_noteq h2, Function.update_noteq h1]
  exact ⟨(RdyReach_inv exK3_reach).1, (RdyReach_inv exK3_reach).2.1, by decide, hnot,
    by decide, by decide,
    C30_remove_unqueued_amended exK3 exQ3 3 (RdyReach_inv exK3_reach).1
      (RdyReach_inv exK3_reach).2.1 (by decide) hnot (by decide) (by decide)⟩

/-! ## Division by zero in `OSMemoryPerused`, frame of `OSMalloc` -/

theorem OSMemoryPerused_zero_total (cfg : MemCfg) (fuel : Nat) (m : MemState)
    (h : u32_sub (m.memoryEnd % 2 ^ 32) m.memoryBase = 0) :
    OSMemoryPerused cfg fuel m = none := by
  unfold OSMemoryPerused
  cases OSMemoryPerused_walk cfg fuel m.memoryList 0 m with
  | none => rfl
  | some used => simp only; rw [if_pos h]

/-- C38: `OSMemoryPerused` divides by zero before `OSInitMemory`. In the state of the static
initialiser of `s_OSMemoryDev` (`memoryBase`, `memoryEnd` and `memoryList` null, not ready) the
walk over the header list ends at once with `used = 0`, the divisor
`total = memoryEnd - memoryBase` is 0, and `(used * 1000) / total` has no result, whatever the
configuration and the fuel. The sibling `OSMalloc` tests `memoryRdy` and returns `NULL` in the
same state. -/
theorem C38_perused_divides_by_zero_before_init (cfg : MemCfg) (fuel : Nat) :
    exMem0.memoryBase = 0 ∧ exMem0.memoryEnd = 0 ∧ exMem0.memoryList = 0 ∧
    exMem0.memoryRdy = false ∧
    u32_sub (exMem0.memoryEnd % 2 ^ 32) exMem0.memoryBase = 0 ∧
    OSMemoryPerused_walk cfg (fuel + 1) exMem0.memoryList 0 exMem0 = some 0 ∧
    OSMemoryPerused cfg fuel exMem0 = none ∧
    (∀ n, OSMalloc cfg fuel n exMem0 = some (0, exMem0)) := by
  refine ⟨rfl, rfl, rfl, rfl, by decide, ?_, OSMemoryPerused_zero_total cfg fuel exMem0 (by decide),
    ?_⟩
  · simp [OSMemoryPerused_walk, exMem0]
  · intro n
    unfold OSMalloc
    by_cases hs : n = 0 ∨ n ≥ cfg.OS_MEM_MAX_SIZE
    · rw [if_pos hs]
    · rw [if_neg hs]; rfl

theorem MallocMemory_take_frame (cfg : MemCfg) (req a s : Nat) (m : MemState) :
    ∀ x, x ≠ a → x ≠ a + cfg.OS_MEM_NODE_SIZE + req →
      (MallocMemory_take cfg req a s m).2.memUsedSize x = m.memUsedSize x ∧
      (MallocMemory_take cfg req a s m).2.memNextNode x = m.memNextNode x := by
  intro x h1 h2
  unfold MallocMemory_take
  split
  · simp only [Function.update_noteq h1, Function.update_noteq h2, and_self]
  · simp only [Function.update_noteq h1, and_self]

theorem MallocMemory_take_nosplit (cfg : MemCfg) (req a s : Nat) (m : MemState)
    (hov : s + cfg.OS_MEM_NODE_SIZE + cfg.OS_MEM_ALIGN < 2 ^ 31) (hreq : req ≤ s)
    (hns : s < req + cfg.OS_MEM_NODE_SIZE + cfg.OS_MEM_ALIGN) :
    (∀ x, x ≠ a → (MallocMemory_take cfg req a s m).2.memUsedSize x = m.memUsedSize x) ∧
    (MallocMemory_take cfg req a s m).2.memNextNode = m.memNextNode := by
  have hA : cfg.OS_MEM_ALIGN % 2 ^ 32 = cfg.OS_MEM_ALIGN := Nat.mod_eq_of_lt (by omega)
  have hsum : u32_add (u32_add req cfg.OS_MEM_NODE_SIZE) (cfg.OS_MEM_ALIGN % 2 ^ 32) =
      req + cfg.OS_MEM_NODE_SIZE + cfg.OS_MEM_ALIGN := by
    rw [hA, u32_add_eq req _ (by omega), u32_add_eq _ _ (by omega)]
  have hcond : ¬ s ≥ u32_add (u32_add req cfg.OS_MEM_NODE_SIZE) (cfg.OS_MEM_ALIGN % 2 ^ 32) := by
    rw [hsum]; omega
  unfold MallocMemory_take
  rw [if_neg hcond]
  exact ⟨fun x hx => by simp only [Function.update_noteq hx], rfl⟩

theorem OSMalloc_hit_take (cfg : MemCfg) (m : MemState) (pre post : List (Nat × Bool))
    (s n fuel : Nat) (hc : CfgOK cfg)
    (hinv : MemInv cfg m (pre ++ (s, false) :: post))
    (hn : 0 < n) (hn' : n < cfg.OS_MEM_MAX_SIZE)
    (hun : ∀ b ∈ pre, ¬ (b.2 = false ∧ OS_MEM_ALIGN_UP cfg n ≤ b.1))
    (hreq : OS_MEM_ALIGN_UP cfg n ≤ s) (hfuel : pre.length < fuel) :
    OSMalloc cfg fuel n m = some (MallocMemory_take cfg (OS_MEM_ALIGN_UP cfg n)
      (cfg.s_OSMemoryPool + span cfg.OS_MEM_NODE_SIZE pre) s m) := by
  have hc' := hc
  obtain ⟨hpool, hend, hh, _, hov, _⟩ := hc'
  obtain ⟨hrdy, hbase, hmend, hseg⟩ := hinv
  have hge := (CfgOK_align cfg hc n hn').2
  have hspan : span cfg.OS_MEM_NODE_SIZE (pre ++ (s, false) :: post) = cfg.OS_MEM_MAX_SIZE := by
    have := MemSeg_end hseg; omega
  rw [span_append, span_cons] at hspan
  simp only at hspan
  have hwalk := MallocMemory_walk_hit cfg (OS_MEM_ALIGN_UP cfg n) s m post 0
    (cfg.s_OSMemoryPool + cfg.OS_MEM_MAX_SIZE) pre fuel m.memoryList cfg.s_OSMemoryPool hpool
    hseg hun hreq hfuel
  obtain ⟨pm, hs1, hs2⟩ := MemSeg_append.mp hseg
  have hpm : pm = cfg.s_OSMemoryPool + span cfg.OS_MEM_NODE_SIZE pre := hs2.1
  rw [hpm] at hs1 hs2
  obtain ⟨t1, _, _, t4, t5, _, _, _⟩ := MallocMemory_take_spec cfg (OS_MEM_ALIGN_UP cfg n) s
    (cfg.s_OSMemoryPool + span cfg.OS_MEM_NODE_SIZE pre) m post 0
    (cfg.s_OSMemoryPool + cfg.OS_MEM_MAX_SIZE) hh hs2 hreq (by omega)
  generalize MallocMemory_take cfg (OS_MEM_ALIGN_UP cfg n)
    (cfg.s_OSMemoryPool + span cfg.OS_MEM_NODE_SIZE pre) s m = r at hwalk t1 t4 t5 ⊢
  obtain ⟨ptr, m'⟩ := r
  simp only at t1 t4 t5
  subst t1
  have hsize : ¬ (n = 0 ∨ n ≥ cfg.OS_MEM_MAX_SIZE) := by omega
  have hrange : ¬ (cfg.s_OSMemoryPool + span cfg.OS_MEM_NODE_SIZE pre + cfg.OS_MEM_NODE_SIZE = 0 ∨
      cfg.s_OSMemoryPool + span cfg.OS_MEM_NODE_SIZE pre + cfg.OS_MEM_NODE_SIZE ≤ m'.memoryBase ∨
      cfg.s_OSMemoryPool + span cfg.OS_MEM_NODE_SIZE pre + cfg.OS_MEM_NODE_SIZE ≥
        m'.memoryEnd) := by
    rw [t4, t5, hbase, hmend]; omega
  simp only [OSMalloc, hsize, if_false, hrdy, Bool.true_eq_false, MallocMemory, hwalk, hrange]

theorem span_splitBlock (cfg : MemCfg) (req s : Nat) :
    span cfg.OS_MEM_NODE_SIZE (splitBlock cfg req s) = cfg.OS_MEM_NODE_SIZE + s := by
  unfold splitBlock
  split
  · simp only [span, List.map_cons, List.map_nil, List.sum_cons, List.sum_nil]; omega
  · simp [span]

/-- C37: a successful `OSMalloc` changes only the selected block. The allocator is initialised
with header list `bs`, and `OSMalloc(n)` returns a non-null pointer `p`. Then `bs` is
`pre ++ (s, free) :: post`, where the selected block is the free header of payload `s` at
address `a = pool + span pre` and `p = a + header size`; the new header list is `pre`, the
headers that replace the selected block, and `post`, so every other header keeps its size, its
used flag, its address and its place in the list; the header cells at every address other than
`a` and `a + header size + aligned n` are unchanged; without a split no header is created, the
list keeps its length and only the size word at `a` changes; with a split the one created
header lies inside the former payload of the selected block. -/
theorem C37_malloc_changes_only_selected_block (cfg : MemCfg) (m m' : MemState)
    (bs : List (Nat × Bool)) (n fuel p : Nat) (hc : CfgOK cfg) (hinv : MemInv cfg m bs)
    (hm : OSMalloc cfg fuel n m = some (p, m')) (hp : p ≠ 0) :
    ∃ pre s post, bs = pre ++ (s, false) :: post ∧
      p = cfg.s_OSMemoryPool + span cfg.OS_MEM_NODE_SIZE pre + cfg.OS_MEM_NODE_SIZE ∧
      MemInv cfg m' (pre ++ splitBlock cfg (OS_MEM_ALIGN_UP cfg n) s ++ post) ∧
      span cfg.OS_MEM_NODE_SIZE (splitBlock cfg (OS_MEM_ALIGN_UP cfg n) s) =
        cfg.OS_MEM_NODE_SIZE + s ∧
      (∀ x, x ≠ cfg.s_OSMemoryPool + span cfg.OS_MEM_NODE_SIZE pre →
        x ≠ cfg.s_OSMemoryPool + span cfg.OS_MEM_NODE_SIZE pre + cfg.OS_MEM_NODE_SIZE +
          OS_MEM_ALIGN_UP cfg n →
        m'.memUsedSize x = m.memUsedSize x ∧ m'.memNextNode x = m.memNextNode x) ∧
      (s < OS_MEM_ALIGN_UP cfg n + cfg.OS_MEM_NODE_SIZE + cfg.OS_MEM_ALIGN →
        splitBlock cfg (OS_MEM_ALIGN_UP cfg n) s = [(s, true)] ∧
        m'.memNextNode = m.memNextNode ∧
        ∀ x, x ≠ cfg.s_OSMemoryPool + span cfg.OS_MEM_NODE_SIZE pre →
          m'.memUsedSize x = m.memUsedSize x) ∧
      (s ≥ OS_MEM_ALIGN_UP cfg n + cfg.OS_MEM_NODE_SIZE + cfg.OS_MEM_ALIGN →
        splitBlock cfg (OS_MEM_ALIGN_UP cfg n) s =
          [(OS_MEM_ALIGN_UP cfg n, true),
            (s - OS_MEM_ALIGN_UP cfg n - cfg.OS_MEM_NODE_SIZE, false)] ∧
        p ≤ cfg.s_OSMemoryPool + span cfg.OS_MEM_NODE_SIZE pre + cfg.OS_MEM_NODE_SIZE +
          OS_MEM_ALIGN_UP cfg n ∧
        cfg.s_OSMemoryPool + span cfg.OS_MEM_NODE_SIZE pre + cfg.OS_MEM_NODE_SIZE +
          OS_MEM_ALIGN_UP cfg n + cfg.OS_MEM_NODE_SIZE ≤ p + s) := by
  have hbig := OSMalloc_mono cfg fuel (bs.length + 1) n m _ hm
  by_cases hsize : n = 0 ∨ n ≥ cfg.OS_MEM_MAX_SIZE
  · simp only [OSMalloc, hsize, if_true, Option.some.injEq, Prod.mk.injEq] at hm
    exact absurd hm.1.symm hp
  rcases OSMalloc_cases cfg m m' bs n fuel p hc hinv hm with ⟨hp0, _⟩ |
    ⟨pre, s, post, e, h1, h2, hpe, hinv'⟩
  · exact absurd hp0 hp
  subst e
  have htake := OSMalloc_hit_take cfg m pre post s n
    (fuel + ((pre ++ (s, false) :: post).length + 1)) hc hinv (by omega) (by omega) h1 h2
    (by simp only [List.length_append, List.length_cons]; omega)
  rw [hbig] at htake
  simp only [Option.some.injEq] at htake
  have hm2 : m' = (MallocMemory_take cfg (OS_MEM_ALIGN_UP cfg n)
      (cfg.s_OSMemoryPool + span cfg.OS_MEM_NODE_SIZE pre) s m).2 := by rw [← htake]
  have hspan : span cfg.OS_MEM_NODE_SIZE (pre ++ (s, false) :: post) = cfg.OS_MEM_MAX_SIZE :=
    MemInv_span hinv
  rw [span_append, span_cons] at hspan
  simp only at hspan
  have hov := hc.2.2.2.2.1
  refine ⟨pre, s, post, rfl, hpe, hinv', span_splitBlock cfg _ s, ?_, ?_, ?_⟩
  · intro x hx1 hx2
    rw [hm2]
    exact MallocMemory_take_frame cfg _ _ s m x hx1 hx2
  · intro hns
    have hf := MallocMemory_take_nosplit cfg (OS_MEM_ALIGN_UP cfg n)
      (cfg.s_OSMemoryPool + span cfg.OS_MEM_NODE_SIZE pre) s m (by omega) h2 hns
    rw [← hm2] at hf
    refine ⟨?_, hf.2, hf.1⟩
    unfold splitBlock
    rw [if_neg (by omega)]
  · intro hsp
    refine ⟨?_, by omega, by omega⟩
    unfold splitBlock
    rw [if_pos hsp]

/-- C37, instantiated: `OSMalloc(100)` on the freshly initialised pool `exMemCfg`. -/
theorem C37_malloc_changes_only_selected_block_witness :
    CfgOK exMemCfg ∧ MemInv exMemCfg (OSInitMemory exMemCfg exMem0) [(1016, false)] ∧
    OSMalloc exMemCfg 8 100 (OSInitMemory exMemCfg exMem0) = some (exAllocA.1, exAllocA.2) ∧
    exAllocA.1 ≠ 0 ∧
    ∃ pre s post, [(1016, false)] = pre ++ (s, false) :: post ∧
      exAllocA.1 = exMemCfg.s_OSMemoryPool + span exMemCfg.OS_MEM_NODE_SIZE pre +
        exMemCfg.OS_MEM_NODE_SIZE ∧
      MemInv exMemCfg exAllocA.2 (pre ++ splitBlock exMemCfg (OS_MEM_ALIGN_UP exMemCfg 100) s ++
        post) ∧
      span exMemCfg.OS_MEM_NODE_SIZE (splitBlock exMemCfg (OS_MEM_ALIGN_UP exMemCfg 100) s) =
        exMemCfg.OS_MEM_NODE_SIZE + s ∧
      (∀ x, x ≠ exMemCfg.s_OSMemoryPool + span exMemCfg.OS_MEM_NODE_SIZE pre →
        x ≠ exMemCfg.s_OSMemoryPool + span exMemCfg.OS_MEM_NODE_SIZE pre +
          exMemCfg.OS_MEM_NODE_SIZE + OS_MEM_ALIGN_UP exMemCfg 100 →
        exAllocA.2.memUsedSize x = (OSInitMemory exMemCfg exMem0).memUsedSize x ∧
        exAllocA.2.memNextNode x = (OSInitMemory exMemCfg exMem0).memNextNode x) ∧
      (s < OS_MEM_ALIGN_UP exMemCfg 100 + exMemCfg.OS_MEM_NODE_SIZE + exMemCfg.OS_MEM_ALIGN →
        splitBlock exMemCfg (OS_MEM_ALIGN_UP exMemCfg 100) s = [(s, true)] ∧
        exAllocA.2.memNextNode = (OSInitMemory exMemCfg exMem0).memNextNode ∧
        ∀ x, x ≠ exMemCfg.s_OSMemoryPool + span exMemCfg.OS_MEM_NODE_SIZE pre →
          exAllocA.2.memUsedSize x = (OSInitMemory exMemCfg exMem0).memUsedSize x) ∧
      (s ≥ OS_MEM_ALIGN_UP exMemCfg 100 + exMemCfg.OS_MEM_NODE_SIZE + exMemCfg.OS_MEM_ALIGN →
        splitBlock exMemCfg (OS_MEM_ALIGN_UP exMemCfg 100) s =
          [(OS_MEM_ALIGN_UP exMemCfg 100, true),
            (s - OS_MEM_ALIGN_UP exMemCfg 100 - exMemCfg.OS_MEM_NODE_SIZE, false)] ∧
        exAllocA.1 ≤ exMemCfg.s_OSMemoryPool + span exMemCfg.OS_MEM_NODE_SIZE pre +
          exMemCfg.OS_MEM_NODE_SIZE + OS_MEM_ALIGN_UP exMemCfg 100 ∧
        exMemCfg.s_OSMemoryPool + span exMemCfg.OS_MEM_NODE_SIZE pre +
          exMemCfg.OS_MEM_NODE_SIZE + OS_MEM_ALIGN_UP exMemCfg 100 +
          exMemCfg.OS_MEM_NODE_SIZE ≤ exAllocA.1 + s) :=
  ⟨exMemCfg_ok, OSInitMemory_spec exMemCfg exMem0 exMemCfg_ok, exAllocA_eq, by decide,
    C37_malloc_changes_only_selected_block exMemCfg (OSInitMemory exMemCfg exMem0) exAllocA.2
      [(1016, false)] 100 8 exAllocA.1 exMemCfg_ok (OSInitMemory_spec exMemCfg exMem0 exMemCfg_ok)
      exAllocA_eq (by decide)⟩
/-! ## Alignment of the header chain -/

theorem aligned_absorbNext (A h s : Nat) (post : List (Nat × Bool)) (hh : A ∣ h) (hs : A ∣ s)
    (hpost : ∀ b ∈ post, A ∣ b.1) :
    A ∣ (absorbNext h s post).1 ∧ ∀ b ∈ (absorbNext h s post).2, A ∣ b.1 := by
  unfold absorbNext
  split
  · rename_i s2 post2
    refine ⟨Nat.dvd_add (Nat.dvd_add hs (hpost (s2, false) (List.mem_cons_self _ _))) hh, ?_⟩
    intro b hb
    exact hpost b (List.mem_cons_of_mem _ hb)
  · exact ⟨hs, hpost⟩

theorem aligned_absorbPrev (A h c : Nat) (pre : List (Nat × Bool)) (hh : A ∣ h) (hcd : A ∣ c)
    (hpre : ∀ b ∈ pre, A ∣ b.1) : ∀ b ∈ absorbPrev h pre c, A ∣ b.1 := by
  unfold absorbPrev
  split
  · rename_i s0 hlast
    intro b hb
    rcases List.mem_append.mp hb with hb | hb
    · exact hpre b (List.dropLast_subset _ hb)
    · simp only [List.mem_singleton] at hb
      subst hb
      exact Nat.dvd_add (Nat.dvd_add (hpre (s0, false) (List.mem_of_getLast?_eq_some hlast)) hcd) hh
  · intro b hb
    rcases List.mem_append.mp hb with hb | hb
    · exact hpre b hb
    · simp only [List.mem_singleton] at hb
      subst hb
      exact hcd

theorem aligned_freedList (A h s : Nat) (pre post : List (Nat × Bool)) (hh : A ∣ h)
    (hall : ∀ b ∈ pre ++ (s, true) :: post, A ∣ b.1) :
    ∀ b ∈ freedList h pre s post, A ∣ b.1 := by
  have hpre : ∀ b ∈ pre, A ∣ b.1 := fun b hb => hall b (List.mem_append_left _ hb)
  have hs : A ∣ s := hall (s, true) (List.mem_append_right _ (List.mem_cons_self _ _))
  have hpost : ∀ b ∈ post, A ∣ b.1 :=
    fun b hb => hall b (List.mem_append_right _ (List.mem_cons_of_mem _ hb))
  obtain ⟨h1, h2⟩ := aligned_absorbNext A h s post hh hs hpost
  unfold freedList
  intro b hb
  rcases List.mem_append.mp hb with hb | hb
  · exact aligned_absorbPrev A h _ pre hh h1 hpre b hb
  · exact h2 b hb

theorem aligned_splitBlock (cfg : MemCfg) (req s : Nat)
    (hh : cfg.OS_MEM_ALIGN ∣ cfg.OS_MEM_NODE_SIZE) (hr : cfg.OS_MEM_ALIGN ∣ req)
    (hs : cfg.OS_MEM_ALIGN ∣ s) : ∀ b ∈ splitBlock cfg req s, cfg.OS_MEM_ALIGN ∣ b.1 := by
  unfold splitBlock
  split
  · intro b hb
    simp only [List.mem_cons, List.mem_singleton, List.mem_nil_iff, or_false] at hb
    rcases hb with rfl | rfl
    · exact hr
    · exact Nat.dvd_sub' (Nat.dvd_sub' hs hr) hh
  · intro b hb
    simp only [List.mem_singleton] at hb
    subst hb
    exact hs

theorem aligned_span (A h : Nat) (hh : A ∣ h) (l : List (Nat × Bool))
    (hl : ∀ b ∈ l, A ∣ b.1) : A ∣ span h l := by
  induction l with
  | nil => simp [span]
  | cons b l ih =>
    rw [span_cons]
    exact Nat.dvd_add (Nat.dvd_add hh (hl b (List.mem_cons_self _ _)))
      (ih (fun c hc => hl c (List.mem_cons_of_mem _ hc)))

theorem MemReach_aligned (cfg : MemCfg) (hc : CfgOK cfg)
    (hh : cfg.OS_MEM_ALIGN ∣ cfg.OS_MEM_NODE_SIZE) (hM : cfg.OS_MEM_ALIGN ∣ cfg.OS_MEM_MAX_SIZE)
    (m : MemState) (live : List Nat) (hr : MemReach cfg m live) :
    ∃ bs, MemInv cfg m bs ∧ ∀ b ∈ bs, cfg.OS_MEM_ALIGN ∣ b.1 := by
  induction hr with
  | init m0 =>
    refine ⟨_, OSInitMemory_spec cfg m0 hc, ?_⟩
    intro b hb
    simp only [List.mem_singleton] at hb
    subst hb
    exact Nat.dvd_sub' hM hh
  | malloc m m' live fuel n p _ hm ih =>
    obtain ⟨bs, i1, i2⟩ := ih
    rcases OSMalloc_cases cfg m m' bs n fuel p hc i1 hm with ⟨_, hm'⟩ |
      ⟨pre, s, post, e, _, _, hp, hinv'⟩
    · subst hm'
      exact ⟨bs, i1, i2⟩
    · subst e
      by_cases hsize : n = 0 ∨ n ≥ cfg.OS_MEM_MAX_SIZE
      · simp only [OSMalloc, hsize, if_true, Option.some.injEq, Prod.mk.injEq] at hm
        rw [← hm.2]
        exact ⟨_, i1, i2⟩
      · have hreq : cfg.OS_MEM_ALIGN ∣ OS_MEM_ALIGN_UP cfg n := by
          rw [(CfgOK_align cfg hc n (by omega)).1]
          exact Nat.dvd_mul_left _ _
        refine ⟨_, hinv', ?_⟩
        intro b hb
        rw [List.append_assoc] at hb
        rcases List.mem_append.mp hb with hb | hb
        · exact i2 b (List.mem_append_left _ hb)
        · rcases List.mem_append.mp hb with hb | hb
          · exact aligned_splitBlock cfg _ s hh hreq
              (i2 (s, false) (List.mem_append_right _ (List.mem_cons_self _ _))) b hb
          · exact i2 b (List.mem_append_right _ (List.mem_cons_of_mem _ hb))
  | free m m' live fuel p hr' hpl hf ih =>
    obtain ⟨bs, i1, i2⟩ := ih
    obtain ⟨bs2, j1, _, _, j4⟩ := MemReach_inv cfg hc m live hr'
    have e2 := MemInv_unique cfg hc m bs2 bs j1 i1
    subst e2
    obtain ⟨pre, s, post, e, hp⟩ := usedPtrs_mem_split _ _ _ _ (j4 p hpl)
    subst e
    obtain ⟨m2, g1, g2⟩ := OSFree_spec cfg m pre post s
      (fuel + ((pre ++ (s, true) :: post).length + 1)) hc i1 (by omega)
    rw [← hp, OSFree_mono cfg fuel _ p m m' hf] at g1
    simp only [Option.some.injEq] at g1
    subst g1
    exact ⟨_, g2, aligned_freedList _ _ s pre post hh i2⟩

/-- C36: the header chain is contiguous and aligned. The header size and the pool size are
multiples of the alignment (header size 8, alignment 8). In every state reachable from
`OSInitMemory` by `OSMalloc` and `OSFree` of live pointers there is a header list `bs` such
that: the list starts at the pool base (offset 0); the header of each block stands at the pool
base plus the sizes of the blocks in front of it, its next pointer is its own address plus
header size plus payload size, and the last block has a null next pointer and ends exactly at
the pool end; every header offset and every payload size is a multiple of the alignment; every
live pointer (a non-null result of `OSMalloc` that has not been freed) is the payload address
of a used header, its offset in the pool is a multiple of the alignment (and so is the pointer
itself when the pool address is), and its payload lies inside the pool; and the payload of a
block ends before the payload of every later block begins. -/
theorem C36_chain_contiguous_aligned (cfg : MemCfg) (m : MemState) (live : List Nat)
    (hc : CfgOK cfg) (hh : cfg.OS_MEM_ALIGN ∣ cfg.OS_MEM_NODE_SIZE)
    (hM : cfg.OS_MEM_ALIGN ∣ cfg.OS_MEM_MAX_SIZE) (hr : MemReach cfg m live) :
    ∃ bs, MemInv cfg m bs ∧ m.memoryList = cfg.s_OSMemoryPool ∧
      span cfg.OS_MEM_NODE_SIZE bs = cfg.OS_MEM_MAX_SIZE ∧
      (∀ pre b post, bs = pre ++ b :: post →
        m.memUsedSize (cfg.s_OSMemoryPool + span cfg.OS_MEM_NODE_SIZE pre) = hdrWord b.1 b.2 ∧
        (∀ c post2, post = c :: post2 →
          m.memNextNode (cfg.s_OSMemoryPool + span cfg.OS_MEM_NODE_SIZE pre) =
            cfg.s_OSMemoryPool + span cfg.OS_MEM_NODE_SIZE pre + cfg.OS_MEM_NODE_SIZE + b.1) ∧
        (post = [] →
          m.memNextNode (cfg.s_OSMemoryPool + span cfg.OS_MEM_NODE_SIZE pre) = 0 ∧
          span cfg.OS_MEM_NODE_SIZE pre + cfg.OS_MEM_NODE_SIZE + b.1 = cfg.OS_MEM_MAX_SIZE) ∧
        cfg.OS_MEM_ALIGN ∣ span cfg.OS_MEM_NODE_SIZE pre ∧ cfg.OS_MEM_ALIGN ∣ b.1) ∧
      (∀ q ∈ live, ∃ pre s post, bs = pre ++ (s, true) :: post ∧
        q = cfg.s_OSMemoryPool + span cfg.OS_MEM_NODE_SIZE pre + cfg.OS_MEM_NODE_SIZE ∧
        cfg.OS_MEM_ALIGN ∣ q - cfg.s_OSMemoryPool ∧
        (cfg.OS_MEM_ALIGN ∣ cfg.s_OSMemoryPool → cfg.OS_MEM_ALIGN ∣ q) ∧
        cfg.s_OSMemoryPool < q ∧ q + s ≤ cfg.s_OSMemoryPool + cfg.OS_MEM_MAX_SIZE) ∧
      (∀ pre b1 mid b2 post, bs = pre ++ b1 :: (mid ++ b2 :: post) →
        cfg.s_OSMemoryPool + span cfg.OS_MEM_NODE_SIZE pre + cfg.OS_MEM_NODE_SIZE + b1.1 <
          cfg.s_OSMemoryPool + span cfg.OS_MEM_NODE_SIZE (pre ++ b1 :: mid) +
            cfg.OS_MEM_NODE_SIZE) := by
  obtain ⟨bs, i1, i2⟩ := MemReach_aligned cfg hc hh hM m live hr
  obtain ⟨bs2, j1, _, _, j4⟩ := MemReach_inv cfg hc m live hr
  have e2 := MemInv_unique cfg hc m bs2 bs j1 i1
  subst e2
  have hspan := MemInv_span i1
  have hpos : 0 < cfg.OS_MEM_NODE_SIZE := hc.2.2.1
  have hseg := i1.2.2.2
  refine ⟨bs2, i1, ?_, hspan, ?_, ?_, ?_⟩
  · cases bs2 with
    | nil => simp [span] at hspan; have := hc.2.2.2.1; omega
    | cons b l => exact hseg.1
  · intro pre b post e
    subst e
    obtain ⟨pm, hs1, hs2⟩ := MemSeg_append.mp hseg
    obtain ⟨k1, k2, _, k4⟩ := hs2
    have hpre : ∀ c ∈ pre, cfg.OS_MEM_ALIGN ∣ c.1 := fun c hc' => i2 c (List.mem_append_left _ hc')
    refine ⟨k2, ?_, ?_, aligned_span _ _ hh pre hpre,
      i2 b (List.mem_append_right _ (List.mem_cons_self _ _))⟩
    · intro c post2 e
      subst e
      exact k4.1
    · intro e
      subst e
      have hnil : span cfg.OS_MEM_NODE_SIZE ([] : List (Nat × Bool)) = 0 := rfl
      rw [span_append, span_cons, hnil] at hspan
      exact ⟨k4.1, by omega⟩
  · intro q hq
    obtain ⟨pre, s, post, e, hp⟩ := usedPtrs_mem_split _ _ _ _ (j4 q hq)
    subst e
    have hpre : ∀ c ∈ pre, cfg.OS_MEM_ALIGN ∣ c.1 := fun c hc' => i2 c (List.mem_append_left _ hc')
    have hd : cfg.OS_MEM_ALIGN ∣ span cfg.OS_MEM_NODE_SIZE pre + cfg.OS_MEM_NODE_SIZE :=
      Nat.dvd_add (aligned_span _ _ hh pre hpre) hh
    rw [span_append, span_cons] at hspan
    simp only at hspan
    refine ⟨pre, s, post, rfl, hp, ?_, ?_, by omega, by omega⟩
    · have e : q - cfg.s_OSMemoryPool = span cfg.OS_MEM_NODE_SIZE pre + cfg.OS_MEM_NODE_SIZE := by
        omega
      rw [e]; exact hd
    · intro hpool
      have e : q = cfg.s_OSMemoryPool + (span cfg.OS_MEM_NODE_SIZE pre + cfg.OS_MEM_NODE_SIZE) := by
        omega
      rw [e]; exact Nat.dvd_add hpool hd
  · intro pre b1 mid b2 post _
    rw [span_append, span_cons]
    omega

/-- C36, instantiated: the state `exFreeA`, reached by two allocations and a free, with
header size 8 and alignment 8. -/
theorem C36_chain_contiguous_aligned_witness :
    CfgOK exMemCfg ∧ exMemCfg.OS_MEM_ALIGN ∣ exMemCfg.OS_MEM_NODE_SIZE ∧
    exMemCfg.OS_MEM_ALIGN ∣ exMemCfg.OS_MEM_MAX_SIZE ∧ MemReach exMemCfg exFreeA [0x20000078] ∧
    ∃ bs, MemInv exMemCfg exFreeA bs ∧ exFreeA.memoryList = exMemCfg.s_OSMemoryPool ∧
      span exMemCfg.OS_MEM_NODE_SIZE bs = exMemCfg.OS_MEM_MAX_SIZE ∧
      (∀ pre b post, bs = pre ++ b :: post →
        exFreeA.memUsedSize (exMemCfg.s_OSMemoryPool + span exMemCfg.OS_MEM_NODE_SIZE pre) =
          hdrWord b.1 b.2 ∧
        (∀ c post2, post = c :: post2 →
          exFreeA.memNextNode (exMemCfg.s_OSMemoryPool + span exMemCfg.OS_MEM_NODE_SIZE pre) =
            exMemCfg.s_OSMemoryPool + span exMemCfg.OS_MEM_NODE_SIZE pre +
              exMemCfg.OS_MEM_NODE_SIZE + b.1) ∧
        (post = [] →
          exFreeA.memNextNode (exMemCfg.s_OSMemoryPool + span exMemCfg.OS_MEM_NODE_SIZE pre) = 0 ∧
          span exMemCfg.OS_MEM_NODE_SIZE pre + exMemCfg.OS_MEM_NODE_SIZE + b.1 =
            exMemCfg.OS_MEM_MAX_SIZE) ∧
        exMemCfg.OS_MEM_ALIGN ∣ span exMemCfg.OS_MEM_NODE_SIZE pre ∧
        exMemCfg.OS_MEM_ALIGN ∣ b.1) ∧
      (∀ q ∈ [0x20000078], ∃ pre s post, bs = pre ++ (s, true) :: post ∧
        q = exMemCfg.s_OSMemoryPool + span exMemCfg.OS_MEM_NODE_SIZE pre +
          exMemCfg.OS_MEM_NODE_SIZE ∧
        exMemCfg.OS_MEM_ALIGN ∣ q - exMemCfg.s_OSMemoryPool ∧
        (exMemCfg.OS_MEM_ALIGN ∣ exMemCfg.s_OSMemoryPool → exMemCfg.OS_MEM_ALIGN ∣ q) ∧
        exMemCfg.s_OSMemoryPool < q ∧
        q + s ≤ exMemCfg.s_OSMemoryPool + exMemCfg.OS_MEM_MAX_SIZE) ∧
      (∀ pre b1 mid b2 post, bs = pre ++ b1 :: (mid ++ b2 :: post) →
        exMemCfg.s_OSMemoryPool + span exMemCfg.OS_MEM_NODE_SIZE pre +
            exMemCfg.OS_MEM_NODE_SIZE + b1.1 <
          exMemCfg.s_OSMemoryPool + span exMemCfg.OS_MEM_NODE_SIZE (pre ++ b1 :: mid) +
            exMemCfg.OS_MEM_NODE_SIZE) :=
  ⟨exMemCfg_ok, by decide, by decide, exFreeA_reach,
    C36_chain_contiguous_aligned exMemCfg exFreeA [0x20000078] exMemCfg_ok (by decide)
      (by decide) exFreeA_reach⟩
/-! ## `PendListGetHighestMatch` against the naive first-match search -/

theorem pick_foldl_keep (flags : Nat) (s : Sys) :
    ∀ (l : List Nat) (b : Nat), (∀ u ∈ l, s.kernel.priority b ≤ s.kernel.priority u) →
      l.foldl (PendListGetHighestMatch_pick flags s) (some b) = some b := by
  intro l
  induction l with
  | nil => intro b _; rfl
  | cons a l ih =>
    intro b hb
    have ha : ¬ s.kernel.priority a < s.kernel.priority b :=
      Nat.not_lt.mpr (hb a (List.mem_cons_self _ _))
    have hpick : PendListGetHighestMatch_pick flags s (some b) a = some b := by
      unfold PendListGetHighestMatch_pick
      split
      · simp only [ha, if_false]
      · rfl
    rw [List.foldl_cons, hpick]
    exact ih b (fun u hu => hb u (List.mem_cons_of_mem _ hu))

theorem pick_foldl_first (flags : Nat) (s : Sys) :
    ∀ (l : List Nat), l.Pairwise (fun a b => s.kernel.priority a ≤ s.kernel.priority b) →
      l.foldl (PendListGetHighestMatch_pick flags s) none =
        l.find? (fun t => decide (IsFlagsMatch flags t s ≠ 0)) := by
  intro l
  induction l with
  | nil => intro _; rfl
  | cons a l ih =>
    intro hs
    obtain ⟨h1, h2⟩ := List.pairwise_cons.mp hs
    by_cases hm : IsFlagsMatch flags a s ≠ 0
    · have hpick : PendListGetHighestMatch_pick flags s none a = some a := by
        unfold PendListGetHighestMatch_pick
        rw [if_pos hm]
      rw [List.foldl_cons, hpick, pick_foldl_keep flags s l a h1]
      simp [List.find?, hm]
    · have hpick : PendListGetHighestMatch_pick flags s none a = none := by
        unfold PendListGetHighestMatch_pick
        rw [if_neg hm]
      rw [List.foldl_cons, hpick, ih h2]
      simp [List.find?, hm]

theorem naiveFirstMatch_loop_spec (flags : Nat) (s : Sys) :
    ∀ (l : List Nat) (fuel : Nat) (p q0 : Option Nat),
      DSeg s.kernel.pendNextPtr s.kernel.pendPrevPtr q0 p l none → l.length < fuel →
      naiveFirstMatch_loop flags fuel p s =
        some (l.find? (fun t => decide (IsFlagsMatch flags t s ≠ 0))) := by
  intro l
  induction l with
  | nil =>
    intro fuel p q0 hseg hfuel
    obtain ⟨fuel, rfl⟩ : ∃ f, fuel = f + 1 := ⟨fuel - 1, by simp at hfuel; omega⟩
    have hp : p = none := hseg
    subst hp
    simp [naiveFirstMatch_loop]
  | cons a l ih =>
    intro fuel p q0 hseg hfuel
    obtain ⟨fuel, rfl⟩ : ∃ f, fuel = f + 1 := ⟨fuel - 1, by simp at hfuel; omega⟩
    obtain ⟨h1, _, h3⟩ := hseg
    subst h1
    by_cases hm : IsFlagsMatch flags a s ≠ 0
    · simp [naiveFirstMatch_loop, List.find?, hm]
    · have e := ih fuel _ _ h3 (by simp at hfuel; omega)
      simp only [naiveFirstMatch_loop, List.find?, hm, if_false, decide_False, e]

/-- C40: on a sorted wait queue the full scan returns the first match. The wait queue `pl`
holds the tasks `l`, head to tail, in non-decreasing order of priority number. Then, with
enough fuel for both walks, `PendListGetHighestMatch` (the scan that keeps the matching task
with the strictly smallest priority number) returns the same result as the naive search that
returns the first task from the head whose wait condition `IsFlagsMatch` is satisfied by
`flags`; that result is the first task of `l` with a non-zero `IsFlagsMatch`; and it is `NULL`
exactly when `IsFlagsMatch` is 0 for every waiter. -/
theorem C40_highest_match_is_first_match (s : Sys) (pl : OS_PEND_LIST) (l : List Nat)
    (flags fuel : Nat) (hrep : PendRepr pl s.kernel l)
    (hsorted : l.Pairwise (fun a b => s.kernel.priority a ≤ s.kernel.priority b))
    (hfuel : l.length < fuel) :
    PendListGetHighestMatch fuel (some pl) flags s = naiveFirstMatch fuel (some pl) flags s ∧
    PendListGetHighestMatch fuel (some pl) flags s =
      some (l.find? (fun t => decide (IsFlagsMatch flags t s ≠ 0))) ∧
    (PendListGetHighestMatch fuel (some pl) flags s = some none ↔
      ∀ u ∈ l, IsFlagsMatch flags u s = 0) := by
  have hnaive : naiveFirstMatch fuel (some pl) flags s =
      some (l.find? (fun t => decide (IsFlagsMatch flags t s ≠ 0))) :=
    naiveFirstMatch_loop_spec flags s l fuel _ _ hrep.1 hfuel
  have hscan : PendListGetHighestMatch fuel (some pl) flags s =
      some (l.find? (fun t => decide (IsFlagsMatch flags t s ≠ 0))) := by
    unfold PendListGetHighestMatch
    simp only
    by_cases hh : pl.headPtr = none
    · rw [if_pos hh]
      have hl : l = [] := by
        cases l with
        | nil => rfl
        | cons a l' => have := hrep.1.1; rw [hh] at this; cases this
      subst hl
      rfl
    · rw [if_neg hh, PendListGetHighestMatch_loop_spec flags s l fuel _ none _ hrep.1 hfuel,
        pick_foldl_first flags s l hsorted]
  refine ⟨by rw [hscan, hnaive], hscan, ?_⟩
  rw [hscan]
  simp only [Option.some.injEq, List.find?_eq_none, decide_eq_true_eq, not_not]

/-- C40, instantiated: the queue (1, 5, 2) of `exW3`, priorities (1, 1, 2), and the flag word
`0b001`: task 1 waits for bits A and B, task 5 for bit A or B. Both searches return task 5. -/
theorem C40_highest_match_is_first_match_witness :
    PendRepr (exW3.pendList 100) exW3.kernel [1, 5, 2] ∧
    [1, 5, 2].Pairwise (fun a b => exW3.kernel.priority a ≤ exW3.kernel.priority b) ∧
    [1, 5, 2].length < 8 ∧
    PendListGetHighestMatch 8 (some (exW3.pendList 100)) 1 exW3 = some (some 5) ∧
    (PendListGetHighestMatch 8 (some (exW3.pendList 100)) 1 exW3 =
      naiveFirstMatch 8 (some (exW3.pendList 100)) 1 exW3 ∧
    PendListGetHighestMatch 8 (some (exW3.pendList 100)) 1 exW3 =
      some ([1, 5, 2].find? (fun t => decide (IsFlagsMatch 1 t exW3 ≠ 0))) ∧
    (PendListGetHighestMatch 8 (some (exW3.pendList 100)) 1 exW3 = some none ↔
      ∀ u ∈ [1, 5, 2], IsFlagsMatch 1 u exW3 = 0)) :=
  ⟨exW3_wf.2.1, by decide, by decide, by decide,
    C40_highest_match_is_first_match exW3 (exW3.pendList 100) [1, 5, 2] 1 8 exW3_wf.2.1
      (by decide) (by decide)⟩
/-! ## Removal of a task that is not in the list, tail of the tick list, global task list -/

theorem exU4_wf : TickListWF exU4 [5, 2, 3, 1] := by
  refine ⟨?_, by decide, by decide⟩
  simp only [DSeg]
  decide

/-- C35: the tail pointer of the tick list after an insertion in front of the head. The tick
list is built from `OS_TickListInit` (in `exT0`) by `OS_TickTaskInsert` of tasks 1, 2 and 3
with the delays 50, 20 and 35; it is (2, 3, 1) and its tail pointer is task 1. Task 5 is not
in the list and its tick field is non-zero. `OS_TickTaskInsert(task 5, 10)` links task 5 in
front of the head, so the list is (5, 2, 3, 1), and sets `tailPtr` to the former head, task 2,
which is not the last node: the next pointer of task 2 is task 3, and the last node is
task 1. -/
theorem C35_tick_tail_after_head_insert :
    exT0.s_OSTickList = { headPtr := none, tailPtr := none } ∧
    OS_TickTaskInsert 8 (some 1) 50 exT0 = some exT1 ∧
    OS_TickTaskInsert 8 (some 2) 20 exT1 = some exT2 ∧
    OS_TickTaskInsert 8 (some 3) 35 exT2 = some exT3 ∧
    TickListWF exT3 [2, 3, 1] ∧ exT3.s_OSTickList.tailPtr = some 1 ∧
    5 ∉ [2, 3, 1] ∧ exT3.tick 5 ≠ 0 ∧
    OS_TickTaskInsert 8 (some 5) 10 exT3 = some exU4 ∧
    TickListWF exU4 [5, 2, 3, 1] ∧
    walk exU4.tickNextPtr 8 exU4.s_OSTickList.headPtr = [5, 2, 3, 1] ∧
    lastPtr none [5, 2, 3, 1] = some 1 ∧
    exU4.s_OSTickList.tailPtr = some 2 ∧ exU4.tickNextPtr 2 = some 3 ∧
    exU4.s_OSTickList.tailPtr ≠ lastPtr none [5, 2, 3, 1] := by
  refine ⟨rfl, rfl, rfl, rfl, exT3_wf, by decide, by decide, by decide, rfl, exU4_wf, by decide,
    by decide, by decide, by decide, by decide⟩

theorem OSTaskFind_sentinel (r : TaskList) (fuel : Nat) :
    OSTaskFind_FUNC (fuel + 1) (r.func r.g_OSTaskListHead) r = some (some r.g_OSTaskListHead) := by
  simp [OSTaskFind_FUNC, OSTaskFind_loop]

/-- C32: `OSTaskFind(OS_TASK_ID_FUNC, key)` returns the sentinel. The scan starts at
`&g_OSTaskListHead` itself, so for every state of the task list the key that equals the `func`
field of the sentinel is found at the sentinel. In the list built by `OS_TaskListInit` and
`OS_TaskListAdd` of tasks 10 and 20 (entries `0x100` and `0x200`, the `func` field of the
zero-initialised sentinel is `NULL`), no registered task has the entry `NULL`, and
`OSTaskFind(OS_TASK_ID_FUNC, NULL)` returns the sentinel, at address 1000, on the empty list
and on the list (10, 20). For the keys `0x100` and `0x200` the registered task is returned
and for the key `0x300` the result is `NULL`. -/
theorem C32_find_by_func_returns_sentinel :
    (∀ (r : TaskList) (fuel : Nat),
      OSTaskFind_FUNC (fuel + 1) (r.func r.g_OSTaskListHead) r =
        some (some r.g_OSTaskListHead)) ∧
    exG1 = OS_TaskListInit exG0 ∧ OS_TaskListAdd 8 (some 10) exG1 = some exG2 ∧
    OS_TaskListAdd 8 (some 20) exG2 = some exG3 ∧
    exG3.nextPtr 1000 = some 10 ∧ exG3.nextPtr 10 = some 20 ∧ exG3.nextPtr 20 = none ∧
    exG3.func 1000 = 0 ∧ exG3.func 10 ≠ 0 ∧ exG3.func 20 ≠ 0 ∧
    OSTaskFind_FUNC 8 0 exG1 = some (some 1000) ∧
    OSTaskFind_FUNC 8 0 exG3 = some (some 1000) ∧
    OSTaskFind_FUNC 8 0x100 exG3 = some (some 10) ∧
    OSTaskFind_FUNC 8 0x200 exG3 = some (some 20) ∧
    OSTaskFind_FUNC 8 0x300 exG3 = some none := by
  refine ⟨OSTaskFind_sentinel, rfl, rfl, rfl, by decide, by decide, by decide, by decide,
    by decide, by decide, by decide, by decide, by decide, by decide, by decide⟩

theorem OS_TaskListRemove_loop_stuck (r : TaskList) (t pPrevTask n : Nat)
    (hn : r.nextPtr pPrevTask = some n) (hne : n ≠ t) :
    ∀ (fuel : Nat) (pCurrTask : Option Nat),
      OS_TaskListRemove_loop t fuel pPrevTask pCurrTask r = none := by
  intro fuel
  induction fuel with
  | zero => intro _; rfl
  | succ fuel ih =>
    intro pCurrTask
    cases pCurrTask with
    | none => simp only [OS_TaskListRemove_loop, hn, hne, if_false]
    | some c =>
      simp only [OS_TaskListRemove_loop, hn, hne, if_false]
      exact ih _

/-- C33: `OS_TaskListRemove` does not return for a task that is not the first of the list.
The loop never advances `pPrevTask` (its body is `pCurrTask = pCurrTask->nextPtr`, on a local
that was never initialised), so whenever the first task of the list is not `t`, the call has
no result for any amount of fuel and any value the local holds on entry: it reads through a
null pointer or runs forever. On the list (10, 20), built by `OS_TaskListInit` and
`OS_TaskListAdd`, the removal of task 20 (in the list, second position) and of task 30 (not in
the list) never return; only the removal of the first task, 10, returns, with the list
(20). -/
theorem C33_task_list_remove_never_returns :
    (∀ (r : TaskList) (t n fuel : Nat) (pCurrTask : Option Nat),
      r.nextPtr r.g_OSTaskListHead = some n → n ≠ t →
      OS_TaskListRemove fuel (some t) pCurrTask r = none) ∧
    exG3.nextPtr 1000 = some 10 ∧ exG3.nextPtr 10 = some 20 ∧ exG3.nextPtr 20 = none ∧
    (∀ (fuel : Nat) (pCurrTask : Option Nat),
      OS_TaskListRemove fuel (some 20) pCurrTask exG3 = none) ∧
    (∀ (fuel : Nat) (pCurrTask : Option Nat),
      OS_TaskListRemove fuel (some 30) pCurrTask exG3 = none) ∧
    (∀ (pCurrTask : Option Nat), ∃ r, OS_TaskListRemove 8 (some 10) pCurrTask exG3 = some r ∧
      r.nextPtr 1000 = some 20 ∧ r.nextPtr 20 = none ∧ r.nextPtr 10 = none) := by
  have hgen : ∀ (r : TaskList) (t n fuel : Nat) (pCurrTask : Option Nat),
      r.nextPtr r.g_OSTaskListHead = some n → n ≠ t →
      OS_TaskListRemove fuel (some t) pCurrTask r = none := by
    intro r t n fuel c hn hne
    exact OS_TaskListRemove_loop_stuck r t _ n hn hne fuel c
  refine ⟨hgen, by decide, by decide, by decide, ?_, ?_, ?_⟩
  · intro fuel c
    exact hgen exG3 20 10 fuel c (by decide) (by decide)
  · intro fuel c
    exact hgen exG3 30 10 fuel c (by decide) (by decide)
  · intro c
    refine ⟨_, rfl, by decide, by decide, by decide⟩
/-! ## `OS_PendListPopAlltoRdyList` -/

theorem OS_PendListPopAlltoRdyList_loop_spec :
    ∀ (l : List Nat) (pl : OS_PEND_LIST) (k : Kernel) (q : Nat → List Nat) (fuel : Nat),
      PendRepr pl k l → (l = [] → pl.tailPtr = none) → RdyInv k q → BitMapInv k q →
      (∀ u ∈ l, k.priority u < OS_CFG_PRIO_MAX ∧ u ∉ q (k.priority u)) → l.length < fuel →
      ∃ pl' k', OS_PendListPopAlltoRdyList_loop fuel pl.headPtr pl k = some (pl', k') ∧
        pl'.headPtr = none ∧ pl'.tailPtr = none ∧
        RdyInv k' (appendReady k.priority q l) ∧ BitMapInv k' (appendReady k.priority q l) ∧
        k'.priority = k.priority ∧ k'.state = k.state ∧ k'.tick = k.tick := by
  intro l
  induction l with
  | nil =>
    intro pl k q fuel hrep htl hinv hbm _ hfuel
    obtain ⟨f, rfl⟩ : ∃ f, fuel = f + 1 := ⟨fuel - 1, by simp at hfuel; omega⟩
    have hh : pl.headPtr = none := DSeg_first hrep.1
    rw [hh]
    refine ⟨pl, k, rfl, hh, htl rfl, ?_, ?_, rfl, rfl, rfl⟩
    · simpa [appendReady_nil] using hinv
    · simpa [appendReady_nil] using hbm
  | cons t r ih =>
    intro pl k q fuel hrep _ hinv hbm hq hfuel
    obtain ⟨f, rfl⟩ : ∃ f, fuel = f + 1 := ⟨fuel - 1, by simp at hfuel; omega⟩
    have hh : pl.headPtr = some t := DSeg_first hrep.1
    have hprev : k.pendPrevPtr t = none := hrep.1.2.1
    have hnext : k.pendNextPtr t = firstPtr r none := DSeg_first hrep.1.2.2
    have hrep' : PendRepr pl k ([] ++ t :: r) := by simpa using hrep
    obtain ⟨pl1, k1, hrm, hrep1, hfr1⟩ := OS_PendListRemove_spec pl k [] r t hrep'
    simp only [List.nil_append] at hrep1
    have hhead1 : pl1.headPtr = firstPtr r none := DSeg_first hrep1.1
    have htl1 : r = [] → pl1.tailPtr = none := by
      intro hr
      subst hr
      have hn : k.pendNextPtr t = none := hnext
      have e : OS_PendListRemove (some pl) (some t) k =
          (some { headPtr := none, tailPtr := none }, k) := by
        simp only [OS_PendListRemove, hprev, hn]
      rw [e] at hrm
      simp only [Prod.mk.injEq, Option.some.injEq] at hrm
      rw [← hrm.1]
    have hnd : (t :: r).Nodup := hrep.2.2
    have htr : t ∉ r := (List.nodup_cons.mp hnd).1
    have hpr1 : k1.priority = k.priority := hfr1.1
    obtain ⟨hpt, hqt⟩ := hq t (by simp)
    obtain ⟨k2, hadd, hinv2, hbm2, hfr2⟩ :=
      OS_RdyTaskAdd_spec k1 q t (RdyInv_of_PendFrame hinv hfr1)
        (BitMapInv_of_PendFrame hbm hfr1) (by rw [hpr1]; exact hpt) (by rw [hpr1]; exact hqt)
    rw [hpr1, appendReady_one] at hinv2 hbm2
    have hrep2 : PendRepr pl1 k2 r := PendRepr_of_RdyFrame hrep1 hfr2
    have hpr2 : k2.priority = k.priority := by rw [hfr2.1, hpr1]
    have hq2 : ∀ u ∈ r, k2.priority u < OS_CFG_PRIO_MAX ∧
        u ∉ appendReady k.priority q [t] (k2.priority u) := by
      intro u hu
      rw [hpr2]
      refine ⟨(hq u (by simp [hu])).1, ?_⟩
      rw [mem_appendReady]
      rintro (hmem | ⟨hmem, _⟩)
      · exact (hq u (by simp [hu])).2 hmem
      · simp at hmem
        exact htr (hmem ▸ hu)
    obtain ⟨pl', k', hloop, hhd', htl', hinv', hbm', hpr', hst', htk'⟩ :=
      ih pl1 k2 (appendReady k.priority q [t]) f hrep2 htl1 hinv2 hbm2 hq2
        (by simp at hfuel; omega)
    rw [hpr2, appendReady_append] at hinv' hbm'
    refine ⟨pl', k', ?_, hhd', htl', by simpa using hinv', by simpa using hbm', ?_, ?_, ?_⟩
    · rw [hh]
      simp only [OS_PendListPopAlltoRdyList_loop, hrm, hadd, Option.getD_some]
      rw [hnext, ← hhead1]
      exact hloop
    · rw [hpr', hpr2]
    · rw [hst', hfr2.2.2.1, hfr1.2.2.1]
    · rw [htk', hfr2.2.1, hfr1.2.1]

/-- C34: `OS_PendListPopAlltoRdyList` moves every waiter to the ready queues. The wait queue
`pl` is well formed and holds the tasks `l`, head to tail (an empty queue has a null tail); the
ready side is consistent (`q p` is FIFO `p`, the bitmap agrees); every waiter has a priority
below 32 and is in no ready FIFO. Then the call returns (given enough fuel for the walk); the
queue is empty afterwards, head and tail both null; ready FIFO `p` is `q p`, the tasks that
were ready before, in their order, followed by the former waiters of priority `p` in
wait-queue order, head first; the bitmap agrees with the new FIFOs, so the bit of the priority
of every former waiter is set; priorities, states and tick counts are unchanged. -/
theorem C34_pop_all_to_ready (pl : OS_PEND_LIST) (k : Kernel) (l : List Nat)
    (q : Nat → List Nat) (fuel : Nat)
    (hrep : PendRepr pl k l) (hempty : l = [] → pl.tailPtr = none)
    (hinv : RdyInv k q) (hbm : BitMapInv k q)
    (hq : ∀ u ∈ l, k.priority u < OS_CFG_PRIO_MAX ∧ u ∉ q (k.priority u))
    (hfuel : l.length < fuel) :
    ∃ pl' k', OS_PendListPopAlltoRdyList fuel (some pl) k = some (some pl', k') ∧
      pl'.headPtr = none ∧ pl'.tailPtr = none ∧ PendRepr pl' k' [] ∧
      RdyInv k' (fun p => q p ++ l.filter (fun u => k.priority u = p)) ∧
      BitMapInv k' (fun p => q p ++ l.filter (fun u => k.priority u = p)) ∧
      (∀ u ∈ l, k'.s_OSPrioBitMap.testBit (31 - k.priority u) = true) ∧
      k'.priority = k.priority ∧ k'.state = k.state ∧ k'.tick = k.tick := by
  obtain ⟨pl', k', hloop, hhd, htl, hinv', hbm', hpr, hst, htk⟩ :=
    OS_PendListPopAlltoRdyList_loop_spec l pl k q fuel hrep hempty hinv hbm hq hfuel
  have hbits : ∀ u ∈ l, k'.s_OSPrioBitMap.testBit (31 - k.priority u) = true := by
    intro u hu
    rw [hbm'.2 _ (hq u hu).1]
    intro he
    have hm : u ∈ appendReady k.priority q l (k.priority u) :=
      mem_appendReady.mpr (Or.inr ⟨hu, rfl⟩)
    rw [he] at hm
    cases hm
  have hrepr : ∀ (pl2 : OS_PEND_LIST) (k2 : Kernel), pl2.headPtr = none → PendRepr pl2 k2 [] :=
    fun pl2 k2 h => ⟨h, fun hne => absurd rfl hne, List.nodup_nil⟩
  by_cases hg : pl.headPtr = none ∧ pl.tailPtr = none
  · have hl : l = [] := by
      cases l with
      | nil => rfl
      | cons a l' => have := hrep.1.1; rw [hg.1] at this; cases this
    subst hl
    refine ⟨pl, k, ?_, hg.1, hg.2, hrepr pl k hg.1, ?_, ?_, fun u hu => (by cases hu), rfl, rfl, rfl⟩
    · simp only [OS_PendListPopAlltoRdyList, hg, and_self, if_true]
    · simpa using hinv
    · simpa using hbm
  · refine ⟨pl', k', ?_, hhd, htl, hrepr pl' k' hhd, hinv', hbm', hbits, hpr, hst, htk⟩
    simp only [OS_PendListPopAlltoRdyList, hg, if_false, hloop]

/-- C34, instantiated: the wait queue (1, 5, 2) of the flag group of `exW3`; ready FIFO 1
holds no task and FIFO 2 none, so afterwards FIFO 1 is (1, 5) and FIFO 2 is (2). -/
theorem C34_pop_all_to_ready_witness :
    PendRepr (exW3.pendList 100) exW3.kernel [1, 5, 2] ∧
    (([1, 5, 2] : List Nat) = [] → (exW3.pendList 100).tailPtr = none) ∧
    RdyInv exW3.kernel
      (Function.update (Function.update (Function.update exQ3 1 [1]) 1 []) 2 []) ∧
    BitMapInv exW3.kernel
      (Function.update (Function.update (Function.update exQ3 1 [1]) 1 []) 2 []) ∧
    (∀ u ∈ [1, 5, 2], exW3.kernel.priority u < OS_CFG_PRIO_MAX ∧
      u ∉ (Function.update (Function.update (Function.update exQ3 1 [1]) 1 []) 2 [])
        (exW3.kernel.priority u)) ∧
    [1, 5, 2].length < 8 ∧
    ∃ pl' k', OS_PendListPopAlltoRdyList 8 (some (exW3.pendList 100)) exW3.kernel =
        some (some pl', k') ∧
      pl'.headPtr = none ∧ pl'.tailPtr = none ∧ PendRepr pl' k' [] ∧
      RdyInv k' (fun p =>
        (Function.update (Function.update (Function.update exQ3 1 [1]) 1 []) 2 []) p ++
          [1, 5, 2].filter (fun u => exW3.kernel.priority u = p)) ∧
      BitMapInv k' (fun p =>
        (Function.update (Function.update (Function.update exQ3 1 [1]) 1 []) 2 []) p ++
          [1, 5, 2].filter (fun u => exW3.kernel.priority u = p)) ∧
      (∀ u ∈ [1, 5, 2], k'.s_OSPrioBitMap.testBit (31 - exW3.kernel.priority u) = true) ∧
      k'.priority = exW3.kernel.priority ∧ k'.state = exW3.kernel.state ∧
      k'.tick = exW3.kernel.tick := by
  have hq : ∀ u ∈ [1, 5, 2], exW3.kernel.priority u < OS_CFG_PRIO_MAX ∧
      u ∉ (Function.update (Function.update (Function.update exQ3 1 [1]) 1 []) 2 [])
        (exW3.kernel.priority u) := by
    intro u hu
    exact ⟨(exW3_wf.2.2.2.2 u hu).1, (exW3_wf.2.2.2.2 u hu).2 _ (exW3_wf.2.2.2.2 u hu).1⟩
  exact ⟨exW3_wf.2.1, fun h => (by cases h), exW3_wf.2.2.1, exW3_wf.2.2.2.1, hq, by decide,
    C34_pop_all_to_ready (exW3.pendList 100) exW3.kernel [1, 5, 2] _ 8 exW3_wf.2.1
      (fun h => (by cases h)) exW3_wf.2.2.1 exW3_wf.2.2.2.1 hq (by decide)⟩
/-! ## The head tick is at least one when `OS_TickUpdate` decrements it -/

theorem OS_TickTaskInsert_walk_mono (t : Nat) :
    ∀ (fuel n tr : Nat) (cur pv : Option Nat) (k r : Kernel),
      OS_TickTaskInsert_walk t fuel tr cur pv k = some r →
      OS_TickTaskInsert_walk t (fuel + n) tr cur pv k = some r := by
  intro fuel
  induction fuel with
  | zero => intro n tr cur pv k r h; cases h
  | succ f ih =>
    intro n tr cur pv k r h
    have e : f + 1 + n = (f + n) + 1 := by omega
    rw [e]
    cases cur with
    | none => simpa [OS_TickTaskInsert_walk] using h
    | some c =>
      simp only [OS_TickTaskInsert_walk] at h ⊢
      by_cases hc : tr ≤ k.tick c
      · rw [if_pos hc] at h ⊢
        exact h
      · rw [if_neg hc] at h ⊢
        exact ih n _ _ _ k r h

theorem OS_TickTaskInsert_mono (fuel n : Nat) (p_tcb : Option Nat) (T : Nat) (k r : Kernel)
    (h : OS_TickTaskInsert fuel p_tcb T k = some r) :
    OS_TickTaskInsert (fuel + n) p_tcb T k = some r := by
  unfold OS_TickTaskInsert at h ⊢
  cases p_tcb with
  | none => exact h
  | some t =>
    simp only at h ⊢
    by_cases h0 : k.tick t = 0
    · rw [if_pos h0] at h ⊢; exact h
    · rw [if_neg h0] at h ⊢
      cases hh : k.s_OSTickList.headPtr with
      | none => rw [hh] at h; exact h
      | some h1 =>
        rw [hh] at h
        exact OS_TickTaskInsert_walk_mono t fuel n _ _ _ k r h

theorem OS_TickUpdate_loop_mono :
    ∀ (fuel n : Nat) (p : Option Nat) (k r : Kernel),
      OS_TickUpdate_loop fuel p k = some r → OS_TickUpdate_loop (fuel + n) p k = some r := by
  intro fuel
  induction fuel with
  | zero => intro n p k r h; cases h
  | succ f ih =>
    intro n p k r h
    have e : f + 1 + n = (f + n) + 1 := by omega
    rw [e]
    cases p with
    | none => simpa [OS_TickUpdate_loop] using h
    | some c =>
      simp only [OS_TickUpdate_loop] at h ⊢
      by_cases hc : k.tick c = 0
      · rw [if_pos hc] at h ⊢
        cases ha : OS_RdyTaskAdd (some c) (OS_TickTaskRemove (some c) k) with
        | none => rw [ha] at h; cases h
        | some k2 =>
          rw [ha] at h
          exact ih n _ _ r h
      · rw [if_neg hc] at h ⊢
        exact h

theorem OS_TickUpdate_mono (fuel n : Nat) (k r : Kernel) (h : OS_TickUpdate fuel k = some r) :
    OS_TickUpdate (fuel + n) k = some r := by
  unfold OS_TickUpdate at h ⊢
  cases hh : k.s_OSTickList.headPtr with
  | none => rw [hh] at h; exact h
  | some h1 =>
    rw [hh] at h
    exact OS_TickUpdate_loop_mono fuel n _ _ r h

theorem OS_TickTaskInsert_filter (k k' : Kernel) (l : List Nat) (t T fuel : Nat)
    (hwf : TickListWF k l) (ht : t ∉ l) (htick : k.tick t ≠ 0) (hT : T < 2 ^ 64)
    (hop : OS_TickTaskInsert fuel (some t) T k = some k') :
    TickListWF k' (l.filter (fun u => absTicks k.tick l u < T) ++
      t :: l.filter (fun u => T ≤ absTicks k.tick l u)) ∧
    absTicks k'.tick (l.filter (fun u => absTicks k.tick l u < T) ++
      t :: l.filter (fun u => T ≤ absTicks k.tick l u)) t = T ∧
    (∀ u ∈ l, absTicks k'.tick (l.filter (fun u => absTicks k.tick l u < T) ++
      t :: l.filter (fun u => T ≤ absTicks k.tick l u)) u = absTicks k.tick l u) ∧
    TickFrame k k' := by
  obtain ⟨k2, l1, l2, h1, hl, h3, h4, h5, h6, h7, _, h9⟩ :=
    OS_TickTaskInsert_spec k l t T (fuel + (l.length + 1)) hwf ht htick hT (by omega)
  rw [OS_TickTaskInsert_mono fuel _ _ T k k' hop] at h1
  simp only [Option.some.injEq] at h1
  subst h1
  have e1 : l.filter (fun u => absTicks k.tick l u < T) = l1 := by
    rw [hl, List.filter_append]
    have a1 : l1.filter (fun u => decide (absTicks k.tick l u < T)) = l1 := by
      rw [List.filter_eq_self]
      intro u hu
      simpa using h6 u hu
    have a2 : l2.filter (fun u => decide (absTicks k.tick l u < T)) = [] := by
      rw [List.filter_eq_nil_iff]
      intro u hu
      have := h7 u hu
      simp only [decide_eq_true_eq]
      omega
    rw [← hl, a1, a2, List.append_nil]
  have e2 : l.filter (fun u => T ≤ absTicks k.tick l u) = l2 := by
    rw [hl, List.filter_append]
    have a1 : l1.filter (fun u => decide (T ≤ absTicks k.tick l u)) = [] := by
      rw [List.filter_eq_nil_iff]
      intro u hu
      have := h6 u hu
      simp only [decide_eq_true_eq]
      omega
    have a2 : l2.filter (fun u => decide (T ≤ absTicks k.tick l u)) = l2 := by
      rw [List.filter_eq_self]
      intro u hu
      simpa using h7 u hu
    rw [← hl, a1, a2, List.nil_append]
  rw [e1, e2]
  exact ⟨h3, h4, h5, h9⟩

theorem TickReach_inv {k : Kernel} {l : List Nat} {q : Nat → List Nat} (hr : TickReach k l q) :
    TickListWF k l ∧ (∀ u ∈ l, 1 ≤ absTicks k.tick l u) ∧ RdyInv k q ∧ BitMapInv k q ∧
    ∀ u ∈ l, k.priority u < OS_CFG_PRIO_MAX ∧ u ∉ q (k.priority u) := by
  induction hr with
  | init k q hinv hbm =>
    have hfr : TickFrame k (OS_TickListInit k) := ⟨rfl, rfl, rfl, rfl, rfl, rfl, rfl, rfl, rfl⟩
    refine ⟨⟨by simp [OS_TickListInit, DSeg], List.nodup_nil, by simp⟩,
      fun u hu => (by cases hu), RdyInv_of_TickFrame hinv hfr, BitMapInv_of_TickFrame hbm hfr,
      fun u hu => (by cases hu)⟩
  | insert k k' l q t T fuel _ ht htick hT1 hT hp hq hop ih =>
    obtain ⟨i1, i2, i3, i4, i5⟩ := ih
    obtain ⟨g1, g2, g3, g4⟩ := OS_TickTaskInsert_filter k k' l t T fuel i1 ht htick hT hop
    have hmem : ∀ u, u ∈ l.filter (fun u => absTicks k.tick l u < T) ++
        t :: l.filter (fun u => T ≤ absTicks k.tick l u) → u = t ∨ u ∈ l := by
      intro u hu
      rcases List.mem_append.mp hu with hu | hu
      · exact Or.inr (List.mem_of_mem_filter hu)
      · rcases List.mem_cons.mp hu with hu | hu
        · exact Or.inl hu
        · exact Or.inr (List.mem_of_mem_filter hu)
    refine ⟨g1, ?_, RdyInv_of_TickFrame i3 g4, BitMapInv_of_TickFrame i4 g4, ?_⟩
    · intro u hu
      rcases hmem u hu with rfl | hul
      · rw [g2]; exact hT1
      · rw [g3 u hul]; exact i2 u hul
    · intro u hu
      rw [g4.1]
      rcases hmem u hu with rfl | hul
      · exact ⟨hp, hq⟩
      · exact i5 u hul
  | remove k l q t _ ht ih =>
    obtain ⟨i1, i2, i3, i4, i5⟩ := ih
    obtain ⟨l1, l2, hl⟩ := List.append_of_mem ht
    subst hl
    obtain ⟨g1, g2, g3, _, _, _, _, _, g9⟩ := OS_TickTaskRemove_spec k l1 l2 t i1
    have he : (l1 ++ t :: l2).erase t = l1 ++ l2 := erase_mid l1 l2 t (nodup_mid i1.2.1).1
    rw [he]
    have hsub : ∀ u ∈ l1 ++ l2, u ∈ l1 ++ t :: l2 := by
      intro u hu
      rcases List.mem_append.mp hu with hu | hu
      · exact List.mem_append_left _ hu
      · exact List.mem_append_right _ (List.mem_cons_of_mem _ hu)
    refine ⟨g1, ?_, RdyInv_of_TickFrame i3 g9, BitMapInv_of_TickFrame i4 g9, ?_⟩
    · intro u hu
      rw [absTicks_remove i1.2.1 g2 g3 u hu]
      exact i2 u (hsub u hu)
    · intro u hu
      rw [g9.1]
      exact i5 u (hsub u hu)
  | update k k' l q fuel _ hop ih =>
    obtain ⟨i1, i2, i3, i4, i5⟩ := ih
    obtain ⟨k2, h1, h2, h3, h4, h5, h6, _, _⟩ :=
      OS_TickUpdate_spec k l q (fuel + (l.length + 1)) i1 i2 i3 i4 i5 (by omega)
    rw [OS_TickUpdate_mono fuel _ k k' hop] at h1
    simp only [Option.some.injEq] at h1
    subst h1
    refine ⟨h2, ?_, h4, h5, ?_⟩
    · intro u hu
      obtain ⟨hul, hgt⟩ := List.mem_filter.mp hu
      have hgt' : 1 < absTicks k.tick l u := by simpa using hgt
      rw [h3 u hul hgt']
      omega
    · intro u hu
      obtain ⟨hul, hgt⟩ := List.mem_filter.mp hu
      have hgt' : 1 < absTicks k.tick l u := by simpa using hgt
      rw [h6]
      refine ⟨(i5 u hul).1, ?_⟩
      rw [mem_appendReady]
      rintro (hm | ⟨hm, _⟩)
      · exact (i5 u hul).2 hm
      · have := (List.mem_filter.mp hm).2
        simp only [decide_eq_true_eq] at this
        omega
/-- C39, refuted as stated: a delay of 0 for a task whose tick field is non-zero. On the
initialised kernel `exT0` the tick list is empty and the tick field of task 1 is 50.
`OS_TickTaskInsert(task 1, 0)` makes task 1 the head of the tick list with tick 0. The next
`OS_TickUpdate` decrements this zero: the tick of task 1 wraps to `2 ^ 64 - 1`, task 1 stays at
the head of the tick list and the ready FIFO of its priority stays empty. -/
theorem C39_zero_delay_counterexample :
    exT0.s_OSTickList = { headPtr := none, tailPtr := none } ∧ exT0.tick 1 ≠ 0 ∧
    OS_TickTaskInsert 8 (some 1) 0 exT0 = some exZ1 ∧
    exZ1.s_OSTickList.headPtr = some 1 ∧ exZ1.tick 1 = 0 ∧
    OS_TickUpdate 8 exZ1 = some exZ2 ∧
    exZ2.tick 1 = 2 ^ 64 - 1 ∧ exZ2.s_OSTickList.headPtr = some 1 ∧
    exZ2.priority 1 = 1 ∧ (exZ2.s_OSRdyLists 1).headPtr = none := by
  refine ⟨rfl, by decide, rfl, by decide, by decide, rfl, by decide, by decide, by decide,
    by decide⟩

/-- C39, amended: with delays of at least one tick `OS_TickUpdate` never decrements a zero.
In every state reachable from `OS_TickListInit` by `OS_TickTaskInsert` (task not in the list,
tick field non-zero, time argument at least 1), `OS_TickTaskRemove` (task in the list) and
`OS_TickUpdate`, the tick list `l` is well formed and the ready side is consistent; the tick
of the head is at least 1, so the decrement of `OS_TickUpdate` does not wrap, and
`OS_TickUpdate` returns; every task of the list has at least one remaining tick (the sum of
the tick fields from the head through the task), and after `n` calls of `OS_TickUpdate` it is
still in the tick list and in no ready FIFO if `n` is below its remaining ticks, and it is in
the ready FIFO of its priority otherwise. An inserted task has the time argument as its
remaining ticks. -/
theorem C39_tick_never_wraps_amended (k : Kernel) (l : List Nat) (q : Nat → List Nat)
    (hr : TickReach k l q) :
    TickListWF k l ∧ RdyInv k q ∧ BitMapInv k q ∧
    (∀ h, k.s_OSTickList.headPtr = some h →
      1 ≤ k.tick h ∧ u64_sub (k.tick h) 1 = k.tick h - 1 ∧ u64_sub (k.tick h) 1 ≠ 2 ^ 64 - 1) ∧
    (∀ fuel, l.length < fuel → ∃ k', OS_TickUpdate fuel k = some k') ∧
    (∀ u ∈ l, 1 ≤ absTicks k.tick l u ∧
      ∀ fuel n, l.length < fuel →
        ∃ k', OS_TickUpdate_times fuel n k = some k' ∧
          TickListWF k' (l.filter (fun v => n < absTicks k.tick l v)) ∧
          RdyInv k' (appendReady k.priority q (l.filter (fun v => absTicks k.tick l v ≤ n))) ∧
          (n < absTicks k.tick l u →
            u ∈ l.filter (fun v => n < absTicks k.tick l v) ∧
            u ∉ appendReady k.priority q (l.filter (fun v => absTicks k.tick l v ≤ n))
              (k.priority u)) ∧
          (absTicks k.tick l u ≤ n →
            u ∈ appendReady k.priority q (l.filter (fun v => absTicks k.tick l v ≤ n))
              (k.priority u))) ∧
    (∀ t T fuel k', t ∉ l → k.tick t ≠ 0 → 1 ≤ T → T < 2 ^ 64 →
      OS_TickTaskInsert fuel (some t) T k = some k' →
      absTicks k'.tick (l.filter (fun u => absTicks k.tick l u < T) ++
        t :: l.filter (fun u => T ≤ absTicks k.tick l u)) t = T) := by
  obtain ⟨i1, i2, i3, i4, i5⟩ := TickReach_inv hr
  refine ⟨i1, i3, i4, ?_, ?_, ?_, ?_⟩
  · intro h hh
    have hf := DSeg_first i1.1
    rw [hh] at hf
    cases l with
    | nil => cases hf
    | cons a r =>
      simp only [firstPtr, Option.some.injEq] at hf
      subst hf
      have h1 := i2 h (List.mem_cons_self _ _)
      rw [absTicks_cons_self] at h1
      have h2 : k.tick h < 2 ^ 64 := by
        have := i1.2.2
        simp only [List.map_cons, List.sum_cons] at this
        omega
      have h3 := u64_sub_eq (k.tick h) 1 h1 h2
      exact ⟨h1, h3, by rw [h3]; omega⟩
  · intro fuel hfuel
    obtain ⟨k', h1, _⟩ := OS_TickUpdate_spec k l q fuel i1 i2 i3 i4 i5 hfuel
    exact ⟨k', h1⟩
  · intro u hu
    refine ⟨i2 u hu, ?_⟩
    intro fuel n hfuel
    obtain ⟨k', h1, h2, _, h4, _, _⟩ :=
      OS_TickUpdate_times_spec n k l q fuel i1 i2 i3 i4 i5 hfuel
    refine ⟨k', h1, h2, h4, ?_, ?_⟩
    · intro hlt
      refine ⟨List.mem_filter.mpr ⟨hu, by simpa using hlt⟩, ?_⟩
      rw [mem_appendReady]
      rintro (hm | ⟨hm, _⟩)
      · exact (i5 u hu).2 hm
      · have := (List.mem_filter.mp hm).2
        simp only [decide_eq_true_eq] at this
        omega
    · intro hle
      rw [mem_appendReady]
      exact Or.inr ⟨List.mem_filter.mpr ⟨hu, by simpa using hle⟩, rfl⟩
  · intro t T fuel k' ht htick _ hT hop
    exact (OS_TickTaskInsert_filter k k' l t T fuel i1 ht htick hT hop).2.1

theorem exT1_reach : TickReach exT1 [1] (fun _ => []) := by
  have h0 : TickReach exT0 [] (fun _ => []) :=
    TickReach.init exT0 (fun _ => []) exT0_inv.1 exT0_inv.2
  exact TickReach.insert exT0 exT1 [] (fun _ => []) 1 50 8 h0 (by simp) (by decide) (by decide)
    (by decide) (by decide) (by simp) rfl

/-- C39, amended and instantiated: the state `exT1`, reached from the initialised kernel by
`OS_TickTaskInsert(task 1, 50)`. -/
theorem C39_tick_never_wraps_amended_witness :
    TickReach exT1 [1] (fun _ => []) ∧
    (TickListWF exT1 [1] ∧ RdyInv exT1 (fun _ => []) ∧ BitMapInv exT1 (fun _ => []) ∧
    (∀ h, exT1.s_OSTickList.headPtr = some h →
      1 ≤ exT1.tick h ∧ u64_sub (exT1.tick h) 1 = exT1.tick h - 1 ∧
      u64_sub (exT1.tick h) 1 ≠ 2 ^ 64 - 1) ∧
    (∀ fuel, [1].length < fuel → ∃ k', OS_TickUpdate fuel exT1 = some k') ∧
    (∀ u ∈ [1], 1 ≤ absTicks exT1.tick [1] u ∧
      ∀ fuel n, [1].length < fuel →
        ∃ k', OS_TickUpdate_times fuel n exT1 = some k' ∧
          TickListWF k' ([1].filter (fun v => n < absTicks exT1.tick [1] v)) ∧
          RdyInv k' (appendReady exT1.priority (fun _ => [])
            ([1].filter (fun v => absTicks exT1.tick [1] v ≤ n))) ∧
          (n < absTicks exT1.tick [1] u →
            u ∈ [1].filter (fun v => n < absTicks exT1.tick [1] v) ∧
            u ∉ appendReady exT1.priority (fun _ => [])
              ([1].filter (fun v => absTicks exT1.tick [1] v ≤ n)) (exT1.priority u)) ∧
          (absTicks exT1.tick [1] u ≤ n →
            u ∈ appendReady exT1.priority (fun _ => [])
              ([1].filter (fun v => absTicks exT1.tick [1] v ≤ n)) (exT1.priority u))) ∧
    (∀ t T fuel k', t ∉ [1] → exT1.tick t ≠ 0 → 1 ≤ T → T < 2 ^ 64 →
      OS_TickTaskInsert fuel (some t) T exT1 = some k' →
      absTicks k'.tick ([1].filter (fun u => absTicks exT1.tick [1] u < T) ++
        t :: [1].filter (fun u => T ≤ absTicks exT1.tick [1] u)) t = T)) :=
  ⟨exT1_reach, C39_tick_never_wraps_amended exT1 [1] (fun _ => []) exT1_reach⟩

end CasyOS
